import Mathlib

/-!
A shallow embedding of `fix_backbone.cpp`.

Doubles are modelled by an ordered field `K` (exact arithmetic); the libm
functions the code calls (`sqrt`, `exp`, `pow`, `tanh`) are passed as
arguments, so the definitions stay executable over `ℚ` and can be
instantiated with the real functions over `ℝ`.  Where a statement depends
on a value the field does not hold, the value is a parameter too: the test
`isinf` of the table output, the quotient `div0` of a division by zero in
the table build, and bounds such as `-1 ≤ tanh x ≤ 1` that the saturating
double-precision function satisfies.  C arrays are total functions on `Int`;
a fatal `error->all` is an `Except.error`.
-/

namespace FixBackbone

/-- Fatal errors raised by `error->all`, one constructor per message used below. -/
inductive Err where
  /-- "FM table: Missing atom! Increase pair cutoff and neighbor skin or check system integrity!" -/
  | fmTableMissingAtom
  /-- "Table Fragment Memory: r is out of computed range." -/
  | fmTableROutOfRange
  /-- "Table Fragment Memory: ir is out of range." -/
  | fmTableIrOutOfRange
  /-- "Fragment memory table file format error!" -/
  | fmTableFormat
  /-- "Missing residues in memory potential" -/
  | fmMissingResidues
  /-- "Fragment Memory: Interaction between residues of different chains" -/
  | fmDifferentChains
  /-- "Fragment_Memory: Wrong call of getGamma() function" -/
  | fmWrongGammaCall
  /-- "Fragment_Memory: Wrong call of Rf() function" -/
  | fmWrongRfCall
  /-- "Fragment_Memory: Incorrectly defined memory fragment" -/
  | fmBadFragment
  /-- "Molecular tag must be positive in fix backbone" -/
  | tagNotPositive
  /-- "Chain tag is out of range" -/
  | chainTagRange
  /-- "Atoms in a residue have different chain tag" -/
  | chainTagMismatch
  /-- "Residue tag is out of range" -/
  | residueTagRange
  /-- "Missing neighbor atoms in fix backbone (Code 00x)" -/
  | missingNeighbor (code : Nat)
  /-- "Helix: Missing atom! Increase pair cutoff and neighbor skin or check system integrity!" -/
  | helixMissingAtom
  /-- "Water potential gamma.dat file format error" -/
  | waterGammaFormat
  /-- A read outside an allocated C array (undefined behaviour in the source). -/
  | readOutsideArray
  /-- A write through a NULL pointer (undefined behaviour in the source). -/
  | nullDereference
  deriving DecidableEq, Repr

/-- Atom kinds of `Fragment_Memory` (`FM_CA`, `FM_CB`). -/
inductive FMAtom where
  | FM_CA
  | FM_CB
  deriving DecidableEq, Repr

/-- The array `iatom_type` : CA, CA, CB, CB. -/
def iatom_type (k : Nat) : FMAtom :=
  if k = 0 ∨ k = 1 then FMAtom.FM_CA else FMAtom.FM_CB

/-- The array `jatom_type` : CA, CB, CA, CB. -/
def jatom_type (k : Nat) : FMAtom :=
  if k = 0 ∨ k = 2 then FMAtom.FM_CA else FMAtom.FM_CB

/-- The C cast `(int)x` of a double: truncation toward zero. -/
def toInt {K : Type} [LinearOrderedField K] [FloorRing K] (x : K) : Int :=
  if 0 ≤ x then Int.floor x else Int.ceil x

/-- One table entry `TBV`: an (energy, force) pair. -/
structure TBV (K : Type) where
  energy : K
  force : K

/-- A table cell `fm_table[itb]`: `none` is the NULL pointer, `some c` an
allocated array whose entry `ir` is `c ir` (meaningful for `0 ≤ ir < tb_size`). -/
abbrev Cell (K : Type) := Option (Int → TBV K)

/-- The fields of the fix that the fragment-memory table code reads. -/
structure FMTable (K : Type) where
  /-- value of `fm_gamma->minSep()` -/
  minSep : Int
  /-- value of `fm_gamma->maxSep()` -/
  maxSep : Int
  tb_nbrs : Int
  tb_rmin : K
  tb_rmax : K
  tb_dr : K
  tb_size : Int
  fm_table : Int → Cell K

/-- The per-residue arrays of the fix that the fragment-memory code reads,
indexed by the position in the local residue list. -/
structure Residues (K : Type) where
  res_no : Int → Int
  chain_no : Int → Int
  alpha_carbons : Int → Int
  beta_atoms : Int → Int
  xca : Int → Fin 3 → K
  xcb : Int → Fin 3 → K

/-- The part of the mutable state a fragment-memory term writes:
`energy[ET_FRAGMEM]` and the force array `f`. -/
structure FMState (K : Type) where
  energy : K
  f : Int → Fin 3 → K

/-- The statement pair `f[a][d] += s*dx[d]` for `d = 0, 1, 2`. -/
def addForce {K : Type} [LinearOrderedField K] (f : Int → Fin 3 → K) (a : Int) (s : K)
    (dx : Fin 3 → K) : Int → Fin 3 → K :=
  fun b d => if b = a then f b d + s * dx d else f b d

/-- How one iteration of a `for` loop ends: fall through to the next
iteration (also `continue`), or `return` from the function. -/
inductive Ctl (σ : Type) where
  | next (s : σ)
  | ret (s : σ)

/-- The arrays `xi[k]` of `table_fragment_memory`: xca, xca, xcb, xcb of residue `i`. -/
def xi_of {K : Type} (R : Residues K) (i : Int) (k : Nat) : Fin 3 → K :=
  if iatom_type k = FMAtom.FM_CA then R.xca i else R.xcb i

/-- The arrays `xj[k]`: xca, xcb, xca, xcb of residue `j`. -/
def xj_of {K : Type} (R : Residues K) (j : Int) (k : Nat) : Fin 3 → K :=
  if jatom_type k = FMAtom.FM_CA then R.xca j else R.xcb j

/-- The arrays `iatom[k]`. -/
def iatom_of {K : Type} (R : Residues K) (i : Int) (k : Nat) : Int :=
  if iatom_type k = FMAtom.FM_CA then R.alpha_carbons i else R.beta_atoms i

/-- The arrays `jatom[k]`. -/
def jatom_of {K : Type} (R : Residues K) (j : Int) (k : Nat) : Int :=
  if jatom_type k = FMAtom.FM_CA then R.alpha_carbons j else R.beta_atoms j

/-- The distance `r` of atom-pair kind `k` (lines 4383-4387). -/
def tfm_r {K : Type} [LinearOrderedField K] (sqrt : K → K) (R : Residues K) (i j : Int)
    (k : Nat) : K :=
  let dx : Fin 3 → K := fun d => xi_of R i k d - xj_of R j k d
  sqrt (dx 0 * dx 0 + dx 1 * dx 1 + dx 2 * dx 2)

/-- The triangle interpolation of lines 4399-4410 between the entries `ir`
and `ir+1` of an allocated cell: the pair `(V, ff)`. -/
def tfm_interp {K : Type} [LinearOrderedField K] (tb_rmin tb_dr : K) (c : Int → TBV K)
    (ir : Int) (r : K) : K × K :=
  let r1 := tb_rmin + (ir : K) * tb_dr
  let r2 := tb_rmin + ((ir + 1 : Int) : K) * tb_dr
  let v1 := (c ir).energy
  let v2 := (c (ir + 1)).energy
  let V := ((v2 - v1) * r + v1 * r2 - v2 * r1) / (r2 - r1)
  let f1 := (c ir).force
  let f2 := (c (ir + 1)).force
  let ff := ((f2 - f1) * r + f1 * r2 - f2 * r1) / (r2 - r1)
  (V, ff)

/-- Whether kind `k` is skipped by the two glycine `continue`s (lines 4380-4381). -/
def tfm_skip (se : Int → Char) (i_resno j_resno : Int) (k : Nat) : Bool :=
  (se i_resno == 'G' && iatom_type k == FMAtom.FM_CB) ||
  (se j_resno == 'G' && jatom_type k == FMAtom.FM_CB)

/-- The body of the loop `for (k=0;k<4;++k)` of `table_fragment_memory`
(lines 4378-4428).  Entry `ir+1` of a cell of `tb_size` entries is read
without a check of its own; where it lies outside the cell the model yields
`readOutsideArray`. -/
def tfm_kind {K : Type} [LinearOrderedField K] [FloorRing K] (sqrt : K → K) (T : FMTable K)
    (R : Residues K) (se : Int → Char) (i j : Int) (k : Nat) (st : FMState K) :
    Except Err (Ctl (FMState K)) :=
  let i_resno := R.res_no i - 1
  let j_resno := R.res_no j - 1
  let tb_i := i_resno
  let tb_j := j_resno - i_resno - T.minSep
  if tfm_skip se i_resno j_resno k then .ok (.next st)
  else
    let dx : Fin 3 → K := fun d => xi_of R i k d - xj_of R j k d
    let r := tfm_r sqrt R i j k
    if T.tb_rmin ≤ r ∧ r ≤ T.tb_rmax then
      let ir := toInt ((r - T.tb_rmin) / T.tb_dr)
      let itb := 4 * T.tb_nbrs * tb_i + 4 * tb_j + (k : Int)
      match T.fm_table itb with
      | none => .ok (.ret st)
      | some c =>
        if ir < 0 ∨ T.tb_size ≤ ir then .error .fmTableIrOutOfRange
        else if T.tb_size ≤ ir + 1 then .error .readOutsideArray
        else
          let vf := tfm_interp T.tb_rmin T.tb_dr c ir r
          .ok (.next
            { energy := st.energy + vf.1
              f := addForce (addForce st.f (iatom_of R i k) vf.2 dx) (jatom_of R j k) (-vf.2) dx })
    else .error .fmTableROutOfRange

/-- The loop `for (k=0;k<4;++k)` of `table_fragment_memory`: `fuel`
iterations starting at kind `k`.  The result `Ctl.next s` says that all of
them fell through to the end of the body (or were skipped by `continue`). -/
def tfm_iter {K : Type} [LinearOrderedField K] [FloorRing K] (sqrt : K → K) (T : FMTable K)
    (R : Residues K) (se : Int → Char) (i j : Int) :
    Nat → Nat → FMState K → Except Err (Ctl (FMState K))
  | 0, _, st => .ok (.next st)
  | fuel + 1, k, st =>
    match tfm_kind sqrt T R se i j k st with
    | .error e => .error e
    | .ok (.ret s) => .ok (.ret s)
    | .ok (.next s) => tfm_iter sqrt T R se i j fuel (k + 1) s

/-- `FixBackbone::table_fragment_memory(i, j)` (lines 4325-4429). -/
def table_fragment_memory {K : Type} [LinearOrderedField K] [FloorRing K] (sqrt : K → K)
    (T : FMTable K) (R : Residues K) (se : Int → Char) (i j : Int) (st : FMState K) :
    Except Err (FMState K) :=
  let i_resno := R.res_no i - 1
  let j_resno := R.res_no j - 1
  if j_resno - i_resno < T.minSep then .ok st
  else if T.maxSep ≠ -1 ∧ j_resno - i_resno > T.maxSep then .ok st
  else
    let tb_i := i_resno
    let tb_j := j_resno - i_resno - T.minSep
    let itb := 4 * T.tb_nbrs * tb_i + 4 * tb_j
    match T.fm_table itb with
    | none => .ok st
    | some _ =>
      if R.alpha_carbons i = -1 ∨ R.alpha_carbons j = -1 ∨
          (se i_resno ≠ 'G' ∧ R.beta_atoms i = -1) ∨ (se j_resno ≠ 'G' ∧ R.beta_atoms j = -1) then
        .error .fmTableMissingAtom
      else
        match tfm_iter sqrt T R se i j 4 0 st with
        | .error e => .error e
        | .ok (.ret s) => .ok s
        | .ok (.next s) => .ok s

/-! ### The fragment-memory potential without table -/

/-- The table `se_map` (line 55), indexed by `letter - 'A'`. -/
def se_map_table : List Int :=
  [0, 0, 4, 3, 6, 13, 7, 8, 9, 0, 11, 10, 12, 2, 0, 14, 5, 1, 15, 16, 0, 19, 17, 0, 18, 0]

/-- The expression `se_map[c - 'A']`. -/
def se_map (c : Char) : Int :=
  se_map_table.getD (c.toNat - 'A'.toNat) 0

/-- The members of class `Fragment_Memory` that `fix_backbone.cpp` uses; the
class is declared outside this file, so its members are taken as given.
`Rf` yields `none` where the call leaves `error == ERR_CALL`. -/
structure Fragment (K : Type) where
  pos : Int
  len : Int
  weight : K
  Rf : Int → FMAtom → Int → FMAtom → Option K
  getSe : Int → Char
  resType : Int → Int

/-- The members of class `Gamma_Array` (the object `fm_gamma`) that
`fix_backbone.cpp` uses; `getGamma` yields `none` where the call leaves
`error == ERR_CALL`. -/
structure GammaArray (K : Type) where
  minSep : Int
  maxSep : Int
  fourResTypes : Bool
  getGamma : Int → Int → Int → Int → Option K
  getGamma4 : Int → Int → Int → Int → Int → Int → Option K

/-- The fields of the fix read by `compute_fragment_memory_potential`. -/
structure FMParams (K : Type) where
  epsilon : K
  k_frag_mem : K
  fm_sigma_exp : K
  n : Int
  se : Int → Char
  fm_gamma : GammaArray K
  frag_mems : Int → Fragment K
  ilen_fm_map : Int → Int
  frag_mem_map : Int → Int → Int

/-- The values `lo, lo+1, ..., hi` of a loop `for (x=lo; x<=hi; ++x)`. -/
def intRange (lo hi : Int) : List Int :=
  (List.range (hi + 1 - lo).toNat).map (fun (t : Nat) => lo + (t : Int))

/-- The Gaussian well `V = -A*exp(-drsq/(2.0*fm_sigma_sq))` with `dr = r - rf`
(lines 4158-4161). -/
def fm_well {K : Type} [LinearOrderedField K] (exp : K → K) (A fm_sigma_sq rf r : K) : K :=
  let dr := r - rf
  let drsq := dr * dr
  (-A) * exp (-drsq / (2 * fm_sigma_sq))

/-- Whether kind `k` is skipped by the two `continue`s of lines 4148-4149. -/
def fmp_skip {K : Type} (se : Int → Char) (frag : Fragment K) (i_resno j_resno : Int)
    (k : Nat) : Bool :=
  (iatom_type k == FMAtom.FM_CB && (se i_resno == 'G' || frag.getSe i_resno == 'G')) ||
  (jatom_type k == FMAtom.FM_CB && (se j_resno == 'G' || frag.getSe j_resno == 'G'))

/-- The body of the loop over the kinds `k` in
`compute_fragment_memory_potential` (lines 4147-4174). -/
def fmp_kind {K : Type} [LinearOrderedField K] (sqrt exp : K → K) (P : FMParams K)
    (R : Residues K) (frag : Fragment K) (i j : Int) (fm_sigma_sq epsilon_k_weight_gamma : K)
    (st : FMState K) (k : Nat) : Except Err (FMState K) :=
  let i_resno := R.res_no i - 1
  let j_resno := R.res_no j - 1
  if fmp_skip P.se frag i_resno j_resno k then .ok st
  else
    let dx : Fin 3 → K := fun d => xi_of R i k d - xj_of R j k d
    let r := sqrt (dx 0 * dx 0 + dx 1 * dx 1 + dx 2 * dx 2)
    match frag.Rf i_resno (iatom_type k) j_resno (jatom_type k) with
    | none => .error .fmWrongRfCall
    | some rf =>
      let dr := r - rf
      let V := fm_well exp epsilon_k_weight_gamma fm_sigma_sq rf r
      let force := V * dr / (fm_sigma_sq * r)
      .ok { energy := st.energy + V
            f := addForce (addForce st.f (iatom_of R i k) force dx) (jatom_of R j k) (-force) dx }

/-- The value `frag_mem_gamma` of lines 4128-4133. -/
def fmp_gamma {K : Type} (P : FMParams K) (frag : Fragment K) (i_resno j_resno : Int) :
    Option K :=
  let ires_type := se_map (P.se i_resno)
  let jres_type := se_map (P.se j_resno)
  if !P.fm_gamma.fourResTypes then
    P.fm_gamma.getGamma ires_type jres_type i_resno j_resno
  else
    P.fm_gamma.getGamma4 ires_type jres_type (frag.resType i_resno) (frag.resType j_resno)
      i_resno j_resno

/-- The body of the loop over `j` (lines 4120-4175). -/
def fmp_pair {K : Type} [LinearOrderedField K] (sqrt exp : K → K) (pow : K → K → K)
    (P : FMParams K) (R : Residues K) (frag : Fragment K) (epsilon_k_weight : K) (i : Int)
    (st : FMState K) (j : Int) : Except Err (FMState K) :=
  let i_resno := R.res_no i - 1
  let j_resno := R.res_no j - 1
  if R.chain_no i ≠ R.chain_no j then .error .fmDifferentChains
  else
    let fm_sigma_sq := pow ((|i_resno - j_resno| : Int) : K) (2 * P.fm_sigma_exp)
    match fmp_gamma P frag i_resno j_resno with
    | none => .error .fmWrongGammaCall
    | some frag_mem_gamma =>
      let epsilon_k_weight_gamma := epsilon_k_weight * frag_mem_gamma
      [0, 1, 2, 3].foldlM (fmp_kind sqrt exp P R frag i j fm_sigma_sq epsilon_k_weight_gamma) st

/-- The last residue `je` of the window of a fragment (lines 4116-4117). -/
def fmp_je {K : Type} (P : FMParams K) (frag : Fragment K) (i : Int) : Int :=
  let je := frag.pos + frag.len - 1
  if P.fm_gamma.maxSep ≠ -1 then min je (i + P.fm_gamma.maxSep) else je

/-- The body of the loop over the fragments `i_fm` (lines 4110-4176). -/
def fmp_frag {K : Type} [LinearOrderedField K] (sqrt exp : K → K) (pow : K → K → K)
    (P : FMParams K) (R : Residues K) (i : Int) (st : FMState K) (i_fm : Int) :
    Except Err (FMState K) :=
  let i_resno := R.res_no i - 1
  let frag := P.frag_mems (P.frag_mem_map i_resno i_fm)
  let epsilon_k_weight := P.epsilon * P.k_frag_mem * frag.weight
  let js := i + P.fm_gamma.minSep
  let je := fmp_je P frag i
  if P.n ≤ je ∨ R.res_no je - R.res_no i ≠ je - i then .error .fmMissingResidues
  else (intRange js je).foldlM (fmp_pair sqrt exp pow P R frag epsilon_k_weight i) st

/-- `FixBackbone::compute_fragment_memory_potential(i)` (lines 4079-4177). -/
def compute_fragment_memory_potential {K : Type} [LinearOrderedField K] (sqrt exp : K → K)
    (pow : K → K → K) (P : FMParams K) (R : Residues K) (i : Int) (st : FMState K) :
    Except Err (FMState K) :=
  let i_resno := R.res_no i - 1
  (intRange 0 (P.ilen_fm_map i_resno - 1)).foldlM (fmp_frag sqrt exp pow P R i) st

/-- The sum, over the residues `j` of the window of fragment `frag` and the
kinds `k` not skipped for glycine, of the well minimum
`-epsilon*k_frag_mem*weight*gamma`, where `γ j` is the gamma of the pair `(i, j)`. -/
def fmp_reference_energy {K : Type} [LinearOrderedField K] (P : FMParams K) (R : Residues K)
    (frag : Fragment K) (γ : Int → K) (i : Int) : K :=
  ((intRange (i + P.fm_gamma.minSep) (fmp_je P frag i)).map (fun j =>
    (([0, 1, 2, 3].filter
        (fun k => !fmp_skip P.se frag (R.res_no i - 1) (R.res_no j - 1) k)).map
      (fun _ => -(P.epsilon * P.k_frag_mem * frag.weight * γ j))).sum)).sum

/-! ### The table files -/

/-- The value `energyvalue` printed for entry `(itb, ir)` (lines 6085-6093):
zero for a NULL cell, and zero in place of an infinite value. -/
def out_energy {K : Type} [LinearOrderedField K] (isinf : K → Bool) (T : FMTable K)
    (itb ir : Int) : K :=
  let energyvalue := match T.fm_table itb with
    | none => 0
    | some c => (c ir).energy
  if isinf energyvalue then 0 else energyvalue

/-- The value `forcevalue` printed for entry `(itb, ir)` (lines 6085-6094). -/
def out_force {K : Type} [LinearOrderedField K] (isinf : K → Bool) (T : FMTable K)
    (itb ir : Int) : K :=
  let forcevalue := match T.fm_table itb with
    | none => 0
    | some c => (c ir).force
  if isinf forcevalue then 0 else forcevalue

/-- `FixBackbone::output_fragment_memory_table` (lines 6062-6105): the value
sequences written to `fm_table.energy` and `fm_table.force`, row `itb` after
row `itb - 1`, entry `ir` after entry `ir - 1`. -/
def output_fragment_memory_table {K : Type} [LinearOrderedField K] (isinf : K → Bool) (n : Int)
    (T : FMTable K) : List K × List K :=
  let rows := List.range (4 * n * T.tb_nbrs).toNat
  let cols := List.range T.tb_size.toNat
  (rows.flatMap (fun (itb : Nat) =>
      cols.map (fun (ir : Nat) => out_energy isinf T (itb : Int) (ir : Int))),
   rows.flatMap (fun (itb : Nat) =>
      cols.map (fun (ir : Nat) => out_force isinf T (itb : Int) (ir : Int))))

/-- The energy held by entry `(itb, ir)`, an unallocated cell counting as zero. -/
def stored_energy {K : Type} [LinearOrderedField K] (T : FMTable K) (itb ir : Int) : K :=
  match T.fm_table itb with
  | none => 0
  | some c => (c ir).energy

/-- The force held by entry `(itb, ir)`, an unallocated cell counting as zero. -/
def stored_force {K : Type} [LinearOrderedField K] (T : FMTable K) (itb ir : Int) : K :=
  match T.fm_table itb with
  | none => 0
  | some c => (c ir).force

/-- The table as the constructor leaves it before it is read or built
(lines 1004-1008): every cell NULL. -/
def unallocated {K : Type} (T : FMTable K) : FMTable K :=
  { T with fm_table := fun _ => none }

/-- The loop variables `ir`, `itb` of `read_fragment_memory_table` and the table. -/
structure ReadSt (K : Type) where
  ir : Int
  itb : Int
  fm_table : Int → Cell K

/-- One iteration of the first `while` loop of `read_fragment_memory_table`
(lines 4194-4207) for the value `val`.  `fresh` is the content of an entry of
`new TBV[tb_size]`. -/
def read_energy_step {K : Type} (fresh : TBV K) (ntb_tot tb_size : Int) (s : ReadSt K)
    (val : K) : Except Err (ReadSt K) :=
  let wrap : Bool := s.ir != 0 && Int.tmod s.ir tb_size == 0
  let ir := if wrap then 0 else s.ir
  let itb := if wrap then s.itb + 1 else s.itb
  if ntb_tot ≤ itb then .error .fmTableFormat
  else
    let c : Int → TBV K := match s.fm_table itb with
      | none => fun _ => fresh
      | some c => c
    .ok { ir := ir + 1
          itb := itb
          fm_table := fun a => if a = itb then
              some (fun b => if b = ir then { c b with energy := val } else c b)
            else s.fm_table a }

/-- One iteration of the second `while` loop (lines 4221-4232): the cell is
written without a NULL check. -/
def read_force_step {K : Type} (ntb_tot tb_size : Int) (s : ReadSt K) (val : K) :
    Except Err (ReadSt K) :=
  let wrap : Bool := s.ir != 0 && Int.tmod s.ir tb_size == 0
  let ir := if wrap then 0 else s.ir
  let itb := if wrap then s.itb + 1 else s.itb
  if ntb_tot ≤ itb then .error .fmTableFormat
  else
    match s.fm_table itb with
    | none => .error .nullDereference
    | some c =>
      .ok { ir := ir + 1
            itb := itb
            fm_table := fun a => if a = itb then
                some (fun b => if b = ir then { c b with force := val } else c b)
              else s.fm_table a }

/-- A `while (!eof)` loop over the values of a file. -/
def read_values {K : Type} (step : ReadSt K → K → Except Err (ReadSt K)) :
    List K → ReadSt K → Except Err (ReadSt K)
  | [], s => .ok s
  | val :: rest, s =>
    match step s val with
    | .error e => .error e
    | .ok s1 => read_values step rest s1

/-- `FixBackbone::read_fragment_memory_table` (lines 4179-4236) on the value
sequences of the two files; the result is the table `fm_table`. -/
def read_fragment_memory_table {K : Type} (fresh : TBV K) (n : Int) (T : FMTable K)
    (energies forces : List K) : Except Err (Int → Cell K) :=
  let ntb_tot := 4 * n * T.tb_nbrs
  match read_values (read_energy_step fresh ntb_tot T.tb_size) energies ⟨0, 0, T.fm_table⟩ with
  | .error e => .error e
  | .ok s1 =>
    if s1.itb ≠ ntb_tot - 1 ∧ s1.ir ≠ T.tb_size then .error .fmTableFormat
    else
      match read_values (read_force_step ntb_tot T.tb_size) forces ⟨0, 0, s1.fm_table⟩ with
      | .error e => .error e
      | .ok s2 =>
        if s2.itb ≠ ntb_tot - 1 ∧ s2.ir ≠ T.tb_size then .error .fmTableFormat
        else .ok s2.fm_table

/-! ### The residue list: `Construct_Computational_Arrays` -/

/-- The classification `res_info` of a listed residue. -/
inductive ResInfo where
  | OFF
  | LOCAL
  | GHOST
  deriving DecidableEq, Repr

/-- The per-atom data of the host that the list construction reads:
`mask[j] & groupbit` (alpha carbons), `& group2bit` (beta atoms),
`& group3bit` (oxygens), `atom->residue` and `atom->molecule`. -/
structure Atoms where
  nlocal : Nat
  nghost : Nat
  inGroup : Int → Bool
  inGroup2 : Int → Bool
  inGroup3 : Int → Bool
  residue : Int → Int
  molecule : Int → Int

/-- The fixed chain layout: `n` residues in `nch` chains, chain `c` (counted
from 0) holding the sequence numbers `ch_pos[c] .. ch_pos[c]+ch_len[c]-1`. -/
structure Chains where
  n : Nat
  nch : Int
  ch_pos : Int → Int
  ch_len : Int → Int

/-- The arrays written by `Construct_Computational_Arrays`. -/
structure Topo where
  nn : Nat
  alpha_carbons : Int → Int
  beta_atoms : Int → Int
  oxygens : Int → Int
  res_no : Int → Int
  res_no_l : Int → Int
  chain_no : Int → Int
  res_info : Int → ResInfo

/-- `FixBackbone::isFirst(index)` (lines 1570-1575). -/
def isFirst (C : Chains) (S : Topo) (index : Int) : Bool :=
  C.ch_pos (S.chain_no index - 1) == S.res_no index

/-- `FixBackbone::isLast(index)` (lines 1577-1583). -/
def isLast (C : Chains) (S : Topo) (index : Int) : Bool :=
  let ch_no := S.chain_no index - 1
  C.ch_pos ch_no + C.ch_len ch_no - 1 == S.res_no index

/-- The local arrays `min[3]` and `jm[3]` of the first loop. -/
structure Scan where
  min0 : Int
  min1 : Int
  min2 : Int
  jm0 : Int
  jm1 : Int
  jm2 : Int

/-- The body of the loop over the atoms `j` (lines 1611-1631). -/
def cca_scan_step (A : Atoms) (i last : Int) (sc : Scan) (j : Nat) : Except Err Scan :=
  if i = 0 ∧ A.residue j ≤ 0 ∧ (A.inGroup j ∨ A.inGroup2 j ∨ A.inGroup3 j) then
    .error .tagNotPositive
  else
    let sc1 : Scan :=
      if A.inGroup j ∧ A.residue j > last then
        if A.residue j < sc.min0 ∨ sc.min0 = -1 then
          { sc with min0 := A.residue j, jm0 := j }
        else sc
      else sc
    let sc2 : Scan :=
      if A.inGroup2 j ∧ A.residue j > last then
        if A.residue j < sc1.min1 ∨ sc1.min1 = -1 then
          { sc1 with min1 := A.residue j, jm1 := j }
        else sc1
      else sc1
    let sc3 : Scan :=
      if A.inGroup3 j ∧ A.residue j > last then
        if A.residue j < sc2.min2 ∨ sc2.min2 = -1 then
          { sc2 with min2 := A.residue j, jm2 := j }
        else sc2
      else sc2
    .ok sc3

/-- The loop over all atoms `j < nall` for residue slot `i` (lines 1609-1632). -/
def cca_scan (A : Atoms) (i last : Int) : Except Err Scan :=
  (List.range (A.nlocal + A.nghost)).foldlM (cca_scan_step A i last) ⟨-1, -1, -1, -1, -1, -1⟩

/-- The rest of the body of the first loop once the atoms are scanned
(lines 1634-1665); `none` is the `break`. -/
def cca_entry (C : Chains) (A : Atoms) (S : Topo) (sc : Scan) : Except Err (Option Topo) :=
  let amin := min sc.min0 (min sc.min1 sc.min2)
  if amin = -1 then .ok none
  else
    let jm0 := if sc.min0 ≠ amin then -1 else sc.jm0
    let jm1 := if sc.min1 ≠ amin then -1 else sc.jm1
    let jm2 := if sc.min2 ≠ amin then -1 else sc.jm2
    let nn : Int := S.nn
    let chain : Int :=
      if jm0 ≠ -1 then A.molecule jm0
      else if jm1 ≠ -1 then A.molecule jm1
      else if jm2 ≠ -1 then A.molecule jm2
      else S.chain_no nn
    if chain ≤ 0 ∨ chain > C.nch then .error .chainTagRange
    else if (jm1 ≠ -1 ∧ chain ≠ A.molecule jm1) ∨ (jm2 ≠ -1 ∧ chain ≠ A.molecule jm2) then
      .error .chainTagMismatch
    else if amin < C.ch_pos (chain - 1) ∨ amin > C.ch_pos (chain - 1) + C.ch_len (chain - 1) - 1 then
      .error .residueTagRange
    else
      .ok (some
        { S with
          nn := S.nn + 1
          alpha_carbons := fun x => if x = nn then jm0 else S.alpha_carbons x
          beta_atoms := fun x => if x = nn then jm1 else S.beta_atoms x
          oxygens := fun x => if x = nn then jm2 else S.oxygens x
          res_no := fun x => if x = nn then amin else S.res_no x
          res_no_l := fun x => if x = amin - 1 then nn else S.res_no_l x
          chain_no := fun x => if x = nn then chain else S.chain_no x })

/-- The first loop `for (i = 0; i < n; ++i)` from slot `i` on, `fuel = n - i`
(lines 1608-1666).  The variable `last` is the `res_no` of the entry made
last, 0 before the first. -/
def cca_build (C : Chains) (A : Atoms) : Nat → Int → Int → Topo → Except Err Topo
  | 0, _, _, S => .ok S
  | fuel + 1, i, last, S =>
    match cca_scan A i last with
    | .error e => .error e
    | .ok sc =>
      match cca_entry C A S sc with
      | .error e => .error e
      | .ok none => .ok S
      | .ok (some S1) => cca_build C A fuel (i + 1) (min sc.min0 (min sc.min1 sc.min2)) S1

/-- The value given to `res_info[i]` by lines 1670-1692, or the error raised there. -/
def cca_classify (C : Chains) (A : Atoms) (S : Topo) (i : Int) : Except Err ResInfo :=
  if S.alpha_carbons i ≠ -1 then
    if S.alpha_carbons i < A.nlocal then
      if S.beta_atoms i = -1 ∨ S.oxygens i = -1 then .error (.missingNeighbor 1)
      else if !isFirst C S i ∧ (i = 0 ∨ S.res_info (i - 1) = ResInfo.OFF) then
        .error (.missingNeighbor 2)
      else .ok ResInfo.LOCAL
    else
      if i > 0 ∧ !isFirst C S i ∧ S.res_info (i - 1) = ResInfo.LOCAL then .ok ResInfo.GHOST
      else if i < (S.nn : Int) - 1 ∧ !isLast C S i ∧ !isFirst C S (i + 1) ∧
          S.alpha_carbons (i + 1) < A.nlocal ∧ S.alpha_carbons (i + 1) ≠ -1 then
        if S.oxygens i = -1 then .error (.missingNeighbor 3)
        else .ok ResInfo.GHOST
      else if S.oxygens i = -1 ∨ S.beta_atoms i = -1 then .ok ResInfo.OFF
      else .ok ResInfo.GHOST
  else .ok ResInfo.OFF

/-- The condition of the check "Code 004" (line 1694). -/
def cca_code4 (C : Chains) (S : Topo) (i : Int) : Bool :=
  decide (S.res_info i = ResInfo.OFF) && decide (i > 0) && !isLast C S (i - 1) &&
    decide (S.res_info (i - 1) = ResInfo.LOCAL)

/-- The array `res_info` after the assignment `res_info[i] = v`. -/
def setInfo (S : Topo) (i : Int) (v : ResInfo) : Topo :=
  { S with res_info := fun x => if x = i then v else S.res_info x }

/-- The body of the second loop (lines 1668-1697). -/
def cca_mark_step (C : Chains) (A : Atoms) (S : Topo) (i : Nat) : Except Err Topo :=
  match cca_classify C A S i with
  | .error e => .error e
  | .ok v =>
    if cca_code4 C (setInfo S i v) i then .error (.missingNeighbor 4)
    else .ok (setInfo S i v)

/-- `FixBackbone::Construct_Computational_Arrays` (lines 1590-1698); `S0` holds
the arrays as the previous call left them. -/
def Construct_Computational_Arrays (C : Chains) (A : Atoms) (S0 : Topo) : Except Err Topo :=
  let inN : Int → Bool := fun x => decide (0 ≤ x) && decide (x < (C.n : Int))
  let S1 : Topo :=
    { S0 with
      nn := 0
      res_no_l := fun x => if inN x then -1 else S0.res_no_l x
      res_info := fun x => if inN x then ResInfo.OFF else S0.res_info x
      chain_no := fun x => if inN x then -1 else S0.chain_no x }
  match cca_build C A C.n 0 0 S1 with
  | .error e => .error e
  | .ok S2 => (List.range S2.nn).foldlM (cca_mark_step C A) S2

/-! ### Virtual backbone atoms: the reconstruction loop of `compute_backbone` -/

/-- The backbone geometry coefficients `an .. ch` of the fix. -/
structure BackboneCoef (K : Type) where
  an : K
  bn : K
  cn : K
  ap : K
  bp : K
  cp : K
  ah : K
  bh : K
  ch : K

/-- The values given to the coefficients by the constructor (lines 141-143). -/
def default_coef : BackboneCoef ℚ where
  an := 0.4831806
  bn := 0.7032820
  cn := -0.1864262
  ap := 0.4436538
  bp := 0.2352006
  cp := 0.3211455
  ah := 0.8409657
  bh := 0.8929599
  ch := -0.7338894

/-- The host data read by the coordinate part of `compute_backbone`:
positions `x`, image flags, periodicity flags of the domain and box lengths `prd`. -/
structure Host (K : Type) where
  x : Int → Fin 3 → K
  image : Int → Nat
  xperiodic : Bool
  yperiodic : Bool
  zperiodic : Bool
  prd : Fin 3 → K

/-- The arrays `xca, xcb, xo, xn, xcp, xh` of the fix. -/
structure Coords (K : Type) where
  xca : Int → Fin 3 → K
  xcb : Int → Fin 3 → K
  xo : Int → Fin 3 → K
  xn : Int → Fin 3 → K
  xcp : Int → Fin 3 → K
  xh : Int → Fin 3 → K

/-- The unwrapped position of atom `a` (lines 7069-7080, the same for the beta
atom and the oxygen): `x[a][d] + box*prd[d]` in a periodic direction, the box
count being decoded from `image[a]`. -/
def unwrapped {K : Type} [LinearOrderedField K] (H : Host K) (a : Int) : Fin 3 → K :=
  fun d =>
    if d = 0 then
      if H.xperiodic then
        H.x a 0 + ((((H.image a &&& 1023 : Nat) : Int) - 512 : Int) : K) * H.prd 0
      else H.x a 0
    else if d = 1 then
      if H.yperiodic then
        H.x a 1 + (((((H.image a >>> 10) &&& 1023 : Nat) : Int) - 512 : Int) : K) * H.prd 1
      else H.x a 1
    else
      if H.zperiodic then
        H.x a 2 + ((((H.image a >>> 20 : Nat) : Int) - 512 : Int) : K) * H.prd 2
      else H.x a 2

/-- The assignment `arr[i] = v` of a position. -/
def setPos {K : Type} (arr : Int → Fin 3 → K) (i : Int) (v : Fin 3 → K) : Int → Fin 3 → K :=
  fun x => if x = i then v else arr x

/-- Whether `res_info[i]` is LOCAL or GHOST. -/
def isActive (S : Topo) (i : Int) : Bool :=
  S.res_info i == ResInfo.LOCAL || S.res_info i == ResInfo.GHOST

/-- The index `im1` of the sequence predecessor (lines 7109-7111). -/
def backbone_im1 (S : Topo) (i : Int) : Int :=
  let i_resno := S.res_no i - 1
  if i_resno > 0 then S.res_no_l (i_resno - 1) else -1

/-- The condition under which `xn[i]`, `xh[i]` and `xcp[im1]` are computed
(lines 7112 and 7126). -/
def backbone_has_prev (C : Chains) (S : Topo) (i : Int) : Bool :=
  decide (backbone_im1 S i ≠ -1) && !isFirst C S i && isActive S i &&
    isActive S (backbone_im1 S i)

/-- The coordinate part of the loop body (lines 7068-7106). -/
def backbone_coords {K : Type} [LinearOrderedField K] (S : Topo) (H : Host K) (st : Coords K)
    (i : Int) : Coords K :=
  if isActive S i then
    let st1 : Coords K := { st with xca := setPos st.xca i (unwrapped H (S.alpha_carbons i)) }
    let st2 : Coords K :=
      if S.beta_atoms i ≠ -1 then
        { st1 with xcb := setPos st1.xcb i (unwrapped H (S.beta_atoms i)) }
      else st1
    if S.oxygens i ≠ -1 then
      { st2 with xo := setPos st2.xo i (unwrapped H (S.oxygens i)) }
    else st2
  else st

/-- The combination `a*xca[im1] + b*xca[i] + c*xo[im1]`. -/
def backbone_combo {K : Type} [LinearOrderedField K] (a b c : K) (st : Coords K) (im1 i : Int) :
    Fin 3 → K :=
  fun d => a * st.xca im1 d + b * st.xca i d + c * st.xo im1 d

/-- The virtual-atom part of the loop body (lines 7108-7136). -/
def backbone_virtual {K : Type} [LinearOrderedField K] (co : BackboneCoef K) (C : Chains)
    (S : Topo) (st : Coords K) (i : Int) : Coords K :=
  let im1 := backbone_im1 S i
  let st1 : Coords K :=
    if backbone_has_prev C S i then
      { st with
        xn := setPos st.xn i (backbone_combo co.an co.bn co.cn st im1 i)
        xh := setPos st.xh i (backbone_combo co.ah co.bh co.ch st im1 i) }
    else
      { st with
        xn := setPos st.xn i (fun _ => 0)
        xh := setPos st.xh i (fun _ => 0) }
  if backbone_has_prev C S i then
    { st1 with xcp := setPos st1.xcp im1 (backbone_combo co.ap co.bp co.cp st1 im1 i) }
  else if im1 ≠ -1 then
    { st1 with xcp := setPos st1.xcp im1 (fun _ => 0) }
  else st1

/-- The body of the loop `for (i=0;i<nn;++i)` of `compute_backbone` (lines 7067-7137). -/
def backbone_step {K : Type} [LinearOrderedField K] (co : BackboneCoef K) (C : Chains)
    (S : Topo) (H : Host K) (st : Coords K) (i : Nat) : Coords K :=
  backbone_virtual co C S (backbone_coords S H st i) i

/-- The reconstruction loop of `compute_backbone` with the final statement
`if (nn>0) xcp[nn-1] = 0` (lines 7067-7138). -/
def backbone_reconstruct {K : Type} [LinearOrderedField K] (co : BackboneCoef K) (C : Chains)
    (S : Topo) (H : Host K) (st : Coords K) : Coords K :=
  let st1 := (List.range S.nn).foldl (backbone_step co C S H) st
  if S.nn > 0 then { st1 with xcp := setPos st1.xcp ((S.nn : Int) - 1) (fun _ => 0) } else st1

/-- The host after every atom is moved by the vector `t`. -/
def translated {K : Type} [LinearOrderedField K] (H : Host K) (t : Fin 3 → K) : Host K :=
  { H with x := fun a d => H.x a d + t d }

/-! ### The pair loop `compute_pair`: densities and density-mediated energies

The model follows the densities and the three energy slots `ET_WATER`,
`ET_BURIAL`, `ET_HELIX` through `compute_pair`.  The force array and the
coefficients `xi`, which none of the three slots reads, are left out; the
other terms called from the main loop (hydrogen bonds, P_AP, solvent
barrier, Debye-Hueckel, contact restraints) write none of the modelled
variables and enter only through the fatal error they may raise. -/

/-- The members of the class of `well` and `helix_well` that `compute_pair`
uses; the class is declared outside `fix_backbone.cpp`. -/
structure Well (K : Type) where
  rmin_theta_sq : Int → K
  rmax_theta_sq : Int → K
  theta_pair : Int → Int → Int → K → K
  prd_theta_pair : Int → Int → Int → K → K

/-- The gamma tables of the fix and the phosphorylation map. -/
structure GammaTables (K : Type) where
  phosph_flag : Bool
  phosph_map : Int → Bool
  water_gamma : Int → Int → Int → Int → K
  phosph_water_gamma : Int → Int → Int → Int → K
  burial_gamma : Int → Int → K

/-- `FixBackbone::get_water_gamma` (lines 2872-2885). -/
def get_water_gamma {K : Type} (G : GammaTables K)
    (i_resno j_resno i_well ires_type jres_type water_prot_flag : Int) : K :=
  if !G.phosph_flag then G.water_gamma i_well ires_type jres_type water_prot_flag
  else if G.phosph_map i_resno || G.phosph_map j_resno then
    G.phosph_water_gamma i_well ires_type jres_type water_prot_flag
  else G.water_gamma i_well ires_type jres_type water_prot_flag

/-- `FixBackbone::get_burial_gamma` (lines 2887-2900). -/
def get_burial_gamma {K : Type} (G : GammaTables K) (i_resno ires_type local_dens : Int) : K :=
  if !G.phosph_flag then G.burial_gamma ires_type local_dens
  else if G.phosph_map i_resno then G.burial_gamma 6 local_dens
  else G.burial_gamma ires_type local_dens

/-- The fields of the fix read by `compute_pair` and `compute_helix_dtheta_pair`.
`rNO`, `rHO` are the distances returned by the cache object `R`;
`other_terms i j` is the fatal error, if any, raised for the atom pair
`(i, j)` by the terms of the main loop that are not modelled. -/
structure PairParams (K : Type) where
  n : Nat
  se : Int → Char
  water_flag : Bool
  helix_flag : Bool
  burial_flag : Bool
  n_wells : Nat
  well_flag : Int → Bool
  contact_cutoff : Int
  well : Well K
  helix_well : Well K
  water_kappa_sigma : K
  water_treshold : K
  helix_kappa_sigma : K
  helix_treshold : K
  burial_kappa : K
  burial_ro_min : Int → K
  burial_ro_max : Int → K
  k_burial : K
  gammas : GammaTables K
  helix_i_diff : Int
  helix_cutoff : K
  helix_cutoff_sq : K
  h4prob : Int → K
  pro_accepter_flag : Bool
  h4prob_pro_accepter : K
  helix_NO_zero : K
  helix_HO_zero : K
  helix_sigma_NO_sqinv : K
  helix_sigma_HO_sqinv : K
  k_helix : K
  helix_gamma_p : K
  helix_gamma_w : K
  rNO : Int → Int → K
  rHO : Int → Int → K
  other_terms : Int → Int → Option Err

/-- What one process holds when it runs `compute_pair`: its atoms, their
positions, its neighbour list (`ilist`, and `firstneigh[i]` with the
`NEIGHMASK` already applied), its residue list and the arrays `xo`, `xn`. -/
structure PairView (K : Type) where
  atoms : Atoms
  x : Int → Fin 3 → K
  ilist : List Int
  firstneigh : Int → List Int
  topo : Topo
  xo : Int → Fin 3 → K
  xn : Int → Fin 3 → K

/-- The three modelled slots of `energy`. -/
structure PairEnergy (K : Type) where
  water : K
  burial : K
  helix : K

/-- The arrays `loc_water_ro` and `loc_helix_ro`. -/
structure Dens (K : Type) where
  water : Int → K
  helix : Int → K

/-- The test "representative atom" used throughout `compute_pair`:
`(mask[i]&group2bit && se[ires]!='G') || (mask[i]&groupbit && se[ires]=='G')`. -/
def is_rep {K : Type} (P : PairParams K) (A : Atoms) (i : Int) : Bool :=
  (A.inGroup2 i && P.se (A.residue i - 1) != 'G') ||
  (A.inGroup i && P.se (A.residue i - 1) == 'G')

/-- The statement `arr[r] += v`. -/
def addAt {K : Type} [LinearOrderedField K] (arr : Int → K) (r : Int) (v : K) : Int → K :=
  fun x => if x = r then arr x + v else arr x

/-- The squared distance `rsq` of the atoms `i` and `j`. -/
def pair_rsq {K : Type} [LinearOrderedField K] (V : PairView K) (i j : Int) : K :=
  let dx : Fin 3 → K := fun d => V.x i d - V.x j d
  dx 0 * dx 0 + dx 1 * dx 1 + dx 2 * dx 2

/-- The body of the inner loop of the density pass (lines 7744-7783). -/
def pair_density_nb {K : Type} [LinearOrderedField K] (sqrt : K → K) (P : PairParams K)
    (V : PairView K) (i : Int) (d : Dens K) (j : Int) : Dens K :=
  let ires := V.atoms.residue i - 1
  let imol := V.atoms.molecule i
  let jres := V.atoms.residue j - 1
  let jmol := V.atoms.molecule j
  if is_rep P V.atoms j then
    let rsq := pair_rsq V i j
    if imol ≠ jmol ∨ |ires - jres| > 1 then
      let d1 : Dens K :=
        if P.water_flag ∧ rsq > P.well.rmin_theta_sq 0 ∧ rsq < P.well.rmax_theta_sq 0 then
          let theta := P.well.theta_pair ires jres 0 (sqrt rsq)
          { d with water := addAt (addAt d.water ires theta) jres theta }
        else d
      if P.helix_flag ∧ rsq > P.helix_well.rmin_theta_sq 0 ∧
          rsq < P.helix_well.rmax_theta_sq 0 then
        let theta := P.helix_well.theta_pair ires jres 0 (sqrt rsq)
        { d1 with helix := addAt (addAt d1.helix ires theta) jres theta }
      else d1
    else d
  else d

/-- The density pass (lines 7699-7786): the local densities of one process. -/
def pair_density {K : Type} [LinearOrderedField K] (sqrt : K → K) (P : PairParams K)
    (V : PairView K) : Dens K :=
  V.ilist.foldl (fun d i =>
    if is_rep P V.atoms i then (V.firstneigh i).foldl (pair_density_nb sqrt P V i) d else d)
    ⟨fun _ => 0, fun _ => 0⟩

/-- `MPI_Allreduce(..., MPI_SUM, ...)` over the local arrays of all processes. -/
def allreduce {K : Type} [LinearOrderedField K] (locs : List (Int → K)) : Int → K :=
  fun r => (locs.map (fun loc => loc r)).sum

/-- The arrays written by the sigma pass and `energy[ET_BURIAL]`. -/
structure SigmaSt (K : Type) where
  water_sigma_h : Int → K
  water_sigma_h_prd : Int → K
  helix_sigma_h : Int → K
  helix_sigma_h_prd : Int → K
  burial_force : Int → K
  b_water_sigma_h : Int → Bool
  b_helix_sigma_h : Int → Bool
  b_burial_force : Int → Bool
  burial : K

/-- The statement `arr[r] = v`. -/
def setAt {α : Type} (arr : Int → α) (r : Int) (v : α) : Int → α :=
  fun x => if x = r then v else arr x

/-- The burial energy added for a residue of density `ro` (lines 7816-7830). -/
def burial_energy {K : Type} [LinearOrderedField K] (tanh : K → K) (P : PairParams K)
    (ires : Int) (ro : K) : K :=
  let ires_type := se_map (P.se ires)
  let t := fun (w : Int) => tanh (P.burial_kappa * (ro - P.burial_ro_min w)) +
    tanh (P.burial_kappa * (P.burial_ro_max w - ro))
  let e0 := -(1 / 2) * P.k_burial * get_burial_gamma P.gammas ires ires_type 0 * t 0
  let e1 := -(1 / 2) * P.k_burial * get_burial_gamma P.gammas ires ires_type 1 * t 1
  let e2 := -(1 / 2) * P.k_burial * get_burial_gamma P.gammas ires ires_type 2 * t 2
  e0 + e1 + e2

/-- The value of `burial_force[ires]` (lines 7833-7836). -/
def burial_force_value {K : Type} [LinearOrderedField K] (tanh : K → K) (P : PairParams K)
    (ires : Int) (ro : K) : K :=
  let ires_type := se_map (P.se ires)
  let t0 := fun (w : Int) => tanh (P.burial_kappa * (ro - P.burial_ro_min w))
  let t1 := fun (w : Int) => tanh (P.burial_kappa * (P.burial_ro_max w - ro))
  (get_burial_gamma P.gammas ires ires_type 0 * (t1 0 * t1 0 - t0 0 * t0 0) +
   get_burial_gamma P.gammas ires ires_type 1 * (t1 1 * t1 1 - t0 1 * t0 1) +
   get_burial_gamma P.gammas ires ires_type 2 * (t1 2 * t1 2 - t0 2 * t0 2)) *
    ((1 / 2) * P.k_burial * P.burial_kappa)

/-- The body of the loop `for (i = 0; i < nall; i++)` of the sigma pass
(lines 7796-7840). -/
def pair_sigma_step {K : Type} [LinearOrderedField K] (tanh : K → K) (P : PairParams K)
    (V : PairView K) (water_ro helix_ro : Int → K) (s : SigmaSt K) (i : Nat) : SigmaSt K :=
  let ires := V.atoms.residue i - 1
  if is_rep P V.atoms i then
    let s1 : SigmaSt K :=
      if P.water_flag ∧ !s.b_water_sigma_h ires then
        let th := tanh (P.water_kappa_sigma * (water_ro ires - P.water_treshold))
        { s with
          water_sigma_h := setAt s.water_sigma_h ires ((1 / 2) * (1 - th))
          water_sigma_h_prd := setAt s.water_sigma_h_prd ires
            (-P.water_kappa_sigma * ((1 / 2) * (1 - th)) * (1 + th))
          b_water_sigma_h := setAt s.b_water_sigma_h ires true }
      else s
    let s2 : SigmaSt K :=
      if P.helix_flag ∧ !s1.b_helix_sigma_h ires then
        let th := tanh (P.helix_kappa_sigma * (helix_ro ires - P.helix_treshold))
        { s1 with
          helix_sigma_h := setAt s1.helix_sigma_h ires ((1 / 2) * (1 - th))
          helix_sigma_h_prd := setAt s1.helix_sigma_h_prd ires
            (-P.helix_kappa_sigma * ((1 / 2) * (1 - th)) * (1 + th))
          b_helix_sigma_h := setAt s1.b_helix_sigma_h ires true }
      else s1
    if P.burial_flag ∧ !s2.b_burial_force ires then
      { s2 with
        burial := if i < V.atoms.nlocal then
            s2.burial + burial_energy tanh P ires (water_ro ires)
          else s2.burial
        burial_force := setAt s2.burial_force ires
          (burial_force_value tanh P ires (water_ro ires))
        b_burial_force := setAt s2.b_burial_force ires true }
    else s2
  else s

/-- The sigma pass (lines 7795-7841), entered with `energy[ET_BURIAL] = burial`. -/
def pair_sigma {K : Type} [LinearOrderedField K] (tanh : K → K) (P : PairParams K)
    (V : PairView K) (water_ro helix_ro : Int → K) (burial : K) : SigmaSt K :=
  let s0 : SigmaSt K :=
    ⟨fun _ => 0, fun _ => 0, fun _ => 0, fun _ => 0, fun _ => 0,
      fun _ => false, fun _ => false, fun _ => false, burial⟩
  if P.water_flag ∨ P.helix_flag ∨ P.burial_flag then
    (List.range (V.atoms.nlocal + V.atoms.nghost)).foldl
      (pair_sigma_step tanh P V water_ro helix_ro) s0
  else s0

/-- The arrays `loc_helix_xi_1`, `loc_helix_xi_2` and `energy[ET_HELIX]`. -/
structure HelixSt (K : Type) where
  loc_helix_xi_1 : Int → K
  loc_helix_xi_2 : Int → K
  helix : K

/-- `FixBackbone::compute_helix_dtheta_pair(i, j)` (lines 3706-3790) without
its force statements. -/
def compute_helix_dtheta_pair {K : Type} [LinearOrderedField K] (exp : K → K)
    (P : PairParams K) (V : PairView K) (sg : SigmaSt K) (st : HelixSt K) (i j : Int) :
    Except Err (HelixSt K) :=
  if P.rNO i j > P.helix_cutoff then .ok st
  else
    let i_resno := V.topo.res_no i - 1
    let j_resno := V.topo.res_no j - 1
    if V.topo.chain_no i - 1 ≠ V.topo.chain_no j - 1 then .ok st
    else if V.topo.oxygens i = -1 ∨ V.topo.alpha_carbons j = -1 ∨
        V.topo.alpha_carbons (j - 1) = -1 ∨ V.topo.oxygens (j - 1) = -1 then
      .error .helixMissingAtom
    else
      let ires_type := se_map (P.se i_resno)
      let jres_type := se_map (P.se j_resno)
      let R_NO := P.rNO i j
      let R_HO := P.rHO i j
      let h4probi := if P.se i_resno = 'P' ∧ P.pro_accepter_flag then P.h4prob_pro_accepter
        else P.h4prob ires_type
      let prob_sum := h4probi + P.h4prob jres_type
      let dR_NO := R_NO - P.helix_NO_zero
      let dR_HO := R_HO - P.helix_HO_zero
      let dR_NO_sigma := dR_NO * P.helix_sigma_NO_sqinv
      let dR_HO_sigma := dR_HO * P.helix_sigma_HO_sqinv
      let pair_theta := -P.k_helix * prob_sum *
        exp (-(1 / 2) * (dR_NO * dR_NO_sigma + dR_HO * dR_HO_sigma))
      let sigma_gamma := P.helix_gamma_p +
        (P.helix_gamma_w - P.helix_gamma_p) * sg.helix_sigma_h i_resno * sg.helix_sigma_h j_resno
      let V1 := sigma_gamma * pair_theta
      .ok { loc_helix_xi_1 := setAt st.loc_helix_xi_1 i_resno
              ((P.helix_gamma_w - P.helix_gamma_p) * pair_theta *
                sg.helix_sigma_h_prd i_resno * sg.helix_sigma_h j_resno)
            loc_helix_xi_2 := setAt st.loc_helix_xi_2 i_resno
              ((P.helix_gamma_w - P.helix_gamma_p) * pair_theta *
                sg.helix_sigma_h i_resno * sg.helix_sigma_h_prd j_resno)
            helix := st.helix + V1 }

/-- The body of the loop `for (i = 0; i < nlocal; i++)` of the helix pass
(lines 7844-7867). -/
def pair_helix_step {K : Type} [LinearOrderedField K] (exp : K → K) (P : PairParams K)
    (V : PairView K) (sg : SigmaSt K) (st : HelixSt K) (i : Nat) : Except Err (HelixSt K) :=
  if V.atoms.inGroup3 i then
    let ires := V.atoms.residue i - 1
    let imol := V.atoms.molecule i
    let il := V.topo.res_no_l ires
    let jl := if ires + P.helix_i_diff < (P.n : Int) ∧
        V.topo.res_no_l (ires + P.helix_i_diff) ≠ -1 then
        V.topo.res_no_l (ires + P.helix_i_diff) else -1
    if jl ≠ -1 ∧ imol = V.topo.chain_no jl ∧ isActive V.topo jl ∧ isActive V.topo (jl - 1) ∧
        V.topo.res_no (jl - 1) - 1 = ires + P.helix_i_diff - 1 then
      let dx : Fin 3 → K := fun d => V.xo il d - V.xn jl d
      let r2sq := dx 0 * dx 0 + dx 1 * dx 1 + dx 2 * dx 2
      if r2sq < P.helix_cutoff_sq then compute_helix_dtheta_pair exp P V sg st il jl
      else .ok st
    else .ok st
  else .ok st

/-- The helix pass (lines 7843-7868), entered with `energy[ET_HELIX] = helix`. -/
def pair_helix {K : Type} [LinearOrderedField K] (exp : K → K) (P : PairParams K)
    (V : PairView K) (sg : SigmaSt K) (helix : K) : Except Err (HelixSt K) :=
  if P.helix_flag then
    (List.range V.atoms.nlocal).foldlM (pair_helix_step exp P V sg)
      ⟨fun _ => 0, fun _ => 0, helix⟩
  else .ok ⟨fun _ => 0, fun _ => 0, helix⟩

/-- The constant `delta` (line 40). -/
def delta (K : Type) [LinearOrderedField K] : K := 1 / 100000

/-- The value `sigma_gamma` of a pair (lines 8006-8015) from the two gammas
and the values `water_sigma_h[ires]`, `water_sigma_h[jres]`. -/
def water_sigma_gamma {K : Type} [LinearOrderedField K]
    (water_gamma_0 water_gamma_1 sigma_h_i sigma_h_j : K) : K :=
  if |water_gamma_0 - water_gamma_1| < delta K then (1 / 2) * (water_gamma_0 + water_gamma_1)
  else water_gamma_0 + (water_gamma_1 - water_gamma_0) * sigma_h_i * sigma_h_j

/-- The body of the loop over the wells in the main loop (lines 7999-8024):
the new value of `energy[ET_WATER]`. -/
def pair_water_well {K : Type} [LinearOrderedField K] (sqrt : K → K) (P : PairParams K)
    (V : PairView K) (sg : SigmaSt K) (i j : Int) (water : K) (i_well : Nat) : K :=
  let ires := V.atoms.residue i - 1
  let imol := V.atoms.molecule i
  let jres := V.atoms.residue j - 1
  let jmol := V.atoms.molecule j
  let rsq := pair_rsq V i j
  if !P.well_flag i_well then water
  else if (imol ≠ jmol ∨ |jres - ires| ≥ P.contact_cutoff) ∧
      rsq > P.well.rmin_theta_sq i_well ∧ rsq < P.well.rmax_theta_sq i_well then
    let water_gamma_0 := get_water_gamma P.gammas ires jres i_well
      (se_map (P.se ires)) (se_map (P.se jres)) 0
    let water_gamma_1 := get_water_gamma P.gammas ires jres i_well
      (se_map (P.se ires)) (se_map (P.se jres)) 1
    let sigma_gamma := water_sigma_gamma water_gamma_0 water_gamma_1
      (sg.water_sigma_h ires) (sg.water_sigma_h jres)
    water + -sigma_gamma * P.well.theta_pair ires jres i_well (sqrt rsq)
  else water

/-- The body of the inner loop of the main loop (lines 7974-8129) as far as
`energy[ET_WATER]` goes. -/
def pair_main_nb {K : Type} [LinearOrderedField K] (sqrt : K → K) (P : PairParams K)
    (V : PairView K) (sg : SigmaSt K) (i : Int) (water : K) (j : Int) : Except Err K :=
  let ires := V.atoms.residue i - 1
  let imol := V.atoms.molecule i
  let jres := V.atoms.residue j - 1
  let jmol := V.atoms.molecule j
  if V.atoms.inGroup j ∨ V.atoms.inGroup2 j ∨ V.atoms.inGroup3 j then
    let water1 :=
      if is_rep P V.atoms i ∧ is_rep P V.atoms j ∧ (imol ≠ jmol ∨ |jres - ires| > 1) then
        if P.water_flag then
          (List.range P.n_wells).foldl (pair_water_well sqrt P V sg i j) water
        else water
      else water
    match P.other_terms i j with
    | some e => .error e
    | none => .ok water1
  else .ok water

/-- The main loop (lines 7958-8132) as far as `energy[ET_WATER]` goes. -/
def pair_main {K : Type} [LinearOrderedField K] (sqrt : K → K) (P : PairParams K)
    (V : PairView K) (sg : SigmaSt K) (water : K) : Except Err K :=
  V.ilist.foldlM (fun w i =>
    if V.atoms.inGroup i ∨ V.atoms.inGroup2 i ∨ V.atoms.inGroup3 i then
      (V.firstneigh i).foldlM (pair_main_nb sqrt P V sg i) w
    else .ok w) water

/-- The part of `compute_pair` after the sigma pass (lines 7843-8135): helix
pass and main loop, entered with `energy[ET_WATER] = water` and
`energy[ET_HELIX] = helix`. -/
def pair_after_sigma {K : Type} [LinearOrderedField K] (sqrt exp : K → K) (P : PairParams K)
    (me : PairView K) (sg : SigmaSt K) (water helix : K) : Except Err (PairEnergy K) :=
  match pair_helix exp P me sg helix with
  | .error err => .error err
  | .ok hs =>
    match pair_main sqrt P me sg water with
    | .error err => .error err
    | .ok water1 => .ok ⟨water1, sg.burial, hs.helix⟩

/-- `FixBackbone::compute_pair` (lines 7677-8135) on the process `me`, the
other processes being `others`: the three energy slots after the call. -/
def compute_pair {K : Type} [LinearOrderedField K] (sqrt exp tanh : K → K) (P : PairParams K)
    (me : PairView K) (others : List (PairView K)) (e : PairEnergy K) :
    Except Err (PairEnergy K) :=
  let locs := (me :: others).map (pair_density sqrt P)
  let water_ro : Int → K :=
    if P.water_flag then allreduce (locs.map (fun d => d.water)) else fun _ => 0
  let helix_ro : Int → K :=
    if P.helix_flag then allreduce (locs.map (fun d => d.helix)) else fun _ => 0
  pair_after_sigma sqrt exp P me (pair_sigma tanh P me water_ro helix_ro e.burial)
    e.water e.helix

/-! ### The energy vector and its queries

The enumeration of the energy slots (`ET_TOTAL`, `ET_CHAIN`, ...,
`nEnergyTerms`) is declared outside `fix_backbone.cpp`; the index `ET_TOTAL`
and the count `nEnergyTerms` are arguments of the definitions. -/

/-- The energy bookkeeping of one process: the arrays `energy` and
`energy_all` and the flag `force_flag`. -/
structure EnergySt (K : Type) where
  energy : Nat → K
  energy_all : Nat → K
  force_flag : Int

/-- `MPI_Allreduce(energy,energy_all,nEnergyTerms,MPI_DOUBLE,MPI_SUM,world)`:
the new `energy_all` on a process with array `energy`, the other processes
contributing the arrays `others`. -/
def reduce_energy {K : Type} [LinearOrderedField K] (nEnergyTerms : Nat) (energy : Nat → K)
    (others : List (Nat → K)) (energy_all : Nat → K) : Nat → K :=
  fun k => if k < nEnergyTerms then energy k + (others.map (fun o => o k)).sum else energy_all k

/-- The loop `for (int i=0;i<nEnergyTerms;++i) energy[i] = 0.0` (line 7065). -/
def reset_energy {K : Type} [LinearOrderedField K] (nEnergyTerms : Nat) (energy : Nat → K) :
    Nat → K :=
  fun k => if k < nEnergyTerms then 0 else energy k

/-- The loop `for (int i=1;i<nEnergyTerms;++i) energy[ET_TOTAL] += energy[i]` (line 7659). -/
def total_energy {K : Type} [LinearOrderedField K] (nEnergyTerms ET_TOTAL : Nat)
    (energy : Nat → K) : Nat → K :=
  (List.range' 1 (nEnergyTerms - 1)).foldl
    (fun e i => fun k => if k = ET_TOTAL then e ET_TOTAL + e i else e k) energy

/-- The array `energy` at the end of `compute_backbone`: reset (line 7065),
the potential terms, whose combined effect on the array is `terms`, and the
total (line 7659). -/
def backbone_energy {K : Type} [LinearOrderedField K] (nEnergyTerms ET_TOTAL : Nat)
    (terms : (Nat → K) → (Nat → K)) (energy : Nat → K) : Nat → K :=
  total_energy nEnergyTerms ET_TOTAL (terms (reset_energy nEnergyTerms energy))

/-- The energy bookkeeping of `compute_backbone`: `force_flag = 0` (line
7054), the array `energy` as above, and on a step with
`ntimestep%output->thermo_every==0` (`thermo_step`) the reduction of lines
7661-7665. -/
def compute_backbone_energy {K : Type} [LinearOrderedField K] (nEnergyTerms ET_TOTAL : Nat)
    (terms : (Nat → K) → (Nat → K)) (thermo_step : Bool) (others : List (Nat → K))
    (s : EnergySt K) : EnergySt K :=
  let s1 : EnergySt K :=
    { energy := backbone_energy nEnergyTerms ET_TOTAL terms s.energy
      energy_all := s.energy_all
      force_flag := 0 }
  if thermo_step then
    if s1.force_flag = 0 then
      { s1 with
        energy_all := reduce_energy nEnergyTerms s1.energy others s1.energy_all
        force_flag := 1 }
    else s1
  else s1

/-- The common first statement of `compute_scalar` and `compute_vector`
(lines 8212-8215 and 8227-8230). -/
def reduce_once {K : Type} [LinearOrderedField K] (nEnergyTerms : Nat)
    (others : List (Nat → K)) (s : EnergySt K) : EnergySt K :=
  if s.force_flag = 0 then
    { s with
      energy_all := reduce_energy nEnergyTerms s.energy others s.energy_all
      force_flag := 1 }
  else s

/-- `FixBackbone::compute_scalar()` (lines 8208-8217): the value returned and
the state left. -/
def compute_scalar {K : Type} [LinearOrderedField K] (nEnergyTerms ET_TOTAL : Nat)
    (others : List (Nat → K)) (s : EnergySt K) : K × EnergySt K :=
  ((reduce_once nEnergyTerms others s).energy_all ET_TOTAL, reduce_once nEnergyTerms others s)

/-- `FixBackbone::compute_vector(nv)` (lines 8223-8232). -/
def compute_vector {K : Type} [LinearOrderedField K] (nEnergyTerms : Nat)
    (others : List (Nat → K)) (s : EnergySt K) (nv : Nat) : K × EnergySt K :=
  ((reduce_once nEnergyTerms others s).energy_all (nv + 1), reduce_once nEnergyTerms others s)

/-- The arrays `energy` of a list of processes at the end of
`compute_backbone`, each process given by the effect of its potential terms
and by the array it held before. -/
def process_energies {K : Type} [LinearOrderedField K] (nEnergyTerms ET_TOTAL : Nat)
    (procs : List (((Nat → K) → (Nat → K)) × (Nat → K))) : List (Nat → K) :=
  procs.map (fun p => backbone_energy nEnergyTerms ET_TOTAL p.1 p.2)

/-! ### The chain term and the per-residue dispatch -/

/-- The fields of the fix read by `compute_chain_potential`. -/
structure ChainParams (K : Type) where
  k_chain : Int → K
  r_ncb0 : K
  r_cpcb0 : K
  r_ncp0 : K
  coef : BackboneCoef K
  se : Int → Char

/-- The block `N(i) - Cb(i)` of `compute_chain_potential` (lines 2072-2101);
`energy` is the slot `energy[ET_CHAIN]`.  The value `im1_resno` of line 2074
is not used. -/
def chain_ncb {K : Type} [LinearOrderedField K] (sqrt : K → K) (P : ChainParams K)
    (C : Chains) (S : Topo) (X : Coords K) (i : Int) (st : FMState K) : FMState K :=
  let i_resno := S.res_no i - 1
  if !isFirst C S i ∧ P.se i_resno ≠ 'G' then
    let im1 := S.res_no_l (i_resno - 1)
    if im1 ≠ -1 ∧ (S.res_info im1 = ResInfo.LOCAL ∨ S.res_info im1 = ResInfo.GHOST) then
      let dx : Fin 3 → K := fun d => X.xn i d - X.xcb i d
      let r := sqrt (dx 0 * dx 0 + dx 1 * dx 1 + dx 2 * dx 2)
      let dr := r - P.r_ncb0
      let force := 2 * P.k_chain 0 * dr / r
      let f1 := addForce st.f (S.alpha_carbons im1) (-(P.coef.an * force)) dx
      let f2 := addForce f1 (S.oxygens im1) (-(P.coef.cn * force)) dx
      let f3 := addForce f2 (S.alpha_carbons i) (-(P.coef.bn * force)) dx
      let f4 := addForce f3 (S.beta_atoms i) (-(-force)) dx
      { energy := st.energy + P.k_chain 0 * dr * dr, f := f4 }
    else st
  else st

/-- The block `Cp(i) - Cb(i)` of `compute_chain_potential` (lines 2103-2132). -/
def chain_cpcb {K : Type} [LinearOrderedField K] (sqrt : K → K) (P : ChainParams K)
    (C : Chains) (S : Topo) (X : Coords K) (i : Int) (st : FMState K) : FMState K :=
  let i_resno := S.res_no i - 1
  if !isLast C S i ∧ P.se i_resno ≠ 'G' then
    let ip1 := S.res_no_l (i_resno + 1)
    if ip1 ≠ -1 ∧ (S.res_info ip1 = ResInfo.LOCAL ∨ S.res_info ip1 = ResInfo.GHOST) then
      let dx : Fin 3 → K := fun d => X.xcp i d - X.xcb i d
      let r := sqrt (dx 0 * dx 0 + dx 1 * dx 1 + dx 2 * dx 2)
      let dr := r - P.r_cpcb0
      let force := 2 * P.k_chain 1 * dr / r
      let f1 := addForce st.f (S.alpha_carbons ip1) (-(P.coef.bp * force)) dx
      let f2 := addForce f1 (S.alpha_carbons i) (-(P.coef.ap * force)) dx
      let f3 := addForce f2 (S.oxygens i) (-(P.coef.cp * force)) dx
      let f4 := addForce f3 (S.beta_atoms i) (-(-force)) dx
      { energy := st.energy + P.k_chain 1 * dr * dr, f := f4 }
    else st
  else st

/-- The block `N(i) - Cp(i)` of `compute_chain_potential` (lines 2135-2169). -/
def chain_ncp {K : Type} [LinearOrderedField K] (sqrt : K → K) (P : ChainParams K)
    (C : Chains) (S : Topo) (X : Coords K) (i : Int) (st : FMState K) : FMState K :=
  let i_resno := S.res_no i - 1
  if !isFirst C S i ∧ !isLast C S i then
    let im1 := S.res_no_l (i_resno - 1)
    let ip1 := S.res_no_l (i_resno + 1)
    if im1 ≠ -1 ∧ ip1 ≠ -1 ∧
        (S.res_info im1 = ResInfo.LOCAL ∨ S.res_info im1 = ResInfo.GHOST) ∧
        (S.res_info ip1 = ResInfo.LOCAL ∨ S.res_info ip1 = ResInfo.GHOST) then
      let dx : Fin 3 → K := fun d => X.xn i d - X.xcp i d
      let r := sqrt (dx 0 * dx 0 + dx 1 * dx 1 + dx 2 * dx 2)
      let dr := r - P.r_ncp0
      let force := 2 * P.k_chain 2 * dr / r
      let f1 := addForce st.f (S.alpha_carbons im1) (-(P.coef.an * force)) dx
      let f2 := addForce f1 (S.oxygens im1) (-(P.coef.cn * force)) dx
      let f3 := addForce f2 (S.alpha_carbons ip1) (-(-P.coef.bp * force)) dx
      let f4 := addForce f3 (S.alpha_carbons i) (-((P.coef.bn - P.coef.ap) * force)) dx
      let f5 := addForce f4 (S.oxygens i) (-(-P.coef.cp * force)) dx
      { energy := st.energy + P.k_chain 2 * dr * dr, f := f5 }
    else st
  else st

/-- `FixBackbone::compute_chain_potential(i)` (lines 2062-2170). -/
def compute_chain_potential {K : Type} [LinearOrderedField K] (sqrt : K → K)
    (P : ChainParams K) (C : Chains) (S : Topo) (X : Coords K) (i : Int)
    (st : FMState K) : FMState K :=
  chain_ncp sqrt P C S X i (chain_cpcb sqrt P C S X i (chain_ncb sqrt P C S X i st))

/-- The switches of the single-residue terms. -/
structure LocalFlags where
  chain_flag : Bool
  chi_flag : Bool
  shake_flag : Bool
  rama_flag : Bool
  memb_flag : Bool

/-- A call of a single-residue term made by the dispatch of `compute_backbone`. -/
inductive LocalCall where
  | chain (i : Int)
  | chi (i : Int)
  | shake (i : Int)
  | rama (i : Int)
  | memb (i : Int)
  deriving DecidableEq, Repr

/-- The guard of `compute_chain_potential(i)` (lines 7153 and 7420). -/
def chain_guard (F : LocalFlags) (S : Topo) (i : Int) : Bool :=
  F.chain_flag && decide (S.res_info i = ResInfo.LOCAL)

/-- The guard of `compute_chi_potential(i)` (lines 7167 and 7425). -/
def chi_guard (F : LocalFlags) (C : Chains) (S : Topo) (se : Int → Char) (i : Int) : Bool :=
  !isFirst C S i && !isLast C S i && F.chi_flag && decide (S.res_info i = ResInfo.LOCAL) &&
    decide (se (S.res_no i - 1) ≠ 'G')

/-- The guard of `compute_shake(i)` (lines 7179 and 7430). -/
def shake_guard (F : LocalFlags) (S : Topo) (i : Int) : Bool :=
  F.shake_flag && decide (S.res_info i = ResInfo.LOCAL)

/-- The guard of `compute_rama_potential(i)` (lines 7187 and 7435). -/
def rama_guard (F : LocalFlags) (C : Chains) (S : Topo) (se : Int → Char) (i : Int) : Bool :=
  !isFirst C S i && !isLast C S i && F.rama_flag && decide (S.res_info i = ResInfo.LOCAL) &&
    decide (se (S.res_no i - 1) ≠ 'G')

/-- The single-residue calls made for list entry `i` by the body of the loop
of lines 7412-7441, in order. -/
def dispatch_residue (F : LocalFlags) (C : Chains) (S : Topo) (se : Int → Char) (i : Int) :
    List LocalCall :=
  (if chain_guard F S i then [LocalCall.chain i] else []) ++
  (if chi_guard F C S se i then [LocalCall.chi i] else []) ++
  (if shake_guard F S i then [LocalCall.shake i] else []) ++
  (if rama_guard F C S se i then [LocalCall.rama i] else []) ++
  (if F.memb_flag && decide (S.res_info i = ResInfo.LOCAL) then [LocalCall.memb i] else [])

/-- The single-residue calls of one step: the loop `for (i=0;i<nn;i++)` of
line 7412. -/
def dispatch_calls (F : LocalFlags) (C : Chains) (S : Topo) (se : Int → Char) :
    List LocalCall :=
  (List.range S.nn).flatMap (fun (i : Nat) => dispatch_residue F C S se (i : Int))

/-- The calls of the first four loops of the build with `DEBUGFORCES`
(lines 7151-7190): one loop over the list per term. -/
def dispatch_calls_debug (F : LocalFlags) (C : Chains) (S : Topo) (se : Int → Char) :
    List LocalCall :=
  (List.range S.nn).flatMap
      (fun (i : Nat) => if chain_guard F S i then [LocalCall.chain (i : Int)] else []) ++
  (List.range S.nn).flatMap
      (fun (i : Nat) => if chi_guard F C S se i then [LocalCall.chi (i : Int)] else []) ++
  (List.range S.nn).flatMap
      (fun (i : Nat) => if shake_guard F S i then [LocalCall.shake (i : Int)] else []) ++
  (List.range S.nn).flatMap
      (fun (i : Nat) => if rama_guard F C S se i then [LocalCall.rama (i : Int)] else [])

/-! ### The harmonic backbone constraints and the force of a neighbour pair -/

/-- The fields of the fix read by `compute_shake`. -/
structure ShakeParams (K : Type) where
  epsilon : K
  k_shake : K
  r_sh1 : K
  r_sh2 : K
  r_sh3 : K

/-- One of the three blocks of `compute_shake`: the bond between the atoms
`a` at `pa` and `b` at `pb` with reference length `r0` (lines 2183-2198,
2202-2217, 2221-2236); `energy` is the slot `energy[ET_SHAKE]`. -/
def shake_bond {K : Type} [LinearOrderedField K] (sqrt : K → K) (P : ShakeParams K) (r0 : K)
    (pa pb : Fin 3 → K) (a b : Int) (st : FMState K) : FMState K :=
  let dx : Fin 3 → K := fun d => pa d - pb d
  let r := sqrt (dx 0 * dx 0 + dx 1 * dx 1 + dx 2 * dx 2)
  let dr := r - r0
  let force := 2 * P.epsilon * P.k_shake * dr / r
  { energy := st.energy + P.epsilon * P.k_shake * dr * dr
    f := addForce (addForce st.f a (-force) dx) b (-(-force)) dx }

/-- `FixBackbone::compute_shake(i)` (lines 2172-2237). -/
def compute_shake {K : Type} [LinearOrderedField K] (sqrt : K → K) (P : ShakeParams K)
    (C : Chains) (S : Topo) (X : Coords K) (i : Int) (st : FMState K) : FMState K :=
  let st1 :=
    if !isLast C S i then
      shake_bond sqrt P P.r_sh1 (X.xca i) (X.xca (i + 1)) (S.alpha_carbons i)
        (S.alpha_carbons (i + 1)) st
    else st
  let st2 := shake_bond sqrt P P.r_sh2 (X.xca i) (X.xo i) (S.alpha_carbons i) (S.oxygens i) st1
  if !isLast C S i then
    shake_bond sqrt P P.r_sh3 (X.xo i) (X.xca (i + 1)) (S.oxygens i)
      (S.alpha_carbons (i + 1)) st2
  else st2

/-- The last statement of the body of the main loop of `compute_pair` (lines
8116-8128): the accumulated scalar `force` of the pair of atoms `(i, j)` is
applied along `dx`. -/
def pair_apply_force {K : Type} [LinearOrderedField K] (f : Int → Fin 3 → K) (i j : Int)
    (force : K) (dx : Fin 3 → K) : Int → Fin 3 → K :=
  if force ≠ 0 then addForce (addForce f i force dx) j (-force) dx else f

/-- The component `d` of the sum of the forces on the atoms `0 .. N-1`. -/
def net_force {K : Type} [LinearOrderedField K] (N : Nat) (f : Int → Fin 3 → K) (d : Fin 3) :
    K :=
  ((List.range N).map (fun (a : Nat) => f (a : Int) d)).sum

/-! ### The density pass as a sum over the visited pairs -/

/-- The pairs of atoms `(i, j)` visited by a double loop over the neighbour
list: `i` in `ilist`, `j` in `firstneigh[i]`, in the order of the visit. -/
def neighbour_pairs {K : Type} (V : PairView K) : List (Int × Int) :=
  V.ilist.flatMap (fun i => (V.firstneigh i).map (fun j => (i, j)))

/-- The description of the pairs that count for a density with well `W`:
both atoms representative, residues on different chains or more than one
apart in sequence, and `rmin_theta_sq[0] < rsq < rmax_theta_sq[0]`. -/
def density_pair_admissible {K : Type} [LinearOrderedField K] (P : PairParams K)
    (V : PairView K) (W : Well K) (p : Int × Int) : Bool :=
  is_rep P V.atoms p.1 && is_rep P V.atoms p.2 &&
  decide (V.atoms.molecule p.1 ≠ V.atoms.molecule p.2 ∨
    |(V.atoms.residue p.1 - 1) - (V.atoms.residue p.2 - 1)| > 1) &&
  decide (pair_rsq V p.1 p.2 > W.rmin_theta_sq 0 ∧ pair_rsq V p.1 p.2 < W.rmax_theta_sq 0)

/-- What the description lets a pair add to the density of residue `r`:
`theta_pair` times the number of occurrences of `r` among the two residues. -/
def density_pair_term {K : Type} [LinearOrderedField K] (sqrt : K → K) (V : PairView K)
    (W : Well K) (r : Int) (p : Int × Int) : K :=
  let ires := V.atoms.residue p.1 - 1
  let jres := V.atoms.residue p.2 - 1
  let theta := W.theta_pair ires jres 0 (sqrt (pair_rsq V p.1 p.2))
  (if r = ires then theta else 0) + (if r = jres then theta else 0)

/-- The density of residue `r` as described: the sum of the terms of the
admissible pairs among the given pairs. -/
def described_density {K : Type} [LinearOrderedField K] (sqrt : K → K) (P : PairParams K)
    (V : PairView K) (W : Well K) (pairs : List (Int × Int)) (r : Int) : K :=
  ((pairs.filter (density_pair_admissible P V W)).map (density_pair_term sqrt V W r)).sum

/-! ### The xi pass and the force of the main loop of `compute_pair` -/

/-- The body of the loop over the wells in the xi pass (lines 7918-7932).
The test `!fabs(water_gamma_0 - water_gamma_1)<delta` compares the value of
`!fabs(...)`, 1 or 0, with `delta`. -/
def pair_xi_well {K : Type} [LinearOrderedField K] (sqrt : K → K) (P : PairParams K)
    (V : PairView K) (sg : SigmaSt K) (i j : Int) (xi : Int → K) (i_well : Nat) : Int → K :=
  let ires := V.atoms.residue i - 1
  let jres := V.atoms.residue j - 1
  let rsq := pair_rsq V i j
  if !P.well_flag i_well then xi
  else
    let water_gamma_0 := get_water_gamma P.gammas ires jres i_well
      (se_map (P.se ires)) (se_map (P.se jres)) 0
    let water_gamma_1 := get_water_gamma P.gammas ires jres i_well
      (se_map (P.se ires)) (se_map (P.se jres)) 1
    let not_fabs : K := if |water_gamma_0 - water_gamma_1| = 0 then 1 else 0
    if not_fabs < delta K ∧ rsq > P.well.rmin_theta_sq i_well ∧
        rsq < P.well.rmax_theta_sq i_well then
      let theta_gamma := (water_gamma_1 - water_gamma_0) *
        P.well.theta_pair ires jres i_well (sqrt rsq)
      let xi1 := addAt xi ires (theta_gamma * sg.water_sigma_h jres)
      addAt xi1 jres (theta_gamma * sg.water_sigma_h ires)
    else xi

/-- The body of the inner loop of the xi pass (lines 7894-7936). -/
def pair_xi_nb {K : Type} [LinearOrderedField K] (sqrt : K → K) (P : PairParams K)
    (V : PairView K) (sg : SigmaSt K) (i : Int) (xi : Int → K) (j : Int) : Int → K :=
  let ires := V.atoms.residue i - 1
  let imol := V.atoms.molecule i
  let jres := V.atoms.residue j - 1
  let jmol := V.atoms.molecule j
  if is_rep P V.atoms j then
    if P.water_flag ∧ (imol ≠ jmol ∨ |ires - jres| ≥ P.contact_cutoff) then
      (List.range P.n_wells).foldl (pair_xi_well sqrt P V sg i j) xi
    else xi
  else xi

/-- The loop over the neighbour list of the xi pass (lines 7877-7938): the
array `loc_water_xi` before the scaling. -/
def pair_xi_accum {K : Type} [LinearOrderedField K] (sqrt : K → K) (P : PairParams K)
    (V : PairView K) (sg : SigmaSt K) : Int → K :=
  V.ilist.foldl (fun xi i =>
    if is_rep P V.atoms i then (V.firstneigh i).foldl (pair_xi_nb sqrt P V sg i) xi else xi)
    (fun _ => 0)

/-- The body of the scaling loop (lines 7941-7948) on `loc_water_xi` and
`b_water_xi`. -/
def pair_xi_scale_step {K : Type} [LinearOrderedField K] (P : PairParams K) (V : PairView K)
    (sg : SigmaSt K) (s : (Int → K) × (Int → Bool)) (i : Nat) : (Int → K) × (Int → Bool) :=
  let ires := V.atoms.residue i - 1
  if (V.atoms.inGroup i && P.se ires == 'G') || (V.atoms.inGroup2 i && P.se ires != 'G') then
    if !s.2 ires then
      (setAt s.1 ires (s.1 ires * sg.water_sigma_h_prd ires), setAt s.2 ires true)
    else s
  else s

/-- The array `loc_water_xi` of one process when the reduction of line 7951
is reached (lines 7877-7949). -/
def pair_xi {K : Type} [LinearOrderedField K] (sqrt : K → K) (P : PairParams K)
    (V : PairView K) (sg : SigmaSt K) : Int → K :=
  if P.water_flag then
    ((List.range (V.atoms.nlocal + V.atoms.nghost)).foldl (pair_xi_scale_step P V sg)
      (pair_xi_accum sqrt P V sg, fun _ => false)).1
  else pair_xi_accum sqrt P V sg

/-- The value of `tb_nbrs` set when the table is allocated (lines 998-1002). -/
def fm_tb_nbrs (n minSep maxSep : Int) : Int :=
  if maxSep ≠ -1 then maxSep - minSep + 1 else n - minSep

/-- The quotient `x/y` of two doubles as the table build computes it: the
quotient of the field when `y ≠ 0`.  For `y = 0` the machine division yields
an infinity or a NaN, which is no number of `K`; the value is then left open
as `div0 x`, a parameter of the model. -/
def fm_div {K : Type} [LinearOrderedField K] (div0 : K → K) (x y : K) : K :=
  if y = 0 then div0 x else x / y

/-- The body of the loop over the bins `ir` (lines 4307-4317) for a cell `c`;
the quotient of line 4316 has the denominator `fm_sigma_sq*r`, which is zero
at a bin with `r = 0`. -/
def fmt_bin {K : Type} [LinearOrderedField K] (exp div0 : K → K) (tb_rmin tb_dr : K)
    (epsilon_k_weight_gamma fm_sigma_sq rf : K) (c : Int → TBV K) (ir : Nat) : Int → TBV K :=
  let r := tb_rmin + (ir : K) * tb_dr
  let dr := r - rf
  let V := fm_well exp epsilon_k_weight_gamma fm_sigma_sq rf r
  setAt c ir ⟨(c ir).energy + V, (c ir).force + fm_div div0 (V * dr) (fm_sigma_sq * r)⟩

/-- The body of the loop over the kinds `k` in `compute_fragment_memory_table`
(lines 4297-4315).  `fresh` is the content of an entry of a cell just made
by `new TBV[tb_size]`; the type `TBV` is declared outside this file. -/
def fmt_kind {K : Type} [LinearOrderedField K] (exp div0 : K → K) (P : FMParams K)
    (G : FMTable K) (fresh : TBV K) (frag : Fragment K) (i j : Int)
    (fm_sigma_sq epsilon_k_weight_gamma : K) (tbl : Int → Cell K) (k : Nat) :
    Except Err (Int → Cell K) :=
  if fmp_skip P.se frag i j k then .ok tbl
  else
    let js := i + P.fm_gamma.minSep
    let itb := 4 * G.tb_nbrs * i + 4 * (j - js) + (k : Int)
    let c : Int → TBV K :=
      match tbl itb with
      | none => fun _ => fresh
      | some c => c
    match frag.Rf i (iatom_type k) j (jatom_type k) with
    | none => .error .fmWrongRfCall
    | some rf =>
      .ok (setAt tbl itb (some ((List.range G.tb_size.toNat).foldl
        (fmt_bin exp div0 G.tb_rmin G.tb_dr epsilon_k_weight_gamma fm_sigma_sq rf) c)))

/-- The body of the loop over `j` in `compute_fragment_memory_table`
(lines 4276-4316); `w` is `frag_table_well_width`. -/
def fmt_pair {K : Type} [LinearOrderedField K] (exp div0 : K → K) (pow : K → K → K) (w : K)
    (P : FMParams K) (G : FMTable K) (fresh : TBV K) (frag : Fragment K)
    (epsilon_k_weight : K) (i : Int) (tbl : Int → Cell K) (j : Int) :
    Except Err (Int → Cell K) :=
  let fm_sigma_sq := pow ((|i - j| : Int) : K) (2 * P.fm_sigma_exp) * w * w
  match fmp_gamma P frag i j with
  | none => .error .fmWrongGammaCall
  | some frag_mem_gamma =>
    [0, 1, 2, 3].foldlM
      (fmt_kind exp div0 P G fresh frag i j fm_sigma_sq (epsilon_k_weight * frag_mem_gamma)) tbl

/-- The body of the loop over the fragments `i_fm` of residue `i` in
`compute_fragment_memory_table` (lines 4264-4317). -/
def fmt_frag {K : Type} [LinearOrderedField K] (exp div0 : K → K) (pow : K → K → K) (w : K)
    (P : FMParams K) (G : FMTable K) (fresh : TBV K) (i : Int) (tbl : Int → Cell K)
    (i_fm : Int) : Except Err (Int → Cell K) :=
  let frag := P.frag_mems (P.frag_mem_map i i_fm)
  let epsilon_k_weight := P.epsilon * P.k_frag_mem * frag.weight
  let js := i + P.fm_gamma.minSep
  let je := fmp_je P frag i
  if je ≥ P.n then .error .fmMissingResidues
  else (intRange js je).foldlM (fmt_pair exp div0 pow w P G fresh frag epsilon_k_weight i) tbl

/-- `FixBackbone::compute_fragment_memory_table` (lines 4238-4323) on the
table geometry `G`: the array `fm_table` after the call.  The closing call
of `output_fragment_memory_table` does not change the table. -/
def compute_fragment_memory_table {K : Type} [LinearOrderedField K] (exp div0 : K → K)
    (pow : K → K → K) (w : K) (P : FMParams K) (G : FMTable K) (fresh : TBV K) :
    Except Err (FMTable K) :=
  match (intRange 0 (P.n - 1)).foldlM (fun tbl i =>
      (intRange 0 (P.ilen_fm_map i - 1)).foldlM (fmt_frag exp div0 pow w P G fresh i) tbl)
      G.fm_table with
  | .error e => .error e
  | .ok tbl =>
    .ok ⟨G.minSep, G.maxSep, G.tb_nbrs, G.tb_rmin, G.tb_rmax, G.tb_dr, G.tb_size, tbl⟩

/-- The entry `ir` of a cell, an unallocated cell counting as zero. -/
def cell_entry {K : Type} [LinearOrderedField K] (c : Cell K) (ir : Int) : TBV K :=
  match c with
  | none => ⟨0, 0⟩
  | some c => c ir

/-- The positions `i_fm` in the fragment map of residue `i` of the fragments
that the description counts for the cell of `j` and kind `k`: the window of
the fragment reaches `j` and the kind is not skipped for glycine. -/
def table_fragments {K : Type} (P : FMParams K) (i j : Int) (k : Nat) : List Int :=
  (intRange 0 (P.ilen_fm_map i - 1)).filter (fun i_fm =>
    decide (j ≤ fmp_je P (P.frag_mems (P.frag_mem_map i i_fm)) i) &&
    !fmp_skip P.se (P.frag_mems (P.frag_mem_map i i_fm)) i j k)

/-- The well of the description, written from its formula, for the fragment
at position `i_fm` of the map of residue `i`, the pair `(i, j)`, kind `k`, at
distance `r`: the energy
`V = -epsilon*k_frag_mem*weight*gamma*exp(-(r-Rf)^2/(2*s2))` with
`s2 = |i-j|^(2*fm_sigma_exp) * w^2`, and the force `V*(r-Rf)/(s2*r)`, which
where `s2*r = 0` is the value `div0 (V*(r-Rf))` of the machine division. -/
def table_term {K : Type} [LinearOrderedField K] (exp div0 : K → K) (pow : K → K → K) (w : K)
    (P : FMParams K) (i j : Int) (k : Nat) (r : K) (i_fm : Int) : TBV K :=
  let frag := P.frag_mems (P.frag_mem_map i i_fm)
  let s2 := pow ((|i - j| : Int) : K) (2 * P.fm_sigma_exp) * w ^ 2
  let gamma := (fmp_gamma P frag i j).getD 0
  let rf := (frag.Rf i (iatom_type k) j (jatom_type k)).getD 0
  let V := -(P.epsilon * P.k_frag_mem * frag.weight * gamma) * exp (-(r - rf) ^ 2 / (2 * s2))
  ⟨V, if s2 * r = 0 then div0 (V * (r - rf)) else V * (r - rf) / (s2 * r)⟩

/-- What one pass of the loop over the bins adds to entry `ir` of a cell:
the pair `V`, `V*dr/(fm_sigma_sq*r)` at `r = tb_rmin + ir*tb_dr`. -/
def fmt_term {K : Type} [LinearOrderedField K] (exp div0 : K → K) (tb_rmin tb_dr : K)
    (epsilon_k_weight_gamma fm_sigma_sq rf : K) (ir : Int) : TBV K :=
  let r := tb_rmin + (ir : K) * tb_dr
  let dr := r - rf
  let V := fm_well exp epsilon_k_weight_gamma fm_sigma_sq rf r
  ⟨V, fm_div div0 (V * dr) (fm_sigma_sq * r)⟩

/-- What the body of the loop over the kinds adds to the component `φ` of
entry `ir` of cell `itb0`: the term of kind `k` if the kind is not skipped
and its cell is `itb0`, else nothing. -/
def fmt_add_kind {K : Type} [LinearOrderedField K] (φ : TBV K → K) (exp div0 : K → K)
    (P : FMParams K) (G : FMTable K) (frag : Fragment K) (i j : Int)
    (fm_sigma_sq epsilon_k_weight_gamma : K) (itb0 ir : Int) (k : Nat) : K :=
  if fmp_skip P.se frag i j k = false ∧
      4 * G.tb_nbrs * i + 4 * (j - (i + P.fm_gamma.minSep)) + (k : Int) = itb0 then
    φ (fmt_term exp div0 G.tb_rmin G.tb_dr epsilon_k_weight_gamma fm_sigma_sq
      ((frag.Rf i (iatom_type k) j (jatom_type k)).getD 0) ir)
  else 0

/-- What the body of the loop over `j` adds to the component `φ` of entry
`ir` of cell `itb0`. -/
def fmt_add_pair {K : Type} [LinearOrderedField K] (φ : TBV K → K) (exp div0 : K → K)
    (pow : K → K → K) (w : K) (P : FMParams K) (G : FMTable K) (frag : Fragment K)
    (epsilon_k_weight : K) (i : Int) (itb0 ir : Int) (j : Int) : K :=
  ([0, 1, 2, 3].map (fmt_add_kind φ exp div0 P G frag i j
    (pow ((|i - j| : Int) : K) (2 * P.fm_sigma_exp) * w * w)
    (epsilon_k_weight * (fmp_gamma P frag i j).getD 0) itb0 ir)).sum

/-- What the body of the loop over the fragments of residue `i` adds to the
component `φ` of entry `ir` of cell `itb0`. -/
def fmt_add_frag {K : Type} [LinearOrderedField K] (φ : TBV K → K) (exp div0 : K → K)
    (pow : K → K → K) (w : K) (P : FMParams K) (G : FMTable K) (i : Int) (itb0 ir : Int)
    (i_fm : Int) : K :=
  let frag := P.frag_mems (P.frag_mem_map i i_fm)
  ((intRange (i + P.fm_gamma.minSep) (fmp_je P frag i)).map
    (fmt_add_pair φ exp div0 pow w P G frag (P.epsilon * P.k_frag_mem * frag.weight) i itb0 ir)).sum

/-- Whether the body of the loop over the kinds writes cell `itb0`. -/
def fmt_hit {K : Type} (P : FMParams K) (G : FMTable K) (frag : Fragment K) (i j : Int)
    (itb0 : Int) (k : Nat) : Bool :=
  decide (fmp_skip P.se frag i j k = false ∧
    4 * G.tb_nbrs * i + 4 * (j - (i + P.fm_gamma.minSep)) + (k : Int) = itb0)

/-- Whether the body of the loop over the fragments of residue `i` writes
cell `itb0`. -/
def fmt_hit_frag {K : Type} (P : FMParams K) (G : FMTable K) (i : Int) (itb0 : Int)
    (i_fm : Int) : Bool :=
  (intRange (i + P.fm_gamma.minSep) (fmp_je P (P.frag_mems (P.frag_mem_map i i_fm)) i)).any
    (fun j => [0, 1, 2, 3].any (fmt_hit P G (P.frag_mems (P.frag_mem_map i i_fm)) i j itb0))

/-! ### The residue letters and the net force of the chain term -/

/-- The array `one_letter_code` (line 56). -/
def one_letter_code : List Char :=
  ['A', 'R', 'N', 'D', 'C', 'Q', 'E', 'G', 'H', 'I', 'L', 'K', 'M', 'F', 'P', 'S', 'T', 'W',
    'Y', 'V']

/-- The value `force = 2*k*dr/r` of a harmonic term of `compute_chain_potential`
with `r = sqrt(dx·dx)` and `dr = r - r0` (lines 2079-2081, 2110-2112, 2143-2145). -/
def chain_force {K : Type} [LinearOrderedField K] (sqrt : K → K) (k r0 : K)
    (dx : Fin 3 → K) : K :=
  let r := sqrt (dx 0 * dx 0 + dx 1 * dx 1 + dx 2 * dx 2)
  let dr := r - r0
  2 * k * dr / r

/-- Whether the block `N(i) - Cb(i)` is executed (lines 2072 and 2075). -/
def chain_ncb_active {K : Type} (P : ChainParams K) (C : Chains) (S : Topo) (i : Int) : Bool :=
  let i_resno := S.res_no i - 1
  let im1 := S.res_no_l (i_resno - 1)
  decide ((!isFirst C S i ∧ P.se i_resno ≠ 'G') ∧
    (im1 ≠ -1 ∧ (S.res_info im1 = ResInfo.LOCAL ∨ S.res_info im1 = ResInfo.GHOST)))

/-- Whether the block `Cp(i) - Cb(i)` is executed (lines 2104 and 2106). -/
def chain_cpcb_active {K : Type} (P : ChainParams K) (C : Chains) (S : Topo) (i : Int) :
    Bool :=
  let i_resno := S.res_no i - 1
  let ip1 := S.res_no_l (i_resno + 1)
  decide ((!isLast C S i ∧ P.se i_resno ≠ 'G') ∧
    (ip1 ≠ -1 ∧ (S.res_info ip1 = ResInfo.LOCAL ∨ S.res_info ip1 = ResInfo.GHOST)))

/-- Whether the block `N(i) - Cp(i)` is executed (lines 2136 and 2139). -/
def chain_ncp_active (C : Chains) (S : Topo) (i : Int) : Bool :=
  let i_resno := S.res_no i - 1
  let im1 := S.res_no_l (i_resno - 1)
  let ip1 := S.res_no_l (i_resno + 1)
  decide ((!isFirst C S i ∧ !isLast C S i) ∧
    (im1 ≠ -1 ∧ ip1 ≠ -1 ∧
      (S.res_info im1 = ResInfo.LOCAL ∨ S.res_info im1 = ResInfo.GHOST) ∧
      (S.res_info ip1 = ResInfo.LOCAL ∨ S.res_info ip1 = ResInfo.GHOST)))

/-- The table length set when the section `[Fragment_Memory_Table]` is read
(line 317): `tb_size = (int)((tb_rmax-tb_rmin)/tb_dr)+2`. -/
def fm_tb_size {K : Type} [LinearOrderedField K] [FloorRing K] (tb_rmin tb_rmax tb_dr : K) :
    Int :=
  toInt ((tb_rmax - tb_rmin) / tb_dr) + 2

/-- The factor `force = V*dr/(fm_sigma_sq*r)` of line 4165, also the value
added to the `force` entry of a table bin (line 4316). -/
def fm_force_factor {K : Type} [LinearOrderedField K] (exp : K → K) (A fm_sigma_sq rf r : K) :
    K :=
  let dr := r - rf
  let V := fm_well exp A fm_sigma_sq rf r
  V * dr / (fm_sigma_sq * r)

/-- The distance `r = sqrt(dx[0]*dx[0]+dx[1]*dx[1]+dx[2]*dx[2])` with
`dx = p - q` (lines 4151-4155). -/
def fm_dist {K : Type} [LinearOrderedField K] (sqrt : K → K) (p q : Fin 3 → K) : K :=
  let dx : Fin 3 → K := fun d => p d - q d
  sqrt (dx 0 * dx 0 + dx 1 * dx 1 + dx 2 * dx 2)

/-! ### The water gamma tables of the constructor -/

/-- The table `bb_four_letter_map` (line 63). -/
def bb_four_letter_map_table : List Int :=
  [1, 3, 2, 2, 4, 2, 2, 1, 3, 4, 4, 3, 4, 4, 1, 1, 1, 4, 4, 4]

/-- The expression `bb_four_letter_map[i]`. -/
def bb_four_letter_map (i : Int) : Int :=
  bb_four_letter_map_table.getD i.toNat 0

/-- The assignment `g[w][i][j][f] = v` on a four-index table. -/
def set4 {K : Type} (g : Int → Int → Int → Int → K) (w i j f : Int) (v : K) :
    Int → Int → Int → Int → K :=
  fun w1 i1 j1 f1 => if w1 = w ∧ i1 = i ∧ j1 = j ∧ f1 = f then v else g w1 i1 j1 f1

/-- The index triples `(i_well, i, j)` in the order of the loop nest
`for (i_well < n_wells) for (i < 20) for (j = i; j < 20)` (lines 626-628 and
645-647). -/
def gamma_index (n_wells : Nat) : List (Int × Int × Int) :=
  (intRange 0 ((n_wells : Int) - 1)).flatMap (fun w =>
    (intRange 0 19).flatMap (fun i => (intRange i 19).map (fun j => (w, i, j))))

/-- The body of the loop nest that reads `gamma.dat` (lines 629-636); the
state is the table `water_gamma` and the values of the file not yet read.
The file is taken as the sequence of its values followed by white space, so
that `eof()` holds after a read exactly when a value was missing. -/
def load_water_step {K : Type} [LinearOrderedField K] (k_water : K)
    (s : (Int → Int → Int → Int → K) × List K) (x : Int × Int × Int) :
    Except Err ((Int → Int → Int → Int → K) × List K) :=
  match s.2 with
  | a :: b :: rest =>
    let g1 := set4 (set4 s.1 x.1 x.2.1 x.2.2 0 a) x.1 x.2.1 x.2.2 1 b
    let g2 := set4 g1 x.1 x.2.1 x.2.2 0 (g1 x.1 x.2.1 x.2.2 0 * k_water)
    let g3 := set4 g2 x.1 x.2.1 x.2.2 1 (g2 x.1 x.2.1 x.2.2 1 * k_water)
    let g4 := set4 g3 x.1 x.2.2 x.2.1 0 (g3 x.1 x.2.1 x.2.2 0)
    let g5 := set4 g4 x.1 x.2.2 x.2.1 1 (g4 x.1 x.2.1 x.2.2 1)
    .ok (g5, rest)
  | _ => .error .waterGammaFormat

/-- The block `if (water_flag)` of the constructor that loads `gamma.dat`
(lines 623-641): the table `water_gamma` after it. -/
def load_water_gamma {K : Type} [LinearOrderedField K] (k_water : K) (n_wells : Nat)
    (file : List K) (g0 : Int → Int → Int → Int → K) :
    Except Err (Int → Int → Int → Int → K) :=
  match (gamma_index n_wells).foldlM (load_water_step k_water) (g0, file) with
  | .error e => .error e
  | .ok s => .ok s.1

/-- The body of the copy loop of the block `if (phosph_flag)` (lines 648-649). -/
def phosph_copy_step {K : Type} (water_gamma : Int → Int → Int → Int → K)
    (p : Int → Int → Int → Int → K) (x : Int × Int × Int) : Int → Int → Int → Int → K :=
  let p1 := set4 p x.1 x.2.2 x.2.1 0 (water_gamma x.1 x.2.1 x.2.2 0)
  let p2 := set4 p1 x.1 x.2.1 x.2.2 0 (p1 x.1 x.2.2 x.2.1 0)
  let p3 := set4 p2 x.1 x.2.2 x.2.1 1 (water_gamma x.1 x.2.1 x.2.2 1)
  set4 p3 x.1 x.2.1 x.2.2 1 (p3 x.1 x.2.2 x.2.1 1)

/-- The three branches of lines 658-669 applied to the value `v` read from
`phosph_water_gamma[i_well][i][6][f]`; `pow` is the libm function. -/
def hypercharge {K : Type} [LinearOrderedField K] (pow : K → K → K) (k_hypercharge : K)
    (i : Int) (v : K) : K :=
  if bb_four_letter_map i = 1 then v * k_hypercharge
  else if bb_four_letter_map i = 2 ∨ bb_four_letter_map i = 3 then v * pow k_hypercharge 2
  else v

/-- The body of the replacement loop (lines 657-670) for well `w` and type `i`. -/
def phosph_replace_step {K : Type} [LinearOrderedField K] (pow : K → K → K)
    (k_hypercharge : K) (w : Int) (p : Int → Int → Int → Int → K) (i : Nat) :
    Int → Int → Int → Int → K :=
  let p1 := set4 p w 15 i 0 (hypercharge pow k_hypercharge i (p w i 6 0))
  let p2 := set4 p1 w i 15 0 (p1 w 15 i 0)
  let p3 := set4 p2 w 15 i 1 (hypercharge pow k_hypercharge i (p2 w i 6 1))
  set4 p3 w i 15 1 (p3 w 15 i 1)

/-- The loop `for (i=0;i<20;++i)` of the replacement for well `w`. -/
def phosph_replace_well {K : Type} [LinearOrderedField K] (pow : K → K → K)
    (k_hypercharge : K) (p : Int → Int → Int → Int → K) (w : Nat) :
    Int → Int → Int → Int → K :=
  (List.range 20).foldl (phosph_replace_step pow k_hypercharge w) p

/-- The block `if (phosph_flag)` of the constructor as far as the table goes
(lines 643-671): `phosph_water_gamma` after the copy loop and the replacement
loop, from the table `water_gamma` and the previous content `p0`. -/
def build_phosph_water_gamma {K : Type} [LinearOrderedField K] (pow : K → K → K)
    (k_hypercharge : K) (n_wells : Nat) (water_gamma p0 : Int → Int → Int → Int → K) :
    Int → Int → Int → Int → K :=
  (List.range n_wells).foldl (phosph_replace_well pow k_hypercharge)
    ((gamma_index n_wells).foldl (phosph_copy_step water_gamma) p0)

/-- The exponent `e(i)` of the description: 1 for class 1, 2 for the classes
2 and 3, 0 for class 4. -/
def hypercharge_exponent (i : Int) : Nat :=
  if bb_four_letter_map i = 1 then 1
  else if bb_four_letter_map i = 2 ∨ bb_four_letter_map i = 3 then 2
  else 0

/-! ### The fragment map -/

/-- The arrays `ilen_fm_map` and `frag_mem_map` of the fix. -/
structure FragMap where
  ilen_fm_map : Int → Int
  frag_mem_map : Int → Int → Int

/-- The body of the loop over `i` that fills the fragment map (lines 785-787):
fragment `k` is appended to the list of residue `i`. -/
def frag_map_insert (k : Nat) (M : FragMap) (i : Int) : FragMap :=
  let len := M.ilen_fm_map i + 1
  { ilen_fm_map := fun x => if x = i then len else M.ilen_fm_map x
    frag_mem_map := fun x t => if x = i ∧ t = len - 1 then (k : Int) else M.frag_mem_map x t }

/-- The body of the loop over the fragments `k` (lines 776-788). -/
def frag_map_step {K : Type} (n min_sep : Int) (frag_mems : Int → Fragment K) (M : FragMap)
    (k : Nat) : Except Err FragMap :=
  let pos := (frag_mems k).pos
  let len := (frag_mems k).len
  if pos + len > n then .error .fmBadFragment
  else .ok ((intRange pos (pos + len - min_sep - 1)).foldl (frag_map_insert k) M)

/-- The block "Fill Fragment Memory map" of the constructor (lines 765-789):
the map of `n_frag_mems` fragments, starting from empty lists. -/
def build_frag_map {K : Type} (n min_sep : Int) (n_frag_mems : Nat)
    (frag_mems : Int → Fragment K) : Except Err FragMap :=
  (List.range n_frag_mems).foldlM (frag_map_step n min_sep frag_mems) ⟨fun _ => 0, fun _ _ => 0⟩

/-- The cell index `itb` of `compute_fragment_memory_table` (line 4300) for
the residue pair `(i, j)` and kind `k`, with `js = i + minSep`. -/
def fmt_itb (tb_nbrs minSep i j k : Int) : Int :=
  let js := i + minSep
  4 * tb_nbrs * i + 4 * (j - js) + k

/-- The cell index `itb` of `table_fragment_memory` (lines 4337-4338 and 4391)
for the residues `i_resno`, `j_resno` and kind `k`. -/
def tfm_itb (tb_nbrs minSep i_resno j_resno k : Int) : Int :=
  let tb_i := i_resno
  let tb_j := j_resno - i_resno - minSep
  4 * tb_nbrs * tb_i + 4 * tb_j + k

/-- The burial well of the description for residue `ires` at density `ro`:
`-0.5*k_burial*` the sum over the three wells `w` of
`burial_gamma[w]*(tanh(burial_kappa*(ro - burial_ro_min[w])) +
tanh(burial_kappa*(burial_ro_max[w] - ro)))`. -/
def described_burial_well {K : Type} [LinearOrderedField K] (tanh : K → K)
    (P : PairParams K) (ires : Int) (ro : K) : K :=
  -(1 / 2) * P.k_burial * (([0, 1, 2] : List Int).map (fun w =>
    get_burial_gamma P.gammas ires (se_map (P.se ires)) w *
      (tanh (P.burial_kappa * (ro - P.burial_ro_min w)) +
        tanh (P.burial_kappa * (P.burial_ro_max w - ro))))).sum

/-- Whether atom `i` is owned by the process (`i < nlocal`), is the
representative atom of its residue, and no atom before it in the atom list
is a representative atom of the same residue. -/
def burial_owned_rep {K : Type} (P : PairParams K) (A : Atoms) (i : Nat) : Bool :=
  decide (i < A.nlocal) && is_rep P A i &&
    (List.range i).all (fun j => !(is_rep P A j && decide (A.residue j = A.residue i)))

/-- The burial energy of the description: one burial well, at the density
`ro` of the residue, for every residue with an owned representative atom. -/
def described_burial {K : Type} [LinearOrderedField K] (tanh : K → K)
    (P : PairParams K) (A : Atoms) (ro : Int → K) : K :=
  (((List.range (A.nlocal + A.nghost)).filter (burial_owned_rep P A)).map (fun (i : Nat) =>
    described_burial_well tanh P (A.residue i - 1) (ro (A.residue i - 1)))).sum

/-- Square root on the rationals whose numerator and denominator are perfect
squares (exact there); it stands for `sqrt` in the concrete evaluations. -/
def sqrtQ (q : ℚ) : ℚ := (Nat.sqrt q.num.toNat : ℚ) / (Nat.sqrt q.den : ℚ)

/-- Two residues on the x axis: CA at 0 and 3, CB at 1 and 4; atoms 0..3. -/
def exResidues (K : Type) [LinearOrderedField K] : Residues K where
  res_no := fun i => i + 1
  chain_no := fun _ => 1
  alpha_carbons := fun i => 2 * i
  beta_atoms := fun i => 2 * i + 1
  xca := fun i d => if d = 0 then 3 * (i : K) else 0
  xcb := fun i d => if d = 0 then 3 * (i : K) + 1 else 0

/-- A fragment covering residues 0 and 1 whose reference distances are the
distances of `exResidues`: CA-CA 3, CA-CB 4, CB-CA 2, CB-CB 3. -/
def exFragment (K : Type) [LinearOrderedField K] : Fragment K where
  pos := 0
  len := 2
  weight := 1
  Rf := fun _ a _ b =>
    match a, b with
    | FMAtom.FM_CA, FMAtom.FM_CA => some 3
    | FMAtom.FM_CA, FMAtom.FM_CB => some 4
    | FMAtom.FM_CB, FMAtom.FM_CA => some 2
    | FMAtom.FM_CB, FMAtom.FM_CB => some 3
  getSe := fun _ => 'A'
  resType := fun _ => 0

/-- Parameters with `exFragment` as the only fragment, in the map of residue 0;
`minSep = 1`, no `maxSep`, every gamma equal to 1. -/
def exParams (K : Type) [LinearOrderedField K] : FMParams K where
  epsilon := 1
  k_frag_mem := 1
  fm_sigma_exp := 15 / 100
  n := 2
  se := fun _ => 'A'
  fm_gamma :=
    { minSep := 1
      maxSep := -1
      fourResTypes := false
      getGamma := fun _ _ _ _ => some 1
      getGamma4 := fun _ _ _ _ _ _ => some 1 }
  frag_mems := fun _ => exFragment K
  ilen_fm_map := fun r => if r = 0 then 1 else 0
  frag_mem_map := fun _ _ => 0

/-- The sequence "AA...": no glycine. -/
def exSe : Int → Char := fun _ => 'A'

/-- A table for `n = 2`, `minSep = 1`, no `maxSep`, bins of width 1 on [0, 10]:
the cells of kinds 0 and 2 of the pair (0, 1) are allocated with energy -1
and force 0 in every bin, those of kinds 1 and 3 were never allocated (the
state left by a build whose only fragment has a glycine at residue 1). -/
def exTable : FMTable ℚ where
  minSep := 1
  maxSep := -1
  tb_nbrs := 1
  tb_rmin := 0
  tb_rmax := 10
  tb_dr := 1
  tb_size := 12
  fm_table := fun itb => if itb = 0 ∨ itb = 2 then some (fun _ => ⟨-1, 0⟩) else none

/-- The example table with the tabulated range cut to [0, 2]. -/
def exTableShort : FMTable ℚ := { exTable with tb_rmax := 2 }

/-- An all-unallocated table with `tb_nbrs = 1` and `tb_size = 2`; with
`n = 1` it has 4 cells, so each file must hold 8 values. -/
def exEmptyTable : FMTable ℚ where
  minSep := 0
  maxSep := -1
  tb_nbrs := 1
  tb_rmin := 0
  tb_rmax := 1
  tb_dr := 2
  tb_size := 2
  fm_table := fun _ => none

/-- An all-unallocated table with no cell at all: `n = 3`, `minSep = 3`, no
`maxSep`, hence `tb_nbrs = n - minSep = 0`. -/
def exNoCellTable : FMTable ℚ where
  minSep := 3
  maxSep := -1
  tb_nbrs := 0
  tb_rmin := 0
  tb_rmax := 1
  tb_dr := 2
  tb_size := 2
  fm_table := fun _ => none

/-- An all-unallocated table of 4 cells (`n = 1`, `tb_nbrs = 1`) configured
with `tb_rmin = 10`, `tb_rmax = 0`, `tb_dr = 1`, for which the constructor
computes `tb_size = (int)(-10) + 2 = -8`. -/
def exNegSizeTable : FMTable ℚ where
  minSep := 0
  maxSep := -1
  tb_nbrs := 1
  tb_rmin := 10
  tb_rmax := 0
  tb_dr := 1
  tb_size := -8
  fm_table := fun _ => none

/-- One chain of two residues with the sequence numbers 1 and 2. -/
def exChains : Chains where
  n := 2
  nch := 1
  ch_pos := fun _ => 1
  ch_len := fun _ => 2

/-- A process that owns the three atoms of residue 1 (CA = atom 0, CB = atom 1,
O = atom 2) and sees no atom of residue 2. -/
def exAtoms : Atoms where
  nlocal := 3
  nghost := 0
  inGroup := fun j => j == 0
  inGroup2 := fun j => j == 1
  inGroup3 := fun j => j == 2
  residue := fun _ => 1
  molecule := fun _ => 1

/-- A process that owns the CA of residue 1 (atom 0) and holds its CB and O
(atoms 1 and 2) as ghost atoms. -/
def exAtomsSplit : Atoms where
  nlocal := 1
  nghost := 2
  inGroup := fun j => j == 0
  inGroup2 := fun j => j == 1
  inGroup3 := fun j => j == 2
  residue := fun _ => 1
  molecule := fun _ => 1

/-- The arrays before the first call. -/
def exTopo0 : Topo where
  nn := 0
  alpha_carbons := fun _ => -1
  beta_atoms := fun _ => -1
  oxygens := fun _ => -1
  res_no := fun _ => 0
  res_no_l := fun _ => -1
  chain_no := fun _ => -1
  res_info := fun _ => ResInfo.OFF

/-- The list of both residues of `exChains`, each LOCAL, residue `i` made of
the atoms `3i` (CA), `3i+1` (CB), `3i+2` (O). -/
def exTopo2 : Topo where
  nn := 2
  alpha_carbons := fun i => 3 * i
  beta_atoms := fun i => 3 * i + 1
  oxygens := fun i => 3 * i + 2
  res_no := fun i => i + 1
  res_no_l := fun r => r
  chain_no := fun _ => 1
  res_info := fun _ => ResInfo.LOCAL

/-- A non-periodic host with atom `a` at `(a, 0, 0)`. -/
def exHost : Host ℚ where
  x := fun a d => if d = 0 then (a : ℚ) else 0
  image := fun _ => 0
  xperiodic := false
  yperiodic := false
  zperiodic := false
  prd := fun _ => 1

/-- All position arrays zero. -/
def exCoords0 : Coords ℚ where
  xca := fun _ _ => 0
  xcb := fun _ _ => 0
  xo := fun _ _ => 0
  xn := fun _ _ => 0
  xcp := fun _ _ => 0
  xh := fun _ _ => 0

/-- The translation by one unit along x. -/
def exShift : Fin 3 → ℚ := fun d => if d = 0 then 1 else 0

/-- The six atoms of a two-residue chain, all owned: residue 1 is made of the
atoms 0 (CA), 1 (CB), 2 (O), residue 2 of the atoms 3, 4, 5; one molecule. -/
def exAtoms6 : Atoms where
  nlocal := 6
  nghost := 0
  inGroup := fun j => j == 0 || j == 3
  inGroup2 := fun j => j == 1 || j == 4
  inGroup3 := fun j => j == 2 || j == 5
  residue := fun j => if j < 3 then 1 else 2
  molecule := fun _ => 1

/-- The single process of the two-residue chain: atom `a` at `(a, 0, 0)`, the
neighbour list holding the pair of the two beta atoms. -/
def exPairView (K : Type) [LinearOrderedField K] : PairView K where
  atoms := exAtoms6
  x := fun a d => if d = 0 then (a : K) else 0
  ilist := [0, 1, 2, 3, 4, 5]
  firstneigh := fun i => if i = 1 then [4] else []
  topo := exTopo2
  xo := fun _ _ => 0
  xn := fun _ _ => 0

/-- Parameters for the two-residue chain "AA" with all three terms on and
`helix_i_diff = d`: one burial well [0, 1] with gamma 1, `burial_kappa = 1`,
`k_burial = 1`; helix distances at their reference values. -/
def exPairParams (K : Type) [LinearOrderedField K] (d : Int) : PairParams K where
  n := 2
  se := fun _ => 'A'
  water_flag := true
  helix_flag := true
  burial_flag := true
  n_wells := 1
  well_flag := fun _ => true
  contact_cutoff := 10
  well := ⟨fun _ => 0, fun _ => 100, fun _ _ _ _ => 1, fun _ _ _ _ => 0⟩
  helix_well := ⟨fun _ => 0, fun _ => 100, fun _ _ _ _ => 1, fun _ _ _ _ => 0⟩
  water_kappa_sigma := 1
  water_treshold := 1
  helix_kappa_sigma := 1
  helix_treshold := 1
  burial_kappa := 1
  burial_ro_min := fun _ => 0
  burial_ro_max := fun _ => 1
  k_burial := 1
  gammas := ⟨false, fun _ => false, fun _ _ _ _ => 1, fun _ _ _ _ => 1,
    fun _ w => if w = 0 then 1 else 0⟩
  helix_i_diff := d
  helix_cutoff := 10
  helix_cutoff_sq := 100
  h4prob := fun _ => 1
  pro_accepter_flag := false
  h4prob_pro_accepter := 0
  helix_NO_zero := 3
  helix_HO_zero := 2
  helix_sigma_NO_sqinv := 1
  helix_sigma_HO_sqinv := 1
  k_helix := 1
  helix_gamma_p := 1
  helix_gamma_w := 1
  rNO := fun _ _ => 3
  rHO := fun _ _ => 2
  other_terms := fun _ _ => none

/-- Three energy slots (total, two terms); the terms add 2 to slot 1 and 3 to slot 2. -/
def exTerms : (Nat → ℚ) → (Nat → ℚ) :=
  fun e k => if k = 1 then e 1 + 2 else if k = 2 then e 2 + 3 else e k

/-- An energy state left by an earlier step. -/
def exEnergySt : EnergySt ℚ where
  energy := fun _ => 7
  energy_all := fun _ => 9
  force_flag := 1

/-- One chain of four residues with sequence numbers 1..4. -/
def exChains4 : Chains where
  n := 4
  nch := 1
  ch_pos := fun _ => 1
  ch_len := fun _ => 4

/-- A process that owns the atoms of residue 1 (atoms 0, 1, 2) and holds as
ghost atoms those of residue 2 (atoms 3, 4, 5) and of residue 4 (atoms 6, 7,
8); it sees no atom of residue 3.  Atom `3q+g` is the CA (g = 0), CB (g = 1)
or O (g = 2). -/
def exAtomsGap : Atoms where
  nlocal := 3
  nghost := 6
  inGroup := fun j => j % 3 == 0
  inGroup2 := fun j => j % 3 == 1
  inGroup3 := fun j => j % 3 == 2
  residue := fun j => if j < 3 then 1 else if j < 6 then 2 else 4
  molecule := fun _ => 1

/-- Chain-term parameters with unit force constants and reference lengths. -/
def exChainParams : ChainParams ℚ where
  k_chain := fun _ => 1
  r_ncb0 := 1
  r_cpcb0 := 1
  r_ncp0 := 1
  coef := default_coef
  se := exSe

/-- Every single-residue term switched on. -/
def exFlags : LocalFlags where
  chain_flag := true
  chi_flag := true
  shake_flag := true
  rama_flag := true
  memb_flag := true

/-- Positions with CB at the origin, N at (3, 0, 0) and C' at (0, 4, 0). -/
def exCoordsChain : Coords ℚ where
  xca := fun _ _ => 0
  xcb := fun _ _ => 0
  xo := fun _ _ => 0
  xn := fun _ d => if d = 0 then 3 else 0
  xcp := fun _ d => if d = 1 then 4 else 0
  xh := fun _ _ => 0

/-- Two chains: residues 1..2 (chain 1) and residues 3..5 (chain 2). -/
def exChains23 : Chains where
  n := 5
  nch := 2
  ch_pos := fun c => if c = 0 then 1 else 3
  ch_len := fun c => if c = 0 then 2 else 3

/-- A process that owns the atoms of residues 1 and 2 (atoms 0..5, chain 1)
and holds as ghost atoms those of residue 4 (atoms 6, 7, 8, chain 2); it sees
no atom of residue 3.  Atom `3q+g` is the CA (g = 0), CB (g = 1) or O (g = 2). -/
def exAtomsTwoChains : Atoms where
  nlocal := 6
  nghost := 3
  inGroup := fun j => j % 3 == 0
  inGroup2 := fun j => j % 3 == 1
  inGroup3 := fun j => j % 3 == 2
  residue := fun j => if j < 3 then 1 else if j < 6 then 2 else 4
  molecule := fun j => if j < 6 then 1 else 2

/-- Constraint parameters with unit strength and reference lengths. -/
def exShakeParams : ShakeParams ℚ where
  epsilon := 1
  k_shake := 1
  r_sh1 := 1
  r_sh2 := 1
  r_sh3 := 1

/-- Positions with the alpha carbon of list entry `i` at `(3i, 0, 0)` and
its oxygen at `(3i, 4, 0)`. -/
def exCoordsShake : Coords ℚ where
  xca := fun i d => if d = 0 then 3 * (i : ℚ) else 0
  xcb := fun _ _ => 0
  xo := fun i d => if d = 0 then 3 * (i : ℚ) else if d = 1 then 4 else 0
  xn := fun _ _ => 0
  xcp := fun _ _ => 0
  xh := fun _ _ => 0

/-- A process holding the residues 1, 2 and 4 of `exAtomsGap` with atom `a`
at `(a, 0, 0)`; the neighbour list holds the three pairs of beta atoms
(1, 4), (1, 7) and (4, 7). -/
def exPairViewGap (K : Type) [LinearOrderedField K] : PairView K where
  atoms := exAtomsGap
  x := fun a d => if d = 0 then (a : K) else 0
  ilist := [0, 1, 2, 3, 4, 5, 6, 7, 8]
  firstneigh := fun i => if i = 1 then [4, 7] else if i = 4 then [7] else []
  topo := exTopo0
  xo := fun _ _ => 0
  xn := fun _ _ => 0

/-- Chain-term parameters whose coefficient triples are affine:
`an + bn + cn = 1` and `ap + bp + cp = 1`. -/
def exChainParamsAffine : ChainParams ℚ where
  k_chain := fun _ => 1
  r_ncb0 := 1
  r_cpcb0 := 1
  r_ncp0 := 1
  coef := { default_coef with an := 1/2, bn := 3/4, cn := -1/4, ap := 1/2, bp := 1/4, cp := 1/4 }
  se := exSe

/-- The parameters `exPairParams` for four residues with `contact_cutoff = 2`
and water gammas that differ by 1/200000, less than `delta`: every
`water_gamma[..][0]` is 1 and every `water_gamma[..][1]` is `1 + 1/200000`. -/
def exPairParamsNear : PairParams ℚ :=
  { exPairParams ℚ 4 with
    n := 4
    contact_cutoff := 2
    gammas := ⟨false, fun _ => false, fun _ _ _ f => if f = 0 then 1 else 1 + 1 / 200000,
      fun _ _ _ _ => 1, fun _ w => if w = 0 then 1 else 0⟩ }

/-- The example table with a single bin width of 10 on [0, 10]: three entries
per cell (`tb_size = 3`); cells 0 and 2 hold energy -1 and force 0, cells 1
and 3 were never allocated. -/
def exTableCoarse : FMTable ℚ := { exTable with tb_dr := 10, tb_size := 3 }

/-- A built table for a pair that no fragment covers: every cell NULL; the
tabulated range is [0, 2] with one bin of width 2 (`tb_size = 3`). -/
def exTableUncovered : FMTable ℚ :=
  { exTable with tb_rmax := 2, tb_dr := 2, tb_size := 3, fm_table := fun _ => none }

/-- One chain of three residues with the sequence numbers 1, 2 and 3. -/
def exChains3 : Chains where
  n := 3
  nch := 1
  ch_pos := fun _ => 1
  ch_len := fun _ => 3

/-- A process that owns the atoms of residue 1 (atoms 0, 1, 2: CA, CB, O) and
of residue 3 (atoms 3, 4, 5) and holds the alpha carbon of residue 2 as the
ghost atom 6; it sees neither the beta atom nor the oxygen of residue 2. -/
def exAtomsNoOxygen : Atoms where
  nlocal := 6
  nghost := 1
  inGroup := fun j => j == 0 || j == 3 || j == 6
  inGroup2 := fun j => j == 1 || j == 4
  inGroup3 := fun j => j == 2 || j == 5
  residue := fun j => if j < 3 then 1 else if j < 6 then 3 else 2
  molecule := fun _ => 1

/-- A stand-in for the double-precision `tanh` with its values where it is
saturated: exactly 1 from 19.1 on and exactly -1 up to -19.1 (there
`1 - tanh x` is below half the spacing of the doubles next to 1); in between
a value in [-1, 1]. -/
def tanhSat (x : ℚ) : ℚ :=
  if 191 / 10 ≤ x then 1 else if x ≤ -(191 / 10) then -1 else x / 20

/-- The parameters of `exPairParams` with `kappa_sigma = 7` and
`treshold = 2.6` for the water term. -/
def exPairParamsSat : PairParams ℚ :=
  { exPairParams ℚ 4 with water_kappa_sigma := 7, water_treshold := 13 / 5 }

/-- The energy the table lookup is documented to add for the pair `(i, j)`:
the sum over the kinds not skipped for glycine of the interpolated energy of
the cell, an unallocated cell counting as zero. -/
def tfm_documented_energy {K : Type} [LinearOrderedField K] [FloorRing K] (sqrt : K → K)
    (T : FMTable K) (R : Residues K) (se : Int → Char) (i j : Int) : K :=
  ((List.range 4).map (fun k =>
    if tfm_skip se (R.res_no i - 1) (R.res_no j - 1) k then 0
    else
      match T.fm_table (4 * T.tb_nbrs * (R.res_no i - 1) +
          4 * (R.res_no j - 1 - (R.res_no i - 1) - T.minSep) + (k : Int)) with
      | none => 0
      | some c =>
        let r := tfm_r sqrt R i j k
        (tfm_interp T.tb_rmin T.tb_dr c (toInt ((r - T.tb_rmin) / T.tb_dr)) r).1)).sum

end FixBackbone

namespace FixBackbone

theorem sqrtQ_mul_self (q : ℚ) : sqrtQ (q * q) = |q| := by
  have h1 : (q * q).num.toNat = q.num.natAbs * q.num.natAbs := by
    rw [Rat.mul_self_num]
    have : q.num * q.num = ((q.num.natAbs * q.num.natAbs : ℕ) : ℤ) := by
      rw [Nat.cast_mul]
      exact (Int.natAbs_mul_self' q.num).symm
    rw [this, Int.toNat_natCast]
  have h2 : (q * q).den = q.den * q.den := Rat.mul_self_den q
  unfold sqrtQ
  rw [h1, h2, Nat.sqrt_eq, Nat.sqrt_eq, Rat.abs_def, Rat.divInt_eq_div]
  simp [Nat.cast_natAbs, Int.cast_abs]

theorem toInt_intCast {K : Type} [LinearOrderedField K] [FloorRing K] (m : Int) (h : 0 ≤ m) :
    toInt ((m : K)) = m := by
  have : (0 : K) ≤ (m : K) := by exact_mod_cast h
  simp [toInt, this]

theorem tfm_interp_node {K : Type} [LinearOrderedField K] (tb_rmin tb_dr : K) (c : Int → TBV K)
    (ir : Int) (hdr : 0 < tb_dr) :
    tfm_interp tb_rmin tb_dr c ir (tb_rmin + (ir : K) * tb_dr) = ((c ir).energy, (c ir).force) := by
  have hne : tb_dr ≠ 0 := ne_of_gt hdr
  have hden : tb_rmin + ((ir + 1 : Int) : K) * tb_dr - (tb_rmin + (ir : K) * tb_dr) = tb_dr := by
    push_cast
    ring
  simp only [tfm_interp, hden]
  refine Prod.ext ?_ ?_
  · show _ / tb_dr = _
    rw [div_eq_iff hne]
    push_cast
    ring
  · show _ / tb_dr = _
    rw [div_eq_iff hne]
    push_cast
    ring

theorem tfm_iter_add {K : Type} [LinearOrderedField K] [FloorRing K] (sqrt : K → K)
    (T : FMTable K) (R : Residues K) (se : Int → Char) (i j : Int) (a b k : Nat)
    (st : FMState K) :
    tfm_iter sqrt T R se i j (a + b) k st =
      match tfm_iter sqrt T R se i j a k st with
      | .error e => .error e
      | .ok (.ret s) => .ok (.ret s)
      | .ok (.next s) => tfm_iter sqrt T R se i j b (k + a) s := by
  induction a generalizing k st with
  | zero => simp [tfm_iter]
  | succ a ih =>
    have e : a + 1 + b = (a + b) + 1 := by omega
    rw [e]
    simp only [tfm_iter]
    cases h : tfm_kind sqrt T R se i j k st with
    | error e => simp
    | ok c =>
      cases c with
      | ret s => simp
      | next s =>
        simp only
        rw [ih]
        have e2 : k + 1 + a = k + (a + 1) := by omega
        rw [e2]

/-- C2. Querying the table exactly at a node `tb_rmin + ir*tb_dr`, `0 ≤ ir ≤ tb_size-2`,
of an allocated cell reproduces the stored values: the interpolation yields
`V = fm_table[itb][ir].energy` and `ff = fm_table[itb][ir].force`, and (the
node lying inside the tabulated range) the loop body adds exactly these to
the energy and to the two forces. -/
theorem table_fragment_memory_node_exact {K : Type} [LinearOrderedField K] [FloorRing K]
    (sqrt : K → K) (T : FMTable K) (R : Residues K) (se : Int → Char) (i j : Int) (k : Nat)
    (st : FMState K) (c : Int → TBV K) (ir : Int)
    (hdr : 0 < T.tb_dr) (h0 : 0 ≤ ir) (h1 : ir ≤ T.tb_size - 2)
    (hskip : tfm_skip se (R.res_no i - 1) (R.res_no j - 1) k = false)
    (hcell : T.fm_table (4 * T.tb_nbrs * (R.res_no i - 1) +
        4 * (R.res_no j - 1 - (R.res_no i - 1) - T.minSep) + (k : Int)) = some c)
    (hr : tfm_r sqrt R i j k = T.tb_rmin + (ir : K) * T.tb_dr) :
    tfm_interp T.tb_rmin T.tb_dr c
        (toInt ((tfm_r sqrt R i j k - T.tb_rmin) / T.tb_dr)) (tfm_r sqrt R i j k)
      = ((c ir).energy, (c ir).force) ∧
    (tfm_r sqrt R i j k ≤ T.tb_rmax →
      tfm_kind sqrt T R se i j k st = .ok (.next
        { energy := st.energy + (c ir).energy
          f := addForce (addForce st.f (iatom_of R i k) (c ir).force
                  (fun d => xi_of R i k d - xj_of R j k d))
                (jatom_of R j k) (-(c ir).force) (fun d => xi_of R i k d - xj_of R j k d) })) := by
  have hne : T.tb_dr ≠ 0 := ne_of_gt hdr
  have hq : (tfm_r sqrt R i j k - T.tb_rmin) / T.tb_dr = (ir : K) := by
    rw [hr, div_eq_iff hne]
    ring
  have hir : toInt ((tfm_r sqrt R i j k - T.tb_rmin) / T.tb_dr) = ir := by
    rw [hq]
    exact toInt_intCast ir h0
  have hint : tfm_interp T.tb_rmin T.tb_dr c ir (tfm_r sqrt R i j k)
      = ((c ir).energy, (c ir).force) := by
    rw [hr]
    exact tfm_interp_node T.tb_rmin T.tb_dr c ir hdr
  refine ⟨by rw [hir]; exact hint, ?_⟩
  intro hmax
  have hmin : T.tb_rmin ≤ tfm_r sqrt R i j k := by
    rw [hr]
    have : (0 : K) ≤ (ir : K) * T.tb_dr :=
      mul_nonneg (by exact_mod_cast h0) (le_of_lt hdr)
    linarith
  have hA : ¬ (ir < 0 ∨ T.tb_size ≤ ir) := by omega
  have hB : ¬ (T.tb_size ≤ ir + 1) := by omega
  simp only [tfm_kind, hskip, hcell, hir, hint, hmin, hmax, hA, hB, and_self, if_true, if_false,
    Bool.false_eq_true]

/-- Witness for C2: the node `r = 3` of the cell of kind 0 in the example table. -/
theorem table_fragment_memory_node_exact_witness :
    tfm_interp exTable.tb_rmin exTable.tb_dr (fun _ => ⟨-1, 0⟩)
        (toInt ((tfm_r sqrtQ (exResidues ℚ) 0 1 0 - exTable.tb_rmin) / exTable.tb_dr))
        (tfm_r sqrtQ (exResidues ℚ) 0 1 0)
      = ((-1 : ℚ), (0 : ℚ)) ∧
    (tfm_r sqrtQ (exResidues ℚ) 0 1 0 ≤ exTable.tb_rmax →
      tfm_kind sqrtQ exTable (exResidues ℚ) exSe 0 1 0 ⟨0, fun _ _ => 0⟩ = .ok (.next
        { energy := 0 + (-1)
          f := addForce (addForce (fun _ _ => 0) (iatom_of (exResidues ℚ) 0 0) 0
                  (fun d => xi_of (exResidues ℚ) 0 0 d - xj_of (exResidues ℚ) 1 0 d))
                (jatom_of (exResidues ℚ) 1 0) (-0) (fun d => xi_of (exResidues ℚ) 0 0 d - xj_of (exResidues ℚ) 1 0 d) })) :=
  table_fragment_memory_node_exact sqrtQ exTable (exResidues ℚ) exSe 0 1 0 ⟨0, fun _ _ => 0⟩
    (fun _ => ⟨-1, 0⟩) 3 (by norm_num [exTable]) (by norm_num) (by norm_num [exTable])
    (by simp [tfm_skip, exSe]) (by simp [exTable, exResidues])
    (by simp [tfm_r, exResidues, exTable, xi_of, xj_of, iatom_type, jatom_type, sqrtQ_mul_self])

/-- C10. Inside the fragment window, with the pair's cell allocated and the
required atoms present, as soon as the loop of `table_fragment_memory`
reaches a kind `k` that is not skipped for glycine and whose atom-pair
distance is below `tb_rmin` or above `tb_rmax`, the call ends in the fatal
error "Table Fragment Memory: r is out of computed range." -/
theorem table_fragment_memory_out_of_range_fatal {K : Type} [LinearOrderedField K]
    [FloorRing K] (sqrt : K → K) (T : FMTable K) (R : Residues K) (se : Int → Char)
    (i j : Int) (k : Nat) (st s : FMState K) (c0 : Int → TBV K)
    (hmin : T.minSep ≤ R.res_no j - 1 - (R.res_no i - 1))
    (hmax : T.maxSep ≠ -1 → R.res_no j - 1 - (R.res_no i - 1) ≤ T.maxSep)
    (hbase : T.fm_table (4 * T.tb_nbrs * (R.res_no i - 1) +
        4 * (R.res_no j - 1 - (R.res_no i - 1) - T.minSep)) = some c0)
    (hca : R.alpha_carbons i ≠ -1 ∧ R.alpha_carbons j ≠ -1)
    (hcbi : se (R.res_no i - 1) ≠ 'G' → R.beta_atoms i ≠ -1)
    (hcbj : se (R.res_no j - 1) ≠ 'G' → R.beta_atoms j ≠ -1)
    (hk : k < 4)
    (hreach : tfm_iter sqrt T R se i j k 0 st = .ok (.next s))
    (hskip : tfm_skip se (R.res_no i - 1) (R.res_no j - 1) k = false)
    (hr : tfm_r sqrt R i j k < T.tb_rmin ∨ T.tb_rmax < tfm_r sqrt R i j k) :
    table_fragment_memory sqrt T R se i j st = .error .fmTableROutOfRange := by
  have hrange : ¬ (T.tb_rmin ≤ tfm_r sqrt R i j k ∧ tfm_r sqrt R i j k ≤ T.tb_rmax) := by
    rintro ⟨h1, h2⟩
    rcases hr with h | h
    · exact absurd h1 (not_le.mpr h)
    · exact absurd h2 (not_le.mpr h)
  have hkind : tfm_kind sqrt T R se i j k s = .error .fmTableROutOfRange := by
    simp only [tfm_kind, hskip, hrange, if_false, Bool.false_eq_true]
  obtain ⟨m, hm⟩ : ∃ m, 4 = k + (m + 1) := ⟨3 - k, by omega⟩
  have hloop : tfm_iter sqrt T R se i j 4 0 st = .error .fmTableROutOfRange := by
    rw [hm, tfm_iter_add, hreach]
    simp only [tfm_iter, Nat.zero_add, hkind]
  have h1 : ¬ (R.res_no j - 1 - (R.res_no i - 1) < T.minSep) := not_lt.mpr hmin
  have h2 : ¬ (T.maxSep ≠ -1 ∧ R.res_no j - 1 - (R.res_no i - 1) > T.maxSep) := by
    rintro ⟨a, b⟩
    exact absurd (hmax a) (not_le.mpr b)
  have h3 : ¬ (R.alpha_carbons i = -1 ∨ R.alpha_carbons j = -1 ∨
      (se (R.res_no i - 1) ≠ 'G' ∧ R.beta_atoms i = -1) ∨
      (se (R.res_no j - 1) ≠ 'G' ∧ R.beta_atoms j = -1)) := by
    rintro (h | h | ⟨a, b⟩ | ⟨a, b⟩)
    · exact hca.1 h
    · exact hca.2 h
    · exact hcbi a b
    · exact hcbj a b
  simp only [table_fragment_memory, h1, h2, h3, hbase, hloop, if_false]

/-- Witness for C10: in the table cut to [0, 2] the CA-CA distance 3 of the pair
of `exResidues` is out of range. -/
theorem table_fragment_memory_out_of_range_fatal_witness :
    table_fragment_memory sqrtQ exTableShort (exResidues ℚ) exSe 0 1 ⟨0, fun _ _ => 0⟩
      = .error .fmTableROutOfRange :=
  table_fragment_memory_out_of_range_fatal sqrtQ exTableShort (exResidues ℚ) exSe 0 1 0
    ⟨0, fun _ _ => 0⟩ ⟨0, fun _ _ => 0⟩ (fun _ => ⟨-1, 0⟩)
    (by simp [exTableShort, exTable, exResidues])
    (by simp [exTableShort, exTable])
    (by simp [exTableShort, exTable, exResidues])
    (by simp [exResidues])
    (by simp [exResidues])
    (by simp [exResidues])
    (by norm_num)
    (by simp [tfm_iter])
    (by simp [tfm_skip, exSe])
    (by
      right
      simp [tfm_r, exResidues, exTableShort, exTable, xi_of, xj_of, iatom_type, jatom_type,
        sqrtQ_mul_self]
      norm_num)

/-- C1 (evaluation at the failing input). In the example table the cell of
kind 1 (CA_i - CB_j) was never allocated while the cell of kind 2
(CB_i - CA_j) holds energy -1: `table_fragment_memory` returns at kind 1, so
only the kind-0 energy -1 is added, whereas the documented sum over the
kinds, an unallocated cell counting as zero, is -2. -/
theorem table_fragment_memory_stops_at_unallocated_cell :
    (∃ s, table_fragment_memory sqrtQ exTable (exResidues ℚ) exSe 0 1 ⟨0, fun _ _ => 0⟩ = .ok s ∧
        s.energy = -1) ∧
      tfm_documented_energy sqrtQ exTable (exResidues ℚ) exSe 0 1 = -2 := by
  constructor
  · simp [table_fragment_memory, tfm_iter, tfm_kind, tfm_skip, tfm_r, tfm_interp, exTable,
      exResidues, exSe, xi_of, xj_of, iatom_of, jatom_of, iatom_type, jatom_type, toInt,
      sqrtQ_mul_self]
    norm_num
  · simp [tfm_documented_energy, List.range, List.range.loop, tfm_skip, tfm_r, tfm_interp,
      exTable, exResidues, exSe, xi_of, xj_of, iatom_type, jatom_type, toInt, sqrtQ_mul_self]
    norm_num

/-- C8 (evaluation at the failing input). With 4 cells of 2 bins each file
must hold 8 values; files holding only the 2 values of the first row are
accepted: no format error is raised and the truncated table is returned. -/
theorem read_fragment_memory_table_accepts_truncated :
    ∃ tbl, read_fragment_memory_table (⟨0, 0⟩ : TBV ℚ) 1 exEmptyTable [5, 6] [7, 8] = .ok tbl ∧
      tbl 1 = none := by
  simp [read_fragment_memory_table, read_values, read_energy_step, read_force_step,
    exEmptyTable, Int.tmod]

/-- C9 (counterexample). For a table without cells (`tb_nbrs = 0`), and for
a table of 4 cells whose `tb_size` is negative, the two written value
sequences are empty and reading them back raises the format error. -/
theorem fm_table_reload_rejects_empty_files :
    read_fragment_memory_table (⟨0, 0⟩ : TBV ℚ) 3 exNoCellTable
        (output_fragment_memory_table (fun _ => false) 3 exNoCellTable).1
        (output_fragment_memory_table (fun _ => false) 3 exNoCellTable).2
      = .error .fmTableFormat ∧
    read_fragment_memory_table (⟨0, 0⟩ : TBV ℚ) 1 exNegSizeTable
        (output_fragment_memory_table (fun _ => false) 1 exNegSizeTable).1
        (output_fragment_memory_table (fun _ => false) 1 exNegSizeTable).2
      = .error .fmTableFormat := by
  constructor
  · simp [read_fragment_memory_table, output_fragment_memory_table, read_values, exNoCellTable]
  · simp [read_fragment_memory_table, output_fragment_memory_table, read_values,
      exNegSizeTable]

theorem flat_length {α : Type} (g : Nat → Nat → α) (N S : Nat) :
    ((List.range N).flatMap (fun a => (List.range S).map (g a))).length = N * S := by
  induction N with
  | zero => simp
  | succ N ih =>
    rw [List.range_succ, List.flatMap_append, List.length_append, ih]
    simp [List.flatMap_cons, Nat.succ_mul]

theorem flat_getElem? {α : Type} (g : Nat → Nat → α) (N S a b : Nat) (ha : a < N)
    (hb : b < S) :
    ((List.range N).flatMap (fun a => (List.range S).map (g a)))[a * S + b]? = some (g a b) := by
  induction N with
  | zero => omega
  | succ N ih =>
    rw [List.range_succ, List.flatMap_append]
    by_cases h : a < N
    · have hlt : a * S + b < N * S := by
        have : (a + 1) * S ≤ N * S := Nat.mul_le_mul_right S h
        rw [Nat.succ_mul] at this
        omega
      rw [List.getElem?_append_left (by rw [flat_length]; exact hlt)]
      exact ih h
    · have hN : a = N := by omega
      subst hN
      rw [List.getElem?_append_right (by rw [flat_length]; omega), flat_length]
      simp [List.flatMap_cons, List.getElem?_map, List.getElem?_range hb]

theorem read_cursor (N S : Int) (hS : 0 < S) (ir itb m : Int) (hm : itb * S + ir = m)
    (hitb : 0 ≤ itb) (hir0 : 0 ≤ ir) (hirS : ir ≤ S) (hlt : m < N * S) :
    ∃ w : Bool, (ir != 0 && Int.tmod ir S == 0) = w ∧
      0 ≤ (if w then 0 else ir) ∧ (if w then 0 else ir) < S ∧
      0 ≤ (if w then itb + 1 else itb) ∧ (if w then itb + 1 else itb) < N ∧
      (if w then itb + 1 else itb) * S + (if w then 0 else ir) = m := by
  by_cases hw : ir = S
  · refine ⟨true, ?_, ?_⟩
    · subst hw
      have : ir ≠ 0 := ne_of_gt hS
      simp [Int.tmod_self, this]
    · subst hw
      have h1 : itb + 1 < N := by
        by_contra hc
        have : N ≤ itb + 1 := not_lt.mp hc
        nlinarith
      refine ⟨by simp, by simpa using hS, by simp; omega, by simpa using h1, ?_⟩
      simp only [if_true]
      rw [← hm]
      ring
  · have hlt2 : ir < S := lt_of_le_of_ne hirS hw
    refine ⟨false, ?_, ?_⟩
    · by_cases h0 : ir = 0
      · simp [h0]
      · have : Int.tmod ir S = ir := Int.tmod_eq_of_lt hir0 hlt2
        simp [this, h0]
    · have h1 : itb < N := by
        by_contra hc
        have : N ≤ itb := not_lt.mp hc
        nlinarith
      refine ⟨by simpa using hir0, by simpa using hlt2, by simpa using hitb,
        by simpa using h1, ?_⟩
      simpa using hm

theorem coords_unique (S a b a' b' : Int) (h0 : 0 ≤ b) (h1 : b < S)
    (h0' : 0 ≤ b') (h1' : b' < S) (h : a * S + b = a' * S + b') : a = a' ∧ b = b' := by
  have ha : a = a' := by
    rcases lt_trichotomy a a' with h2 | h2 | h2
    · nlinarith
    · exact h2
    · nlinarith
  subst ha
  exact ⟨rfl, by linarith⟩

theorem read_energy_step_ok {K : Type} (fresh : TBV K) (N S : Int) (hS : 0 < S)
    (g : Int → Int → K) (s : ReadSt K) (m : Int) (val : K)
    (hm : s.itb * S + s.ir = m) (hitb : 0 ≤ s.itb) (hir0 : 0 ≤ s.ir) (hirS : s.ir ≤ S)
    (hlt : m < N * S)
    (hval : ∀ a b, 0 ≤ a → 0 ≤ b → b < S → a * S + b = m → val = g a b)
    (hE : ∀ a b, 0 ≤ a → 0 ≤ b → b < S → a * S + b < m →
      ∃ c, s.fm_table a = some c ∧ (c b).energy = g a b) :
    ∃ s', read_energy_step fresh N S s val = .ok s' ∧ s'.itb * S + s'.ir = m + 1 ∧
      0 ≤ s'.itb ∧ 1 ≤ s'.ir ∧ s'.ir ≤ S ∧
      (∀ a b, 0 ≤ a → 0 ≤ b → b < S → a * S + b < m + 1 →
        ∃ c, s'.fm_table a = some c ∧ (c b).energy = g a b) := by
  obtain ⟨w, hw, h1, h2, h3, h4, h5⟩ := read_cursor N S hS s.ir s.itb m hm hitb hir0 hirS hlt
  generalize hir' : (if w = true then (0 : Int) else s.ir) = ir' at h1 h2 h5
  generalize hitb' : (if w = true then s.itb + 1 else s.itb) = itb' at h3 h4 h5
  have hnot : ¬ (N ≤ itb') := not_le.mpr h4
  refine ⟨_, by simp only [read_energy_step, hw, hir', hitb', hnot, if_false]; rfl,
    ?_, h3, by show 1 ≤ ir' + 1; omega, by show ir' + 1 ≤ S; omega, ?_⟩
  · show itb' * S + (ir' + 1) = m + 1
    linarith
  · intro a b ha hb0 hb1 hab
    show ∃ c, (if a = itb' then _ else s.fm_table a) = some c ∧ _
    by_cases hcur : a * S + b = m
    · obtain ⟨e1, e2⟩ := coords_unique S a b itb' ir' hb0 hb1 h1 h2 (by rw [hcur, h5])
      subst e1 e2
      refine ⟨_, by rw [if_pos rfl], ?_⟩
      simp only [if_true]
      exact hval a b ha hb0 hb1 hcur
    · have hlt' : a * S + b < m := by omega
      obtain ⟨c, hc1, hc2⟩ := hE a b ha hb0 hb1 hlt'
      by_cases hai : a = itb'
      · subst hai
        have hbne : b ≠ ir' := by
          intro hb
          subst hb
          exact hcur h5
        refine ⟨_, by rw [if_pos rfl], ?_⟩
        simp only [hc1, hbne, if_false]
        exact hc2
      · exact ⟨c, by rw [if_neg hai]; exact hc1, hc2⟩

theorem read_force_step_ok {K : Type} (N S : Int) (hS : 0 < S)
    (ge gf : Int → Int → K) (s : ReadSt K) (m : Int) (val : K)
    (hm : s.itb * S + s.ir = m) (hitb : 0 ≤ s.itb) (hir0 : 0 ≤ s.ir) (hirS : s.ir ≤ S)
    (hlt : m < N * S)
    (hval : ∀ a b, 0 ≤ a → 0 ≤ b → b < S → a * S + b = m → val = gf a b)
    (hE : ∀ a b, 0 ≤ a → a < N → 0 ≤ b → b < S →
      ∃ c, s.fm_table a = some c ∧ (c b).energy = ge a b)
    (hF : ∀ a b, 0 ≤ a → 0 ≤ b → b < S → a * S + b < m →
      ∃ c, s.fm_table a = some c ∧ (c b).force = gf a b) :
    ∃ s', read_force_step N S s val = .ok s' ∧ s'.itb * S + s'.ir = m + 1 ∧
      0 ≤ s'.itb ∧ 1 ≤ s'.ir ∧ s'.ir ≤ S ∧
      (∀ a b, 0 ≤ a → a < N → 0 ≤ b → b < S →
        ∃ c, s'.fm_table a = some c ∧ (c b).energy = ge a b) ∧
      (∀ a b, 0 ≤ a → 0 ≤ b → b < S → a * S + b < m + 1 →
        ∃ c, s'.fm_table a = some c ∧ (c b).force = gf a b) := by
  obtain ⟨w, hw, h1, h2, h3, h4, h5⟩ := read_cursor N S hS s.ir s.itb m hm hitb hir0 hirS hlt
  generalize hir' : (if w = true then (0 : Int) else s.ir) = ir' at h1 h2 h5
  generalize hitb' : (if w = true then s.itb + 1 else s.itb) = itb' at h3 h4 h5
  have hnot : ¬ (N ≤ itb') := not_le.mpr h4
  obtain ⟨c0, hc0, -⟩ := hE itb' 0 h3 h4 le_rfl hS
  refine ⟨_, by simp only [read_force_step, hw, hir', hitb', hnot, if_false, hc0]; rfl,
    ?_, h3, by show 1 ≤ ir' + 1; omega, by show ir' + 1 ≤ S; omega, ?_, ?_⟩
  · show itb' * S + (ir' + 1) = m + 1
    linarith
  · intro a b ha haN hb0 hb1
    show ∃ c, (if a = itb' then _ else s.fm_table a) = some c ∧ _
    obtain ⟨c, hc1, hc2⟩ := hE a b ha haN hb0 hb1
    by_cases hai : a = itb'
    · subst hai
      have hcc : c = c0 := by
        rw [hc1] at hc0
        exact Option.some.inj hc0
      subst hcc
      refine ⟨_, by rw [if_pos rfl], ?_⟩
      by_cases hb : b = ir'
      · simp only [hb, if_true]
        rw [← hb]
        exact hc2
      · simp only [hb, if_false]
        exact hc2
    · exact ⟨c, by rw [if_neg hai]; exact hc1, hc2⟩
  · intro a b ha hb0 hb1 hab
    show ∃ c, (if a = itb' then _ else s.fm_table a) = some c ∧ _
    by_cases hcur : a * S + b = m
    · obtain ⟨e1, e2⟩ := coords_unique S a b itb' ir' hb0 hb1 h1 h2 (by rw [hcur, h5])
      subst e1 e2
      refine ⟨_, by rw [if_pos rfl], ?_⟩
      simp only [if_true]
      exact hval a b ha hb0 hb1 hcur
    · have hlt' : a * S + b < m := by omega
      obtain ⟨c, hc1, hc2⟩ := hF a b ha hb0 hb1 hlt'
      by_cases hai : a = itb'
      · subst hai
        have hcc : c = c0 := by
          rw [hc1] at hc0
          exact Option.some.inj hc0
        subst hcc
        have hbne : b ≠ ir' := by
          intro hb
          subst hb
          exact hcur h5
        refine ⟨_, by rw [if_pos rfl], ?_⟩
        simp only [hbne, if_false]
        exact hc2
      · exact ⟨c, by rw [if_neg hai]; exact hc1, hc2⟩

theorem read_energy_values_ok {K : Type} (fresh : TBV K) (N S : Int) (hS : 0 < S)
    (g : Int → Int → K) (vals : List K) (hlen : (vals.length : Int) ≤ N * S)
    (hvals : ∀ a b : Int, 0 ≤ a → 0 ≤ b → b < S → a * S + b < vals.length →
      vals[(a * S + b).toNat]? = some (g a b)) :
    ∀ (d m : Nat) (s : ReadSt K), m + d = vals.length → s.itb * S + s.ir = m → 0 ≤ s.itb →
      0 ≤ s.ir → s.ir ≤ S → (0 < m → 1 ≤ s.ir) →
      (∀ a b, 0 ≤ a → 0 ≤ b → b < S → a * S + b < m →
        ∃ c, s.fm_table a = some c ∧ (c b).energy = g a b) →
      ∃ s', read_values (read_energy_step fresh N S) (vals.drop m) s = .ok s' ∧
        s'.itb * S + s'.ir = vals.length ∧ 0 ≤ s'.itb ∧ 0 ≤ s'.ir ∧ s'.ir ≤ S ∧
        (0 < vals.length → 1 ≤ s'.ir) ∧
        (∀ a b, 0 ≤ a → 0 ≤ b → b < S → a * S + b < vals.length →
          ∃ c, s'.fm_table a = some c ∧ (c b).energy = g a b) := by
  intro d
  induction d with
  | zero =>
    intro m s hmd hm hitb hir0 hirS hpos hE
    have hml : m = vals.length := by omega
    subst hml
    rw [List.drop_length]
    exact ⟨s, rfl, hm, hitb, hir0, hirS, hpos, hE⟩
  | succ d ih =>
    intro m s hmd hm hitb hir0 hirS hpos hE
    have hml : m < vals.length := by omega
    rw [List.drop_eq_getElem_cons hml]
    have hlt : (m : Int) < N * S := by
      have : (m : Int) < (vals.length : Int) := by exact_mod_cast hml
      omega
    have hval : ∀ a b, 0 ≤ a → 0 ≤ b → b < S → a * S + b = (m : Int) → vals[m] = g a b := by
      intro a b ha hb0 hb1 hab
      have h1 := hvals a b ha hb0 hb1 (by rw [hab]; exact_mod_cast hml)
      rw [hab, Int.toNat_natCast, List.getElem?_eq_getElem hml] at h1
      exact Option.some.inj h1
    obtain ⟨s1, hs1, hm1, hitb1, hir1, hirS1, hE1⟩ :=
      read_energy_step_ok fresh N S hS g s m vals[m] hm hitb hir0 hirS hlt hval hE
    obtain ⟨s2, hs2, rest⟩ := ih (m + 1) s1 (by omega) (by push_cast; exact hm1) hitb1
      (by omega) hirS1 (fun _ => hir1) (by push_cast; exact hE1)
    exact ⟨s2, by simp only [read_values, hs1]; exact hs2, rest⟩

theorem read_force_values_ok {K : Type} (N S : Int) (hS : 0 < S)
    (ge gf : Int → Int → K) (vals : List K) (hlen : (vals.length : Int) ≤ N * S)
    (hvals : ∀ a b : Int, 0 ≤ a → 0 ≤ b → b < S → a * S + b < vals.length →
      vals[(a * S + b).toNat]? = some (gf a b)) :
    ∀ (d m : Nat) (s : ReadSt K), m + d = vals.length → s.itb * S + s.ir = m → 0 ≤ s.itb →
      0 ≤ s.ir → s.ir ≤ S → (0 < m → 1 ≤ s.ir) →
      (∀ a b, 0 ≤ a → a < N → 0 ≤ b → b < S →
        ∃ c, s.fm_table a = some c ∧ (c b).energy = ge a b) →
      (∀ a b, 0 ≤ a → 0 ≤ b → b < S → a * S + b < m →
        ∃ c, s.fm_table a = some c ∧ (c b).force = gf a b) →
      ∃ s', read_values (read_force_step N S) (vals.drop m) s = .ok s' ∧
        s'.itb * S + s'.ir = vals.length ∧ 0 ≤ s'.itb ∧ 0 ≤ s'.ir ∧ s'.ir ≤ S ∧
        (0 < vals.length → 1 ≤ s'.ir) ∧
        (∀ a b, 0 ≤ a → a < N → 0 ≤ b → b < S →
          ∃ c, s'.fm_table a = some c ∧ (c b).energy = ge a b) ∧
        (∀ a b, 0 ≤ a → 0 ≤ b → b < S → a * S + b < vals.length →
          ∃ c, s'.fm_table a = some c ∧ (c b).force = gf a b) := by
  intro d
  induction d with
  | zero =>
    intro m s hmd hm hitb hir0 hirS hpos hE hF
    have hml : m = vals.length := by omega
    subst hml
    rw [List.drop_length]
    exact ⟨s, rfl, hm, hitb, hir0, hirS, hpos, hE, hF⟩
  | succ d ih =>
    intro m s hmd hm hitb hir0 hirS hpos hE hF
    have hml : m < vals.length := by omega
    rw [List.drop_eq_getElem_cons hml]
    have hlt : (m : Int) < N * S := by
      have : (m : Int) < (vals.length : Int) := by exact_mod_cast hml
      omega
    have hval : ∀ a b, 0 ≤ a → 0 ≤ b → b < S → a * S + b = (m : Int) → vals[m] = gf a b := by
      intro a b ha hb0 hb1 hab
      have h1 := hvals a b ha hb0 hb1 (by rw [hab]; exact_mod_cast hml)
      rw [hab, Int.toNat_natCast, List.getElem?_eq_getElem hml] at h1
      exact Option.some.inj h1
    obtain ⟨s1, hs1, hm1, hitb1, hir1, hirS1, hE1, hF1⟩ :=
      read_force_step_ok N S hS ge gf s m vals[m] hm hitb hir0 hirS hlt hval hE hF
    obtain ⟨s2, hs2, rest⟩ := ih (m + 1) s1 (by omega) (by push_cast; exact hm1) hitb1
      (by omega) hirS1 (fun _ => hir1) hE1 (by push_cast; exact hF1)
    exact ⟨s2, by simp only [read_values, hs1]; exact hs2, rest⟩

theorem flat_int_getElem? {α : Type} (g : Int → Int → α) (N S a b : Int)
    (ha0 : 0 ≤ a) (haN : a < N) (hb0 : 0 ≤ b) (hb1 : b < S) :
    ((List.range N.toNat).flatMap
        (fun (x : Nat) => (List.range S.toNat).map
          (fun (y : Nat) => g (x : Int) (y : Int))))[(a * S + b).toNat]?
      = some (g a b) := by
  have h := flat_getElem? (fun (x y : Nat) => g (x : Int) (y : Int)) N.toNat S.toNat a.toNat b.toNat
    (by omega) (by omega)
  have e : (a * S + b).toNat = a.toNat * S.toNat + b.toNat := by
    have h1 : ((a.toNat * S.toNat + b.toNat : Nat) : Int) = a * S + b := by
      push_cast
      rw [Int.toNat_of_nonneg ha0, Int.toNat_of_nonneg (by omega : 0 ≤ S),
        Int.toNat_of_nonneg hb0]
    rw [← h1, Int.toNat_natCast]
  rw [e, h]
  simp only [Int.toNat_of_nonneg ha0, Int.toNat_of_nonneg hb0]

theorem flat_int_length {α : Type} (g : Int → Int → α) (N S : Int) (hN : 0 ≤ N) (hS : 0 ≤ S) :
    ((((List.range N.toNat).flatMap
        (fun (x : Nat) => (List.range S.toNat).map
          (fun (y : Nat) => g (x : Int) (y : Int)))).length : Nat) : Int)
      = N * S := by
  rw [flat_length (fun (x y : Nat) => g (x : Int) (y : Int))]
  push_cast
  rw [Int.toNat_of_nonneg hN, Int.toNat_of_nonneg hS]

theorem out_energy_eq {K : Type} [LinearOrderedField K] (isinf : K → Bool) (T : FMTable K)
    (itb ir : Int)
    (h : ∀ c, T.fm_table itb = some c → isinf (c ir).energy = false) :
    out_energy isinf T itb ir = stored_energy T itb ir := by
  unfold out_energy stored_energy
  cases hc : T.fm_table itb with
  | none => simp
  | some c => simp [h c hc]

theorem out_force_eq {K : Type} [LinearOrderedField K] (isinf : K → Bool) (T : FMTable K)
    (itb ir : Int)
    (h : ∀ c, T.fm_table itb = some c → isinf (c ir).force = false) :
    out_force isinf T itb ir = stored_force T itb ir := by
  unfold out_force stored_force
  cases hc : T.fm_table itb with
  | none => simp
  | some c => simp [h c hc]

theorem read_final_check (N S ir itb : Int) (hS : 0 < S)
    (hm : itb * S + ir = N * S) (hir1 : 1 ≤ ir) (hirS : ir ≤ S) :
    ¬ (itb ≠ N - 1 ∧ ir ≠ S) := by
  have h : itb = N - 1 := by
    rcases lt_trichotomy itb (N - 1) with h | h | h
    · nlinarith
    · exact h
    · nlinarith
  exact fun hc => hc.1 h

/-- C9 (amended). Round trip of the table at the level of value sequences,
for a table with at least one cell (`4*n*tb_nbrs ≥ 1`, `tb_size ≥ 0`) none of
whose values is infinite: reading the two sequences written by
`output_fragment_memory_table` into the all-unallocated table raises no
error, and for every cell `itb < 4*n*tb_nbrs` and bin `ir < tb_size` the
reloaded cell is allocated and holds the original energy and force (zeros
for an originally unallocated cell); these are the values at position
`itb*tb_size + ir` of the files, i.e. value `v` lands in cell `v div tb_size`,
bin `v mod tb_size`. -/
theorem fm_table_round_trip {K : Type} [LinearOrderedField K] (isinf : K → Bool)
    (fresh : TBV K) (n : Int) (T : FMTable K)
    (hcells : 0 < 4 * n * T.tb_nbrs) (hsize : 0 ≤ T.tb_size)
    (hfin : ∀ itb ir c, T.fm_table itb = some c → 0 ≤ itb → itb < 4 * n * T.tb_nbrs →
      0 ≤ ir → ir < T.tb_size → isinf (c ir).energy = false ∧ isinf (c ir).force = false) :
    ∃ tbl, read_fragment_memory_table fresh n (unallocated T)
        (output_fragment_memory_table isinf n T).1 (output_fragment_memory_table isinf n T).2
          = .ok tbl ∧
      ∀ itb ir, 0 ≤ itb → itb < 4 * n * T.tb_nbrs → 0 ≤ ir → ir < T.tb_size →
        ∃ c', tbl itb = some c' ∧
          (c' ir).energy = stored_energy T itb ir ∧
          (c' ir).force = stored_force T itb ir ∧
          (output_fragment_memory_table isinf n T).1[(itb * T.tb_size + ir).toNat]?
            = some (c' ir).energy ∧
          (output_fragment_memory_table isinf n T).2[(itb * T.tb_size + ir).toNat]?
            = some (c' ir).force := by
  generalize hN : 4 * n * T.tb_nbrs = N at hcells hfin
  generalize hS' : T.tb_size = S at hsize hfin
  have hE : (output_fragment_memory_table isinf n T).1 =
      (List.range N.toNat).flatMap (fun (x : Nat) => (List.range S.toNat).map
        (fun (y : Nat) => out_energy isinf T (x : Int) (y : Int))) := by
    simp only [output_fragment_memory_table, hN, hS']
  have hF : (output_fragment_memory_table isinf n T).2 =
      (List.range N.toNat).flatMap (fun (x : Nat) => (List.range S.toNat).map
        (fun (y : Nat) => out_force isinf T (x : Int) (y : Int))) := by
    simp only [output_fragment_memory_table, hN, hS']
  generalize (output_fragment_memory_table isinf n T).1 = E at hE
  generalize (output_fragment_memory_table isinf n T).2 = F at hF
  have hElen : (E.length : Int) = N * S := by
    rw [hE]
    exact flat_int_length (out_energy isinf T) N S (le_of_lt hcells) hsize
  have hFlen : (F.length : Int) = N * S := by
    rw [hF]
    exact flat_int_length (out_force isinf T) N S (le_of_lt hcells) hsize
  rcases eq_or_lt_of_le hsize with h0 | hS
  · -- no bins: both files are empty
    have hE0 : E = [] := by
      apply List.eq_nil_of_length_eq_zero
      have : (E.length : Int) = 0 := by rw [hElen, ← h0, mul_zero]
      exact_mod_cast this
    have hF0 : F = [] := by
      apply List.eq_nil_of_length_eq_zero
      have : (F.length : Int) = 0 := by rw [hFlen, ← h0, mul_zero]
      exact_mod_cast this
    refine ⟨fun _ => none, ?_, ?_⟩
    · simp [read_fragment_memory_table, unallocated, read_values, hE0, hF0, hS', ← h0]
    · intro itb ir _ _ h1 h2
      omega
  · have hEv : ∀ a b : Int, 0 ≤ a → 0 ≤ b → b < S → a * S + b < E.length →
        E[(a * S + b).toNat]? = some (out_energy isinf T a b) := by
      intro a b ha hb0 hb1 hab
      have haN : a < N := by
        rw [hElen] at hab
        by_contra hc
        have : N ≤ a := not_lt.mp hc
        nlinarith
      rw [hE]
      exact flat_int_getElem? (out_energy isinf T) N S a b ha haN hb0 hb1
    have hFv : ∀ a b : Int, 0 ≤ a → 0 ≤ b → b < S → a * S + b < F.length →
        F[(a * S + b).toNat]? = some (out_force isinf T a b) := by
      intro a b ha hb0 hb1 hab
      have haN : a < N := by
        rw [hFlen] at hab
        by_contra hc
        have : N ≤ a := not_lt.mp hc
        nlinarith
      rw [hF]
      exact flat_int_getElem? (out_force isinf T) N S a b ha haN hb0 hb1
    have hpos : 0 < E.length := by
      have : (0 : Int) < (E.length : Int) := by rw [hElen]; exact mul_pos hcells hS
      exact_mod_cast this
    have hposF : 0 < F.length := by
      have : (0 : Int) < (F.length : Int) := by rw [hFlen]; exact mul_pos hcells hS
      exact_mod_cast this
    obtain ⟨s1, hs1, hm1, hitb1, -, hirS1, hir1, hE1⟩ :=
      read_energy_values_ok fresh N S hS (out_energy isinf T) E (le_of_eq hElen) hEv
        E.length 0 ⟨0, 0, fun _ => none⟩ (by omega) (by simp) le_rfl le_rfl (le_of_lt hS)
        (fun h => absurd h (lt_irrefl 0)) (by
          intro a b ha hb0 hb1 hab
          have : 0 ≤ a * S := mul_nonneg ha (le_of_lt hS)
          simp only [Nat.cast_zero] at hab
          omega)
    rw [List.drop_zero] at hs1
    have hcheck1 : ¬ (s1.itb ≠ N - 1 ∧ s1.ir ≠ S) :=
      read_final_check N S s1.ir s1.itb hS (by rw [hm1, hElen]) (hir1 hpos) hirS1
    have hE1' : ∀ a b, 0 ≤ a → a < N → 0 ≤ b → b < S →
        ∃ c, s1.fm_table a = some c ∧ (c b).energy = out_energy isinf T a b := by
      intro a b ha haN hb0 hb1
      apply hE1 a b ha hb0 hb1
      rw [hElen]
      nlinarith
    obtain ⟨s2, hs2, hm2, hitb2, -, hirS2, hir2, hE2, hF2⟩ :=
      read_force_values_ok N S hS (out_energy isinf T) (out_force isinf T) F (le_of_eq hFlen)
        hFv F.length 0 ⟨0, 0, s1.fm_table⟩ (by omega) (by simp) le_rfl le_rfl (le_of_lt hS)
        (fun h => absurd h (lt_irrefl 0)) hE1' (by
          intro a b ha hb0 hb1 hab
          have : 0 ≤ a * S := mul_nonneg ha (le_of_lt hS)
          simp only [Nat.cast_zero] at hab
          omega)
    rw [List.drop_zero] at hs2
    have hcheck2 : ¬ (s2.itb ≠ N - 1 ∧ s2.ir ≠ S) :=
      read_final_check N S s2.ir s2.itb hS (by rw [hm2, hFlen]) (hir2 hposF) hirS2
    refine ⟨s2.fm_table, ?_, ?_⟩
    · simp only [read_fragment_memory_table, unallocated, hN, hS', hs1, hs2, hcheck1, hcheck2,
        if_false]
    · intro itb ir hi0 hiN hr0 hrS
      have hin : itb * S + ir < N * S := by nlinarith
      obtain ⟨c, hc, hce⟩ := hE2 itb ir hi0 hiN hr0 hrS
      obtain ⟨c2, hc2, hcf⟩ := hF2 itb ir hi0 hr0 hrS (by rw [hFlen]; exact hin)
      have hcc : c2 = c := by
        rw [hc] at hc2
        exact (Option.some.inj hc2).symm
      subst hcc
      have e1 := out_energy_eq isinf T itb ir
        (fun c0 h0 => (hfin itb ir c0 h0 hi0 hiN hr0 hrS).1)
      have e2 := out_force_eq isinf T itb ir
        (fun c0 h0 => (hfin itb ir c0 h0 hi0 hiN hr0 hrS).2)
      refine ⟨c2, hc, by rw [hce, e1], by rw [hcf, e2], ?_, ?_⟩
      · rw [hEv itb ir hi0 hr0 hrS (by rw [hElen]; exact hin), hce]
      · rw [hFv itb ir hi0 hr0 hrS (by rw [hFlen]; exact hin), hcf]

/-- Witness for C9: the example table with `n = 2` (8 cells of 12 bins). -/
theorem fm_table_round_trip_witness :
    ∃ tbl, read_fragment_memory_table (⟨0, 0⟩ : TBV ℚ) 2 (unallocated exTable)
        (output_fragment_memory_table (fun _ => false) 2 exTable).1
        (output_fragment_memory_table (fun _ => false) 2 exTable).2
          = .ok tbl ∧
      ∀ itb ir, 0 ≤ itb → itb < 4 * 2 * exTable.tb_nbrs → 0 ≤ ir → ir < exTable.tb_size →
        ∃ c', tbl itb = some c' ∧
          (c' ir).energy = stored_energy exTable itb ir ∧
          (c' ir).force = stored_force exTable itb ir ∧
          (output_fragment_memory_table (fun _ => false) 2 exTable).1[
              (itb * exTable.tb_size + ir).toNat]? = some (c' ir).energy ∧
          (output_fragment_memory_table (fun _ => false) 2 exTable).2[
              (itb * exTable.tb_size + ir).toNat]? = some (c' ir).force :=
  fm_table_round_trip (fun _ => false) ⟨0, 0⟩ 2 exTable (by norm_num [exTable])
    (by norm_num [exTable]) (fun _ _ _ _ _ _ _ _ => ⟨rfl, rfl⟩)

theorem foldlM_cons_ok {σ α : Type} (f : σ → α → Except Err σ) (a : α) (l : List α)
    (s s1 : σ) (h : f s a = .ok s1) : (a :: l).foldlM f s = l.foldlM f s1 := by
  rw [List.foldlM_cons, h]
  rfl

theorem addForce_zero {K : Type} [LinearOrderedField K] (f : Int → Fin 3 → K) (a : Int)
    (dx : Fin 3 → K) : addForce f a 0 dx = f := by
  funext b d
  simp [addForce]

theorem fm_well_at_reference (A σ rf : ℝ) : fm_well Real.exp A σ rf rf = -A := by
  simp [fm_well]

theorem fm_well_min (A σ rf r : ℝ) (hA : 0 ≤ A) (hσ : 0 ≤ σ) :
    fm_well Real.exp A σ rf rf ≤ fm_well Real.exp A σ rf r := by
  rw [fm_well_at_reference]
  have h1 : -((r - rf) * (r - rf)) / (2 * σ) ≤ 0 := by
    apply div_nonpos_of_nonpos_of_nonneg
    · nlinarith [mul_self_nonneg (r - rf)]
    · linarith
  have h2 : Real.exp (-((r - rf) * (r - rf)) / (2 * σ)) ≤ 1 := by
    rw [← Real.exp_zero]
    exact Real.exp_le_exp.mpr h1
  show -A ≤ (-A) * Real.exp (-((r - rf) * (r - rf)) / (2 * σ))
  nlinarith

theorem fmp_kind_at_reference (P : FMParams ℝ) (R : Residues ℝ) (frag : Fragment ℝ)
    (i j : Int) (σ A : ℝ) (s : FMState ℝ) (k : Nat)
    (hskip : fmp_skip P.se frag (R.res_no i - 1) (R.res_no j - 1) k = false)
    (hRf : frag.Rf (R.res_no i - 1) (iatom_type k) (R.res_no j - 1) (jatom_type k)
      = some (tfm_r Real.sqrt R i j k)) :
    fmp_kind Real.sqrt Real.exp P R frag i j σ A s k = .ok ⟨s.energy + -A, s.f⟩ := by
  have hr : Real.sqrt ((xi_of R i k 0 - xj_of R j k 0) * (xi_of R i k 0 - xj_of R j k 0) +
      (xi_of R i k 1 - xj_of R j k 1) * (xi_of R i k 1 - xj_of R j k 1) +
      (xi_of R i k 2 - xj_of R j k 2) * (xi_of R i k 2 - xj_of R j k 2))
      = tfm_r Real.sqrt R i j k := rfl
  simp only [fmp_kind, hskip, hRf, hr, fm_well_at_reference, sub_self, mul_zero, zero_div,
    neg_zero, addForce_zero, Bool.false_eq_true, if_false]

theorem fmp_kinds_at_reference (P : FMParams ℝ) (R : Residues ℝ) (frag : Fragment ℝ)
    (i j : Int) (σ A : ℝ) (ks : List Nat)
    (hRf : ∀ k ∈ ks, fmp_skip P.se frag (R.res_no i - 1) (R.res_no j - 1) k = false →
      frag.Rf (R.res_no i - 1) (iatom_type k) (R.res_no j - 1) (jatom_type k)
        = some (tfm_r Real.sqrt R i j k)) :
    ∀ s : FMState ℝ, ks.foldlM (fmp_kind Real.sqrt Real.exp P R frag i j σ A) s =
      .ok ⟨s.energy + ((ks.filter
          (fun k => !fmp_skip P.se frag (R.res_no i - 1) (R.res_no j - 1) k)).map
            (fun _ => -A)).sum, s.f⟩ := by
  induction ks with
  | nil =>
    intro s
    simp [List.foldlM_nil, pure, Except.pure]
  | cons k ks ih =>
    intro s
    have ih' := ih (fun k' hk' => hRf k' (List.mem_cons_of_mem _ hk'))
    cases hsk : fmp_skip P.se frag (R.res_no i - 1) (R.res_no j - 1) k with
    | true =>
      have h1 : fmp_kind Real.sqrt Real.exp P R frag i j σ A s k = .ok s := by
        simp only [fmp_kind, hsk, if_true]
      rw [foldlM_cons_ok _ _ _ _ _ h1, ih' s]
      simp [List.filter_cons, hsk]
    | false =>
      have h1 := fmp_kind_at_reference P R frag i j σ A s k hsk
        (hRf k (List.mem_cons_self _ _) hsk)
      rw [foldlM_cons_ok _ _ _ _ _ h1, ih' _]
      simp [List.filter_cons, hsk, add_assoc]

theorem mem_intRange (lo hi j : Int) : j ∈ intRange lo hi ↔ lo ≤ j ∧ j ≤ hi := by
  simp only [intRange, List.mem_map, List.mem_range]
  constructor
  · rintro ⟨t, ht, rfl⟩
    omega
  · rintro ⟨h1, h2⟩
    exact ⟨(j - lo).toNat, by omega, by omega⟩

theorem fmp_pairs_at_reference (P : FMParams ℝ) (R : Residues ℝ) (frag : Fragment ℝ)
    (γ : Int → ℝ) (i : Int) (js : List Int)
    (hchain : ∀ j ∈ js, R.chain_no i = R.chain_no j)
    (hgam : ∀ j ∈ js, fmp_gamma P frag (R.res_no i - 1) (R.res_no j - 1) = some (γ j))
    (hRf : ∀ j ∈ js, ∀ k ∈ [0, 1, 2, 3],
      fmp_skip P.se frag (R.res_no i - 1) (R.res_no j - 1) k = false →
      frag.Rf (R.res_no i - 1) (iatom_type k) (R.res_no j - 1) (jatom_type k)
        = some (tfm_r Real.sqrt R i j k)) :
    ∀ s : FMState ℝ,
      js.foldlM (fmp_pair Real.sqrt Real.exp Real.rpow P R frag
          (P.epsilon * P.k_frag_mem * frag.weight) i) s =
        .ok ⟨s.energy + (js.map (fun j =>
          (([0, 1, 2, 3].filter
              (fun k => !fmp_skip P.se frag (R.res_no i - 1) (R.res_no j - 1) k)).map
            (fun _ => -(P.epsilon * P.k_frag_mem * frag.weight * γ j))).sum)).sum, s.f⟩ := by
  induction js with
  | nil =>
    intro s
    simp [List.foldlM_nil, pure, Except.pure]
  | cons j js ih =>
    intro s
    have ih' := ih (fun j' hj' => hchain j' (List.mem_cons_of_mem _ hj'))
      (fun j' hj' => hgam j' (List.mem_cons_of_mem _ hj'))
      (fun j' hj' => hRf j' (List.mem_cons_of_mem _ hj'))
    have hc : ¬ (R.chain_no i ≠ R.chain_no j) :=
      not_not.mpr (hchain j (List.mem_cons_self _ _))
    have h1 : fmp_pair Real.sqrt Real.exp Real.rpow P R frag
        (P.epsilon * P.k_frag_mem * frag.weight) i s j = .ok ⟨s.energy +
          (([0, 1, 2, 3].filter
              (fun k => !fmp_skip P.se frag (R.res_no i - 1) (R.res_no j - 1) k)).map
            (fun _ => -(P.epsilon * P.k_frag_mem * frag.weight * γ j))).sum, s.f⟩ := by
      simp only [fmp_pair, hc, if_false, hgam j (List.mem_cons_self _ _)]
      exact fmp_kinds_at_reference P R frag i j _ _ [0, 1, 2, 3]
        (hRf j (List.mem_cons_self _ _)) s
    rw [foldlM_cons_ok _ _ _ _ _ h1, ih' _]
    simp [add_assoc]

/-- C3. In `compute_fragment_memory_potential`, (1) a term whose current
distance `r > 0` equals the reference distance `Rf` (well width nonzero)
adds exactly `-A` to the energy, `A = epsilon*k_frag_mem*weight*gamma`, and
leaves every force unchanged; (2) `-A` is the value of the well at `Rf` and,
when `A ≥ 0`, its minimum over all `r`; (3) hence with a single fragment in
the map of residue `i` whose reference distances all equal the current
distances, the call succeeds, adds the sum of these minima to
`energy[ET_FRAGMEM]` and applies no force. -/
theorem compute_fragment_memory_potential_at_reference (P : FMParams ℝ) (R : Residues ℝ)
    (i : Int) (st : FMState ℝ) (γ : Int → ℝ) :
    (∀ (frag : Fragment ℝ) (j : Int) (σ A rf : ℝ) (s : FMState ℝ) (k : Nat),
      fmp_skip P.se frag (R.res_no i - 1) (R.res_no j - 1) k = false →
      frag.Rf (R.res_no i - 1) (iatom_type k) (R.res_no j - 1) (jatom_type k) = some rf →
      tfm_r Real.sqrt R i j k = rf → 0 < rf → σ ≠ 0 →
      fmp_kind Real.sqrt Real.exp P R frag i j σ A s k = .ok ⟨s.energy + -A, s.f⟩) ∧
    (∀ A σ rf r : ℝ, 0 ≤ σ →
      fm_well Real.exp A σ rf rf = -A ∧
      (0 ≤ A → fm_well Real.exp A σ rf rf ≤ fm_well Real.exp A σ rf r)) ∧
    (P.ilen_fm_map (R.res_no i - 1) = 1 →
      fmp_je P (P.frag_mems (P.frag_mem_map (R.res_no i - 1) 0)) i < P.n →
      R.res_no (fmp_je P (P.frag_mems (P.frag_mem_map (R.res_no i - 1) 0)) i) - R.res_no i
        = fmp_je P (P.frag_mems (P.frag_mem_map (R.res_no i - 1) 0)) i - i →
      (∀ j, i + P.fm_gamma.minSep ≤ j →
        j ≤ fmp_je P (P.frag_mems (P.frag_mem_map (R.res_no i - 1) 0)) i →
        R.chain_no i = R.chain_no j ∧ R.res_no j ≠ R.res_no i ∧
        fmp_gamma P (P.frag_mems (P.frag_mem_map (R.res_no i - 1) 0))
          (R.res_no i - 1) (R.res_no j - 1) = some (γ j) ∧
        ∀ k ∈ [0, 1, 2, 3],
          fmp_skip P.se (P.frag_mems (P.frag_mem_map (R.res_no i - 1) 0))
            (R.res_no i - 1) (R.res_no j - 1) k = false →
          0 < tfm_r Real.sqrt R i j k ∧
          (P.frag_mems (P.frag_mem_map (R.res_no i - 1) 0)).Rf (R.res_no i - 1)
            (iatom_type k) (R.res_no j - 1) (jatom_type k) = some (tfm_r Real.sqrt R i j k)) →
      compute_fragment_memory_potential Real.sqrt Real.exp Real.rpow P R i st =
        .ok ⟨st.energy + fmp_reference_energy P R
          (P.frag_mems (P.frag_mem_map (R.res_no i - 1) 0)) γ i, st.f⟩) := by
  refine ⟨?_, ?_, ?_⟩
  · intro frag j σ A rf s k hskip hRf hr _ _
    exact fmp_kind_at_reference P R frag i j σ A s k hskip (by rw [hRf, hr])
  · intro A σ rf r hσ
    exact ⟨fm_well_at_reference A σ rf, fun hA => fm_well_min A σ rf r hA hσ⟩
  · intro hone hje hcontig hall
    have hcheck : ¬ (P.n ≤ fmp_je P (P.frag_mems (P.frag_mem_map (R.res_no i - 1) 0)) i ∨
        R.res_no (fmp_je P (P.frag_mems (P.frag_mem_map (R.res_no i - 1) 0)) i) - R.res_no i
          ≠ fmp_je P (P.frag_mems (P.frag_mem_map (R.res_no i - 1) 0)) i - i) := by
      rintro (h | h)
      · exact absurd hje (not_lt.mpr h)
      · exact h hcontig
    have hfrag : fmp_frag Real.sqrt Real.exp Real.rpow P R i st 0 =
        .ok ⟨st.energy + fmp_reference_energy P R
          (P.frag_mems (P.frag_mem_map (R.res_no i - 1) 0)) γ i, st.f⟩ := by
      simp only [fmp_frag, hcheck, if_false]
      exact fmp_pairs_at_reference P R _ γ i _
        (fun j hj => (hall j ((mem_intRange _ _ j).mp hj).1 ((mem_intRange _ _ j).mp hj).2).1)
        (fun j hj =>
          (hall j ((mem_intRange _ _ j).mp hj).1 ((mem_intRange _ _ j).mp hj).2).2.2.1)
        (fun j hj k hk hs =>
          ((hall j ((mem_intRange _ _ j).mp hj).1 ((mem_intRange _ _ j).mp hj).2).2.2.2
            k hk hs).2) st
    have hlist : intRange 0 (P.ilen_fm_map (R.res_no i - 1) - 1) = [0] := by
      rw [hone]
      rfl
    simp only [compute_fragment_memory_potential, hlist]
    rw [foldlM_cons_ok _ _ _ _ _ hfrag]
    rfl

theorem exResidues_distance (k : Nat) (hk : k ∈ [0, 1, 2, 3]) :
    0 < tfm_r Real.sqrt (exResidues ℝ) 0 1 k ∧
    (exFragment ℝ).Rf ((exResidues ℝ).res_no 0 - 1) (iatom_type k)
      ((exResidues ℝ).res_no 1 - 1) (jatom_type k) = some (tfm_r Real.sqrt (exResidues ℝ) 0 1 k) := by
  have h3 : Real.sqrt ((3 : ℝ) * 3) = 3 := Real.sqrt_mul_self (by norm_num)
  have h4 : Real.sqrt (16 : ℝ) = 4 := by
    rw [show (16 : ℝ) = 4 * 4 by norm_num]
    exact Real.sqrt_mul_self (by norm_num)
  have h2 : Real.sqrt (4 : ℝ) = 2 := by
    rw [show (4 : ℝ) = 2 * 2 by norm_num]
    exact Real.sqrt_mul_self (by norm_num)
  simp only [List.mem_cons, List.mem_singleton, List.mem_nil_iff, or_false] at hk
  rcases hk with rfl | rfl | rfl | rfl
  · have e : tfm_r Real.sqrt (exResidues ℝ) 0 1 0 = 3 := by
      simp [tfm_r, xi_of, xj_of, iatom_type, jatom_type, exResidues, h3]
    rw [e]
    exact ⟨by norm_num, by simp [exFragment, iatom_type, jatom_type]⟩
  · have e : tfm_r Real.sqrt (exResidues ℝ) 0 1 1 = 4 := by
      simp [tfm_r, xi_of, xj_of, iatom_type, jatom_type, exResidues]
      norm_num [h4]
    rw [e]
    exact ⟨by norm_num, by simp [exFragment, iatom_type, jatom_type]⟩
  · have e : tfm_r Real.sqrt (exResidues ℝ) 0 1 2 = 2 := by
      simp [tfm_r, xi_of, xj_of, iatom_type, jatom_type, exResidues]
      norm_num [h2]
    rw [e]
    exact ⟨by norm_num, by simp [exFragment, iatom_type, jatom_type]⟩
  · have e : tfm_r Real.sqrt (exResidues ℝ) 0 1 3 = 3 := by
      simp [tfm_r, xi_of, xj_of, iatom_type, jatom_type, exResidues, h3]
    rw [e]
    exact ⟨by norm_num, by simp [exFragment, iatom_type, jatom_type]⟩

/-- Witness for C3: the two example residues with the fragment whose
reference distances are their distances. -/
theorem compute_fragment_memory_potential_at_reference_witness :
    compute_fragment_memory_potential Real.sqrt Real.exp Real.rpow (exParams ℝ) (exResidues ℝ) 0
        ⟨0, fun _ _ => 0⟩ =
      .ok ⟨0 + fmp_reference_energy (exParams ℝ) (exResidues ℝ)
        ((exParams ℝ).frag_mems ((exParams ℝ).frag_mem_map ((exResidues ℝ).res_no 0 - 1) 0))
        (fun _ => 1) 0, fun _ _ => 0⟩ :=
  (compute_fragment_memory_potential_at_reference (exParams ℝ) (exResidues ℝ) 0
    ⟨0, fun _ _ => 0⟩ (fun _ => 1)).2.2
    (by simp [exParams, exResidues])
    (by simp [fmp_je, exParams, exFragment])
    (by simp [fmp_je, exParams, exFragment, exResidues])
    (by
      intro j h1 h2
      have hj : j = 1 := by
        simp [fmp_je, exParams, exFragment] at h1 h2
        omega
      subst hj
      refine ⟨by simp [exResidues], by simp [exResidues], by simp [fmp_gamma, exParams], ?_⟩
      intro k hk _
      exact exResidues_distance k hk)

theorem exAtoms_run :
    ∃ S, Construct_Computational_Arrays exChains exAtoms exTopo0 = .ok S ∧ S.nn = 1 ∧
      S.res_info 0 = ResInfo.LOCAL ∧ isLast exChains S 0 = false ∧
      S.res_no 0 = 1 ∧ S.res_no_l 1 = -1 := by
  refine ⟨_, rfl, ?_⟩
  decide

/-- C6 (evaluation at the failing input). A process owns the three atoms of
residue 1 of a two-residue chain and sees no atom of residue 2: the call
completes without error, residue 1 is listed alone and classified LOCAL, it
is not last in its chain, and the residue with sequence number 2 is not
listed (`res_no_l[2-1] = -1`). -/
theorem Construct_Computational_Arrays_misses_absent_successor :
    ∃ S, Construct_Computational_Arrays exChains exAtoms exTopo0 = .ok S ∧ S.nn = 1 ∧
      S.res_info 0 = ResInfo.LOCAL ∧ isLast exChains S 0 = false ∧
      S.res_no 0 = 1 ∧ S.res_no_l (S.res_no 0 + 1 - 1) = -1 := by
  obtain ⟨S, h1, h2, h3, h4, h5, h6⟩ := exAtoms_run
  exact ⟨S, h1, h2, h3, h4, h5, by rw [h5]; exact h6⟩

/-- C7 (counterexample). With the CA of residue 1 owned and its CB and O held
as ghost atoms (`nlocal = 1`), the residue is classified LOCAL although
`beta_atoms[0] = 1` and `oxygens[0] = 2` are not less than `nlocal`. -/
theorem Construct_Computational_Arrays_local_with_ghost_atoms :
    ∃ S, Construct_Computational_Arrays exChains exAtomsSplit exTopo0 = .ok S ∧
      S.res_info 0 = ResInfo.LOCAL ∧
      ¬ (S.beta_atoms 0 < (exAtomsSplit.nlocal : Int)) ∧
      ¬ (S.oxygens 0 < (exAtomsSplit.nlocal : Int)) := by
  refine ⟨_, rfl, ?_⟩
  decide

theorem cca_mark_step_spec (C : Chains) (A : Atoms) (S S1 : Topo) (i : Nat)
    (h : cca_mark_step C A S i = .ok S1) :
    S1.nn = S.nn ∧ S1.alpha_carbons = S.alpha_carbons ∧ S1.beta_atoms = S.beta_atoms ∧
    S1.oxygens = S.oxygens ∧ S1.res_no = S.res_no ∧ S1.res_no_l = S.res_no_l ∧
    S1.chain_no = S.chain_no ∧
    (∀ x : Int, x ≠ (i : Int) → S1.res_info x = S.res_info x) ∧
    (S1.res_info i = ResInfo.LOCAL →
      S.alpha_carbons i ≠ -1 ∧ S.alpha_carbons i < (A.nlocal : Int) ∧
      S.beta_atoms i ≠ -1 ∧ S.oxygens i ≠ -1) := by
  unfold cca_mark_step at h
  cases hv : cca_classify C A S i with
  | error e => simp [hv] at h
  | ok v =>
    simp only [hv] at h
    cases hc : cca_code4 C (setInfo S i v) i with
    | true => simp [hc] at h
    | false =>
      simp only [hc, Bool.false_eq_true, if_false] at h
      have hS1 := (Except.ok.inj h).symm
      subst hS1
      refine ⟨rfl, rfl, rfl, rfl, rfl, rfl, rfl, ?_, ?_⟩
      · intro x hx
        simp [setInfo, hx]
      · intro hloc
        simp only [setInfo, if_true] at hloc
        subst hloc
        unfold cca_classify at hv
        split_ifs at hv with h1 h2 h3 h4 h5 h6 h7 h8
        · push_neg at h3
          exact ⟨h1, h2, h3.1, h3.2⟩
        all_goals exact absurd (Except.ok.inj hv) (by decide)

theorem foldlM_range_succ {σ : Type} (f : σ → Nat → Except Err σ) (m : Nat) (s : σ) :
    (List.range (m + 1)).foldlM f s =
      match (List.range m).foldlM f s with
      | .error e => .error e
      | .ok s1 => f s1 m := by
  rw [List.range_succ, List.foldlM_append]
  cases h : (List.range m).foldlM f s with
  | error e => rfl
  | ok s1 =>
    show List.foldlM f s1 [m] = f s1 m
    rw [List.foldlM_cons]
    cases f s1 m <;> rfl

theorem cca_mark_loop_spec (C : Chains) (A : Atoms) (S : Topo) :
    ∀ (m : Nat) (S1 : Topo), (List.range m).foldlM (cca_mark_step C A) S = .ok S1 →
      S1.nn = S.nn ∧ S1.alpha_carbons = S.alpha_carbons ∧ S1.beta_atoms = S.beta_atoms ∧
      S1.oxygens = S.oxygens ∧ S1.res_no = S.res_no ∧ S1.res_no_l = S.res_no_l ∧
      S1.chain_no = S.chain_no ∧
      (∀ x : Int, (m : Int) ≤ x → S1.res_info x = S.res_info x) ∧
      (∀ x : Int, x < 0 → S1.res_info x = S.res_info x) ∧
      (∀ x : Int, 0 ≤ x → x < (m : Int) → S1.res_info x = ResInfo.LOCAL →
        S.alpha_carbons x ≠ -1 ∧ S.alpha_carbons x < (A.nlocal : Int) ∧
        S.beta_atoms x ≠ -1 ∧ S.oxygens x ≠ -1) := by
  intro m
  induction m with
  | zero =>
    intro S1 h
    have hS : S1 = S := by
      simp only [List.range_zero, List.foldlM_nil, pure, Except.pure] at h
      exact (Except.ok.inj h).symm
    subst hS
    refine ⟨rfl, rfl, rfl, rfl, rfl, rfl, rfl, fun _ _ => rfl, fun _ _ => rfl, ?_⟩
    intro x h0 h1
    simp only [Nat.cast_zero] at h1
    omega
  | succ m ih =>
    intro S2 h
    rw [foldlM_range_succ] at h
    cases h1 : (List.range m).foldlM (cca_mark_step C A) S with
    | error e => simp [h1] at h
    | ok S1 =>
      simp only [h1] at h
      obtain ⟨a1, a2, a3, a4, a5, a6, a7, a8, a9, a10⟩ := ih S1 h1
      obtain ⟨b1, b2, b3, b4, b5, b6, b7, b8, b9⟩ := cca_mark_step_spec C A S1 S2 m h
      refine ⟨b1.trans a1, b2.trans a2, b3.trans a3, b4.trans a4, b5.trans a5, b6.trans a6,
        b7.trans a7, ?_, ?_, ?_⟩
      · intro x hx
        push_cast at hx
        rw [b8 x (by omega), a8 x (by omega)]
      · intro x hx
        rw [b8 x (by omega), a9 x hx]
      · intro x h0 hx hloc
        push_cast at hx
        by_cases hxm : x = (m : Int)
        · subst hxm
          have := b9 hloc
          rw [a2, a3, a4] at this
          exact this
        · rw [b8 x hxm] at hloc
          exact a10 x h0 (by omega) hloc

/-- C7 (amended). After `Construct_Computational_Arrays` every residue
classified LOCAL has its alpha carbon owned by this process
(`alpha_carbons[i]` different from -1 and less than `nlocal`) and its beta
atom and oxygen present in the atom list (`beta_atoms[i]` and `oxygens[i]`
different from -1). -/
theorem Construct_Computational_Arrays_local_atoms (C : Chains) (A : Atoms) (S0 S : Topo)
    (h : Construct_Computational_Arrays C A S0 = .ok S) (i : Int) (h0 : 0 ≤ i)
    (h1 : i < (S.nn : Int)) (hloc : S.res_info i = ResInfo.LOCAL) :
    S.alpha_carbons i ≠ -1 ∧ S.alpha_carbons i < (A.nlocal : Int) ∧
    S.beta_atoms i ≠ -1 ∧ S.oxygens i ≠ -1 := by
  unfold Construct_Computational_Arrays at h
  simp only at h
  split at h
  · exact absurd h (by simp)
  · rename_i S2 hb
    obtain ⟨a1, a2, a3, a4, -, -, -, -, -, a10⟩ := cca_mark_loop_spec C A S2 S2.nn S h
    rw [a1] at h1
    have := a10 i h0 h1 hloc
    rw [a2, a3, a4]
    exact this

/-- Witness for C7: the run on the process that owns residue 1 entirely. -/
theorem Construct_Computational_Arrays_local_atoms_witness :
    ∃ S, Construct_Computational_Arrays exChains exAtoms exTopo0 = .ok S ∧
      S.alpha_carbons 0 ≠ -1 ∧ S.alpha_carbons 0 < (exAtoms.nlocal : Int) ∧
      S.beta_atoms 0 ≠ -1 ∧ S.oxygens 0 ≠ -1 := by
  obtain ⟨S, h1, h2, h3, -⟩ := exAtoms_run
  exact ⟨S, h1, Construct_Computational_Arrays_local_atoms exChains exAtoms exTopo0 S h1 0
    le_rfl (by rw [h2]; norm_num) h3⟩

theorem unwrapped_translated {K : Type} [LinearOrderedField K] (H : Host K) (t : Fin 3 → K)
    (a : Int) (d : Fin 3) : unwrapped (translated H t) a d = unwrapped H a d + t d := by
  unfold unwrapped translated
  by_cases h0 : d = 0
  · subst h0
    by_cases hp : H.xperiodic
    · simp [hp]
      ring
    · simp [hp]
  · by_cases h1 : d = 1
    · subst h1
      by_cases hp : H.yperiodic
      · simp [hp]
        ring
      · simp [hp]
    · have h2 : d = 2 := by
        fin_cases d <;> simp_all
      subst h2
      by_cases hp : H.zperiodic
      · simp [hp]
        ring
      · simp [hp]

theorem backbone_coords_xca {K : Type} [LinearOrderedField K] (S : Topo) (H : Host K)
    (st : Coords K) (i x : Int) (hact : isActive S i = true) :
    (backbone_coords S H st i).xca x =
      if x = i then unwrapped H (S.alpha_carbons i) else st.xca x := by
  unfold backbone_coords
  simp only [hact, if_true]
  split_ifs <;> simp_all [setPos]

theorem backbone_coords_xo {K : Type} [LinearOrderedField K] (S : Topo) (H : Host K)
    (st : Coords K) (i x : Int) (hact : isActive S i = true) :
    (backbone_coords S H st i).xo x =
      if x = i ∧ S.oxygens i ≠ -1 then unwrapped H (S.oxygens i) else st.xo x := by
  unfold backbone_coords
  simp only [hact, if_true]
  split_ifs <;> simp_all [setPos]

theorem default_coef_sums :
    default_coef.an + default_coef.bn + default_coef.cn = 1.0000364 ∧
    default_coef.ap + default_coef.bp + default_coef.cp = 0.9999999 ∧
    default_coef.ah + default_coef.bh + default_coef.ch = 1.0000362 := by
  simp only [default_coef]
  norm_num

/-- C5 (counterexample). None of the three default coefficient triples sums
to 1, and moving every atom of the two-residue example by one unit along x
moves the reconstructed N of residue 1 by 1.0000364, not by 1. -/
theorem default_coef_not_affine :
    default_coef.an + default_coef.bn + default_coef.cn ≠ 1 ∧
    default_coef.ap + default_coef.bp + default_coef.cp ≠ 1 ∧
    default_coef.ah + default_coef.bh + default_coef.ch ≠ 1 ∧
    (backbone_reconstruct default_coef exChains exTopo2 (translated exHost exShift)
        exCoords0).xn 1 0 ≠
      (backbone_reconstruct default_coef exChains exTopo2 exHost exCoords0).xn 1 0
        + exShift 0 := by
  obtain ⟨h1, h2, h3⟩ := default_coef_sums
  refine ⟨by rw [h1]; norm_num, by rw [h2]; norm_num, by rw [h3]; norm_num, ?_⟩
  simp [backbone_reconstruct, backbone_step, backbone_virtual, backbone_coords,
    backbone_has_prev, backbone_im1, backbone_combo, isActive, isFirst, setPos, unwrapped,
    translated, exTopo2, exHost, exCoords0, exChains, exShift, default_coef, List.range_succ]
  norm_num

theorem foldl_fixed {σ α : Type} (f : σ → α → σ) (l : List α) (s : σ)
    (h : ∀ x ∈ l, f s x = s) : l.foldl f s = s := by
  induction l with
  | nil => rfl
  | cons x l ih =>
    rw [List.foldl_cons, h x (List.mem_cons_self _ _)]
    exact ih (fun y hy => h y (List.mem_cons_of_mem _ hy))

theorem foldlM_fixed {σ α : Type} (f : σ → α → Except Err σ) (l : List α) (s : σ)
    (h : ∀ x ∈ l, f s x = .ok s) : l.foldlM f s = .ok s := by
  induction l with
  | nil => rfl
  | cons x l ih =>
    rw [foldlM_cons_ok f x l s s (h x (List.mem_cons_self _ _))]
    exact ih (fun y hy => h y (List.mem_cons_of_mem _ hy))

theorem adjacent_of_two {a b : Int} (ha : a = 1 ∨ a = 2) (hb : b = 1 ∨ b = 2) :
    ¬ (|a - 1 - (b - 1)| > 1) := by
  rcases ha with rfl | rfl <;> rcases hb with rfl | rfl <;> decide

theorem pair_density_two_residues {K : Type} [LinearOrderedField K] (sqrt : K → K)
    (P : PairParams K) (V : PairView K)
    (hres : ∀ a, V.atoms.residue a = 1 ∨ V.atoms.residue a = 2)
    (hmol : ∀ a b, V.atoms.molecule a = V.atoms.molecule b) :
    pair_density sqrt P V = ⟨fun _ => 0, fun _ => 0⟩ := by
  unfold pair_density
  apply foldl_fixed
  intro i _
  split
  · apply foldl_fixed
    intro j _
    have h1 : ¬ (V.atoms.molecule i ≠ V.atoms.molecule j ∨
        |V.atoms.residue i - 1 - (V.atoms.residue j - 1)| > 1) := by
      rintro (h | h)
      · exact h (hmol i j)
      · exact adjacent_of_two (hres i) (hres j) h
    simp only [pair_density_nb, h1, if_false, ite_self]
  · rfl

theorem allreduce_zero {K : Type} [LinearOrderedField K] (locs : List (Int → K))
    (h : ∀ loc ∈ locs, loc = fun _ => 0) : allreduce locs = fun _ => 0 := by
  funext r
  unfold allreduce
  apply List.sum_eq_zero
  intro x hx
  obtain ⟨loc, hloc, rfl⟩ := List.mem_map.mp hx
  rw [h loc hloc]

theorem pair_helix_two_residues {K : Type} [LinearOrderedField K] (exp : K → K)
    (P : PairParams K) (V : PairView K) (sg : SigmaSt K) (helix : K)
    (hn : P.n = 2) (hd : 2 ≤ P.helix_i_diff)
    (hres : ∀ a, V.atoms.residue a = 1 ∨ V.atoms.residue a = 2) :
    pair_helix exp P V sg helix = .ok ⟨fun _ => 0, fun _ => 0, helix⟩ := by
  unfold pair_helix
  split
  · apply foldlM_fixed
    intro i _
    have h1 : ¬ (V.atoms.residue i - 1 + P.helix_i_diff < (P.n : Int) ∧
        V.topo.res_no_l (V.atoms.residue i - 1 + P.helix_i_diff) ≠ -1) := by
      rintro ⟨h, -⟩
      rw [hn] at h
      rcases hres i with h2 | h2 <;> rw [h2] at h <;> push_cast at h <;> omega
    simp only [pair_helix_step, h1, if_false, ne_eq, not_true_eq_false, false_and, ite_self]
  · rfl

theorem pair_main_two_residues {K : Type} [LinearOrderedField K] (sqrt : K → K)
    (P : PairParams K) (V : PairView K) (sg : SigmaSt K) (water : K)
    (hres : ∀ a, V.atoms.residue a = 1 ∨ V.atoms.residue a = 2)
    (hmol : ∀ a b, V.atoms.molecule a = V.atoms.molecule b)
    (hother : ∀ i j, P.other_terms i j = none) :
    pair_main sqrt P V sg water = .ok water := by
  unfold pair_main
  apply foldlM_fixed
  intro i _
  split
  · apply foldlM_fixed
    intro j _
    have h1 : ¬ (is_rep P V.atoms i = true ∧ is_rep P V.atoms j = true ∧
        (V.atoms.molecule i ≠ V.atoms.molecule j ∨
          |V.atoms.residue j - 1 - (V.atoms.residue i - 1)| > 1)) := by
      rintro ⟨-, -, h | h⟩
      · exact h (hmol i j)
      · exact adjacent_of_two (hres j) (hres i) h
    simp only [pair_main_nb, h1, if_false, hother i j, ite_self]
  · rfl

theorem compute_pair_zero_density {K : Type} [LinearOrderedField K] (sqrt exp tanh : K → K)
    (P : PairParams K) (me : PairView K) (others : List (PairView K)) (e : PairEnergy K)
    (hres : ∀ V ∈ me :: others, ∀ a, V.atoms.residue a = 1 ∨ V.atoms.residue a = 2)
    (hmol : ∀ V ∈ me :: others, ∀ a b, V.atoms.molecule a = V.atoms.molecule b) :
    compute_pair sqrt exp tanh P me others e =
      pair_after_sigma sqrt exp P me
        (pair_sigma tanh P me (fun _ => 0) (fun _ => 0) e.burial) e.water e.helix := by
  have hw : (if P.water_flag = true then
      allreduce (((me :: others).map (pair_density sqrt P)).map (fun d => d.water))
      else fun _ => 0) = fun _ => (0 : K) := by
    split
    · apply allreduce_zero
      intro loc hloc
      obtain ⟨d, hd', rfl⟩ := List.mem_map.mp hloc
      obtain ⟨V, hV, rfl⟩ := List.mem_map.mp hd'
      rw [pair_density_two_residues sqrt P V (hres V hV) (hmol V hV)]
    · rfl
  have hh : (if P.helix_flag = true then
      allreduce (((me :: others).map (pair_density sqrt P)).map (fun d => d.helix))
      else fun _ => 0) = fun _ => (0 : K) := by
    split
    · apply allreduce_zero
      intro loc hloc
      obtain ⟨d, hd', rfl⟩ := List.mem_map.mp hloc
      obtain ⟨V, hV, rfl⟩ := List.mem_map.mp hd'
      rw [pair_density_two_residues sqrt P V (hres V hV) (hmol V hV)]
    · rfl
  simp only [compute_pair, hw, hh]

theorem exPair_burial :
    (pair_sigma Real.tanh (exPairParams ℝ 4) (exPairView ℝ) (fun _ => 0) (fun _ => 0) 0).burial
      = -Real.tanh 1 := by
  simp [pair_sigma, pair_sigma_step, is_rep, burial_energy, burial_force_value,
    get_burial_gamma, setAt, exPairParams, exPairView, exAtoms6, List.range_succ]
  ring

theorem real_tanh_one_ne_zero : Real.tanh 1 ≠ 0 := by
  rw [Real.tanh_eq_sinh_div_cosh]
  exact div_ne_zero (ne_of_gt (Real.sinh_pos_iff.mpr one_pos)) (ne_of_gt (Real.cosh_pos 1))

theorem exPair_two_residue_view :
    (∀ V ∈ [exPairView ℝ], ∀ a, V.atoms.residue a = 1 ∨ V.atoms.residue a = 2) ∧
    (∀ V ∈ [exPairView ℝ], ∀ a b, V.atoms.molecule a = V.atoms.molecule b) := by
  constructor
  · intro V hV a
    rw [List.mem_singleton.mp hV]
    by_cases h : a < 3 <;> simp [exPairView, exAtoms6, h]
  · intro V hV a b
    rw [List.mem_singleton.mp hV]
    rfl

theorem exPair_helix_pass (sg : SigmaSt ℝ) :
    ∃ hs, pair_helix Real.exp (exPairParams ℝ 1) (exPairView ℝ) sg 0 = .ok hs ∧
      hs.helix = -2 := by
  simp [pair_helix, pair_helix_step, compute_helix_dtheta_pair, isActive, setAt, exPairParams,
    exPairView, exAtoms6, exTopo2, List.range_succ, bind, Except.bind, pure, Except.pure]
  norm_num

/-- C4 (counterexample). For the two-residue chain with all three terms on,
`compute_pair` adds `-tanh 1`, which is not zero, to `energy[ET_BURIAL]`
(one burial well [0, 1] with gamma 1, both densities zero); and with
`helix_i_diff = 1` it adds -2 to `energy[ET_HELIX]`. -/
theorem compute_pair_two_residues_nonzero :
    (∃ e, compute_pair Real.sqrt Real.exp Real.tanh (exPairParams ℝ 4) (exPairView ℝ) []
        ⟨0, 0, 0⟩ = .ok e ∧ e.burial ≠ 0) ∧
    (∃ e, compute_pair Real.sqrt Real.exp Real.tanh (exPairParams ℝ 1) (exPairView ℝ) []
        ⟨0, 0, 0⟩ = .ok e ∧ e.helix ≠ 0) := by
  constructor
  · rw [compute_pair_zero_density Real.sqrt Real.exp Real.tanh (exPairParams ℝ 4)
      (exPairView ℝ) [] ⟨0, 0, 0⟩ exPair_two_residue_view.1 exPair_two_residue_view.2]
    unfold pair_after_sigma
    rw [pair_helix_two_residues Real.exp (exPairParams ℝ 4) (exPairView ℝ) _ _ rfl (by decide)
        (exPair_two_residue_view.1 _ (List.mem_singleton.mpr rfl)),
      pair_main_two_residues Real.sqrt (exPairParams ℝ 4) (exPairView ℝ) _ _
        (exPair_two_residue_view.1 _ (List.mem_singleton.mpr rfl))
        (exPair_two_residue_view.2 _ (List.mem_singleton.mpr rfl)) (fun _ _ => rfl)]
    refine ⟨_, rfl, ?_⟩
    show (pair_sigma Real.tanh (exPairParams ℝ 4) (exPairView ℝ) (fun _ => 0) (fun _ => 0)
      0).burial ≠ 0
    rw [exPair_burial]
    exact neg_ne_zero.mpr real_tanh_one_ne_zero
  · have key : ∀ sg : SigmaSt ℝ, ∃ e : PairEnergy ℝ,
        pair_after_sigma Real.sqrt Real.exp (exPairParams ℝ 1) (exPairView ℝ) sg 0 0 = .ok e ∧
          e.helix ≠ 0 := by
      intro sg
      obtain ⟨hs, h1, h2⟩ := exPair_helix_pass sg
      unfold pair_after_sigma
      rw [h1, pair_main_two_residues Real.sqrt (exPairParams ℝ 1) (exPairView ℝ) sg 0
        (exPair_two_residue_view.1 _ (List.mem_singleton.mpr rfl))
        (exPair_two_residue_view.2 _ (List.mem_singleton.mpr rfl)) (fun _ _ => rfl)]
      exact ⟨_, rfl, by show hs.helix ≠ 0; rw [h2]; norm_num⟩
    exact key _

theorem total_energy_spec {K : Type} [LinearOrderedField K] (energy : Nat → K) :
    ∀ (m : Nat) (l : List Nat), (∀ i ∈ l, i ≠ 0) →
      (l.foldl (fun e i => fun k => if k = 0 then e 0 + e i else e k) energy) 0
          = energy 0 + (l.map energy).sum ∧
      (m ≠ 0 → (l.foldl (fun e i => fun k => if k = 0 then e 0 + e i else e k) energy) m
          = energy m) := by
  intro m l
  induction l generalizing energy with
  | nil => intro _; simp
  | cons i l ih =>
    intro hl
    have hi : i ≠ 0 := hl i (List.mem_cons_self _ _)
    have ih' := ih (fun k => if k = 0 then energy 0 + energy i else energy k)
      (fun j hj => hl j (List.mem_cons_of_mem _ hj))
    simp only [List.foldl_cons, List.map_cons, List.sum_cons]
    refine ⟨?_, ?_⟩
    · rw [ih'.1]
      have hmap : l.map (fun k => if k = 0 then energy 0 + energy i else energy k)
          = l.map energy := by
        apply List.map_congr_left
        intro j hj
        simp [hl j (List.mem_cons_of_mem _ hj)]
      rw [hmap]
      simp
      ring
    · intro hm
      rw [ih'.2 hm]
      simp [hm]

theorem mem_range'_one (n i : Nat) (h : i ∈ List.range' 1 n) : i ≠ 0 := by
  rw [List.mem_range'_1] at h
  omega

theorem backbone_energy_total {K : Type} [LinearOrderedField K] (N : Nat) (hN : 0 < N)
    (terms : (Nat → K) → (Nat → K)) (hterms : ∀ e, terms e 0 = e 0) (prev : Nat → K) :
    backbone_energy N 0 terms prev 0 =
        ((List.range' 1 (N - 1)).map (terms (reset_energy N prev))).sum ∧
    ∀ k, k ≠ 0 → backbone_energy N 0 terms prev k = terms (reset_energy N prev) k := by
  have h := fun m => total_energy_spec (terms (reset_energy N prev)) m (List.range' 1 (N - 1))
    (fun i hi => mem_range'_one _ i hi)
  refine ⟨?_, fun k hk => (h k).2 hk⟩
  unfold backbone_energy total_energy
  rw [(h 0).1, hterms]
  simp [reset_energy, hN]

theorem reduce_once_after_backbone {K : Type} [LinearOrderedField K] (N T : Nat)
    (terms : (Nat → K) → (Nat → K)) (b : Bool) (others : List (Nat → K)) (s0 : EnergySt K)
    (k : Nat) (hk : k < N) :
    (reduce_once N others (compute_backbone_energy N T terms b others s0)).energy_all k =
      backbone_energy N T terms s0.energy k + (others.map (fun o => o k)).sum := by
  cases b <;> simp [reduce_once, compute_backbone_energy, reduce_energy, hk]

theorem sum_columns {K : Type} [LinearOrderedField K] (l : List Nat) (os : List (Nat → K))
    (h : ∀ o ∈ os, o 0 = (l.map o).sum) :
    (os.map (fun o => o 0)).sum = (l.map (fun k => (os.map (fun o => o k)).sum)).sum := by
  induction os with
  | nil => simp
  | cons o os ih =>
    have h1 := h o (List.mem_cons_self _ _)
    have h2 := ih (fun p hp => h p (List.mem_cons_of_mem _ hp))
    simp only [List.map_cons, List.sum_cons]
    rw [h1, h2]
    clear h h1 h2 ih
    induction l with
    | nil => simp
    | cons a l ihl =>
      simp only [List.map_cons, List.sum_cons]
      rw [← ihl]
      ring

theorem sum_map_add {K : Type} [LinearOrderedField K] (l : List Nat) (f g : Nat → K) :
    (l.map (fun k => f k + g k)).sum = (l.map f).sum + (l.map g).sum := by
  induction l with
  | nil => simp
  | cons a l ih =>
    simp only [List.map_cons, List.sum_cons]
    rw [ih]
    ring

/-- Claim C17: at the end of `compute_backbone` the slot `ET_TOTAL` (slot 0)
of `energy` is the sum of the term slots 1..nEnergyTerms-1 as the potential
terms of this step left them, starting from the array reset to zero; and
with every process in that state `compute_scalar()` is the sum of
`compute_vector(nv)` over nv = 0..nEnergyTerms-2. -/
theorem energy_total_is_sum_of_terms {K : Type} [LinearOrderedField K] (N : Nat) (hN : 0 < N)
    (terms : (Nat → K) → (Nat → K)) (hterms : ∀ e, terms e 0 = e 0)
    (procs : List (((Nat → K) → (Nat → K)) × (Nat → K)))
    (hprocs : ∀ p ∈ procs, ∀ e, p.1 e 0 = e 0) (thermo_step : Bool) (s0 : EnergySt K) :
    (∀ k, k < N → reset_energy N s0.energy k = 0) ∧
    (∀ k, k ≠ 0 →
      (compute_backbone_energy N 0 terms thermo_step (process_energies N 0 procs) s0).energy k
        = terms (reset_energy N s0.energy) k) ∧
    (compute_backbone_energy N 0 terms thermo_step (process_energies N 0 procs) s0).energy 0
      = ((List.range' 1 (N - 1)).map
          (compute_backbone_energy N 0 terms thermo_step
            (process_energies N 0 procs) s0).energy).sum ∧
    (compute_scalar N 0 (process_energies N 0 procs)
        (compute_backbone_energy N 0 terms thermo_step (process_energies N 0 procs) s0)).1
      = ((List.range (N - 1)).map (fun (nv : Nat) =>
          (compute_vector N (process_energies N 0 procs)
            (compute_backbone_energy N 0 terms thermo_step
              (process_energies N 0 procs) s0) nv).1)).sum := by
  have hE : (compute_backbone_energy N 0 terms thermo_step (process_energies N 0 procs)
      s0).energy = backbone_energy N 0 terms s0.energy := by
    cases thermo_step <;> simp [compute_backbone_energy]
  have hB := backbone_energy_total N hN terms hterms s0.energy
  have hsum : ∀ (t : (Nat → K) → (Nat → K)), (∀ e, t e 0 = e 0) → ∀ (prev : Nat → K),
      backbone_energy N 0 t prev 0
        = ((List.range' 1 (N - 1)).map (backbone_energy N 0 t prev)).sum := by
    intro t ht prev
    have h := backbone_energy_total N hN t ht prev
    rw [h.1]
    congr 1
    apply List.map_congr_left
    intro k hk
    exact (h.2 k (mem_range'_one _ k hk)).symm
  refine ⟨fun k hk => by simp [reset_energy, hk], fun k hk => by rw [hE]; exact hB.2 k hk,
    by rw [hE]; exact hsum terms hterms _, ?_⟩
  have hcol := sum_columns (List.range' 1 (N - 1)) (process_energies N 0 procs) (by
    intro o ho
    simp only [process_energies, List.mem_map] at ho
    obtain ⟨p, hp, rfl⟩ := ho
    exact hsum p.1 (hprocs p hp) p.2)
  simp only [compute_scalar, compute_vector]
  rw [reduce_once_after_backbone N 0 terms thermo_step _ s0 0 hN]
  have hv : (List.range (N - 1)).map (fun (nv : Nat) =>
      (reduce_once N (process_energies N 0 procs)
        (compute_backbone_energy N 0 terms thermo_step (process_energies N 0 procs)
          s0)).energy_all (nv + 1))
      = (List.range (N - 1)).map (fun (nv : Nat) =>
          backbone_energy N 0 terms s0.energy (nv + 1)
            + ((process_energies N 0 procs).map (fun o => o (nv + 1))).sum) := by
    apply List.map_congr_left
    intro nv hnv
    rw [List.mem_range] at hnv
    exact reduce_once_after_backbone N 0 terms thermo_step _ s0 (nv + 1) (by omega)
  rw [hv, sum_map_add, hsum terms hterms, hcol, List.range'_eq_map_range]
  simp only [List.map_map]
  congr 1
  · congr 1
    apply List.map_congr_left
    intro k _
    simp [Function.comp, Nat.add_comm]
  · congr 1
    apply List.map_congr_left
    intro k _
    simp [Function.comp, Nat.add_comm]

theorem energy_total_is_sum_of_terms_witness :
    (∀ k, k < 3 → reset_energy 3 exEnergySt.energy k = 0) ∧
    (∀ k, k ≠ 0 →
      (compute_backbone_energy 3 0 exTerms false
        (process_energies 3 0 [(exTerms, fun _ => 1)]) exEnergySt).energy k
        = exTerms (reset_energy 3 exEnergySt.energy) k) ∧
    (compute_backbone_energy 3 0 exTerms false
        (process_energies 3 0 [(exTerms, fun _ => 1)]) exEnergySt).energy 0
      = ((List.range' 1 (3 - 1)).map
          (compute_backbone_energy 3 0 exTerms false
            (process_energies 3 0 [(exTerms, fun _ => 1)]) exEnergySt).energy).sum ∧
    (compute_scalar 3 0 (process_energies 3 0 [(exTerms, fun _ => 1)])
        (compute_backbone_energy 3 0 exTerms false
          (process_energies 3 0 [(exTerms, fun _ => 1)]) exEnergySt)).1
      = ((List.range (3 - 1)).map (fun (nv : Nat) =>
          (compute_vector 3 (process_energies 3 0 [(exTerms, fun _ => 1)])
            (compute_backbone_energy 3 0 exTerms false
              (process_energies 3 0 [(exTerms, fun _ => 1)]) exEnergySt) nv).1)).sum :=
  energy_total_is_sum_of_terms 3 (by decide) exTerms (fun _ => rfl) [(exTerms, fun _ => 1)]
    (by
      intro p hp e
      simp only [List.mem_singleton] at hp
      subst hp
      rfl) false exEnergySt

/-- Claim C18, as stated, fails on a thermo output step: there
`compute_backbone` itself reduces and leaves `force_flag = 1`, so the first
`compute_scalar` call afterwards performs no reduction (it leaves
`energy_all` as it is even when the other processes would now contribute
differently). -/
theorem first_query_after_thermo_step_does_not_reduce :
    (compute_backbone_energy 3 0 exTerms true [] exEnergySt).force_flag = 1 ∧
    (compute_scalar 3 0 [fun _ => 1]
      (compute_backbone_energy 3 0 exTerms true [] exEnergySt)).2.energy_all 0 = 5 ∧
    reduce_energy 3 (compute_backbone_energy 3 0 exTerms true [] exEnergySt).energy
      [fun _ => 1] (compute_backbone_energy 3 0 exTerms true [] exEnergySt).energy_all 0 = 6 := by
  refine ⟨by simp [compute_backbone_energy], ?_, ?_⟩
  · simp [compute_scalar, reduce_once, compute_backbone_energy, reduce_energy, backbone_energy,
      total_energy, reset_energy, exTerms, exEnergySt, List.range']
    norm_num
  · simp [compute_backbone_energy, reduce_energy, backbone_energy,
      total_energy, reset_energy, exTerms, exEnergySt, List.range']
    norm_num

/-- Claim C18, amended: `compute_backbone` sets `force_flag` to 0 and, on a
thermo output step only, reduces `energy` into `energy_all` itself and sets
`force_flag` to 1; otherwise the first query does that. Either way, after
the first query `energy_all` is the reduction of this step, `force_flag` is
1, and every later `compute_scalar` or `compute_vector(nv)` call leaves the
state unchanged and returns `energy_all[ET_TOTAL]`, `energy_all[nv+1]` of
that reduction. -/
theorem energy_queries_idempotent {K : Type} [LinearOrderedField K] (N T : Nat)
    (terms : (Nat → K) → (Nat → K)) (thermo_step : Bool) (others : List (Nat → K))
    (s0 : EnergySt K) :
    (compute_backbone_energy N T terms thermo_step others s0).force_flag
      = (if thermo_step then 1 else 0) ∧
    (compute_backbone_energy N T terms thermo_step others s0).energy_all
      = (if thermo_step then
          reduce_energy N (backbone_energy N T terms s0.energy) others s0.energy_all
        else s0.energy_all) ∧
    (reduce_once N others (compute_backbone_energy N T terms thermo_step others s0)).energy_all
      = reduce_energy N (backbone_energy N T terms s0.energy) others s0.energy_all ∧
    (reduce_once N others (compute_backbone_energy N T terms thermo_step others s0)).force_flag
      = 1 ∧
    ∀ (later : List (Nat → K)) (nv : Nat),
      compute_scalar N T later
          (reduce_once N others (compute_backbone_energy N T terms thermo_step others s0))
        = (reduce_energy N (backbone_energy N T terms s0.energy) others s0.energy_all T,
            reduce_once N others (compute_backbone_energy N T terms thermo_step others s0)) ∧
      compute_vector N later
          (reduce_once N others (compute_backbone_energy N T terms thermo_step others s0)) nv
        = (reduce_energy N (backbone_energy N T terms s0.energy) others s0.energy_all (nv + 1),
            reduce_once N others (compute_backbone_energy N T terms thermo_step others s0)) := by
  cases thermo_step <;>
    simp [compute_backbone_energy, reduce_once, compute_scalar, compute_vector]

theorem energy_queries_idempotent_witness :
    (compute_scalar 3 0 [fun _ => 1]
        (reduce_once 3 [] (compute_backbone_energy 3 0 exTerms false [] exEnergySt))).1 = 5 ∧
    (compute_vector 3 [fun _ => 1]
        (reduce_once 3 [] (compute_backbone_energy 3 0 exTerms false [] exEnergySt)) 1).1 = 3 := by
  have h := (energy_queries_idempotent 3 0 exTerms false [] exEnergySt).2.2.2.2 [fun _ => 1] 1
  rw [h.1, h.2]
  simp [reduce_energy, backbone_energy, total_energy, reset_energy, exTerms, exEnergySt,
    List.range']
  norm_num

/-- Claim C19, counterexample to the contiguity part: a process that sees the
residues 1, 2 and 4 of a four-residue chain builds the list 1, 2, 4 without
error; the entries 1 and 2 of the list are consecutive, lie in the same
chain, and their sequence numbers 2 and 4 are not contiguous. -/
theorem Construct_Computational_Arrays_list_with_gap :
    ∃ S, Construct_Computational_Arrays exChains4 exAtomsGap exTopo0 = .ok S ∧ S.nn = 3 ∧
      S.chain_no 1 = S.chain_no 2 ∧ S.res_no 1 = 2 ∧ S.res_no 2 = 4 ∧
      S.res_no 2 ≠ S.res_no 1 + 1 := by
  refine ⟨_, rfl, ?_⟩
  decide

theorem scan_slot_spec (last r m : Int) (c : Prop) [Decidable c] (hl : 0 ≤ last)
    (hm : m = -1 ∨ m > last) :
    ((if c ∧ r > last ∧ (r < m ∨ m = -1) then r else m) = -1 ∨
      (if c ∧ r > last ∧ (r < m ∨ m = -1) then r else m) > last) ∧
    (m ≠ -1 → (if c ∧ r > last ∧ (r < m ∨ m = -1) then r else m) ≠ -1 ∧
      (if c ∧ r > last ∧ (r < m ∨ m = -1) then r else m) ≤ m) ∧
    (c → r > last → (if c ∧ r > last ∧ (r < m ∨ m = -1) then r else m) ≠ -1 ∧
      (if c ∧ r > last ∧ (r < m ∨ m = -1) then r else m) ≤ r) := by
  by_cases h : c ∧ r > last ∧ (r < m ∨ m = -1)
  · rw [if_pos h]
    obtain ⟨_, h2, h3⟩ := h
    refine ⟨Or.inr h2, fun hne => ⟨by omega, by omega⟩, fun _ _ => ⟨by omega, le_refl _⟩⟩
  · rw [if_neg h]
    refine ⟨hm, fun hne => ⟨hne, le_refl _⟩, fun hc hr => ?_⟩
    have h3 : ¬ (r < m ∨ m = -1) := fun h3 => h ⟨hc, hr, h3⟩
    push_neg at h3
    exact ⟨h3.2, h3.1⟩

theorem cca_scan_step_spec (A : Atoms) (i last : Int) (sc sc1 : Scan) (j : Nat)
    (h : cca_scan_step A i last sc j = .ok sc1) :
    sc1.min0 = (if A.inGroup j = true ∧ A.residue j > last ∧
        (A.residue j < sc.min0 ∨ sc.min0 = -1) then A.residue j else sc.min0) ∧
    sc1.min1 = (if A.inGroup2 j = true ∧ A.residue j > last ∧
        (A.residue j < sc.min1 ∨ sc.min1 = -1) then A.residue j else sc.min1) ∧
    sc1.min2 = (if A.inGroup3 j = true ∧ A.residue j > last ∧
        (A.residue j < sc.min2 ∨ sc.min2 = -1) then A.residue j else sc.min2) := by
  unfold cca_scan_step at h
  split at h
  · exact absurd h (by simp)
  · have h1 := (Except.ok.inj h).symm
    clear h
    by_cases b : A.residue j > last <;> by_cases a0 : A.inGroup j = true <;>
      by_cases c0 : (A.residue j < sc.min0 ∨ sc.min0 = -1) <;>
      by_cases a1 : A.inGroup2 j = true <;>
      by_cases c1 : (A.residue j < sc.min1 ∨ sc.min1 = -1) <;>
      by_cases a2 : A.inGroup3 j = true <;>
      by_cases c2 : (A.residue j < sc.min2 ∨ sc.min2 = -1) <;>
      · simp only [b, a0, c0, a1, c1, a2, c2, if_true, if_false, and_self,
          and_true, and_false, true_and, false_and, Bool.false_eq_true] at h1
        subst h1
        simp only [b, a0, c0, a1, c1, a2, c2, if_true, if_false, and_self,
          and_true, and_false, true_and, false_and, Bool.false_eq_true]

theorem cca_scan_loop_spec (A : Atoms) (i last : Int) (hl : 0 ≤ last) :
    ∀ (m : Nat) (sc : Scan),
      (List.range m).foldlM (cca_scan_step A i last) ⟨-1, -1, -1, -1, -1, -1⟩ = .ok sc →
      ((sc.min0 = -1 ∨ sc.min0 > last) ∧
        ∀ j : Nat, j < m → A.inGroup j = true → A.residue j > last →
          sc.min0 ≠ -1 ∧ sc.min0 ≤ A.residue j) ∧
      ((sc.min1 = -1 ∨ sc.min1 > last) ∧
        ∀ j : Nat, j < m → A.inGroup2 j = true → A.residue j > last →
          sc.min1 ≠ -1 ∧ sc.min1 ≤ A.residue j) ∧
      ((sc.min2 = -1 ∨ sc.min2 > last) ∧
        ∀ j : Nat, j < m → A.inGroup3 j = true → A.residue j > last →
          sc.min2 ≠ -1 ∧ sc.min2 ≤ A.residue j) := by
  intro m
  induction m with
  | zero =>
    intro sc h
    have hS : sc = ⟨-1, -1, -1, -1, -1, -1⟩ := by
      simp only [List.range_zero, List.foldlM_nil, pure, Except.pure] at h
      exact (Except.ok.inj h).symm
    subst hS
    exact ⟨⟨Or.inl rfl, fun j hj => absurd hj (Nat.not_lt_zero _)⟩,
      ⟨Or.inl rfl, fun j hj => absurd hj (Nat.not_lt_zero _)⟩,
      ⟨Or.inl rfl, fun j hj => absurd hj (Nat.not_lt_zero _)⟩⟩
  | succ m ih =>
    intro sc2 h
    rw [foldlM_range_succ] at h
    cases h1 : (List.range m).foldlM (cca_scan_step A i last) ⟨-1, -1, -1, -1, -1, -1⟩ with
    | error e => simp [h1] at h
    | ok sc1 =>
      simp only [h1] at h
      obtain ⟨⟨p0, q0⟩, ⟨p1, q1⟩, ⟨p2, q2⟩⟩ := ih sc1 h1
      obtain ⟨e0, e1, e2⟩ := cca_scan_step_spec A i last sc1 sc2 m h
      have s0 := scan_slot_spec last (A.residue m) sc1.min0 (A.inGroup m = true) hl p0
      have s1 := scan_slot_spec last (A.residue m) sc1.min1 (A.inGroup2 m = true) hl p1
      have s2 := scan_slot_spec last (A.residue m) sc1.min2 (A.inGroup3 m = true) hl p2
      rw [← e0] at s0
      rw [← e1] at s1
      rw [← e2] at s2
      refine ⟨⟨s0.1, ?_⟩, ⟨s1.1, ?_⟩, ⟨s2.1, ?_⟩⟩
      · intro j hj hg hr
        by_cases hjm : j = m
        · subst hjm
          exact s0.2.2 hg hr
        · have := q0 j (by omega) hg hr
          have := s0.2.1 this.1
          exact ⟨this.1, by omega⟩
      · intro j hj hg hr
        by_cases hjm : j = m
        · subst hjm
          exact s1.2.2 hg hr
        · have := q1 j (by omega) hg hr
          have := s1.2.1 this.1
          exact ⟨this.1, by omega⟩
      · intro j hj hg hr
        by_cases hjm : j = m
        · subst hjm
          exact s2.2.2 hg hr
        · have := q2 j (by omega) hg hr
          have := s2.2.1 this.1
          exact ⟨this.1, by omega⟩

theorem cca_scan_spec (A : Atoms) (i last : Int) (hl : 0 ≤ last) (sc : Scan)
    (h : cca_scan A i last = .ok sc)
    (hne : min sc.min0 (min sc.min1 sc.min2) ≠ -1) :
    last < min sc.min0 (min sc.min1 sc.min2) ∧
    ∀ j : Nat, j < A.nlocal + A.nghost →
      (A.inGroup j = true ∨ A.inGroup2 j = true ∨ A.inGroup3 j = true) →
      ¬ (last < A.residue j ∧ A.residue j < min sc.min0 (min sc.min1 sc.min2)) := by
  obtain ⟨⟨p0, q0⟩, ⟨p1, q1⟩, ⟨p2, q2⟩⟩ := cca_scan_loop_spec A i last hl _ sc h
  have hmin : min sc.min0 (min sc.min1 sc.min2) ≤ sc.min0 ∧
      min sc.min0 (min sc.min1 sc.min2) ≤ sc.min1 ∧
      min sc.min0 (min sc.min1 sc.min2) ≤ sc.min2 :=
    ⟨min_le_left _ _, le_trans (min_le_right _ _) (min_le_left _ _),
      le_trans (min_le_right _ _) (min_le_right _ _)⟩
  have hcase : min sc.min0 (min sc.min1 sc.min2) = sc.min0 ∨
      min sc.min0 (min sc.min1 sc.min2) = sc.min1 ∨
      min sc.min0 (min sc.min1 sc.min2) = sc.min2 := by
    rcases min_choice sc.min0 (min sc.min1 sc.min2) with h0 | h0
    · exact Or.inl h0
    · rcases min_choice sc.min1 sc.min2 with h1 | h1
      · exact Or.inr (Or.inl (h0.trans h1))
      · exact Or.inr (Or.inr (h0.trans h1))
  refine ⟨by omega, ?_⟩
  intro j hj hg ⟨hr1, hr2⟩
  rcases hg with hg | hg | hg
  · have := q0 j hj hg hr1
    omega
  · have := q1 j hj hg hr1
    omega
  · have := q2 j hj hg hr1
    omega

theorem ite_eq_right_of_ne {α : Type} (c : Prop) [Decidable c] (x y z : α)
    (h : (if c then x else y) = z) (hx : x ≠ z) : ¬ c ∧ y = z := by
  by_cases hc : c
  · rw [if_pos hc] at h
    exact absurd h hx
  · rw [if_neg hc] at h
    exact ⟨hc, h⟩

theorem cca_entry_spec (C : Chains) (A : Atoms) (S S1 : Topo) (sc : Scan)
    (h : cca_entry C A S sc = .ok (some S1)) :
    min sc.min0 (min sc.min1 sc.min2) ≠ -1 ∧ S1.nn = S.nn + 1 ∧
    S1.res_no = (fun x => if x = (S.nn : Int) then min sc.min0 (min sc.min1 sc.min2)
      else S.res_no x) := by
  unfold cca_entry at h
  simp only at h
  obtain ⟨h1, h⟩ := ite_eq_right_of_ne _ _ _ _ h (by intro hc; cases hc)
  obtain ⟨-, h⟩ := ite_eq_right_of_ne _ _ _ _ h (by intro hc; cases hc)
  obtain ⟨-, h⟩ := ite_eq_right_of_ne _ _ _ _ h (by intro hc; cases hc)
  obtain ⟨-, h⟩ := ite_eq_right_of_ne _ _ _ _ h (by intro hc; cases hc)
  have h5 := (Option.some.inj (Except.ok.inj h)).symm
  subst h5
  exact ⟨h1, rfl, rfl⟩

theorem cca_build_spec (C : Chains) (A : Atoms) :
    ∀ (fuel : Nat) (i last : Int) (S S1 : Topo), cca_build C A fuel i last S = .ok S1 →
      0 ≤ last →
      (S.nn = 0 ∨ S.res_no ((S.nn : Int) - 1) = last) →
      (∀ k : Int, 0 ≤ k → k + 1 < (S.nn : Int) →
        S.res_no k < S.res_no (k + 1) ∧
        ∀ j : Nat, j < A.nlocal + A.nghost →
          (A.inGroup j = true ∨ A.inGroup2 j = true ∨ A.inGroup3 j = true) →
          ¬ (S.res_no k < A.residue j ∧ A.residue j < S.res_no (k + 1))) →
      (∀ k : Int, 0 ≤ k → k + 1 < (S1.nn : Int) →
        S1.res_no k < S1.res_no (k + 1) ∧
        ∀ j : Nat, j < A.nlocal + A.nghost →
          (A.inGroup j = true ∨ A.inGroup2 j = true ∨ A.inGroup3 j = true) →
          ¬ (S1.res_no k < A.residue j ∧ A.residue j < S1.res_no (k + 1))) := by
  intro fuel
  induction fuel with
  | zero =>
    intro i last S S1 h _ _ hinv
    have hS : S1 = S := (Except.ok.inj h).symm
    subst hS
    exact hinv
  | succ fuel ih =>
    intro i last S S1 h hl hlast hinv
    unfold cca_build at h
    cases hsc : cca_scan A i last with
    | error e => simp [hsc] at h
    | ok sc =>
      simp only [hsc] at h
      cases hen : cca_entry C A S sc with
      | error e => simp [hen] at h
      | ok o =>
        cases o with
        | none =>
          simp only [hen] at h
          have hS : S1 = S := (Except.ok.inj h).symm
          subst hS
          exact hinv
        | some S2 =>
          simp only [hen] at h
          obtain ⟨hne, hnn, hres⟩ := cca_entry_spec C A S S2 sc hen
          obtain ⟨hgt, hgap⟩ := cca_scan_spec A i last hl sc hsc hne
          refine ih (i + 1) (min sc.min0 (min sc.min1 sc.min2)) S2 S1 h (by omega) ?_ ?_
          · right
            rw [hres, hnn]
            simp
          · intro k hk0 hk1
            rw [hnn] at hk1
            push_cast at hk1
            rw [hres]
            by_cases hk : k + 1 = (S.nn : Int)
            · have hk2 : k ≠ (S.nn : Int) := by omega
              have hk3 : S.res_no k = last := by
                rcases hlast with h0 | h0
                · omega
                · rw [← h0]
                  congr 1
                  omega
              simp only [hk, hk2, if_true, if_false, hk3]
              exact ⟨hgt, hgap⟩
            · have hk2 : k ≠ (S.nn : Int) := by omega
              simp only [hk, hk2, if_false]
              exact hinv k hk0 (by omega)

/-- Claim C19, amended: in the list built by `Construct_Computational_Arrays`
`res_no` is strictly increasing in the list index; between two consecutive
entries no atom of the three groups seen by the process carries a residue
tag strictly between their sequence numbers, so the two are contiguous
(`res_no[k+1] = res_no[k] + 1`) whenever the process sees an atom of the
residue `res_no[k] + 1`. -/
theorem Construct_Computational_Arrays_res_no_increasing (C : Chains) (A : Atoms)
    (S0 S : Topo) (h : Construct_Computational_Arrays C A S0 = .ok S) :
    (∀ a b : Int, 0 ≤ a → a < b → b < (S.nn : Int) → S.res_no a < S.res_no b) ∧
    (∀ k : Int, 0 ≤ k → k + 1 < (S.nn : Int) →
      (∀ j : Nat, j < A.nlocal + A.nghost →
        (A.inGroup j = true ∨ A.inGroup2 j = true ∨ A.inGroup3 j = true) →
        ¬ (S.res_no k < A.residue j ∧ A.residue j < S.res_no (k + 1))) ∧
      ((∃ j : Nat, j < A.nlocal + A.nghost ∧
          (A.inGroup j = true ∨ A.inGroup2 j = true ∨ A.inGroup3 j = true) ∧
          A.residue j = S.res_no k + 1) →
        S.res_no (k + 1) = S.res_no k + 1)) := by
  unfold Construct_Computational_Arrays at h
  simp only at h
  split at h
  · exact absurd h (by simp)
  · rename_i S2 hb
    obtain ⟨a1, -, -, -, a5, -⟩ := cca_mark_loop_spec C A S2 S2.nn S h
    have hstep := cca_build_spec C A C.n 0 0 _ S2 hb (le_refl 0) (Or.inl rfl)
      (fun k hk0 hk1 => by
        simp only [Nat.cast_zero] at hk1
        omega)
    rw [a1, a5]
    have hmono : ∀ (d : Nat) (a : Int), 0 ≤ a → a + 1 + (d : Int) < (S2.nn : Int) →
        S2.res_no a < S2.res_no (a + 1 + (d : Int)) := by
      intro d
      induction d with
      | zero =>
        intro a ha hb2
        simp only [Nat.cast_zero, add_zero] at hb2 ⊢
        exact (hstep a ha hb2).1
      | succ d ih =>
        intro a ha hb2
        push_cast at hb2 ⊢
        have h1 := ih a ha (by omega)
        have h2 := (hstep (a + 1 + (d : Int)) (by omega) (by omega)).1
        have e : a + 1 + ((d : Int) + 1) = a + 1 + (d : Int) + 1 := by ring
        rw [e]
        omega
    refine ⟨?_, ?_⟩
    · intro a b ha hab hb2
      have e : b = a + 1 + ((b - a - 1).toNat : Int) := by
        rw [Int.toNat_of_nonneg (by omega)]
        ring
      rw [e]
      exact hmono _ a ha (by rw [← e]; exact hb2)
    · intro k hk0 hk1
      obtain ⟨hlt, hgap⟩ := hstep k hk0 hk1
      refine ⟨hgap, ?_⟩
      rintro ⟨j, hj, hg, hr⟩
      have := hgap j hj hg
      omega

theorem Construct_Computational_Arrays_res_no_increasing_witness :
    ∃ S, Construct_Computational_Arrays exChains4 exAtomsGap exTopo0 = .ok S ∧
      (∀ a b : Int, 0 ≤ a → a < b → b < (S.nn : Int) → S.res_no a < S.res_no b) ∧
      (∀ k : Int, 0 ≤ k → k + 1 < (S.nn : Int) →
        (∀ j : Nat, j < exAtomsGap.nlocal + exAtomsGap.nghost →
          (exAtomsGap.inGroup j = true ∨ exAtomsGap.inGroup2 j = true ∨
            exAtomsGap.inGroup3 j = true) →
          ¬ (S.res_no k < exAtomsGap.residue j ∧ exAtomsGap.residue j < S.res_no (k + 1))) ∧
        ((∃ j : Nat, j < exAtomsGap.nlocal + exAtomsGap.nghost ∧
            (exAtomsGap.inGroup j = true ∨ exAtomsGap.inGroup2 j = true ∨
              exAtomsGap.inGroup3 j = true) ∧
            exAtomsGap.residue j = S.res_no k + 1) →
          S.res_no (k + 1) = S.res_no k + 1)) :=
  ⟨_, rfl, Construct_Computational_Arrays_res_no_increasing exChains4 exAtomsGap exTopo0 _ rfl⟩

theorem chi_not_dispatched (F : LocalFlags) (C : Chains) (S : Topo) (se : Int → Char)
    (i : Int) (hterm : isFirst C S i = true ∨ isLast C S i = true) :
    LocalCall.chi i ∉ dispatch_calls F C S se ∧
    LocalCall.chi i ∉ dispatch_calls_debug F C S se := by
  have hg : chi_guard F C S se i = false := by
    rcases hterm with h | h <;> simp [chi_guard, h]
  have key : ∀ k : Nat, LocalCall.chi i ∉ dispatch_residue F C S se (k : Int) := by
    intro k hk
    simp only [dispatch_residue, List.mem_append] at hk
    rcases hk with (((hk | hk) | hk) | hk) | hk
    all_goals split at hk
    all_goals simp at hk
    rename_i hgk
    subst hk
    rw [hg] at hgk
    exact absurd hgk (by decide)
  refine ⟨?_, ?_⟩
  · intro hmem
    simp only [dispatch_calls, List.mem_flatMap] at hmem
    obtain ⟨k, -, hk⟩ := hmem
    exact key k hk
  · intro hmem
    simp only [dispatch_calls_debug, List.mem_append, List.mem_flatMap] at hmem
    rcases hmem with ((⟨k, -, hk⟩ | ⟨k, -, hk⟩) | ⟨k, -, hk⟩) | ⟨k, -, hk⟩
    all_goals split at hk
    all_goals simp at hk
    rename_i hgk
    subst hk
    rw [hg] at hgk
    exact absurd hgk (by decide)

theorem rama_not_dispatched (F : LocalFlags) (C : Chains) (S : Topo) (se : Int → Char)
    (i : Int) (hterm : isFirst C S i = true ∨ isLast C S i = true) :
    LocalCall.rama i ∉ dispatch_calls F C S se ∧
    LocalCall.rama i ∉ dispatch_calls_debug F C S se := by
  have hg : rama_guard F C S se i = false := by
    rcases hterm with h | h <;> simp [rama_guard, h]
  have key : ∀ k : Nat, LocalCall.rama i ∉ dispatch_residue F C S se (k : Int) := by
    intro k hk
    simp only [dispatch_residue, List.mem_append] at hk
    rcases hk with (((hk | hk) | hk) | hk) | hk
    all_goals split at hk
    all_goals simp at hk
    rename_i hgk
    subst hk
    rw [hg] at hgk
    exact absurd hgk (by decide)
  refine ⟨?_, ?_⟩
  · intro hmem
    simp only [dispatch_calls, List.mem_flatMap] at hmem
    obtain ⟨k, -, hk⟩ := hmem
    exact key k hk
  · intro hmem
    simp only [dispatch_calls_debug, List.mem_append, List.mem_flatMap] at hmem
    rcases hmem with ((⟨k, -, hk⟩ | ⟨k, -, hk⟩) | ⟨k, -, hk⟩) | ⟨k, -, hk⟩
    all_goals split at hk
    all_goals simp at hk
    rename_i hgk
    subst hk
    rw [hg] at hgk
    exact absurd hgk (by decide)

/-- Claim C20: for a residue that is first in its chain the blocks N-Cb and
N-C' of `compute_chain_potential` change nothing, for one that is last the
blocks C'-Cb and N-C' change nothing, for one that is both the call leaves
`energy[ET_CHAIN]` and every force as they were; the function has no error
exit; and neither dispatch (with or without `DEBUGFORCES`) contains a call
of `compute_chi_potential` or `compute_rama_potential` for such a residue. -/
theorem chain_terminus_skipped {K : Type} [LinearOrderedField K] (sqrt : K → K)
    (P : ChainParams K) (C : Chains) (S : Topo) (X : Coords K) (F : LocalFlags) (i : Int)
    (hterm : isFirst C S i = true ∨ isLast C S i = true) :
    (isFirst C S i = true → ∀ st : FMState K,
      chain_ncb sqrt P C S X i st = st ∧ chain_ncp sqrt P C S X i st = st ∧
      compute_chain_potential sqrt P C S X i st = chain_cpcb sqrt P C S X i st) ∧
    (isLast C S i = true → ∀ st : FMState K,
      chain_cpcb sqrt P C S X i st = st ∧ chain_ncp sqrt P C S X i st = st ∧
      compute_chain_potential sqrt P C S X i st = chain_ncb sqrt P C S X i st) ∧
    (isFirst C S i = true → isLast C S i = true → ∀ st : FMState K,
      compute_chain_potential sqrt P C S X i st = st) ∧
    LocalCall.chi i ∉ dispatch_calls F C S P.se ∧
    LocalCall.rama i ∉ dispatch_calls F C S P.se ∧
    LocalCall.chi i ∉ dispatch_calls_debug F C S P.se ∧
    LocalCall.rama i ∉ dispatch_calls_debug F C S P.se := by
  have hF : isFirst C S i = true → ∀ st : FMState K,
      chain_ncb sqrt P C S X i st = st ∧ chain_ncp sqrt P C S X i st = st := by
    intro h st
    constructor
    · simp [chain_ncb, h]
    · simp [chain_ncp, h]
  have hL : isLast C S i = true → ∀ st : FMState K,
      chain_cpcb sqrt P C S X i st = st ∧ chain_ncp sqrt P C S X i st = st := by
    intro h st
    constructor
    · simp [chain_cpcb, h]
    · simp [chain_ncp, h]
  refine ⟨?_, ?_, ?_, (chi_not_dispatched F C S P.se i hterm).1,
    (rama_not_dispatched F C S P.se i hterm).1, (chi_not_dispatched F C S P.se i hterm).2,
    (rama_not_dispatched F C S P.se i hterm).2⟩
  · intro h st
    refine ⟨(hF h st).1, (hF h st).2, ?_⟩
    unfold compute_chain_potential
    rw [(hF h st).1, (hF h _).2]
  · intro h st
    refine ⟨(hL h st).1, (hL h st).2, ?_⟩
    unfold compute_chain_potential
    rw [(hL h _).2, (hL h _).1]
  · intro h1 h2 st
    unfold compute_chain_potential
    rw [(hF h1 st).1, (hL h2 st).1, (hF h1 st).2]

theorem chain_terminus_skipped_witness :
    (∀ st : FMState ℚ,
      compute_chain_potential sqrtQ exChainParams exChains exTopo2 exCoordsChain 0 st
        = chain_cpcb sqrtQ exChainParams exChains exTopo2 exCoordsChain 0 st) ∧
    LocalCall.chi 0 ∉ dispatch_calls exFlags exChains exTopo2 exChainParams.se ∧
    LocalCall.rama 0 ∉ dispatch_calls exFlags exChains exTopo2 exChainParams.se ∧
    LocalCall.chain 0 ∈ dispatch_calls exFlags exChains exTopo2 exChainParams.se := by
  have h := chain_terminus_skipped sqrtQ exChainParams exChains exTopo2 exCoordsChain exFlags 0
    (Or.inl (by decide))
  exact ⟨fun st => ((h.1 (by decide)) st).2.2, h.2.2.2.1, h.2.2.2.2.1, by decide⟩

theorem backbone_step_xcp_frame {K : Type} [LinearOrderedField K] (co : BackboneCoef K)
    (C : Chains) (S : Topo) (H : Host K) (st : Coords K) (i : Nat) (l : Int)
    (h : backbone_im1 S i ≠ l) : (backbone_step co C S H st i).xcp l = st.xcp l := by
  have hc : (backbone_coords S H st i).xcp = st.xcp := by
    unfold backbone_coords
    split_ifs <;> rfl
  have hl : l ≠ backbone_im1 S i := fun e => h e.symm
  unfold backbone_step backbone_virtual
  simp only
  split_ifs <;> simp [setPos, hl, hc]

theorem backbone_loop_xcp_frame {K : Type} [LinearOrderedField K] (co : BackboneCoef K)
    (C : Chains) (S : Topo) (H : Host K) (l : Int) :
    ∀ (m : Nat) (st : Coords K), (∀ i : Nat, i < m → backbone_im1 S i ≠ l) →
      ((List.range m).foldl (backbone_step co C S H) st).xcp l = st.xcp l := by
  intro m
  induction m with
  | zero => intro st _; rfl
  | succ m ih =>
    intro st h
    rw [List.range_succ, List.foldl_append, List.foldl_cons, List.foldl_nil,
      backbone_step_xcp_frame co C S H _ m l (h m (Nat.lt_succ_self m))]
    exact ih st (fun i hi => h i (Nat.lt_succ_of_lt hi))

theorem backbone_reconstruct_xcp_frame {K : Type} [LinearOrderedField K] (co : BackboneCoef K)
    (C : Chains) (S : Topo) (H : Host K) (st : Coords K) (l : Int)
    (h : ∀ i : Nat, i < S.nn → backbone_im1 S i ≠ l) (hl : l ≠ (S.nn : Int) - 1) :
    (backbone_reconstruct co C S H st).xcp l = st.xcp l := by
  unfold backbone_reconstruct
  simp only
  split_ifs
  · simp only [setPos, hl, if_false]
    exact backbone_loop_xcp_frame co C S H l S.nn st h
  · exact backbone_loop_xcp_frame co C S H l S.nn st h

/-- Claim C13, evaluation at the failing input. A process owns residues 1 and
2 (chain 1) and sees residue 4 of chain 2 but not residue 3: the list 1, 2, 4
is built without error, entry 1 (residue 2) is LOCAL and last in its chain,
and the reconstruction loop leaves `xcp[1]` exactly as it was before the
call, whatever it held. -/
theorem backbone_reconstruct_keeps_stale_xcp :
    ∃ S, Construct_Computational_Arrays exChains23 exAtomsTwoChains exTopo0 = .ok S ∧
      S.nn = 3 ∧ S.res_no 1 = 2 ∧ S.res_info 1 = ResInfo.LOCAL ∧
      isLast exChains23 S 1 = true ∧
      ∀ (K : Type) (_ : LinearOrderedField K) (co : BackboneCoef K) (H : Host K)
        (st : Coords K), (backbone_reconstruct co exChains23 S H st).xcp 1 = st.xcp 1 := by
  refine ⟨_, rfl, by decide, by decide, by decide, by decide, ?_⟩
  intro K _ co H st
  exact backbone_reconstruct_xcp_frame co exChains23 _ H st 1 (by decide) (by decide)

theorem net_force_addForce {K : Type} [LinearOrderedField K] (f : Int → Fin 3 → K) (a : Int)
    (s : K) (dx : Fin 3 → K) (d : Fin 3) (ha : 0 ≤ a) :
    ∀ N : Nat, net_force N (addForce f a s dx) d =
      net_force N f d + (if a < (N : Int) then s * dx d else 0) := by
  intro N
  induction N with
  | zero =>
    have : ¬ a < 0 := by omega
    simp [net_force, this]
  | succ N ih =>
    unfold net_force at ih ⊢
    rw [List.range_succ, List.map_append, List.sum_append, ih, List.map_append,
      List.sum_append]
    simp only [List.map_cons, List.map_nil, List.sum_cons, List.sum_nil, add_zero, addForce]
    by_cases h1 : a < (N : Int)
    · have h2 : (N : Int) ≠ a := by omega
      have h3 : a < ((N + 1 : Nat) : Int) := by push_cast; omega
      simp only [h1, h2, h3, if_true, if_false]
      ring
    · by_cases h2 : (N : Int) = a
      · have h3 : a < ((N + 1 : Nat) : Int) := by push_cast; omega
        rw [if_neg h1, if_pos h2, if_pos h3, h2]
        ring
      · have h3 : ¬ a < ((N + 1 : Nat) : Int) := by push_cast; omega
        simp only [h1, h2, h3, if_false]
        ring

theorem net_force_pair {K : Type} [LinearOrderedField K] (N : Nat) (f : Int → Fin 3 → K)
    (a b : Int) (s : K) (dx : Fin 3 → K) (d : Fin 3) (ha : 0 ≤ a ∧ a < (N : Int))
    (hb : 0 ≤ b ∧ b < (N : Int)) :
    net_force N (addForce (addForce f a s dx) b (-s) dx) d = net_force N f d := by
  rw [net_force_addForce _ b _ dx d hb.1 N, net_force_addForce _ a _ dx d ha.1 N, if_pos ha.2,
    if_pos hb.2]
  ring

theorem addForce_pair {K : Type} [LinearOrderedField K] (f : Int → Fin 3 → K)
    (a b : Int) (s : K) (dx : Fin 3 → K) (x : Int) (d : Fin 3) :
    addForce (addForce f a s dx) b (-s) dx x d =
      f x d + (if x = a then s * dx d else 0) + (if x = b then -(s * dx d) else 0) := by
  unfold addForce
  by_cases h1 : x = a
  · by_cases h2 : x = b
    · rw [if_pos h2, if_pos h1, if_pos h1, if_pos h2]
      ring
    · rw [if_neg h2, if_pos h1, if_pos h1, if_neg h2]
      ring
  · by_cases h2 : x = b
    · rw [if_pos h2, if_neg h1, if_neg h1, if_pos h2]
      ring
    · rw [if_neg h2, if_neg h1, if_neg h1, if_neg h2]
      ring

theorem tfm_kind_net_force {K : Type} [LinearOrderedField K] [FloorRing K] (sqrt : K → K)
    (T : FMTable K) (R : Residues K) (se : Int → Char) (i j : Int) (k : Nat)
    (st : FMState K) (c : Ctl (FMState K)) (N : Nat)
    (hCA : ∀ x, x = i ∨ x = j → 0 ≤ R.alpha_carbons x ∧ R.alpha_carbons x < (N : Int))
    (hCB : ∀ x, x = i ∨ x = j → se (R.res_no x - 1) ≠ 'G' →
      0 ≤ R.beta_atoms x ∧ R.beta_atoms x < (N : Int))
    (h : tfm_kind sqrt T R se i j k st = .ok c) :
    ∃ st1, (c = .next st1 ∨ c = .ret st1) ∧
      (∀ d, net_force N st1.f d = net_force N st.f d) ∧
      ∃ v : Fin 3 → K, ∀ x d, st1.f x d = st.f x d
        + (if x = iatom_of R i k then v d else 0)
        + (if x = jatom_of R j k then -(v d) else 0) := by
  have zero : ∃ v : Fin 3 → K, ∀ x d, st.f x d = st.f x d
        + (if x = iatom_of R i k then v d else 0)
        + (if x = jatom_of R j k then -(v d) else 0) := ⟨fun _ => 0, fun x d => by simp⟩
  unfold tfm_kind at h
  simp only at h
  by_cases hs : tfm_skip se (R.res_no i - 1) (R.res_no j - 1) k = true
  · rw [if_pos hs] at h
    exact ⟨st, Or.inl (Except.ok.inj h).symm, fun _ => rfl, zero⟩
  · rw [if_neg hs] at h
    have hi : 0 ≤ iatom_of R i k ∧ iatom_of R i k < (N : Int) := by
      unfold iatom_of
      split_ifs with h1
      · exact hCA i (Or.inl rfl)
      · apply hCB i (Or.inl rfl)
        intro hG
        apply hs
        simp [tfm_skip, hG, h1]
        cases hh : iatom_type k
        · exact absurd hh h1
        · simp
    have hj : 0 ≤ jatom_of R j k ∧ jatom_of R j k < (N : Int) := by
      unfold jatom_of
      split_ifs with h1
      · exact hCA j (Or.inr rfl)
      · apply hCB j (Or.inr rfl)
        intro hG
        apply hs
        simp [tfm_skip, hG, h1]
        cases hh : jatom_type k
        · exact absurd hh h1
        · simp
    split at h
    · split at h
      · exact ⟨st, Or.inr (Except.ok.inj h).symm, fun _ => rfl, zero⟩
      · split at h
        · exact absurd h (by simp)
        · split at h
          · exact absurd h (by simp)
          · refine ⟨_, Or.inl (Except.ok.inj h).symm, ?_, ?_⟩
            · intro d
              exact net_force_pair N st.f _ _ _ _ d hi hj
            · exact ⟨fun d => _ * _, fun x d => addForce_pair st.f _ _ _ _ x d⟩
    · exact absurd h (by simp)


theorem foldlM_invariant {σ α : Type} (f : σ → α → Except Err σ) (I : σ → Prop)
    (hstep : ∀ s x s1, I s → f s x = .ok s1 → I s1) :
    ∀ (l : List α) (s s1 : σ), I s → l.foldlM f s = .ok s1 → I s1 := by
  intro l
  induction l with
  | nil =>
    intro s s1 hI h
    simp only [List.foldlM_nil, pure, Except.pure] at h
    rw [← Except.ok.inj h]
    exact hI
  | cons x l ih =>
    intro s s1 hI h
    rw [List.foldlM_cons] at h
    cases hx : f s x with
    | error e =>
      rw [hx] at h
      exact absurd h (by intro hc; cases hc)
    | ok s2 =>
      rw [hx] at h
      exact ih s2 s1 (hstep s x s2 hI hx) h

theorem tfm_iter_net_force {K : Type} [LinearOrderedField K] [FloorRing K] (sqrt : K → K)
    (T : FMTable K) (R : Residues K) (se : Int → Char) (i j : Int) (N : Nat)
    (hCA : ∀ x, x = i ∨ x = j → 0 ≤ R.alpha_carbons x ∧ R.alpha_carbons x < (N : Int))
    (hCB : ∀ x, x = i ∨ x = j → se (R.res_no x - 1) ≠ 'G' →
      0 ≤ R.beta_atoms x ∧ R.beta_atoms x < (N : Int)) :
    ∀ (fuel k : Nat) (st : FMState K) (c : Ctl (FMState K)),
      tfm_iter sqrt T R se i j fuel k st = .ok c →
      ∃ st1, (c = .next st1 ∨ c = .ret st1) ∧ ∀ d, net_force N st1.f d = net_force N st.f d := by
  intro fuel
  induction fuel with
  | zero =>
    intro k st c h
    exact ⟨st, Or.inl (Except.ok.inj h).symm, fun _ => rfl⟩
  | succ fuel ih =>
    intro k st c h
    unfold tfm_iter at h
    cases hk : tfm_kind sqrt T R se i j k st with
    | error e => simp [hk] at h
    | ok c1 =>
      obtain ⟨st1, hc1, hnet, -⟩ := tfm_kind_net_force sqrt T R se i j k st c1 N hCA hCB hk
      rcases hc1 with hc1 | hc1
      · subst hc1
        simp only [hk] at h
        obtain ⟨st2, hc2, hnet2⟩ := ih (k + 1) st1 c h
        exact ⟨st2, hc2, fun d => (hnet2 d).trans (hnet d)⟩
      · subst hc1
        simp only [hk] at h
        exact ⟨st1, Or.inr (Except.ok.inj h).symm, hnet⟩

theorem table_fragment_memory_net_force {K : Type} [LinearOrderedField K] [FloorRing K]
    (sqrt : K → K) (T : FMTable K) (R : Residues K) (se : Int → Char) (i j : Int) (N : Nat)
    (hCA : ∀ x, x = i ∨ x = j → 0 ≤ R.alpha_carbons x ∧ R.alpha_carbons x < (N : Int))
    (hCB : ∀ x, x = i ∨ x = j → se (R.res_no x - 1) ≠ 'G' →
      0 ≤ R.beta_atoms x ∧ R.beta_atoms x < (N : Int))
    (st st1 : FMState K) (h : table_fragment_memory sqrt T R se i j st = .ok st1) (d : Fin 3) :
    net_force N st1.f d = net_force N st.f d := by
  unfold table_fragment_memory at h
  simp only at h
  split at h
  · rw [← Except.ok.inj h]
  · split at h
    · rw [← Except.ok.inj h]
    · split at h
      · rw [← Except.ok.inj h]
      · split at h
        · exact absurd h (by simp)
        · cases hit : tfm_iter sqrt T R se i j 4 0 st with
          | error e => simp [hit] at h
          | ok c =>
            obtain ⟨st2, hc, hnet⟩ := tfm_iter_net_force sqrt T R se i j N hCA hCB 4 0 st c hit
            rcases hc with hc | hc
            · subst hc
              simp only [hit] at h
              rw [← Except.ok.inj h]
              exact hnet d
            · subst hc
              simp only [hit] at h
              rw [← Except.ok.inj h]
              exact hnet d

theorem fmp_kind_net_force {K : Type} [LinearOrderedField K] (sqrt exp : K → K)
    (P : FMParams K) (R : Residues K) (frag : Fragment K) (i j : Int) (s2 A : K) (k : Nat)
    (st st1 : FMState K) (N : Nat)
    (hCA : ∀ x, x = i ∨ x = j → 0 ≤ R.alpha_carbons x ∧ R.alpha_carbons x < (N : Int))
    (hCB : ∀ x, x = i ∨ x = j → P.se (R.res_no x - 1) ≠ 'G' →
      0 ≤ R.beta_atoms x ∧ R.beta_atoms x < (N : Int))
    (h : fmp_kind sqrt exp P R frag i j s2 A st k = .ok st1) :
    (∀ d, net_force N st1.f d = net_force N st.f d) ∧
      ∃ v : Fin 3 → K, ∀ x d, st1.f x d = st.f x d
        + (if x = iatom_of R i k then v d else 0)
        + (if x = jatom_of R j k then -(v d) else 0) := by
  unfold fmp_kind at h
  simp only at h
  by_cases hs : fmp_skip P.se frag (R.res_no i - 1) (R.res_no j - 1) k = true
  · rw [if_pos hs] at h
    rw [← Except.ok.inj h]
    exact ⟨fun _ => rfl, fun _ => 0, fun x d => by simp⟩
  · rw [if_neg hs] at h
    have hi : 0 ≤ iatom_of R i k ∧ iatom_of R i k < (N : Int) := by
      unfold iatom_of
      split_ifs with h1
      · exact hCA i (Or.inl rfl)
      · apply hCB i (Or.inl rfl)
        intro hG
        apply hs
        simp [fmp_skip, hG, h1]
        cases hh : iatom_type k
        · exact absurd hh h1
        · simp
    have hj : 0 ≤ jatom_of R j k ∧ jatom_of R j k < (N : Int) := by
      unfold jatom_of
      split_ifs with h1
      · exact hCA j (Or.inr rfl)
      · apply hCB j (Or.inr rfl)
        intro hG
        apply hs
        simp [fmp_skip, hG, h1]
        cases hh : jatom_type k
        · exact absurd hh h1
        · simp
    split at h
    · exact absurd h (by simp)
    · rw [← Except.ok.inj h]
      exact ⟨fun d => net_force_pair N st.f _ _ _ _ d hi hj,
        fun d => _ * _, fun x d => addForce_pair st.f _ _ _ _ x d⟩


theorem foldlM_invariant_mem {σ α : Type} (f : σ → α → Except Err σ) (I : σ → Prop) :
    ∀ (l : List α) (s s1 : σ), (∀ s x s2, x ∈ l → I s → f s x = .ok s2 → I s2) → I s →
      l.foldlM f s = .ok s1 → I s1 := by
  intro l
  induction l with
  | nil =>
    intro s s1 _ hI h
    simp only [List.foldlM_nil, pure, Except.pure] at h
    rw [← Except.ok.inj h]
    exact hI
  | cons x l ih =>
    intro s s1 hstep hI h
    rw [List.foldlM_cons] at h
    cases hx : f s x with
    | error e =>
      rw [hx] at h
      exact absurd h (by intro hc; cases hc)
    | ok s2 =>
      rw [hx] at h
      exact ih s2 s1 (fun s x s3 hm => hstep s x s3 (List.mem_cons_of_mem _ hm))
        (hstep s x s2 (List.mem_cons_self _ _) hI hx) h

theorem fmp_pair_net_force {K : Type} [LinearOrderedField K] (sqrt exp : K → K)
    (pow : K → K → K) (P : FMParams K) (R : Residues K) (frag : Fragment K) (w : K)
    (i j : Int) (st st1 : FMState K) (N : Nat)
    (hCA : ∀ x, x = i ∨ x = j → 0 ≤ R.alpha_carbons x ∧ R.alpha_carbons x < (N : Int))
    (hCB : ∀ x, x = i ∨ x = j → P.se (R.res_no x - 1) ≠ 'G' →
      0 ≤ R.beta_atoms x ∧ R.beta_atoms x < (N : Int))
    (h : fmp_pair sqrt exp pow P R frag w i st j = .ok st1) (d : Fin 3) :
    net_force N st1.f d = net_force N st.f d := by
  unfold fmp_pair at h
  simp only at h
  split at h
  · exact absurd h (by simp)
  · split at h
    · exact absurd h (by simp)
    · exact foldlM_invariant _ (fun s => net_force N s.f d = net_force N st.f d)
        (fun s k s1 hI hk =>
          ((fmp_kind_net_force sqrt exp P R frag i j _ _ k s s1 N hCA hCB hk).1 d).trans hI)
        _ st st1 rfl h

theorem compute_fragment_memory_potential_net_force {K : Type} [LinearOrderedField K]
    (sqrt exp : K → K) (pow : K → K → K) (P : FMParams K) (R : Residues K) (i : Int)
    (st st1 : FMState K) (N : Nat)
    (hCA : ∀ x, x = i ∨ (i + P.fm_gamma.minSep ≤ x ∧ x < P.n) →
      0 ≤ R.alpha_carbons x ∧ R.alpha_carbons x < (N : Int))
    (hCB : ∀ x, x = i ∨ (i + P.fm_gamma.minSep ≤ x ∧ x < P.n) →
      P.se (R.res_no x - 1) ≠ 'G' → 0 ≤ R.beta_atoms x ∧ R.beta_atoms x < (N : Int))
    (h : compute_fragment_memory_potential sqrt exp pow P R i st = .ok st1) (d : Fin 3) :
    net_force N st1.f d = net_force N st.f d := by
  unfold compute_fragment_memory_potential at h
  refine foldlM_invariant _ (fun s => net_force N s.f d = net_force N st.f d) ?_ _ st st1 rfl h
  intro s i_fm s1 hI hfrag
  unfold fmp_frag at hfrag
  simp only at hfrag
  split at hfrag
  · exact absurd hfrag (by simp)
  · rename_i hje
    push_neg at hje
    refine foldlM_invariant_mem _ (fun s => net_force N s.f d = net_force N st.f d) _ s s1 ?_
      hI hfrag
    intro s2 j s3 hj hI2 hpair
    rw [mem_intRange] at hj
    have hjn : j < P.n := by
      have h1 := hje.1
      have h2 : fmp_je P (P.frag_mems (P.frag_mem_map (R.res_no i - 1) i_fm)) i < P.n := h1
      omega
    have hx : ∀ x, x = i ∨ x = j → x = i ∨ (i + P.fm_gamma.minSep ≤ x ∧ x < P.n) := by
      intro x hx
      rcases hx with hx | hx
      · exact Or.inl hx
      · subst hx
        exact Or.inr ⟨hj.1, hjn⟩
    exact (fmp_pair_net_force sqrt exp pow P R _ _ i j s2 s3 N
      (fun x hxx => hCA x (hx x hxx)) (fun x hxx => hCB x (hx x hxx)) hpair d).trans hI2

theorem shake_bond_net_force {K : Type} [LinearOrderedField K] (sqrt : K → K)
    (P : ShakeParams K) (r0 : K) (pa pb : Fin 3 → K) (a b : Int) (st : FMState K) (N : Nat)
    (ha : 0 ≤ a ∧ a < (N : Int)) (hb : 0 ≤ b ∧ b < (N : Int)) (d : Fin 3) :
    net_force N (shake_bond sqrt P r0 pa pb a b st).f d = net_force N st.f d := by
  unfold shake_bond
  exact net_force_pair N st.f a b _ _ d ha hb

theorem compute_shake_net_force {K : Type} [LinearOrderedField K] (sqrt : K → K)
    (P : ShakeParams K) (C : Chains) (S : Topo) (X : Coords K) (i : Int) (st : FMState K)
    (N : Nat) (hca : 0 ≤ S.alpha_carbons i ∧ S.alpha_carbons i < (N : Int))
    (ho : 0 ≤ S.oxygens i ∧ S.oxygens i < (N : Int))
    (hnext : isLast C S i = false →
      0 ≤ S.alpha_carbons (i + 1) ∧ S.alpha_carbons (i + 1) < (N : Int)) (d : Fin 3) :
    net_force N (compute_shake sqrt P C S X i st).f d = net_force N st.f d := by
  unfold compute_shake
  cases hl : isLast C S i
  · simp only [Bool.not_false, if_true]
    rw [shake_bond_net_force sqrt P _ _ _ _ _ _ N ho (hnext hl) d,
      shake_bond_net_force sqrt P _ _ _ _ _ _ N hca ho d,
      shake_bond_net_force sqrt P _ _ _ _ _ _ N hca (hnext hl) d]
  · simp only [Bool.not_true, Bool.false_eq_true, if_false]
    rw [shake_bond_net_force sqrt P _ _ _ _ _ _ N hca ho d]


/-- Claim C11: each two-body contribution of `table_fragment_memory`,
`compute_fragment_memory_potential`, `compute_shake` and of the pair loop of
`compute_pair` adds a vector `v` to the first atom and `-v` to the second,
and each of these calls leaves the sum of the forces on the atoms
`0 .. N-1` unchanged (the atoms written being among them). -/
theorem two_body_forces_antisymmetric {K : Type} [LinearOrderedField K] [FloorRing K]
    (sqrt exp : K → K) (pow : K → K → K) (T : FMTable K) (P : FMParams K) (R : Residues K)
    (SP : ShakeParams K) (C : Chains) (S : Topo) (X : Coords K) (N : Nat) (i j a b : Int)
    (hCA : ∀ x, x = i ∨ x = j ∨ (i + P.fm_gamma.minSep ≤ x ∧ x < P.n) →
      0 ≤ R.alpha_carbons x ∧ R.alpha_carbons x < (N : Int))
    (hCB : ∀ x, x = i ∨ x = j ∨ (i + P.fm_gamma.minSep ≤ x ∧ x < P.n) →
      P.se (R.res_no x - 1) ≠ 'G' → 0 ≤ R.beta_atoms x ∧ R.beta_atoms x < (N : Int))
    (hca : 0 ≤ S.alpha_carbons i ∧ S.alpha_carbons i < (N : Int))
    (ho : 0 ≤ S.oxygens i ∧ S.oxygens i < (N : Int))
    (hnext : isLast C S i = false →
      0 ≤ S.alpha_carbons (i + 1) ∧ S.alpha_carbons (i + 1) < (N : Int))
    (ha : 0 ≤ a ∧ a < (N : Int)) (hb : 0 ≤ b ∧ b < (N : Int)) :
    (∀ (st st1 : FMState K), table_fragment_memory sqrt T R P.se i j st = .ok st1 →
      ∀ d, net_force N st1.f d = net_force N st.f d) ∧
    (∀ (k : Nat) (st : FMState K) (c : Ctl (FMState K)),
      tfm_kind sqrt T R P.se i j k st = .ok c →
      ∃ st1, (c = .next st1 ∨ c = .ret st1) ∧
        ∃ v : Fin 3 → K, ∀ x d, st1.f x d = st.f x d
          + (if x = iatom_of R i k then v d else 0)
          + (if x = jatom_of R j k then -(v d) else 0)) ∧
    (∀ (st st1 : FMState K), compute_fragment_memory_potential sqrt exp pow P R i st = .ok st1 →
      ∀ d, net_force N st1.f d = net_force N st.f d) ∧
    (∀ (frag : Fragment K) (s2 A : K) (k : Nat) (st st1 : FMState K),
      fmp_kind sqrt exp P R frag i j s2 A st k = .ok st1 →
      ∃ v : Fin 3 → K, ∀ x d, st1.f x d = st.f x d
        + (if x = iatom_of R i k then v d else 0)
        + (if x = jatom_of R j k then -(v d) else 0)) ∧
    (∀ (st : FMState K) (d : Fin 3),
      net_force N (compute_shake sqrt SP C S X i st).f d = net_force N st.f d) ∧
    (∀ (r0 : K) (pa pb : Fin 3 → K) (p q : Int) (st : FMState K), ∃ v : Fin 3 → K, ∀ x d,
      (shake_bond sqrt SP r0 pa pb p q st).f x d = st.f x d
        + (if x = p then v d else 0) + (if x = q then -(v d) else 0)) ∧
    (∀ (f : Int → Fin 3 → K) (force : K) (dx : Fin 3 → K) (d : Fin 3),
      net_force N (pair_apply_force f a b force dx) d = net_force N f d) ∧
    (∀ (f : Int → Fin 3 → K) (force : K) (dx : Fin 3 → K), ∃ v : Fin 3 → K, ∀ x d,
      pair_apply_force f a b force dx x d = f x d
        + (if x = a then v d else 0) + (if x = b then -(v d) else 0)) := by
  have hCA2 : ∀ x, x = i ∨ x = j → 0 ≤ R.alpha_carbons x ∧ R.alpha_carbons x < (N : Int) :=
    fun x hx => hCA x (hx.elim Or.inl (fun h => Or.inr (Or.inl h)))
  have hCB2 : ∀ x, x = i ∨ x = j → P.se (R.res_no x - 1) ≠ 'G' →
      0 ≤ R.beta_atoms x ∧ R.beta_atoms x < (N : Int) :=
    fun x hx => hCB x (hx.elim Or.inl (fun h => Or.inr (Or.inl h)))
  refine ⟨?_, ?_, ?_, ?_, ?_, ?_, ?_, ?_⟩
  · intro st st1 h d
    exact table_fragment_memory_net_force sqrt T R P.se i j N hCA2 hCB2 st st1 h d
  · intro k st c h
    obtain ⟨st1, hc, -, hv⟩ := tfm_kind_net_force sqrt T R P.se i j k st c N hCA2 hCB2 h
    exact ⟨st1, hc, hv⟩
  · intro st st1 h d
    exact compute_fragment_memory_potential_net_force sqrt exp pow P R i st st1 N
      (fun x hx => hCA x (hx.elim Or.inl (fun h => Or.inr (Or.inr h))))
      (fun x hx => hCB x (hx.elim Or.inl (fun h => Or.inr (Or.inr h)))) h d
  · intro frag s2 A k st st1 h
    exact (fmp_kind_net_force sqrt exp P R frag i j s2 A k st st1 N hCA2 hCB2 h).2
  · intro st d
    exact compute_shake_net_force sqrt SP C S X i st N hca ho hnext d
  · intro r0 pa pb p q st
    exact ⟨fun d => _ * _, fun x d => addForce_pair st.f p q _ _ x d⟩
  · intro f force dx d
    unfold pair_apply_force
    split_ifs
    · exact net_force_pair N f a b force dx d ha hb
    · rfl
  · intro f force dx
    unfold pair_apply_force
    split_ifs
    · exact ⟨fun d => force * dx d, fun x d => addForce_pair f a b force dx x d⟩
    · exact ⟨fun _ => 0, fun x d => by simp⟩

theorem two_body_forces_antisymmetric_witness :
    (∀ (st st1 : FMState ℚ),
      table_fragment_memory sqrtQ exTable (exResidues ℚ) (exParams ℚ).se 0 1 st
        = .ok st1 → ∀ d, net_force 6 st1.f d = net_force 6 st.f d) ∧
    (∀ (st st1 : FMState ℚ), compute_fragment_memory_potential sqrtQ (fun x => x) (fun x _ => x)
        (exParams ℚ) (exResidues ℚ) 0 st = .ok st1 →
      ∀ d, net_force 6 st1.f d = net_force 6 st.f d) ∧
    (∀ (st : FMState ℚ) (d : Fin 3),
      net_force 6 (compute_shake sqrtQ exShakeParams exChains exTopo2 exCoordsShake
        0 st).f d = net_force 6 st.f d) ∧
    (∀ (f : Int → Fin 3 → ℚ) (force : ℚ) (dx : Fin 3 → ℚ) (d : Fin 3),
      net_force 6 (pair_apply_force f 0 1 force dx) d = net_force 6 f d) := by
  have hx : ∀ x : Int, x = 0 ∨ x = 1 ∨ (0 + (exParams ℚ).fm_gamma.minSep ≤ x ∧
      x < (exParams ℚ).n) → x = 0 ∨ x = 1 := by
    intro x hx
    rcases hx with h | h | h
    · exact Or.inl h
    · exact Or.inr h
    · simp only [exParams] at h
      omega
  have h := two_body_forces_antisymmetric sqrtQ (fun x => x) (fun x _ => x) exTable
    (exParams ℚ) (exResidues ℚ) exShakeParams exChains exTopo2 exCoordsShake 6 0 1 0 1
    (by
      intro x hxx
      rcases hx x hxx with h | h <;> subst h <;> simp [exResidues])
    (by
      intro x hxx _
      rcases hx x hxx with h | h <;> subst h <;> simp [exResidues])
    (by simp [exTopo2]) (by simp [exTopo2]) (by intro _; simp [exTopo2])
    (by decide) (by decide)
  exact ⟨h.1, h.2.2.1, h.2.2.2.2.1, h.2.2.2.2.2.2.1⟩

theorem addAt_pair {K : Type} [LinearOrderedField K] (arr : Int → K) (a b : Int) (v : K)
    (r : Int) :
    addAt (addAt arr a v) b v r = arr r + ((if r = a then v else 0) + (if r = b then v else 0)) := by
  unfold addAt
  by_cases h1 : r = a
  · by_cases h2 : r = b
    · rw [if_pos h2, if_pos h1, if_pos h1, if_pos h2]
      ring
    · rw [if_neg h2, if_pos h1, if_pos h1, if_neg h2]
      ring
  · by_cases h2 : r = b
    · rw [if_pos h2, if_neg h1, if_neg h1, if_pos h2]
      ring
    · rw [if_neg h2, if_neg h1, if_neg h1, if_neg h2]
      ring

theorem density_pair_admissible_iff {K : Type} [LinearOrderedField K] (P : PairParams K)
    (V : PairView K) (W : Well K) (i j : Int) :
    density_pair_admissible P V W (i, j) = true ↔
      is_rep P V.atoms i = true ∧ is_rep P V.atoms j = true ∧
      (V.atoms.molecule i ≠ V.atoms.molecule j ∨
        |(V.atoms.residue i - 1) - (V.atoms.residue j - 1)| > 1) ∧
      (pair_rsq V i j > W.rmin_theta_sq 0 ∧ pair_rsq V i j < W.rmax_theta_sq 0) := by
  unfold density_pair_admissible
  simp only [Bool.and_eq_true, decide_eq_true_eq]
  tauto

theorem pair_density_nb_spec {K : Type} [LinearOrderedField K] (sqrt : K → K)
    (P : PairParams K) (V : PairView K) (i j : Int) (d : Dens K) (r : Int)
    (hi : is_rep P V.atoms i = true) :
    (pair_density_nb sqrt P V i d j).water r = d.water r +
      (if P.water_flag = true ∧ density_pair_admissible P V P.well (i, j) = true then
        density_pair_term sqrt V P.well r (i, j) else 0) ∧
    (pair_density_nb sqrt P V i d j).helix r = d.helix r +
      (if P.helix_flag = true ∧ density_pair_admissible P V P.helix_well (i, j) = true then
        density_pair_term sqrt V P.helix_well r (i, j) else 0) := by
  have hW := density_pair_admissible_iff P V P.well i j
  have hH := density_pair_admissible_iff P V P.helix_well i j
  unfold pair_density_nb
  simp only []
  by_cases hj : is_rep P V.atoms j = true
  · rw [if_pos hj]
    by_cases hsep : V.atoms.molecule i ≠ V.atoms.molecule j ∨
        |(V.atoms.residue i - 1) - (V.atoms.residue j - 1)| > 1
    · rw [if_pos hsep]
      by_cases hw : P.water_flag = true ∧ pair_rsq V i j > P.well.rmin_theta_sq 0 ∧
          pair_rsq V i j < P.well.rmax_theta_sq 0
      · have hw2 : P.water_flag = true ∧ density_pair_admissible P V P.well (i, j) = true :=
          ⟨hw.1, hW.2 ⟨hi, hj, hsep, hw.2⟩⟩
        by_cases hh : P.helix_flag = true ∧ pair_rsq V i j > P.helix_well.rmin_theta_sq 0 ∧
            pair_rsq V i j < P.helix_well.rmax_theta_sq 0
        · have hh2 : P.helix_flag = true ∧
              density_pair_admissible P V P.helix_well (i, j) = true :=
            ⟨hh.1, hH.2 ⟨hi, hj, hsep, hh.2⟩⟩
          rw [if_pos hw, if_pos hh, if_pos hw2, if_pos hh2]
          exact ⟨addAt_pair _ _ _ _ r, addAt_pair _ _ _ _ r⟩
        · have hh2 : ¬ (P.helix_flag = true ∧
              density_pair_admissible P V P.helix_well (i, j) = true) :=
            fun h => hh ⟨h.1, (hH.1 h.2).2.2.2⟩
          rw [if_pos hw, if_neg hh, if_pos hw2, if_neg hh2]
          exact ⟨addAt_pair _ _ _ _ r, (add_zero _).symm⟩
      · have hw2 : ¬ (P.water_flag = true ∧
            density_pair_admissible P V P.well (i, j) = true) :=
          fun h => hw ⟨h.1, (hW.1 h.2).2.2.2⟩
        by_cases hh : P.helix_flag = true ∧ pair_rsq V i j > P.helix_well.rmin_theta_sq 0 ∧
            pair_rsq V i j < P.helix_well.rmax_theta_sq 0
        · have hh2 : P.helix_flag = true ∧
              density_pair_admissible P V P.helix_well (i, j) = true :=
            ⟨hh.1, hH.2 ⟨hi, hj, hsep, hh.2⟩⟩
          rw [if_neg hw, if_pos hh, if_neg hw2, if_pos hh2]
          exact ⟨(add_zero _).symm, addAt_pair _ _ _ _ r⟩
        · have hh2 : ¬ (P.helix_flag = true ∧
              density_pair_admissible P V P.helix_well (i, j) = true) :=
            fun h => hh ⟨h.1, (hH.1 h.2).2.2.2⟩
          rw [if_neg hw, if_neg hh, if_neg hw2, if_neg hh2]
          exact ⟨(add_zero _).symm, (add_zero _).symm⟩
    · have hw2 : ¬ (P.water_flag = true ∧
          density_pair_admissible P V P.well (i, j) = true) :=
        fun h => hsep (hW.1 h.2).2.2.1
      have hh2 : ¬ (P.helix_flag = true ∧
          density_pair_admissible P V P.helix_well (i, j) = true) :=
        fun h => hsep (hH.1 h.2).2.2.1
      rw [if_neg hsep, if_neg hw2, if_neg hh2]
      exact ⟨(add_zero _).symm, (add_zero _).symm⟩
  · have hw2 : ¬ (P.water_flag = true ∧
        density_pair_admissible P V P.well (i, j) = true) :=
      fun h => hj (hW.1 h.2).2.1
    have hh2 : ¬ (P.helix_flag = true ∧
        density_pair_admissible P V P.helix_well (i, j) = true) :=
      fun h => hj (hH.1 h.2).2.1
    rw [if_neg hj, if_neg hw2, if_neg hh2]
    exact ⟨(add_zero _).symm, (add_zero _).symm⟩


theorem described_density_nil {K : Type} [LinearOrderedField K] (sqrt : K → K)
    (P : PairParams K) (V : PairView K) (W : Well K) (r : Int) :
    described_density sqrt P V W [] r = 0 := by
  simp [described_density]

theorem described_density_cons {K : Type} [LinearOrderedField K] (sqrt : K → K)
    (P : PairParams K) (V : PairView K) (W : Well K) (p : Int × Int)
    (ps : List (Int × Int)) (r : Int) :
    described_density sqrt P V W (p :: ps) r =
      (if density_pair_admissible P V W p = true then density_pair_term sqrt V W r p else 0)
        + described_density sqrt P V W ps r := by
  unfold described_density
  by_cases h : density_pair_admissible P V W p = true
  · rw [List.filter_cons_of_pos h, if_pos h, List.map_cons, List.sum_cons]
  · rw [List.filter_cons_of_neg h, if_neg h, zero_add]

theorem described_density_append {K : Type} [LinearOrderedField K] (sqrt : K → K)
    (P : PairParams K) (V : PairView K) (W : Well K) (l1 l2 : List (Int × Int)) (r : Int) :
    described_density sqrt P V W (l1 ++ l2) r =
      described_density sqrt P V W l1 r + described_density sqrt P V W l2 r := by
  unfold described_density
  rw [List.filter_append, List.map_append, List.sum_append]

theorem described_density_perm {K : Type} [LinearOrderedField K] (sqrt : K → K)
    (P : PairParams K) (V : PairView K) (W : Well K) (l1 l2 : List (Int × Int)) (r : Int)
    (h : l1.Perm l2) :
    described_density sqrt P V W l1 r = described_density sqrt P V W l2 r := by
  unfold described_density
  exact ((h.filter _).map _).sum_eq

theorem described_density_not_rep {K : Type} [LinearOrderedField K] (sqrt : K → K)
    (P : PairParams K) (V : PairView K) (W : Well K) (i : Int) (r : Int)
    (hi : ¬ is_rep P V.atoms i = true) :
    ∀ js : List Int, described_density sqrt P V W (js.map (fun j => (i, j))) r = 0 := by
  intro js
  induction js with
  | nil => exact described_density_nil sqrt P V W r
  | cons j js ih =>
    rw [List.map_cons, described_density_cons, ih, add_zero, if_neg]
    intro h
    exact hi ((density_pair_admissible_iff P V W i j).1 h).1

theorem pair_density_inner_spec {K : Type} [LinearOrderedField K] (sqrt : K → K)
    (P : PairParams K) (V : PairView K) (i : Int) (r : Int)
    (hi : is_rep P V.atoms i = true) :
    ∀ (js : List Int) (d : Dens K),
      (js.foldl (pair_density_nb sqrt P V i) d).water r = d.water r +
        (if P.water_flag = true then
          described_density sqrt P V P.well (js.map (fun j => (i, j))) r else 0) ∧
      (js.foldl (pair_density_nb sqrt P V i) d).helix r = d.helix r +
        (if P.helix_flag = true then
          described_density sqrt P V P.helix_well (js.map (fun j => (i, j))) r else 0) := by
  intro js
  induction js with
  | nil =>
    intro d
    simp [described_density_nil]
  | cons j js ih =>
    intro d
    obtain ⟨h1, h2⟩ := pair_density_nb_spec sqrt P V i j d r hi
    obtain ⟨k1, k2⟩ := ih (pair_density_nb sqrt P V i d j)
    rw [List.foldl_cons, k1, k2, h1, h2, List.map_cons, described_density_cons,
      described_density_cons]
    constructor
    · by_cases hw : P.water_flag = true
      · by_cases ha : density_pair_admissible P V P.well (i, j) = true
        · rw [if_pos ⟨hw, ha⟩, if_pos hw, if_pos hw, if_pos ha]
          ring
        · rw [if_neg (fun h => ha h.2), if_pos hw, if_pos hw, if_neg ha]
          ring
      · rw [if_neg (fun h => hw h.1), if_neg hw, if_neg hw]
        ring
    · by_cases hw : P.helix_flag = true
      · by_cases ha : density_pair_admissible P V P.helix_well (i, j) = true
        · rw [if_pos ⟨hw, ha⟩, if_pos hw, if_pos hw, if_pos ha]
          ring
        · rw [if_neg (fun h => ha h.2), if_pos hw, if_pos hw, if_neg ha]
          ring
      · rw [if_neg (fun h => hw h.1), if_neg hw, if_neg hw]
        ring

theorem pair_density_outer_spec {K : Type} [LinearOrderedField K] (sqrt : K → K)
    (P : PairParams K) (V : PairView K) (r : Int) :
    ∀ (is : List Int) (d : Dens K),
      (is.foldl (fun d i =>
        if is_rep P V.atoms i then (V.firstneigh i).foldl (pair_density_nb sqrt P V i) d
        else d) d).water r = d.water r +
        (if P.water_flag = true then
          described_density sqrt P V P.well
            (is.flatMap (fun i => (V.firstneigh i).map (fun j => (i, j)))) r else 0) ∧
      (is.foldl (fun d i =>
        if is_rep P V.atoms i then (V.firstneigh i).foldl (pair_density_nb sqrt P V i) d
        else d) d).helix r = d.helix r +
        (if P.helix_flag = true then
          described_density sqrt P V P.helix_well
            (is.flatMap (fun i => (V.firstneigh i).map (fun j => (i, j)))) r else 0) := by
  intro is
  induction is with
  | nil =>
    intro d
    simp [described_density_nil]
  | cons i is ih =>
    intro d
    rw [List.foldl_cons, List.flatMap_cons, described_density_append,
      described_density_append]
    by_cases hi : is_rep P V.atoms i = true
    · obtain ⟨h1, h2⟩ := pair_density_inner_spec sqrt P V i r hi (V.firstneigh i) d
      obtain ⟨k1, k2⟩ := ih ((V.firstneigh i).foldl (pair_density_nb sqrt P V i) d)
      rw [if_pos hi, k1, k2, h1, h2]
      constructor
      · by_cases hw : P.water_flag = true
        · rw [if_pos hw, if_pos hw, if_pos hw]
          ring
        · rw [if_neg hw, if_neg hw, if_neg hw]
          ring
      · by_cases hw : P.helix_flag = true
        · rw [if_pos hw, if_pos hw, if_pos hw]
          ring
        · rw [if_neg hw, if_neg hw, if_neg hw]
          ring
    · obtain ⟨k1, k2⟩ := ih d
      rw [if_neg hi, k1, k2, described_density_not_rep sqrt P V P.well i r hi,
        described_density_not_rep sqrt P V P.helix_well i r hi, zero_add, zero_add]
      exact ⟨rfl, rfl⟩

theorem pair_density_spec {K : Type} [LinearOrderedField K] (sqrt : K → K)
    (P : PairParams K) (V : PairView K) (r : Int) :
    (pair_density sqrt P V).water r =
      (if P.water_flag = true then
        described_density sqrt P V P.well (neighbour_pairs V) r else 0) ∧
    (pair_density sqrt P V).helix r =
      (if P.helix_flag = true then
        described_density sqrt P V P.helix_well (neighbour_pairs V) r else 0) := by
  obtain ⟨h1, h2⟩ := pair_density_outer_spec sqrt P V r V.ilist ⟨fun _ => 0, fun _ => 0⟩
  unfold pair_density neighbour_pairs
  rw [h1, h2]
  simp


theorem described_density_view {K : Type} [LinearOrderedField K] (sqrt : K → K)
    (P : PairParams K) (V V1 : PairView K) (W : Well K) (l : List (Int × Int)) (r : Int)
    (ha : V1.atoms = V.atoms) (hx : V1.x = V.x) :
    described_density sqrt P V1 W l r = described_density sqrt P V W l r := by
  obtain ⟨a, x, il, fn, t, xo, xn⟩ := V
  obtain ⟨a1, x1, il1, fn1, t1, xo1, xn1⟩ := V1
  simp only at ha hx
  subst ha
  subst hx
  rfl

/-- Claim C15: with the water term on, `loc_water_ro[r]` after the density
pass is the sum over the visited neighbour pairs that are admissible (both
atoms representative, residues on different chains or more than one apart,
`rmin_theta_sq[0] < rsq < rmax_theta_sq[0]`) of `theta_pair` times the number
of occurrences of `r` among the two residues; one visited pair adds exactly
that term; and a neighbour list that visits the same pairs in another order
gives the same densities.  The same for `loc_helix_ro` with the helix well
and the helix term on. -/
theorem pair_density_is_sum_over_pairs {K : Type} [LinearOrderedField K] (sqrt : K → K)
    (P : PairParams K) (V : PairView K) (r : Int) :
    (P.water_flag = true → (pair_density sqrt P V).water r =
      described_density sqrt P V P.well (neighbour_pairs V) r) ∧
    (P.helix_flag = true → (pair_density sqrt P V).helix r =
      described_density sqrt P V P.helix_well (neighbour_pairs V) r) ∧
    (∀ (i j : Int) (d : Dens K), is_rep P V.atoms i = true → P.water_flag = true →
      (pair_density_nb sqrt P V i d j).water r = d.water r +
        (if density_pair_admissible P V P.well (i, j) = true then
          density_pair_term sqrt V P.well r (i, j) else 0)) ∧
    (∀ (i j : Int) (d : Dens K), is_rep P V.atoms i = true → P.helix_flag = true →
      (pair_density_nb sqrt P V i d j).helix r = d.helix r +
        (if density_pair_admissible P V P.helix_well (i, j) = true then
          density_pair_term sqrt V P.helix_well r (i, j) else 0)) ∧
    (∀ V1 : PairView K, V1.atoms = V.atoms → V1.x = V.x →
      (neighbour_pairs V1).Perm (neighbour_pairs V) →
      (pair_density sqrt P V1).water r = (pair_density sqrt P V).water r ∧
      (pair_density sqrt P V1).helix r = (pair_density sqrt P V).helix r) := by
  obtain ⟨h1, h2⟩ := pair_density_spec sqrt P V r
  refine ⟨fun hw => by rw [h1, if_pos hw], fun hh => by rw [h2, if_pos hh], ?_, ?_, ?_⟩
  · intro i j d hi hw
    rw [(pair_density_nb_spec sqrt P V i j d r hi).1]
    by_cases ha : density_pair_admissible P V P.well (i, j) = true
    · rw [if_pos ⟨hw, ha⟩, if_pos ha]
    · rw [if_neg (fun h => ha h.2), if_neg ha]
  · intro i j d hi hw
    rw [(pair_density_nb_spec sqrt P V i j d r hi).2]
    by_cases ha : density_pair_admissible P V P.helix_well (i, j) = true
    · rw [if_pos ⟨hw, ha⟩, if_pos ha]
    · rw [if_neg (fun h => ha h.2), if_neg ha]
  · intro V1 ha hx hp
    obtain ⟨k1, k2⟩ := pair_density_spec sqrt P V1 r
    rw [h1, h2, k1, k2, described_density_view sqrt P V V1 P.well _ r ha hx,
      described_density_view sqrt P V V1 P.helix_well _ r ha hx,
      described_density_perm sqrt P V P.well _ _ r hp,
      described_density_perm sqrt P V P.helix_well _ _ r hp]
    exact ⟨rfl, rfl⟩

theorem pair_density_is_sum_over_pairs_witness :
    (pair_density sqrtQ (exPairParams ℚ 4) (exPairViewGap ℚ)).water 3 =
      described_density sqrtQ (exPairParams ℚ 4) (exPairViewGap ℚ) (exPairParams ℚ 4).well
        (neighbour_pairs (exPairViewGap ℚ)) 3 ∧
    described_density sqrtQ (exPairParams ℚ 4) (exPairViewGap ℚ) (exPairParams ℚ 4).well
        (neighbour_pairs (exPairViewGap ℚ)) 3 = 2 := by
  refine ⟨(pair_density_is_sum_over_pairs sqrtQ (exPairParams ℚ 4) (exPairViewGap ℚ) 3).1 rfl,
    ?_⟩
  simp [described_density, neighbour_pairs, exPairViewGap, density_pair_admissible,
    is_rep, exAtomsGap, exPairParams, pair_rsq, List.filter]
  unfold density_pair_term
  norm_num

theorem water_sigma_gamma_between {K : Type} [LinearOrderedField K] (g0 g1 a b : K)
    (ha : 0 ≤ a ∧ a ≤ 1) (hb : 0 ≤ b ∧ b ≤ 1) :
    min g0 g1 ≤ water_sigma_gamma g0 g1 a b ∧ water_sigma_gamma g0 g1 a b ≤ max g0 g1 := by
  have hab0 : 0 ≤ a * b := mul_nonneg ha.1 hb.1
  have hab1 : a * b ≤ 1 := by
    calc a * b ≤ 1 * 1 := mul_le_mul ha.2 hb.2 hb.1 (by norm_num)
      _ = 1 := by ring
  unfold water_sigma_gamma
  split_ifs
  · rcases le_total g0 g1 with h | h
    · rw [min_eq_left h, max_eq_right h]
      constructor <;> linarith
    · rw [min_eq_right h, max_eq_left h]
      constructor <;> linarith
  · have e : g0 + (g1 - g0) * a * b = g0 + (g1 - g0) * (a * b) := by ring
    rw [e]
    rcases le_total g0 g1 with h | h
    · rw [min_eq_left h, max_eq_right h]
      have h1 : 0 ≤ (g1 - g0) * (a * b) := mul_nonneg (by linarith) hab0
      have h2 : (g1 - g0) * (a * b) ≤ (g1 - g0) * 1 :=
        mul_le_mul_of_nonneg_left hab1 (by linarith)
      constructor <;> linarith
    · rw [min_eq_right h, max_eq_left h]
      have h1 : 0 ≤ (g0 - g1) * (a * b) := mul_nonneg (by linarith) hab0
      have h2 : (g0 - g1) * (a * b) ≤ (g0 - g1) * 1 :=
        mul_le_mul_of_nonneg_left hab1 (by linarith)
      constructor <;> linarith

theorem pair_sigma_step_water {K : Type} [LinearOrderedField K] (tanh : K → K)
    (P : PairParams K) (V : PairView K) (water_ro helix_ro : Int → K) (s : SigmaSt K)
    (i : Nat) :
    (pair_sigma_step tanh P V water_ro helix_ro s i).water_sigma_h =
      (if is_rep P V.atoms i = true ∧ P.water_flag = true ∧
          s.b_water_sigma_h (V.atoms.residue i - 1) = false then
        setAt s.water_sigma_h (V.atoms.residue i - 1)
          ((1 / 2) * (1 - tanh (P.water_kappa_sigma *
            (water_ro (V.atoms.residue i - 1) - P.water_treshold))))
      else s.water_sigma_h) ∧
    (pair_sigma_step tanh P V water_ro helix_ro s i).b_water_sigma_h =
      (if is_rep P V.atoms i = true ∧ P.water_flag = true ∧
          s.b_water_sigma_h (V.atoms.residue i - 1) = false then
        setAt s.b_water_sigma_h (V.atoms.residue i - 1) true
      else s.b_water_sigma_h) := by
  unfold pair_sigma_step
  simp only []
  by_cases hr : is_rep P V.atoms i = true <;> by_cases hw : P.water_flag = true <;>
    cases hb : s.b_water_sigma_h (V.atoms.residue i - 1) <;>
    simp only [hr, hw, hb, true_and, and_true, and_self, if_true, if_false, Bool.not_false,
      Bool.not_true, Bool.false_eq_true, false_and, and_false] <;>
    constructor <;> split_ifs <;> first | rfl | (exfalso; assumption)


theorem pair_sigma_loop_water {K : Type} [LinearOrderedField K] (tanh : K → K)
    (P : PairParams K) (V : PairView K) (water_ro helix_ro : Int → K) (s0 : SigmaSt K)
    (h0 : ∀ r, s0.b_water_sigma_h r = false ∧ s0.water_sigma_h r = 0) :
    ∀ m : Nat,
      (∀ r, (((List.range m).foldl (pair_sigma_step tanh P V water_ro helix_ro)
            s0).b_water_sigma_h r = false ∧
          ((List.range m).foldl (pair_sigma_step tanh P V water_ro helix_ro)
            s0).water_sigma_h r = 0) ∨
        (((List.range m).foldl (pair_sigma_step tanh P V water_ro helix_ro)
            s0).b_water_sigma_h r = true ∧
          ((List.range m).foldl (pair_sigma_step tanh P V water_ro helix_ro)
            s0).water_sigma_h r =
            (1 / 2) * (1 - tanh (P.water_kappa_sigma * (water_ro r - P.water_treshold))))) ∧
      (∀ i : Nat, i < m → is_rep P V.atoms i = true → P.water_flag = true →
        ((List.range m).foldl (pair_sigma_step tanh P V water_ro helix_ro)
          s0).b_water_sigma_h (V.atoms.residue i - 1) = true) := by
  intro m
  induction m with
  | zero =>
    exact ⟨fun r => Or.inl (h0 r), fun i hi => absurd hi (Nat.not_lt_zero _)⟩
  | succ m ih =>
    obtain ⟨ih1, ih2⟩ := ih
    rw [List.range_succ, List.foldl_append, List.foldl_cons, List.foldl_nil]
    obtain ⟨e1, e2⟩ := pair_sigma_step_water tanh P V water_ro helix_ro
      ((List.range m).foldl (pair_sigma_step tanh P V water_ro helix_ro) s0) m
    rw [e1, e2]
    by_cases hc : is_rep P V.atoms m = true ∧ P.water_flag = true ∧
        ((List.range m).foldl (pair_sigma_step tanh P V water_ro helix_ro)
          s0).b_water_sigma_h (V.atoms.residue m - 1) = false
    · rw [if_pos hc, if_pos hc]
      refine ⟨?_, ?_⟩
      · intro r
        by_cases hr : r = V.atoms.residue m - 1
        · right
          subst hr
          simp [setAt]
        · simp only [setAt, hr, if_false]
          exact ih1 r
      · intro i hi hrep hw
        by_cases hr : V.atoms.residue i - 1 = V.atoms.residue m - 1
        · simp [setAt, hr]
        · simp only [setAt, hr, if_false]
          have him : i ≠ m := fun h => hr (by rw [h])
          exact ih2 i (by omega) hrep hw
    · rw [if_neg hc, if_neg hc]
      refine ⟨ih1, ?_⟩
      intro i hi hrep hw
      by_cases him : i = m
      · subst him
        cases hb : ((List.range i).foldl (pair_sigma_step tanh P V water_ro helix_ro)
            s0).b_water_sigma_h (V.atoms.residue i - 1)
        · exact absurd ⟨hrep, hw, hb⟩ hc
        · rfl
      · exact ih2 i (by omega) hrep hw


theorem tanhSat_bounds (x : ℚ) : -1 ≤ tanhSat x ∧ tanhSat x ≤ 1 := by
  unfold tanhSat
  split_ifs with h1 h2
  · constructor <;> norm_num
  · constructor <;> norm_num
  · push_neg at h1 h2
    constructor
    · rw [le_div_iff₀ (by norm_num)]
      linarith
    · rw [div_le_iff₀ (by norm_num)]
      linarith

/-- Claim C16, counterexample: with `kappa_sigma = 7`, `treshold = 2.6` and
the reduced density 5.4 of residue 1 the argument of `tanh` is 19.6, where
the double-precision `tanh` returns exactly 1, so the sigma pass stores
`water_sigma_h = 0.5*(1 - 1) = 0` for the representative atom 1 of the
process: the value is not strictly between 0 and 1. -/
theorem water_sigma_h_saturates :
    is_rep exPairParamsSat (exPairViewGap ℚ).atoms 1 = true ∧
    exPairParamsSat.water_kappa_sigma * ((27 / 5 : ℚ) - exPairParamsSat.water_treshold)
      = 98 / 5 ∧
    tanhSat (98 / 5) = 1 ∧
    (pair_sigma tanhSat exPairParamsSat (exPairViewGap ℚ) (fun _ => 27 / 5) (fun _ => 0)
      0).water_sigma_h ((exPairViewGap ℚ).atoms.residue 1 - 1) = 0 ∧
    ¬ (0 < (pair_sigma tanhSat exPairParamsSat (exPairViewGap ℚ) (fun _ => 27 / 5)
      (fun _ => 0) 0).water_sigma_h ((exPairViewGap ℚ).atoms.residue 1 - 1)) := by
  have hloop := (pair_sigma_loop_water tanhSat exPairParamsSat (exPairViewGap ℚ)
    (fun _ => 27 / 5) (fun _ => 0)
    ⟨fun _ => 0, fun _ => 0, fun _ => 0, fun _ => 0, fun _ => 0,
      fun _ => false, fun _ => false, fun _ => false, 0⟩ (fun _ => ⟨rfl, rfl⟩)
    ((exPairViewGap ℚ).atoms.nlocal + (exPairViewGap ℚ).atoms.nghost))
  have hrep : is_rep exPairParamsSat (exPairViewGap ℚ).atoms 1 = true := by decide
  have harg : exPairParamsSat.water_kappa_sigma *
      ((27 / 5 : ℚ) - exPairParamsSat.water_treshold) = 98 / 5 := by
    simp only [exPairParamsSat, exPairParams]
    norm_num
  have hsat : tanhSat (98 / 5) = 1 := by
    unfold tanhSat
    norm_num
  have hval : (pair_sigma tanhSat exPairParamsSat (exPairViewGap ℚ) (fun _ => 27 / 5)
      (fun _ => 0) 0).water_sigma_h ((exPairViewGap ℚ).atoms.residue 1 - 1) = 0 := by
    unfold pair_sigma
    simp only []
    have hw : exPairParamsSat.water_flag = true := rfl
    rw [if_pos (Or.inl hw)]
    rcases hloop.1 ((exPairViewGap ℚ).atoms.residue 1 - 1) with h | h
    · have hb := hloop.2 1 (by decide) hrep hw
      simp only [Nat.cast_one] at hb
      rw [h.1] at hb
      exact absurd hb (by decide)
    · rw [h.2, harg, hsat]
      norm_num
  refine ⟨hrep, harg, hsat, hval, ?_⟩
  rw [hval]
  exact lt_irrefl 0

/-- Claim C16, amended: for every function `tanh` with values in [-1, 1]
(the double-precision `tanh` is one, and attains -1 and 1) and whatever the
reduced densities, the arrays left by the sigma pass hold values in [0, 1],
so the coefficient `sigma_gamma` of every pair lies between the smaller and
the larger of the two gammas; for the representative atom `i` of a residue
seen by the process the value is
`0.5*(1 - tanh(kappa_sigma*(water_ro - treshold)))`, in [0, 1], and strictly
between 0 and 1 if `tanh` stays strictly between -1 and 1; `sigma_gamma` is
the average of the gammas when they differ by less than `delta`, and
`gamma_0 + (gamma_1 - gamma_0)*sigma_h[i]*sigma_h[j]` otherwise. -/
theorem sigma_gamma_between_gammas {K : Type} [LinearOrderedField K] (tanh : K → K)
    (hT : ∀ x, -1 ≤ tanh x ∧ tanh x ≤ 1) (P : PairParams K) (V : PairView K)
    (water_ro helix_ro : Int → K) (burial g0 g1 : K) :
    (∀ r s : Int,
      min g0 g1 ≤ water_sigma_gamma g0 g1
        ((pair_sigma tanh P V water_ro helix_ro burial).water_sigma_h r)
        ((pair_sigma tanh P V water_ro helix_ro burial).water_sigma_h s) ∧
      water_sigma_gamma g0 g1
        ((pair_sigma tanh P V water_ro helix_ro burial).water_sigma_h r)
        ((pair_sigma tanh P V water_ro helix_ro burial).water_sigma_h s) ≤ max g0 g1) ∧
    (∀ i : Nat, i < V.atoms.nlocal + V.atoms.nghost → is_rep P V.atoms i = true →
      P.water_flag = true →
      (pair_sigma tanh P V water_ro helix_ro burial).water_sigma_h (V.atoms.residue i - 1)
        = (1 / 2) * (1 - tanh (P.water_kappa_sigma *
            (water_ro (V.atoms.residue i - 1) - P.water_treshold))) ∧
      0 ≤ (pair_sigma tanh P V water_ro helix_ro burial).water_sigma_h
        (V.atoms.residue i - 1) ∧
      (pair_sigma tanh P V water_ro helix_ro burial).water_sigma_h
        (V.atoms.residue i - 1) ≤ 1 ∧
      ((∀ x, -1 < tanh x ∧ tanh x < 1) →
        0 < (pair_sigma tanh P V water_ro helix_ro burial).water_sigma_h
          (V.atoms.residue i - 1) ∧
        (pair_sigma tanh P V water_ro helix_ro burial).water_sigma_h
          (V.atoms.residue i - 1) < 1)) ∧
    (∀ a b : K, |g0 - g1| < delta K → water_sigma_gamma g0 g1 a b = (1 / 2) * (g0 + g1)) ∧
    (∀ a b : K, ¬ |g0 - g1| < delta K →
      water_sigma_gamma g0 g1 a b = g0 + (g1 - g0) * a * b) := by
  have hF : ∀ x : K, 0 ≤ (1 / 2) * (1 - tanh x) ∧ (1 / 2) * (1 - tanh x) ≤ 1 := by
    intro x
    obtain ⟨h1, h2⟩ := hT x
    constructor <;> linarith
  have hloop := pair_sigma_loop_water tanh P V water_ro helix_ro
    ⟨fun _ => 0, fun _ => 0, fun _ => 0, fun _ => 0, fun _ => 0,
      fun _ => false, fun _ => false, fun _ => false, burial⟩ (fun _ => ⟨rfl, rfl⟩)
    (V.atoms.nlocal + V.atoms.nghost)
  have hrange : ∀ r : Int,
      0 ≤ (pair_sigma tanh P V water_ro helix_ro burial).water_sigma_h r ∧
      (pair_sigma tanh P V water_ro helix_ro burial).water_sigma_h r ≤ 1 := by
    intro r
    unfold pair_sigma
    simp only []
    split_ifs
    · rcases hloop.1 r with h | h
      · rw [h.2]
        exact ⟨le_refl 0, zero_le_one⟩
      · rw [h.2]
        exact hF _
    · exact ⟨le_refl 0, zero_le_one⟩
  refine ⟨fun r s => water_sigma_gamma_between g0 g1 _ _ (hrange r) (hrange s), ?_, ?_, ?_⟩
  · intro i hi hrep hw
    have hval : (pair_sigma tanh P V water_ro helix_ro burial).water_sigma_h
        (V.atoms.residue i - 1) = (1 / 2) * (1 - tanh (P.water_kappa_sigma *
          (water_ro (V.atoms.residue i - 1) - P.water_treshold))) := by
      unfold pair_sigma
      simp only []
      rw [if_pos (Or.inl hw)]
      rcases hloop.1 (V.atoms.residue i - 1) with h | h
      · have := hloop.2 i hi hrep hw
        rw [h.1] at this
        exact absurd this (by decide)
      · exact h.2
    rw [hval]
    refine ⟨rfl, (hF _).1, (hF _).2, ?_⟩
    intro hs
    obtain ⟨h1, h2⟩ := hs (P.water_kappa_sigma *
      (water_ro (V.atoms.residue i - 1) - P.water_treshold))
    constructor <;> linarith
  · intro a b h
    unfold water_sigma_gamma
    rw [if_pos h]
  · intro a b h
    unfold water_sigma_gamma
    rw [if_neg h]

theorem sigma_gamma_between_gammas_witness :
    (∀ x, -1 ≤ tanhSat x ∧ tanhSat x ≤ 1) ∧
    (min (1 : ℚ) 3 ≤ water_sigma_gamma 1 3
        ((pair_sigma tanhSat exPairParamsSat (exPairViewGap ℚ) (fun _ => 27 / 5) (fun _ => 0)
          0).water_sigma_h 0)
        ((pair_sigma tanhSat exPairParamsSat (exPairViewGap ℚ) (fun _ => 27 / 5) (fun _ => 0)
          0).water_sigma_h 3) ∧
      water_sigma_gamma 1 3
        ((pair_sigma tanhSat exPairParamsSat (exPairViewGap ℚ) (fun _ => 27 / 5) (fun _ => 0)
          0).water_sigma_h 0)
        ((pair_sigma tanhSat exPairParamsSat (exPairViewGap ℚ) (fun _ => 27 / 5) (fun _ => 0)
          0).water_sigma_h 3) ≤ max 1 3) ∧
    (pair_sigma tanhSat exPairParamsSat (exPairViewGap ℚ) (fun _ => 27 / 5) (fun _ => 0)
        0).water_sigma_h 0 = (1 / 2) * (1 - tanhSat (7 * (27 / 5 - 13 / 5))) := by
  have h := sigma_gamma_between_gammas tanhSat tanhSat_bounds exPairParamsSat
    (exPairViewGap ℚ) (fun _ => 27 / 5) (fun _ => 0) 0 1 3
  refine ⟨tanhSat_bounds, h.1 0 3, ?_⟩
  have h2 := (h.2.1 1 (by decide) (by decide) rfl).1
  simpa [exPairViewGap, exAtomsGap, exPairParams, exPairParamsSat] using h2

theorem pair_sigma_step_burial {K : Type} [LinearOrderedField K] (tanh : K → K)
    (P : PairParams K) (V : PairView K) (water_ro helix_ro : Int → K) (s : SigmaSt K)
    (i : Nat) :
    (pair_sigma_step tanh P V water_ro helix_ro s i).burial_force =
      (if (is_rep P V.atoms i = true ∧ P.burial_flag = true) ∧
          s.b_burial_force (V.atoms.residue i - 1) = false then
        setAt s.burial_force (V.atoms.residue i - 1)
          (burial_force_value tanh P (V.atoms.residue i - 1)
            (water_ro (V.atoms.residue i - 1)))
      else s.burial_force) ∧
    (pair_sigma_step tanh P V water_ro helix_ro s i).b_burial_force =
      (if (is_rep P V.atoms i = true ∧ P.burial_flag = true) ∧
          s.b_burial_force (V.atoms.residue i - 1) = false then
        setAt s.b_burial_force (V.atoms.residue i - 1) true
      else s.b_burial_force) := by
  unfold pair_sigma_step
  simp only []
  by_cases hr : is_rep P V.atoms i = true <;> by_cases hw : P.burial_flag = true <;>
    cases hb : s.b_burial_force (V.atoms.residue i - 1) <;>
    simp only [hr, hw, hb, true_and, and_true, and_self, if_true, if_false, Bool.not_false,
      Bool.not_true, Bool.false_eq_true, false_and, and_false] <;>
    constructor <;> split_ifs <;> first | rfl | (exfalso; assumption) | (exfalso; simp_all)

theorem fmt_bin_apply {K : Type} [LinearOrderedField K] (exp div0 : K → K) (tb_rmin tb_dr : K)
    (A s2 rf : K) (c : Int → TBV K) (ir : Nat) (x : Int) :
    fmt_bin exp div0 tb_rmin tb_dr A s2 rf c ir x =
      if x = (ir : Int) then
        ⟨(c ir).energy + (fmt_term exp div0 tb_rmin tb_dr A s2 rf ir).energy,
          (c ir).force + (fmt_term exp div0 tb_rmin tb_dr A s2 rf ir).force⟩
      else c x := by
  unfold fmt_bin fmt_term setAt
  simp only [Int.cast_natCast]

theorem fmt_bin_loop {K : Type} [LinearOrderedField K] (exp div0 : K → K) (tb_rmin tb_dr : K)
    (A s2 rf : K) (c : Int → TBV K) :
    ∀ (m : Nat) (x : Int),
      ((List.range m).foldl (fmt_bin exp div0 tb_rmin tb_dr A s2 rf) c) x =
        if 0 ≤ x ∧ x < (m : Int) then
          ⟨(c x).energy + (fmt_term exp div0 tb_rmin tb_dr A s2 rf x).energy,
            (c x).force + (fmt_term exp div0 tb_rmin tb_dr A s2 rf x).force⟩
        else c x := by
  intro m
  induction m with
  | zero =>
    intro x
    have h : ¬ (0 ≤ x ∧ x < ((0 : Nat) : Int)) := by
      simp only [Nat.cast_zero]
      omega
    rw [if_neg h]
    rfl
  | succ m ih =>
    intro x
    rw [List.range_succ, List.foldl_append, List.foldl_cons, List.foldl_nil, fmt_bin_apply]
    by_cases hx : x = (m : Int)
    · subst hx
      have h1 : (0 : Int) ≤ (m : Int) ∧ (m : Int) < ((m + 1 : Nat) : Int) := by
        push_cast
        omega
      have h2 : ¬ ((0 : Int) ≤ (m : Int) ∧ (m : Int) < (m : Int)) := by omega
      rw [if_pos rfl, if_pos h1, ih, if_neg h2]
    · rw [if_neg hx, ih]
      by_cases h1 : 0 ≤ x ∧ x < (m : Int)
      · have h2 : 0 ≤ x ∧ x < ((m + 1 : Nat) : Int) := by
          push_cast
          omega
        rw [if_pos h1, if_pos h2]
      · have h2 : ¬ (0 ≤ x ∧ x < ((m + 1 : Nat) : Int)) := by
          push_cast
          omega
        rw [if_neg h1, if_neg h2]

theorem fmt_kind_spec {K : Type} [LinearOrderedField K] (φ : TBV K → K)
    (hφ : ∀ a b c d : K, φ ⟨a + b, c + d⟩ = φ ⟨a, c⟩ + φ ⟨b, d⟩) (exp div0 : K → K)
    (P : FMParams K) (G : FMTable K) (frag : Fragment K) (i j : Int) (s2 A : K)
    (tbl tbl1 : Int → Cell K) (k : Nat)
    (h : fmt_kind exp div0 P G ⟨0, 0⟩ frag i j s2 A tbl k = .ok tbl1) (itb0 ir : Int)
    (hir : 0 ≤ ir ∧ ir < G.tb_size) :
    φ (cell_entry (tbl1 itb0) ir) = φ (cell_entry (tbl itb0) ir) +
      fmt_add_kind φ exp div0 P G frag i j s2 A itb0 ir k ∧
    ((tbl1 itb0).isSome = ((tbl itb0).isSome || fmt_hit P G frag i j itb0 k)) := by
  unfold fmt_kind at h
  unfold fmt_add_kind fmt_hit
  cases hs : fmp_skip P.se frag i j k
  · rw [hs] at h
    simp only [Bool.false_eq_true, if_false] at h
    cases hrf : frag.Rf i (iatom_type k) j (jatom_type k) with
    | none =>
      rw [hrf] at h
      exact absurd h (by intro hc; cases hc)
    | some rf =>
      rw [hrf] at h
      have h1 := (Except.ok.inj h).symm
      subst h1
      by_cases hitb : 4 * G.tb_nbrs * i + 4 * (j - (i + P.fm_gamma.minSep)) + (k : Int) = itb0
      · subst hitb
        have hlt : 0 ≤ ir ∧ ir < ((G.tb_size.toNat : Nat) : Int) := by
          rw [Int.toNat_of_nonneg (by omega)]
          exact hir
        simp only [setAt, if_true, true_and, Option.isSome_some, Option.getD_some,
          decide_True, Bool.or_true, and_true, cell_entry]
        rw [fmt_bin_loop, if_pos hlt, hφ]
        cases htb : tbl (4 * G.tb_nbrs * i + 4 * (j - (i + P.fm_gamma.minSep)) + (k : Int)) with
        | none => rfl
        | some c => rfl
      · have hne : itb0 ≠ 4 * G.tb_nbrs * i + 4 * (j - (i + P.fm_gamma.minSep)) + (k : Int) :=
          fun e => hitb e.symm
        simp only [setAt, hne, hitb, if_false, and_false, add_zero, decide_False,
          Bool.or_false, and_self]
  · rw [hs] at h
    simp only [if_true] at h
    have h1 := (Except.ok.inj h).symm
    subst h1
    simp


theorem foldlM_accum {σ α K : Type} [LinearOrderedField K] (f : σ → α → Except Err σ)
    (obs : σ → K) (ob : σ → Bool) (g : α → K) (gb : α → Bool) :
    ∀ (l : List α) (s s1 : σ),
      (∀ s a s2, a ∈ l → f s a = .ok s2 → obs s2 = obs s + g a ∧ ob s2 = (ob s || gb a)) →
      l.foldlM f s = .ok s1 →
      obs s1 = obs s + (l.map g).sum ∧ ob s1 = (ob s || l.any gb) := by
  intro l
  induction l with
  | nil =>
    intro s s1 _ h
    simp only [List.foldlM_nil, pure, Except.pure] at h
    rw [← Except.ok.inj h]
    simp
  | cons a l ih =>
    intro s s1 hstep h
    rw [List.foldlM_cons] at h
    cases ha : f s a with
    | error e =>
      rw [ha] at h
      exact absurd h (by intro hc; cases hc)
    | ok s2 =>
      rw [ha] at h
      obtain ⟨h1, h2⟩ := hstep s a s2 (List.mem_cons_self _ _) ha
      obtain ⟨k1, k2⟩ := ih s2 s1
        (fun s b s3 hb => hstep s b s3 (List.mem_cons_of_mem _ hb)) h
      rw [k1, k2, h1, h2, List.map_cons, List.sum_cons, List.any_cons, add_assoc,
        Bool.or_assoc]
      exact ⟨rfl, rfl⟩

theorem fmt_pair_spec {K : Type} [LinearOrderedField K] (φ : TBV K → K)
    (hφ : ∀ a b c d : K, φ ⟨a + b, c + d⟩ = φ ⟨a, c⟩ + φ ⟨b, d⟩) (exp div0 : K → K)
    (pow : K → K → K) (w : K) (P : FMParams K) (G : FMTable K) (frag : Fragment K) (ekw : K)
    (i j : Int) (tbl tbl1 : Int → Cell K)
    (h : fmt_pair exp div0 pow w P G ⟨0, 0⟩ frag ekw i tbl j = .ok tbl1) (itb0 ir : Int)
    (hir : 0 ≤ ir ∧ ir < G.tb_size) :
    φ (cell_entry (tbl1 itb0) ir) = φ (cell_entry (tbl itb0) ir) +
      fmt_add_pair φ exp div0 pow w P G frag ekw i itb0 ir j ∧
    ((tbl1 itb0).isSome = ((tbl itb0).isSome || [0, 1, 2, 3].any (fmt_hit P G frag i j itb0))) := by
  unfold fmt_pair at h
  unfold fmt_add_pair
  cases hg : fmp_gamma P frag i j with
  | none =>
    rw [hg] at h
    exact absurd h (by intro hc; cases hc)
  | some gamma =>
    rw [hg] at h
    simp only [Option.getD_some]
    exact foldlM_accum _ (fun t => φ (cell_entry (t itb0) ir)) (fun t => (t itb0).isSome)
      _ _ [0, 1, 2, 3] tbl tbl1
      (fun s k s2 _ hk => fmt_kind_spec φ hφ exp div0 P G frag i j _ _ s s2 k hk itb0 ir hir) h

theorem fmt_frag_spec {K : Type} [LinearOrderedField K] (φ : TBV K → K)
    (hφ : ∀ a b c d : K, φ ⟨a + b, c + d⟩ = φ ⟨a, c⟩ + φ ⟨b, d⟩) (exp div0 : K → K)
    (pow : K → K → K) (w : K) (P : FMParams K) (G : FMTable K) (i i_fm : Int)
    (tbl tbl1 : Int → Cell K)
    (h : fmt_frag exp div0 pow w P G ⟨0, 0⟩ i tbl i_fm = .ok tbl1) (itb0 ir : Int)
    (hir : 0 ≤ ir ∧ ir < G.tb_size) :
    fmp_je P (P.frag_mems (P.frag_mem_map i i_fm)) i < P.n ∧
    φ (cell_entry (tbl1 itb0) ir) = φ (cell_entry (tbl itb0) ir) +
      fmt_add_frag φ exp div0 pow w P G i itb0 ir i_fm ∧
    ((tbl1 itb0).isSome = ((tbl itb0).isSome || fmt_hit_frag P G i itb0 i_fm)) := by
  unfold fmt_frag at h
  unfold fmt_add_frag fmt_hit_frag
  simp only [] at h ⊢
  by_cases hje : fmp_je P (P.frag_mems (P.frag_mem_map i i_fm)) i ≥ P.n
  · rw [if_pos hje] at h
    exact absurd h (by intro hc; cases hc)
  · rw [if_neg hje] at h
    refine ⟨by omega, ?_⟩
    exact foldlM_accum _ (fun t => φ (cell_entry (t itb0) ir)) (fun t => (t itb0).isSome)
      _ _ _ tbl tbl1
      (fun s j s2 _ hj => fmt_pair_spec φ hφ exp div0 pow w P G _ _ i j s s2 hj itb0 ir hir) h


theorem sum_indicator_range {K : Type} [LinearOrderedField K] (lo x0 : Int) (Y : K) :
    ∀ m : Nat, ((List.range m).map
        (fun (t : Nat) => if lo + (t : Int) = x0 then Y else 0)).sum =
      if lo ≤ x0 ∧ x0 < lo + (m : Int) then Y else 0 := by
  intro m
  induction m with
  | zero =>
    have h : ¬ (lo ≤ x0 ∧ x0 < lo + ((0 : Nat) : Int)) := by
      simp only [Nat.cast_zero]
      omega
    rw [if_neg h]
    rfl
  | succ m ih =>
    rw [List.range_succ, List.map_append, List.sum_append, ih]
    simp only [List.map_cons, List.map_nil, List.sum_cons, List.sum_nil, add_zero]
    by_cases h1 : lo + (m : Int) = x0
    · have h2 : ¬ (lo ≤ x0 ∧ x0 < lo + (m : Int)) := by omega
      have h3 : lo ≤ x0 ∧ x0 < lo + ((m + 1 : Nat) : Int) := by
        push_cast
        omega
      rw [if_pos h1, if_neg h2, if_pos h3, zero_add]
    · rw [if_neg h1, add_zero]
      by_cases h2 : lo ≤ x0 ∧ x0 < lo + (m : Int)
      · have h3 : lo ≤ x0 ∧ x0 < lo + ((m + 1 : Nat) : Int) := by
          push_cast
          omega
        rw [if_pos h2, if_pos h3]
      · have h3 : ¬ (lo ≤ x0 ∧ x0 < lo + ((m + 1 : Nat) : Int)) := by
          push_cast
          omega
        rw [if_neg h2, if_neg h3]

theorem sum_indicator_intRange {K : Type} [LinearOrderedField K] (lo hi x0 : Int) (Y : K) :
    ((intRange lo hi).map (fun x => if x = x0 then Y else 0)).sum =
      if lo ≤ x0 ∧ x0 ≤ hi then Y else 0 := by
  unfold intRange
  rw [List.map_map]
  have e : ((fun x => if x = x0 then Y else 0) ∘ fun (t : Nat) => lo + (t : Int)) =
      fun (t : Nat) => if lo + (t : Int) = x0 then Y else 0 := rfl
  rw [e, sum_indicator_range]
  by_cases h : lo ≤ x0 ∧ x0 ≤ hi
  · have h2 : lo ≤ x0 ∧ x0 < lo + (((hi + 1 - lo).toNat : Nat) : Int) := by
      rw [Int.toNat_of_nonneg (by omega)]
      omega
    rw [if_pos h, if_pos h2]
  · have h2 : ¬ (lo ≤ x0 ∧ x0 < lo + (((hi + 1 - lo).toNat : Nat) : Int)) := by
      intro hc
      apply h
      by_cases h3 : 0 ≤ hi + 1 - lo
      · rw [Int.toNat_of_nonneg h3] at hc
        omega
      · have h4 : (hi + 1 - lo).toNat = 0 := Int.toNat_eq_zero.mpr (by omega)
        rw [h4] at hc
        simp only [Nat.cast_zero] at hc
        omega
    rw [if_neg h, if_neg h2]

theorem sum_indicator_kinds {K : Type} [LinearOrderedField K] (k0 : Nat) (hk : k0 < 4)
    (Y : K) : ([0, 1, 2, 3].map (fun (k : Nat) => if k = k0 then Y else 0)).sum = Y := by
  interval_cases k0 <;> simp

theorem itb_injective (N i off k i0 off0 k0 : Int) (ho : 0 ≤ off ∧ off < N)
    (ho0 : 0 ≤ off0 ∧ off0 < N) (hk : 0 ≤ k ∧ k < 4) (hk0 : 0 ≤ k0 ∧ k0 < 4) :
    4 * N * i + 4 * off + k = 4 * N * i0 + 4 * off0 + k0 ↔ i = i0 ∧ off = off0 ∧ k = k0 := by
  constructor
  · intro h
    have hi : i = i0 := by
      rcases lt_trichotomy i i0 with hlt | heq | hgt
      · exfalso
        have h1 : N * 1 ≤ N * (i0 - i) := mul_le_mul_of_nonneg_left (by omega) (by omega)
        have h2 : N * (i0 - i) = N * i0 - N * i := by ring
        have h3 : 4 * N * i = 4 * (N * i) := by ring
        have h4 : 4 * N * i0 = 4 * (N * i0) := by ring
        rw [h3, h4] at h
        omega
      · exact heq
      · exfalso
        have h1 : N * 1 ≤ N * (i - i0) := mul_le_mul_of_nonneg_left (by omega) (by omega)
        have h2 : N * (i - i0) = N * i - N * i0 := by ring
        have h3 : 4 * N * i = 4 * (N * i) := by ring
        have h4 : 4 * N * i0 = 4 * (N * i0) := by ring
        rw [h3, h4] at h
        omega
    subst hi
    refine ⟨rfl, ?_, ?_⟩ <;> omega
  · rintro ⟨rfl, rfl, rfl⟩
    rfl

theorem fmt_offset_bounds {K : Type} (P : FMParams K) (frag : Fragment K) (i j : Int)
    (hi : 0 ≤ i) (hj : i + P.fm_gamma.minSep ≤ j ∧ j ≤ fmp_je P frag i)
    (hje : fmp_je P frag i < P.n) :
    0 ≤ j - (i + P.fm_gamma.minSep) ∧
    j - (i + P.fm_gamma.minSep) < fm_tb_nbrs P.n P.fm_gamma.minSep P.fm_gamma.maxSep := by
  unfold fm_tb_nbrs
  unfold fmp_je at hj hje
  simp only [] at hj hje
  split_ifs at hj hje ⊢ with h1
  · have := min_le_right (frag.pos + frag.len - 1) (i + P.fm_gamma.maxSep)
    omega
  · omega


theorem fmt_term_eq_table_term {K : Type} [LinearOrderedField K] (exp div0 : K → K)
    (pow : K → K → K) (w : K) (P : FMParams K) (tb_rmin tb_dr : K) (i j : Int) (k : Nat)
    (ir i_fm : Int) :
    fmt_term exp div0 tb_rmin tb_dr
        (P.epsilon * P.k_frag_mem * (P.frag_mems (P.frag_mem_map i i_fm)).weight *
          (fmp_gamma P (P.frag_mems (P.frag_mem_map i i_fm)) i j).getD 0)
        (pow ((|i - j| : Int) : K) (2 * P.fm_sigma_exp) * w * w)
        (((P.frag_mems (P.frag_mem_map i i_fm)).Rf i (iatom_type k) j (jatom_type k)).getD 0)
        ir =
      table_term exp div0 pow w P i j k (tb_rmin + (ir : K) * tb_dr) i_fm := by
  unfold fmt_term table_term fm_well fm_div
  dsimp only
  have e1 : pow ((|i - j| : Int) : K) (2 * P.fm_sigma_exp) * w * w =
      pow ((|i - j| : Int) : K) (2 * P.fm_sigma_exp) * w ^ 2 := by ring
  have e2 : ∀ x : K, -(x * x) = -x ^ 2 := fun x => by ring
  rw [e1, e2]

theorem fmt_add_kind_eq {K : Type} [LinearOrderedField K] (φ : TBV K → K) (exp div0 : K → K)
    (P : FMParams K) (G : FMTable K) (frag : Fragment K) (i j : Int) (s2 A : K)
    (i0 off0 : Int) (k0 k : Nat) (ir : Int)
    (ho : 0 ≤ j - (i + P.fm_gamma.minSep) ∧ j - (i + P.fm_gamma.minSep) < G.tb_nbrs)
    (ho0 : 0 ≤ off0 ∧ off0 < G.tb_nbrs) (hk0 : k0 < 4) (hk : k < 4) :
    fmt_add_kind φ exp div0 P G frag i j s2 A (4 * G.tb_nbrs * i0 + 4 * off0 + (k0 : Int)) ir k =
      if k = k0 then
        (if (i = i0 ∧ j = i0 + P.fm_gamma.minSep + off0) ∧ fmp_skip P.se frag i j k0 = false
          then φ (fmt_term exp div0 G.tb_rmin G.tb_dr A s2
            ((frag.Rf i (iatom_type k0) j (jatom_type k0)).getD 0) ir)
          else 0)
      else 0 := by
  have hinj := itb_injective G.tb_nbrs i (j - (i + P.fm_gamma.minSep)) (k : Int) i0 off0
    (k0 : Int) ho ho0 (by omega) (by omega)
  unfold fmt_add_kind
  by_cases hkk : k = k0
  · subst hkk
    rw [if_pos rfl]
    by_cases hc : fmp_skip P.se frag i j k = false ∧
        4 * G.tb_nbrs * i + 4 * (j - (i + P.fm_gamma.minSep)) + (k : Int) =
          4 * G.tb_nbrs * i0 + 4 * off0 + (k : Int)
    · have h2 := hinj.1 hc.2
      have hc2 : (i = i0 ∧ j = i0 + P.fm_gamma.minSep + off0) ∧
          fmp_skip P.se frag i j k = false := ⟨⟨h2.1, by omega⟩, hc.1⟩
      rw [if_pos hc, if_pos hc2]
    · have hc2 : ¬ ((i = i0 ∧ j = i0 + P.fm_gamma.minSep + off0) ∧
          fmp_skip P.se frag i j k = false) := by
        intro h
        apply hc
        refine ⟨h.2, hinj.2 ⟨h.1.1, ?_, rfl⟩⟩
        have := h.1.1
        have := h.1.2
        omega
      rw [if_neg hc, if_neg hc2]
  · rw [if_neg hkk, if_neg]
    intro h
    have := (hinj.1 h.2).2.2
    omega

theorem fmt_add_frag_eq {K : Type} [LinearOrderedField K] (φ : TBV K → K) (exp div0 : K → K)
    (pow : K → K → K) (w : K) (P : FMParams K) (G : FMTable K)
    (hN : G.tb_nbrs = fm_tb_nbrs P.n P.fm_gamma.minSep P.fm_gamma.maxSep)
    (i i_fm i0 off0 : Int) (k0 : Nat) (ir : Int) (hi : 0 ≤ i)
    (hje : fmp_je P (P.frag_mems (P.frag_mem_map i i_fm)) i < P.n)
    (ho0 : 0 ≤ off0 ∧ off0 < G.tb_nbrs) (hk0 : k0 < 4) :
    fmt_add_frag φ exp div0 pow w P G i (4 * G.tb_nbrs * i0 + 4 * off0 + (k0 : Int)) ir i_fm =
      if i = i0 then
        (if i0 + P.fm_gamma.minSep + off0 ≤
              fmp_je P (P.frag_mems (P.frag_mem_map i0 i_fm)) i0 ∧
            fmp_skip P.se (P.frag_mems (P.frag_mem_map i0 i_fm)) i0
              (i0 + P.fm_gamma.minSep + off0) k0 = false then
          φ (table_term exp div0 pow w P i0 (i0 + P.fm_gamma.minSep + off0) k0
            (G.tb_rmin + (ir : K) * G.tb_dr) i_fm)
        else 0)
      else 0 := by
  unfold fmt_add_frag
  simp only []
  have key : ∀ j ∈ intRange (i + P.fm_gamma.minSep)
      (fmp_je P (P.frag_mems (P.frag_mem_map i i_fm)) i),
      fmt_add_pair φ exp div0 pow w P G (P.frag_mems (P.frag_mem_map i i_fm))
        (P.epsilon * P.k_frag_mem * (P.frag_mems (P.frag_mem_map i i_fm)).weight) i
        (4 * G.tb_nbrs * i0 + 4 * off0 + (k0 : Int)) ir j =
      if j = i0 + P.fm_gamma.minSep + off0 then
        (if i = i0 ∧ fmp_skip P.se (P.frag_mems (P.frag_mem_map i i_fm)) i
            (i0 + P.fm_gamma.minSep + off0) k0 = false then
          φ (table_term exp div0 pow w P i (i0 + P.fm_gamma.minSep + off0) k0
            (G.tb_rmin + (ir : K) * G.tb_dr) i_fm)
        else 0)
      else 0 := by
    intro j hj
    rw [mem_intRange] at hj
    have ho := fmt_offset_bounds P (P.frag_mems (P.frag_mem_map i i_fm)) i j hi hj hje
    rw [← hN] at ho
    unfold fmt_add_pair
    have hk : ∀ k ∈ [0, 1, 2, 3],
        fmt_add_kind φ exp div0 P G (P.frag_mems (P.frag_mem_map i i_fm)) i j
          (pow ((|i - j| : Int) : K) (2 * P.fm_sigma_exp) * w * w)
          (P.epsilon * P.k_frag_mem * (P.frag_mems (P.frag_mem_map i i_fm)).weight *
            (fmp_gamma P (P.frag_mems (P.frag_mem_map i i_fm)) i j).getD 0)
          (4 * G.tb_nbrs * i0 + 4 * off0 + (k0 : Int)) ir k =
        if k = k0 then
          (if (i = i0 ∧ j = i0 + P.fm_gamma.minSep + off0) ∧
              fmp_skip P.se (P.frag_mems (P.frag_mem_map i i_fm)) i j k0 = false
            then φ (fmt_term exp div0 G.tb_rmin G.tb_dr
              (P.epsilon * P.k_frag_mem * (P.frag_mems (P.frag_mem_map i i_fm)).weight *
                (fmp_gamma P (P.frag_mems (P.frag_mem_map i i_fm)) i j).getD 0)
              (pow ((|i - j| : Int) : K) (2 * P.fm_sigma_exp) * w * w)
              (((P.frag_mems (P.frag_mem_map i i_fm)).Rf i (iatom_type k0) j
                (jatom_type k0)).getD 0) ir)
            else 0)
        else 0 := by
      intro k hk
      have hk4 : k < 4 := by
        simp only [List.mem_cons, List.mem_singleton, List.not_mem_nil, or_false] at hk
        omega
      exact fmt_add_kind_eq φ exp div0 P G _ i j _ _ i0 off0 k0 k ir ho ho0 hk0 hk4
    rw [List.map_congr_left hk, sum_indicator_kinds k0 hk0]
    by_cases hjj : j = i0 + P.fm_gamma.minSep + off0
    · subst hjj
      rw [if_pos rfl]
      by_cases hc : i = i0 ∧ fmp_skip P.se (P.frag_mems (P.frag_mem_map i i_fm)) i
          (i0 + P.fm_gamma.minSep + off0) k0 = false
      · rw [if_pos hc, if_pos ⟨⟨hc.1, rfl⟩, hc.2⟩, fmt_term_eq_table_term]
      · rw [if_neg hc, if_neg (fun h => hc ⟨h.1.1, h.2⟩)]
    · rw [if_neg hjj, if_neg (fun h => hjj h.1.2)]
  rw [List.map_congr_left key, sum_indicator_intRange]
  by_cases hii : i = i0
  · subst hii
    rw [if_pos rfl]
    by_cases hc : i + P.fm_gamma.minSep + off0 ≤
          fmp_je P (P.frag_mems (P.frag_mem_map i i_fm)) i ∧
        fmp_skip P.se (P.frag_mems (P.frag_mem_map i i_fm)) i
          (i + P.fm_gamma.minSep + off0) k0 = false
    · rw [if_pos hc, if_pos ⟨by omega, hc.1⟩, if_pos ⟨rfl, hc.2⟩]
    · rw [if_neg hc]
      by_cases hr : i + P.fm_gamma.minSep ≤ i + P.fm_gamma.minSep + off0 ∧
          i + P.fm_gamma.minSep + off0 ≤ fmp_je P (P.frag_mems (P.frag_mem_map i i_fm)) i
      · rw [if_pos hr, if_neg (fun h => hc ⟨hr.2, h.2⟩)]
      · rw [if_neg hr]
  · rw [if_neg hii]
    by_cases hr : i + P.fm_gamma.minSep ≤ i0 + P.fm_gamma.minSep + off0 ∧
        i0 + P.fm_gamma.minSep + off0 ≤ fmp_je P (P.frag_mems (P.frag_mem_map i i_fm)) i
    · rw [if_pos hr, if_neg (fun h => hii h.1)]
    · rw [if_neg hr]


theorem fmt_hit_frag_eq {K : Type} (P : FMParams K) (G : FMTable K)
    (hN : G.tb_nbrs = fm_tb_nbrs P.n P.fm_gamma.minSep P.fm_gamma.maxSep)
    (i i_fm i0 off0 : Int) (k0 : Nat) (hi : 0 ≤ i)
    (hje : fmp_je P (P.frag_mems (P.frag_mem_map i i_fm)) i < P.n)
    (ho0 : 0 ≤ off0 ∧ off0 < G.tb_nbrs) (hk0 : k0 < 4) :
    fmt_hit_frag P G i (4 * G.tb_nbrs * i0 + 4 * off0 + (k0 : Int)) i_fm =
      decide (i = i0 ∧
        i0 + P.fm_gamma.minSep + off0 ≤
          fmp_je P (P.frag_mems (P.frag_mem_map i0 i_fm)) i0 ∧
        fmp_skip P.se (P.frag_mems (P.frag_mem_map i0 i_fm)) i0
          (i0 + P.fm_gamma.minSep + off0) k0 = false) := by
  rw [Bool.eq_iff_iff, decide_eq_true_eq]
  unfold fmt_hit_frag
  simp only [List.any_eq_true, fmt_hit, decide_eq_true_eq]
  constructor
  · rintro ⟨j, hj, k, hk, hs, hitb⟩
    rw [mem_intRange] at hj
    have ho := fmt_offset_bounds P (P.frag_mems (P.frag_mem_map i i_fm)) i j hi hj hje
    rw [← hN] at ho
    have hk4 : k < 4 := by
      simp only [List.mem_cons, List.mem_singleton, List.not_mem_nil, or_false] at hk
      omega
    have h2 := (itb_injective G.tb_nbrs i (j - (i + P.fm_gamma.minSep)) (k : Int) i0 off0
      (k0 : Int) ho ho0 (by omega) (by omega)).1 hitb
    obtain ⟨h3, h4, h5⟩ := h2
    subst h3
    have hjj : j = i + P.fm_gamma.minSep + off0 := by omega
    subst hjj
    have hkk : k = k0 := by omega
    subst hkk
    exact ⟨rfl, hj.2, hs⟩
  · rintro ⟨h1, h2, h3⟩
    subst h1
    refine ⟨i + P.fm_gamma.minSep + off0, ?_, k0, ?_, h3, ?_⟩
    · rw [mem_intRange]
      exact ⟨by omega, h2⟩
    · simp only [List.mem_cons, List.mem_singleton, List.not_mem_nil, or_false]
      omega
    · ring

theorem sum_filter_indicator {K α : Type} [LinearOrderedField K] (l : List α) (c : α → Bool)
    (z : α → K) :
    (l.map (fun x => if c x = true then z x else 0)).sum = ((l.filter c).map z).sum := by
  induction l with
  | nil => rfl
  | cons a l ih =>
    rw [List.map_cons, List.sum_cons, ih]
    by_cases h : c a = true
    · rw [if_pos h, List.filter_cons_of_pos h, List.map_cons, List.sum_cons]
    · rw [if_neg h, List.filter_cons_of_neg h, zero_add]

theorem fmt_build_spec {K : Type} [LinearOrderedField K] (φ : TBV K → K)
    (hφ : ∀ a b c d : K, φ ⟨a + b, c + d⟩ = φ ⟨a, c⟩ + φ ⟨b, d⟩) (exp div0 : K → K)
    (pow : K → K → K) (w : K) (P : FMParams K) (G : FMTable K)
    (hN : G.tb_nbrs = fm_tb_nbrs P.n P.fm_gamma.minSep P.fm_gamma.maxSep)
    (tbl0 tbl1 : Int → Cell K)
    (h : (intRange 0 (P.n - 1)).foldlM (fun tbl i =>
      (intRange 0 (P.ilen_fm_map i - 1)).foldlM (fmt_frag exp div0 pow w P G ⟨0, 0⟩ i) tbl)
      tbl0 = .ok tbl1)
    (i0 off0 : Int) (k0 : Nat) (ir : Int) (hi0 : 0 ≤ i0 ∧ i0 < P.n)
    (ho0 : 0 ≤ off0 ∧ off0 < G.tb_nbrs) (hk0 : k0 < 4) (hir : 0 ≤ ir ∧ ir < G.tb_size) :
    φ (cell_entry (tbl1 (4 * G.tb_nbrs * i0 + 4 * off0 + (k0 : Int))) ir) =
      φ (cell_entry (tbl0 (4 * G.tb_nbrs * i0 + 4 * off0 + (k0 : Int))) ir) +
        ((table_fragments P i0 (i0 + P.fm_gamma.minSep + off0) k0).map (fun i_fm =>
          φ (table_term exp div0 pow w P i0 (i0 + P.fm_gamma.minSep + off0) k0
            (G.tb_rmin + (ir : K) * G.tb_dr) i_fm))).sum ∧
    ((tbl1 (4 * G.tb_nbrs * i0 + 4 * off0 + (k0 : Int))).isSome =
      ((tbl0 (4 * G.tb_nbrs * i0 + 4 * off0 + (k0 : Int))).isSome ||
        (table_fragments P i0 (i0 + P.fm_gamma.minSep + off0) k0).any (fun _ => true))) := by
  have hinner : ∀ (s : Int → Cell K) (i : Int) (s2 : Int → Cell K),
      i ∈ intRange 0 (P.n - 1) →
      (intRange 0 (P.ilen_fm_map i - 1)).foldlM (fmt_frag exp div0 pow w P G ⟨0, 0⟩ i) s = .ok s2 →
      φ (cell_entry (s2 (4 * G.tb_nbrs * i0 + 4 * off0 + (k0 : Int))) ir) =
        φ (cell_entry (s (4 * G.tb_nbrs * i0 + 4 * off0 + (k0 : Int))) ir) +
          (if i = i0 then
            ((table_fragments P i0 (i0 + P.fm_gamma.minSep + off0) k0).map (fun i_fm =>
              φ (table_term exp div0 pow w P i0 (i0 + P.fm_gamma.minSep + off0) k0
                (G.tb_rmin + (ir : K) * G.tb_dr) i_fm))).sum
          else 0) ∧
      ((s2 (4 * G.tb_nbrs * i0 + 4 * off0 + (k0 : Int))).isSome =
        ((s (4 * G.tb_nbrs * i0 + 4 * off0 + (k0 : Int))).isSome ||
          (decide (i = i0) &&
            (table_fragments P i0 (i0 + P.fm_gamma.minSep + off0) k0).any
              (fun _ => true)))) := by
    intro s i s2 hi hs
    rw [mem_intRange] at hi
    have hacc := foldlM_accum (fmt_frag exp div0 pow w P G ⟨0, 0⟩ i)
      (fun t => φ (cell_entry (t (4 * G.tb_nbrs * i0 + 4 * off0 + (k0 : Int))) ir))
      (fun t => (t (4 * G.tb_nbrs * i0 + 4 * off0 + (k0 : Int))).isSome)
      (fun i_fm => if (decide (i = i0) &&
          (decide (i0 + P.fm_gamma.minSep + off0 ≤
            fmp_je P (P.frag_mems (P.frag_mem_map i0 i_fm)) i0) &&
          !fmp_skip P.se (P.frag_mems (P.frag_mem_map i0 i_fm)) i0
            (i0 + P.fm_gamma.minSep + off0) k0)) = true then
        φ (table_term exp div0 pow w P i0 (i0 + P.fm_gamma.minSep + off0) k0
          (G.tb_rmin + (ir : K) * G.tb_dr) i_fm) else 0)
      (fun i_fm => decide (i = i0) &&
          (decide (i0 + P.fm_gamma.minSep + off0 ≤
            fmp_je P (P.frag_mems (P.frag_mem_map i0 i_fm)) i0) &&
          !fmp_skip P.se (P.frag_mems (P.frag_mem_map i0 i_fm)) i0
            (i0 + P.fm_gamma.minSep + off0) k0))
      (intRange 0 (P.ilen_fm_map i - 1)) s s2
      (by
        intro t i_fm t2 _ hstep
        obtain ⟨hje, hv, hb⟩ := fmt_frag_spec φ hφ exp div0 pow w P G i i_fm t t2 hstep
          (4 * G.tb_nbrs * i0 + 4 * off0 + (k0 : Int)) ir hir
        beta_reduce
        rw [hv, hb, fmt_add_frag_eq φ exp div0 pow w P G hN i i_fm i0 off0 k0 ir hi.1 hje ho0 hk0,
          fmt_hit_frag_eq P G hN i i_fm i0 off0 k0 hi.1 hje ho0 hk0]
        constructor
        · congr 1
          by_cases hii : i = i0
          · by_cases hc : i0 + P.fm_gamma.minSep + off0 ≤
                  fmp_je P (P.frag_mems (P.frag_mem_map i0 i_fm)) i0 ∧
                fmp_skip P.se (P.frag_mems (P.frag_mem_map i0 i_fm)) i0
                  (i0 + P.fm_gamma.minSep + off0) k0 = false
            · simp [hii, hc.1, hc.2]
            · rw [if_pos hii, if_neg hc, if_neg]
              intro hx
              apply hc
              simp only [Bool.and_eq_true, decide_eq_true_eq, Bool.not_eq_true'] at hx
              exact hx.2
          · rw [if_neg hii, if_neg]
            intro hx
            simp only [Bool.and_eq_true, decide_eq_true_eq] at hx
            exact hii hx.1
        · congr 1
          rw [Bool.eq_iff_iff]
          simp only [decide_eq_true_eq, Bool.and_eq_true, Bool.not_eq_true'])
      hs
    beta_reduce at hacc
    obtain ⟨hv, hb⟩ := hacc
    rw [hv, hb]
    by_cases hii : i = i0
    · subst hii
      simp only [decide_True, Bool.true_and, if_true]
      constructor
      · congr 1
        exact sum_filter_indicator _ _ _
      · congr 1
        unfold table_fragments
        rw [Bool.eq_iff_iff]
        simp only [List.any_eq_true, List.mem_filter, and_true, Bool.and_eq_true,
          decide_eq_true_eq, Bool.not_eq_true']
    · have hd : decide (i = i0) = false := decide_eq_false hii
      rw [if_neg hii]
      constructor
      · simp [hd]
      · simp [hd]
  have hacc := foldlM_accum
    (fun tbl i => (intRange 0 (P.ilen_fm_map i - 1)).foldlM
      (fmt_frag exp div0 pow w P G ⟨0, 0⟩ i) tbl)
    (fun t => φ (cell_entry (t (4 * G.tb_nbrs * i0 + 4 * off0 + (k0 : Int))) ir))
    (fun t => (t (4 * G.tb_nbrs * i0 + 4 * off0 + (k0 : Int))).isSome)
    (fun i => if i = i0 then
        ((table_fragments P i0 (i0 + P.fm_gamma.minSep + off0) k0).map (fun i_fm =>
          φ (table_term exp div0 pow w P i0 (i0 + P.fm_gamma.minSep + off0) k0
            (G.tb_rmin + (ir : K) * G.tb_dr) i_fm))).sum
      else 0)
    (fun i => decide (i = i0) &&
      (table_fragments P i0 (i0 + P.fm_gamma.minSep + off0) k0).any (fun _ => true))
    (intRange 0 (P.n - 1)) tbl0 tbl1
    (fun s i s2 hi hs => hinner s i s2 hi hs) h
  beta_reduce at hacc
  obtain ⟨hv, hb⟩ := hacc
  rw [hv, hb, sum_indicator_intRange, if_pos ⟨hi0.1, by omega⟩]
  refine ⟨rfl, ?_⟩
  congr 1
  rw [Bool.eq_iff_iff]
  simp only [List.any_eq_true, Bool.and_eq_true, decide_eq_true_eq, mem_intRange]
  constructor
  · rintro ⟨i, -, -, x, hx⟩
    exact ⟨x, hx⟩
  · rintro ⟨x, hx⟩
    exact ⟨i0, ⟨hi0.1, by omega⟩, rfl, x, hx⟩


theorem foldlM_ok_mem {σ α : Type} (f : σ → α → Except Err σ) :
    ∀ (l : List α) (s s1 : σ), l.foldlM f s = .ok s1 →
      ∀ a ∈ l, ∃ t t2, f t a = .ok t2 := by
  intro l
  induction l with
  | nil =>
    intro s s1 _ a ha
    exact absurd ha (List.not_mem_nil a)
  | cons x l ih =>
    intro s s1 h a ha
    rw [List.foldlM_cons] at h
    cases hx : f s x with
    | error e =>
      rw [hx] at h
      exact absurd h (by intro hc; cases hc)
    | ok s2 =>
      rw [hx] at h
      rcases List.mem_cons.mp ha with rfl | hmem
      · exact ⟨s, s2, hx⟩
      · exact ih s2 s1 h a hmem

theorem fmt_build_calls_ok {K : Type} [LinearOrderedField K] (exp div0 : K → K)
    (pow : K → K → K) (w : K) (P : FMParams K) (G : FMTable K) (fresh : TBV K)
    (tbl0 tbl1 : Int → Cell K)
    (h : (intRange 0 (P.n - 1)).foldlM (fun tbl i =>
      (intRange 0 (P.ilen_fm_map i - 1)).foldlM (fmt_frag exp div0 pow w P G fresh i) tbl)
      tbl0 = .ok tbl1)
    (i j : Int) (k : Nat) (hi : 0 ≤ i ∧ i < P.n) (hj : i + P.fm_gamma.minSep ≤ j)
    (hk : k < 4) (i_fm : Int) (hfm : i_fm ∈ table_fragments P i j k) :
    (fmp_gamma P (P.frag_mems (P.frag_mem_map i i_fm)) i j).isSome = true ∧
    ((P.frag_mems (P.frag_mem_map i i_fm)).Rf i (iatom_type k) j (jatom_type k)).isSome
      = true := by
  unfold table_fragments at hfm
  rw [List.mem_filter] at hfm
  obtain ⟨hmem, hc⟩ := hfm
  simp only [Bool.and_eq_true, decide_eq_true_eq, Bool.not_eq_true'] at hc
  obtain ⟨t, t2, h1⟩ := foldlM_ok_mem _ _ tbl0 tbl1 h i
    ((mem_intRange 0 (P.n - 1) i).2 ⟨hi.1, by omega⟩)
  obtain ⟨t3, t4, h2⟩ := foldlM_ok_mem _ _ t t2 h1 i_fm hmem
  unfold fmt_frag at h2
  simp only [] at h2
  by_cases hje : fmp_je P (P.frag_mems (P.frag_mem_map i i_fm)) i ≥ P.n
  · rw [if_pos hje] at h2
    exact absurd h2 (by intro hx; cases hx)
  · rw [if_neg hje] at h2
    obtain ⟨t5, t6, h3⟩ := foldlM_ok_mem _ _ t3 t4 h2 j
      ((mem_intRange _ _ j).2 ⟨hj, hc.1⟩)
    unfold fmt_pair at h3
    cases hg : fmp_gamma P (P.frag_mems (P.frag_mem_map i i_fm)) i j with
    | none =>
      rw [hg] at h3
      exact absurd h3 (by intro hx; cases hx)
    | some gamma =>
      rw [hg] at h3
      refine ⟨rfl, ?_⟩
      obtain ⟨t7, t8, h4⟩ := foldlM_ok_mem _ _ t5 t6 h3 k (by
        simp only [List.mem_cons, List.mem_singleton, List.not_mem_nil, or_false]
        omega)
      unfold fmt_kind at h4
      rw [hc.2] at h4
      simp only [Bool.false_eq_true, if_false] at h4
      cases hrf : (P.frag_mems (P.frag_mem_map i i_fm)).Rf i (iatom_type k) j
          (jatom_type k) with
      | none =>
        rw [hrf] at h4
        exact absurd h4 (by intro hx; cases hx)
      | some rf => rfl

/-- Claim C12: when `compute_fragment_memory_table` completes on a table
that was all unallocated, with fresh entries zero, then for every residue
`i`, offset, kind `k` and bin `ir` the energy stored in the cell
`4*tb_nbrs*i + 4*offset + k` is the sum, over the fragments of the map of `i`
whose window reaches `j = i + minSep + offset` and for which the kind is not
skipped for glycine, of `-epsilon*k_frag_mem*weight*gamma*exp(-(r-Rf)^2/(2*s2))`
at `r = tb_rmin + ir*tb_dr` with `s2 = |i-j|^(2*fm_sigma_exp)*w^2`, the
stored force is the sum of the matching `V*(r-Rf)/(s2*r)` (at a bin with
`s2*r = 0` each quotient is the value `div0 (V*(r-Rf))` of the machine
division by zero), and the cell is unallocated exactly when there is no such
fragment; for these fragments `gamma` and `Rf` are the values the calls
returned.  The terms `table_term` are written from the formula of the
description, not from the functions of the build. -/
theorem fm_table_build_is_sum_of_fragments {K : Type} [LinearOrderedField K] (exp div0 : K → K)
    (pow : K → K → K) (w : K) (P : FMParams K) (G T1 : FMTable K)
    (hN : G.tb_nbrs = fm_tb_nbrs P.n P.fm_gamma.minSep P.fm_gamma.maxSep)
    (hempty : ∀ x, G.fm_table x = none)
    (h : compute_fragment_memory_table exp div0 pow w P G ⟨0, 0⟩ = .ok T1)
    (i off : Int) (k : Nat) (ir : Int) (hi : 0 ≤ i ∧ i < P.n)
    (hoff : 0 ≤ off ∧ off < G.tb_nbrs) (hk : k < 4) (hir : 0 ≤ ir ∧ ir < G.tb_size) :
    stored_energy T1 (4 * G.tb_nbrs * i + 4 * off + (k : Int)) ir =
      ((table_fragments P i (i + P.fm_gamma.minSep + off) k).map (fun i_fm =>
        (table_term exp div0 pow w P i (i + P.fm_gamma.minSep + off) k
          (G.tb_rmin + (ir : K) * G.tb_dr) i_fm).energy)).sum ∧
    stored_force T1 (4 * G.tb_nbrs * i + 4 * off + (k : Int)) ir =
      ((table_fragments P i (i + P.fm_gamma.minSep + off) k).map (fun i_fm =>
        (table_term exp div0 pow w P i (i + P.fm_gamma.minSep + off) k
          (G.tb_rmin + (ir : K) * G.tb_dr) i_fm).force)).sum ∧
    (T1.fm_table (4 * G.tb_nbrs * i + 4 * off + (k : Int)) = none ↔
      table_fragments P i (i + P.fm_gamma.minSep + off) k = []) ∧
    (∀ i_fm ∈ table_fragments P i (i + P.fm_gamma.minSep + off) k,
      (fmp_gamma P (P.frag_mems (P.frag_mem_map i i_fm)) i
        (i + P.fm_gamma.minSep + off)).isSome = true ∧
      ((P.frag_mems (P.frag_mem_map i i_fm)).Rf i (iatom_type k)
        (i + P.fm_gamma.minSep + off) (jatom_type k)).isSome = true) := by
  unfold compute_fragment_memory_table at h
  cases hb : (intRange 0 (P.n - 1)).foldlM (fun tbl i =>
      (intRange 0 (P.ilen_fm_map i - 1)).foldlM (fmt_frag exp div0 pow w P G ⟨0, 0⟩ i) tbl)
      G.fm_table with
  | error e =>
    rw [hb] at h
    exact absurd h (by intro hc; cases hc)
  | ok tbl =>
    rw [hb] at h
    have hT := (Except.ok.inj h).symm
    subst hT
    have hE := fmt_build_spec (fun t => t.energy) (fun _ _ _ _ => rfl) exp div0 pow w P G hN
      G.fm_table tbl hb i off k ir hi hoff hk hir
    have hF := fmt_build_spec (fun t => t.force) (fun _ _ _ _ => rfl) exp div0 pow w P G hN
      G.fm_table tbl hb i off k ir hi hoff hk hir
    have h0 : G.fm_table (4 * G.tb_nbrs * i + 4 * off + (k : Int)) = none := hempty _
    refine ⟨?_, ?_, ?_, ?_⟩
    · have e := hE.1
      rw [h0] at e
      simp only [cell_entry, zero_add] at e
      rw [← e]
      unfold stored_energy
      dsimp only
      cases tbl (4 * G.tb_nbrs * i + 4 * off + (k : Int)) <;> rfl
    · have e := hF.1
      rw [h0] at e
      simp only [cell_entry, zero_add] at e
      rw [← e]
      unfold stored_force
      dsimp only
      cases tbl (4 * G.tb_nbrs * i + 4 * off + (k : Int)) <;> rfl
    · have e := hE.2
      rw [h0] at e
      simp only [Option.isSome_none, Bool.false_or] at e
      show tbl (4 * G.tb_nbrs * i + 4 * off + (k : Int)) = none ↔ _
      cases hl : table_fragments P i (i + P.fm_gamma.minSep + off) k with
      | nil =>
        rw [hl] at e
        simp only [List.any_nil] at e
        constructor
        · intro _
          rfl
        · intro _
          exact Option.not_isSome_iff_eq_none.mp (by rw [e]; decide)
      | cons a l =>
        rw [hl] at e
        simp only [List.any_cons, Bool.true_or] at e
        constructor
        · intro hn
          rw [hn] at e
          simp at e
        · intro hc
          exact absurd hc (List.cons_ne_nil a l)
    · intro i_fm hfm
      exact fmt_build_calls_ok exp div0 pow w P G ⟨0, 0⟩ G.fm_table tbl hb i
        (i + P.fm_gamma.minSep + off) k hi (by omega) hk i_fm hfm


/-- Witness for C12: the two-residue example with `exp = 1`, so `V = -1`;
the cell of the pair (0, 1), kind 0 (`Rf = 3`), holds the energy -1 in bin 3,
the force `-1*(4 - 3)/(1*4)` in bin 4 (`r = 4`) and, in bin 0 (`r = 0`), the
value of the division by zero, here `div0 = 7`. -/
theorem fm_table_build_is_sum_of_fragments_witness :
    ∃ T1 : FMTable ℚ,
      compute_fragment_memory_table (fun _ => 1) (fun _ => 7) (fun x _ => x) 1 (exParams ℚ)
        (unallocated exTable) ⟨0, 0⟩ = .ok T1 ∧
      stored_energy T1 (4 * (unallocated exTable).tb_nbrs * 0 + 4 * 0 + ((0 : Nat) : Int)) 3
        = -1 ∧
      stored_force T1 (4 * (unallocated exTable).tb_nbrs * 0 + 4 * 0 + ((0 : Nat) : Int)) 4
        = -1 / 4 ∧
      stored_force T1 (4 * (unallocated exTable).tb_nbrs * 0 + 4 * 0 + ((0 : Nat) : Int)) 0
        = 7 ∧
      (T1.fm_table (4 * (unallocated exTable).tb_nbrs * 0 + 4 * 0 + ((0 : Nat) : Int)) = none ↔
        table_fragments (exParams ℚ) 0 (0 + (exParams ℚ).fm_gamma.minSep + 0) 0 = []) := by
  have hb : ∃ T1 : FMTable ℚ,
      compute_fragment_memory_table (fun _ => 1) (fun _ => 7) (fun x _ => x) 1 (exParams ℚ)
        (unallocated exTable) ⟨0, 0⟩ = .ok T1 := ⟨_, rfl⟩
  obtain ⟨T1, hT⟩ := hb
  have h := fm_table_build_is_sum_of_fragments (fun _ => 1) (fun _ => 7) (fun x _ => x) 1
    (exParams ℚ) (unallocated exTable) T1 (by decide) (fun _ => rfl) hT 0 0 0 3 (by decide)
    (by decide) (by decide) (by decide)
  have h4 := fm_table_build_is_sum_of_fragments (fun _ => 1) (fun _ => 7) (fun x _ => x) 1
    (exParams ℚ) (unallocated exTable) T1 (by decide) (fun _ => rfl) hT 0 0 0 4 (by decide)
    (by decide) (by decide) (by decide)
  have h0 := fm_table_build_is_sum_of_fragments (fun _ => 1) (fun _ => 7) (fun x _ => x) 1
    (exParams ℚ) (unallocated exTable) T1 (by decide) (fun _ => rfl) hT 0 0 0 0 (by decide)
    (by decide) (by decide) (by decide)
  have hl : table_fragments (exParams ℚ) 0 (0 + (exParams ℚ).fm_gamma.minSep + 0) 0 = [0] := by
    decide
  refine ⟨T1, hT, ?_, ?_, ?_, h.2.2.1⟩
  · rw [h.1, hl]
    simp [table_term, exParams, exFragment, fmp_gamma]
  · rw [h4.2.1, hl]
    simp [table_term, exParams, exFragment, fmp_gamma, unallocated, exTable, iatom_type,
      jatom_type]
    norm_num
  · rw [h0.2.1, hl]
    simp [table_term, exParams, exFragment, fmp_gamma, unallocated, exTable, iatom_type,
      jatom_type]

/-- Claim C25: `se_map` is the inverse of `one_letter_code`: for every type
index `k` in 0..19 the entry of `se_map` at the letter `one_letter_code[k]` is
`k`, and for every letter `c` among the twenty codes `one_letter_code` at the
index `se_map[c - 'A']` is `c`. -/
theorem se_map_inverse_of_one_letter_code :
    (∀ k : Nat, k < 20 → se_map (one_letter_code.getD k 'A') = (k : Int)) ∧
    (∀ c : Char, c ∈ one_letter_code →
      0 ≤ se_map c ∧ se_map c < 20 ∧ one_letter_code.getD (se_map c).toNat 'A' = c) := by
  constructor
  · decide
  · intro c hc
    simp only [one_letter_code, List.mem_cons, List.mem_singleton, List.not_mem_nil,
      or_false] at hc
    rcases hc with h | h | h | h | h | h | h | h | h | h | h | h | h | h | h | h | h | h | h | h
      <;> subst h <;> decide

theorem se_map_inverse_of_one_letter_code_witness :
    se_map (one_letter_code.getD 15 'A') = 15 ∧
    (0 ≤ se_map 'S' ∧ se_map 'S' < 20 ∧ one_letter_code.getD (se_map 'S').toNat 'A' = 'S') :=
  ⟨se_map_inverse_of_one_letter_code.1 15 (by decide),
    se_map_inverse_of_one_letter_code.2 'S' (by decide)⟩

theorem chain_ncb_net_force {K : Type} [LinearOrderedField K] (sqrt : K → K)
    (P : ChainParams K) (C : Chains) (S : Topo) (X : Coords K) (N : Nat) (i : Int)
    (st : FMState K)
    (h1 : 0 ≤ S.alpha_carbons (S.res_no_l (S.res_no i - 1 - 1)) ∧
      S.alpha_carbons (S.res_no_l (S.res_no i - 1 - 1)) < (N : Int))
    (h2 : 0 ≤ S.oxygens (S.res_no_l (S.res_no i - 1 - 1)) ∧
      S.oxygens (S.res_no_l (S.res_no i - 1 - 1)) < (N : Int))
    (h3 : 0 ≤ S.alpha_carbons i ∧ S.alpha_carbons i < (N : Int))
    (h4 : 0 ≤ S.beta_atoms i ∧ S.beta_atoms i < (N : Int)) (d : Fin 3) :
    net_force N (chain_ncb sqrt P C S X i st).f d = net_force N st.f d +
      (if chain_ncb_active P C S i then
        (1 - (P.coef.an + P.coef.bn + P.coef.cn))
          * chain_force sqrt (P.k_chain 0) P.r_ncb0 (fun d => X.xn i d - X.xcb i d)
          * (X.xn i d - X.xcb i d)
      else 0) := by
  unfold chain_ncb chain_ncb_active
  by_cases hg1 : (!isFirst C S i) = true ∧ P.se (S.res_no i - 1) ≠ 'G'
  · by_cases hg2 : S.res_no_l (S.res_no i - 1 - 1) ≠ -1 ∧
        (S.res_info (S.res_no_l (S.res_no i - 1 - 1)) = ResInfo.LOCAL ∨
          S.res_info (S.res_no_l (S.res_no i - 1 - 1)) = ResInfo.GHOST)
    · dsimp only
      simp only [decide_eq_true_eq]
      rw [if_pos hg1, if_pos hg2, if_pos ⟨hg1, hg2⟩]
      dsimp only
      rw [net_force_addForce _ _ _ _ d h4.1 N, net_force_addForce _ _ _ _ d h3.1 N,
        net_force_addForce _ _ _ _ d h2.1 N, net_force_addForce _ _ _ _ d h1.1 N,
        if_pos h1.2, if_pos h2.2, if_pos h3.2, if_pos h4.2]
      unfold chain_force
      ring
    · dsimp only
      simp only [decide_eq_true_eq]
      rw [if_pos hg1, if_neg hg2, if_neg (fun h => hg2 h.2), add_zero]
  · dsimp only
    simp only [decide_eq_true_eq]
    rw [if_neg hg1, if_neg (fun h => hg1 h.1), add_zero]

theorem chain_cpcb_net_force {K : Type} [LinearOrderedField K] (sqrt : K → K)
    (P : ChainParams K) (C : Chains) (S : Topo) (X : Coords K) (N : Nat) (i : Int)
    (st : FMState K)
    (h1 : 0 ≤ S.alpha_carbons (S.res_no_l (S.res_no i - 1 + 1)) ∧
      S.alpha_carbons (S.res_no_l (S.res_no i - 1 + 1)) < (N : Int))
    (h2 : 0 ≤ S.alpha_carbons i ∧ S.alpha_carbons i < (N : Int))
    (h3 : 0 ≤ S.oxygens i ∧ S.oxygens i < (N : Int))
    (h4 : 0 ≤ S.beta_atoms i ∧ S.beta_atoms i < (N : Int)) (d : Fin 3) :
    net_force N (chain_cpcb sqrt P C S X i st).f d = net_force N st.f d +
      (if chain_cpcb_active P C S i then
        (1 - (P.coef.ap + P.coef.bp + P.coef.cp))
          * chain_force sqrt (P.k_chain 1) P.r_cpcb0 (fun d => X.xcp i d - X.xcb i d)
          * (X.xcp i d - X.xcb i d)
      else 0) := by
  unfold chain_cpcb chain_cpcb_active
  by_cases hg1 : (!isLast C S i) = true ∧ P.se (S.res_no i - 1) ≠ 'G'
  · by_cases hg2 : S.res_no_l (S.res_no i - 1 + 1) ≠ -1 ∧
        (S.res_info (S.res_no_l (S.res_no i - 1 + 1)) = ResInfo.LOCAL ∨
          S.res_info (S.res_no_l (S.res_no i - 1 + 1)) = ResInfo.GHOST)
    · dsimp only
      simp only [decide_eq_true_eq]
      rw [if_pos hg1, if_pos hg2, if_pos ⟨hg1, hg2⟩]
      dsimp only
      rw [net_force_addForce _ _ _ _ d h4.1 N, net_force_addForce _ _ _ _ d h3.1 N,
        net_force_addForce _ _ _ _ d h2.1 N, net_force_addForce _ _ _ _ d h1.1 N,
        if_pos h1.2, if_pos h2.2, if_pos h3.2, if_pos h4.2]
      unfold chain_force
      ring
    · dsimp only
      simp only [decide_eq_true_eq]
      rw [if_pos hg1, if_neg hg2, if_neg (fun h => hg2 h.2), add_zero]
  · dsimp only
    simp only [decide_eq_true_eq]
    rw [if_neg hg1, if_neg (fun h => hg1 h.1), add_zero]

theorem chain_ncp_net_force {K : Type} [LinearOrderedField K] (sqrt : K → K)
    (P : ChainParams K) (C : Chains) (S : Topo) (X : Coords K) (N : Nat) (i : Int)
    (st : FMState K)
    (h1 : 0 ≤ S.alpha_carbons (S.res_no_l (S.res_no i - 1 - 1)) ∧
      S.alpha_carbons (S.res_no_l (S.res_no i - 1 - 1)) < (N : Int))
    (h2 : 0 ≤ S.oxygens (S.res_no_l (S.res_no i - 1 - 1)) ∧
      S.oxygens (S.res_no_l (S.res_no i - 1 - 1)) < (N : Int))
    (h3 : 0 ≤ S.alpha_carbons (S.res_no_l (S.res_no i - 1 + 1)) ∧
      S.alpha_carbons (S.res_no_l (S.res_no i - 1 + 1)) < (N : Int))
    (h4 : 0 ≤ S.alpha_carbons i ∧ S.alpha_carbons i < (N : Int))
    (h5 : 0 ≤ S.oxygens i ∧ S.oxygens i < (N : Int)) (d : Fin 3) :
    net_force N (chain_ncp sqrt P C S X i st).f d = net_force N st.f d +
      (if chain_ncp_active C S i then
        ((P.coef.ap + P.coef.bp + P.coef.cp) - (P.coef.an + P.coef.bn + P.coef.cn))
          * chain_force sqrt (P.k_chain 2) P.r_ncp0 (fun d => X.xn i d - X.xcp i d)
          * (X.xn i d - X.xcp i d)
      else 0) := by
  unfold chain_ncp chain_ncp_active
  by_cases hg1 : (!isFirst C S i) = true ∧ (!isLast C S i) = true
  · by_cases hg2 : S.res_no_l (S.res_no i - 1 - 1) ≠ -1 ∧
        S.res_no_l (S.res_no i - 1 + 1) ≠ -1 ∧
        (S.res_info (S.res_no_l (S.res_no i - 1 - 1)) = ResInfo.LOCAL ∨
          S.res_info (S.res_no_l (S.res_no i - 1 - 1)) = ResInfo.GHOST) ∧
        (S.res_info (S.res_no_l (S.res_no i - 1 + 1)) = ResInfo.LOCAL ∨
          S.res_info (S.res_no_l (S.res_no i - 1 + 1)) = ResInfo.GHOST)
    · dsimp only
      simp only [decide_eq_true_eq]
      rw [if_pos hg1, if_pos hg2, if_pos ⟨hg1, hg2⟩]
      dsimp only
      rw [net_force_addForce _ _ _ _ d h5.1 N, net_force_addForce _ _ _ _ d h4.1 N,
        net_force_addForce _ _ _ _ d h3.1 N, net_force_addForce _ _ _ _ d h2.1 N,
        net_force_addForce _ _ _ _ d h1.1 N,
        if_pos h1.2, if_pos h2.2, if_pos h3.2, if_pos h4.2, if_pos h5.2]
      unfold chain_force
      ring
    · dsimp only
      simp only [decide_eq_true_eq]
      rw [if_pos hg1, if_neg hg2, if_neg (fun h => hg2 h.2), add_zero]
  · dsimp only
    simp only [decide_eq_true_eq]
    rw [if_neg hg1, if_neg (fun h => hg1 h.1), add_zero]

/-- Claim C28: with every atom written by `compute_chain_potential(i)` among
the atoms `0 .. N-1`, the sum over these atoms of the force added by the block
N-Cb is `(1-(an+bn+cn))*force*dx`, by the block C'-Cb `(1-(ap+bp+cp))*force*dx`
and by the block N-C' `((ap+bp+cp)-(an+bn+cn))*force*dx` (nothing where the
block is not executed); if `an+bn+cn = 1` and `ap+bp+cp = 1` each block, and
the whole call, leaves the sum of the forces unchanged. -/
theorem chain_potential_net_force {K : Type} [LinearOrderedField K] (sqrt : K → K)
    (P : ChainParams K) (C : Chains) (S : Topo) (X : Coords K) (N : Nat) (i : Int)
    (hcam : 0 ≤ S.alpha_carbons (S.res_no_l (S.res_no i - 1 - 1)) ∧
      S.alpha_carbons (S.res_no_l (S.res_no i - 1 - 1)) < (N : Int))
    (hom : 0 ≤ S.oxygens (S.res_no_l (S.res_no i - 1 - 1)) ∧
      S.oxygens (S.res_no_l (S.res_no i - 1 - 1)) < (N : Int))
    (hcap : 0 ≤ S.alpha_carbons (S.res_no_l (S.res_no i - 1 + 1)) ∧
      S.alpha_carbons (S.res_no_l (S.res_no i - 1 + 1)) < (N : Int))
    (hca : 0 ≤ S.alpha_carbons i ∧ S.alpha_carbons i < (N : Int))
    (hcb : 0 ≤ S.beta_atoms i ∧ S.beta_atoms i < (N : Int))
    (ho : 0 ≤ S.oxygens i ∧ S.oxygens i < (N : Int)) :
    (∀ (st : FMState K) (d : Fin 3),
      net_force N (chain_ncb sqrt P C S X i st).f d = net_force N st.f d +
        (if chain_ncb_active P C S i then
          (1 - (P.coef.an + P.coef.bn + P.coef.cn))
            * chain_force sqrt (P.k_chain 0) P.r_ncb0 (fun d => X.xn i d - X.xcb i d)
            * (X.xn i d - X.xcb i d)
        else 0)) ∧
    (∀ (st : FMState K) (d : Fin 3),
      net_force N (chain_cpcb sqrt P C S X i st).f d = net_force N st.f d +
        (if chain_cpcb_active P C S i then
          (1 - (P.coef.ap + P.coef.bp + P.coef.cp))
            * chain_force sqrt (P.k_chain 1) P.r_cpcb0 (fun d => X.xcp i d - X.xcb i d)
            * (X.xcp i d - X.xcb i d)
        else 0)) ∧
    (∀ (st : FMState K) (d : Fin 3),
      net_force N (chain_ncp sqrt P C S X i st).f d = net_force N st.f d +
        (if chain_ncp_active C S i then
          ((P.coef.ap + P.coef.bp + P.coef.cp) - (P.coef.an + P.coef.bn + P.coef.cn))
            * chain_force sqrt (P.k_chain 2) P.r_ncp0 (fun d => X.xn i d - X.xcp i d)
            * (X.xn i d - X.xcp i d)
        else 0)) ∧
    (P.coef.an + P.coef.bn + P.coef.cn = 1 → P.coef.ap + P.coef.bp + P.coef.cp = 1 →
      ∀ (st : FMState K) (d : Fin 3),
        net_force N (chain_ncb sqrt P C S X i st).f d = net_force N st.f d ∧
        net_force N (chain_cpcb sqrt P C S X i st).f d = net_force N st.f d ∧
        net_force N (chain_ncp sqrt P C S X i st).f d = net_force N st.f d ∧
        net_force N (compute_chain_potential sqrt P C S X i st).f d = net_force N st.f d) := by
  have e1 := fun (st : FMState K) (d : Fin 3) =>
    chain_ncb_net_force sqrt P C S X N i st hcam hom hca hcb d
  have e2 := fun (st : FMState K) (d : Fin 3) =>
    chain_cpcb_net_force sqrt P C S X N i st hcap hca ho hcb d
  have e3 := fun (st : FMState K) (d : Fin 3) =>
    chain_ncp_net_force sqrt P C S X N i st hcam hom hcap hca ho d
  refine ⟨e1, e2, e3, ?_⟩
  intro hn hp st d
  have z1 : ∀ (s : FMState K), net_force N (chain_ncb sqrt P C S X i s).f d
      = net_force N s.f d := by
    intro s
    rw [e1 s d, hn]
    simp
  have z2 : ∀ (s : FMState K), net_force N (chain_cpcb sqrt P C S X i s).f d
      = net_force N s.f d := by
    intro s
    rw [e2 s d, hp]
    simp
  have z3 : ∀ (s : FMState K), net_force N (chain_ncp sqrt P C S X i s).f d
      = net_force N s.f d := by
    intro s
    rw [e3 s d, hn, hp]
    simp
  refine ⟨z1 st, z2 st, z3 st, ?_⟩
  unfold compute_chain_potential
  rw [z3, z2, z1]

theorem chain_potential_net_force_witness :
    chain_ncb_active exChainParamsAffine exChains4 exTopo2 1 = true ∧
    chain_cpcb_active exChainParamsAffine exChains4 exTopo2 1 = true ∧
    chain_ncp_active exChains4 exTopo2 1 = true ∧
    net_force 12 (compute_chain_potential sqrtQ exChainParamsAffine exChains4 exTopo2
      exCoordsChain 1 ⟨0, fun _ _ => 0⟩).f 0 = net_force 12 (fun _ _ => (0 : ℚ)) 0 ∧
    net_force 12 (chain_ncb sqrtQ exChainParams exChains4 exTopo2 exCoordsChain 1
      ⟨0, fun _ _ => 0⟩).f 0 = net_force 12 (fun _ _ => (0 : ℚ)) 0 +
        (if chain_ncb_active exChainParams exChains4 exTopo2 1 then
          (1 - (exChainParams.coef.an + exChainParams.coef.bn + exChainParams.coef.cn))
            * chain_force sqrtQ (exChainParams.k_chain 0) exChainParams.r_ncb0
                (fun d => exCoordsChain.xn 1 d - exCoordsChain.xcb 1 d)
            * (exCoordsChain.xn 1 0 - exCoordsChain.xcb 1 0)
        else 0) := by
  have ha := chain_potential_net_force sqrtQ exChainParamsAffine exChains4 exTopo2
    exCoordsChain 12 1 (by simp [exTopo2]) (by simp [exTopo2]) (by simp [exTopo2])
    (by simp [exTopo2]) (by simp [exTopo2]) (by simp [exTopo2])
  have hd := chain_potential_net_force sqrtQ exChainParams exChains4 exTopo2
    exCoordsChain 12 1 (by simp [exTopo2]) (by simp [exTopo2]) (by simp [exTopo2])
    (by simp [exTopo2]) (by simp [exTopo2]) (by simp [exTopo2])
  refine ⟨by decide, by decide, by decide, ?_, hd.1 ⟨0, fun _ _ => 0⟩ 0⟩
  exact (ha.2.2.2 (by norm_num [exChainParamsAffine, default_coef])
    (by norm_num [exChainParamsAffine, default_coef]) ⟨0, fun _ _ => 0⟩ 0).2.2.2

theorem fm_bin_bounds {K : Type} [LinearOrderedField K] [FloorRing K] (tb_rmin tb_rmax tb_dr : K)
    (r : K) (hdr : 0 < tb_dr) (hr : tb_rmin ≤ r ∧ r ≤ tb_rmax) :
    toInt ((r - tb_rmin) / tb_dr) = Int.floor ((r - tb_rmin) / tb_dr) ∧
    0 ≤ toInt ((r - tb_rmin) / tb_dr) ∧
    toInt ((r - tb_rmin) / tb_dr) + 1 ≤ fm_tb_size tb_rmin tb_rmax tb_dr - 1 ∧
    tb_rmin + ((toInt ((r - tb_rmin) / tb_dr) : Int) : K) * tb_dr ≤ r ∧
    r < tb_rmin + ((toInt ((r - tb_rmin) / tb_dr) + 1 : Int) : K) * tb_dr := by
  have hx : 0 ≤ (r - tb_rmin) / tb_dr := div_nonneg (by linarith [hr.1]) hdr.le
  have hy : 0 ≤ (tb_rmax - tb_rmin) / tb_dr := div_nonneg (by linarith [hr.1, hr.2]) hdr.le
  have hxy : (r - tb_rmin) / tb_dr ≤ (tb_rmax - tb_rmin) / tb_dr :=
    div_le_div_of_nonneg_right (by linarith [hr.2]) hdr.le
  have e1 : toInt ((r - tb_rmin) / tb_dr) = Int.floor ((r - tb_rmin) / tb_dr) := by
    unfold toInt
    rw [if_pos hx]
  have e2 : toInt ((tb_rmax - tb_rmin) / tb_dr) = Int.floor ((tb_rmax - tb_rmin) / tb_dr) := by
    unfold toInt
    rw [if_pos hy]
  refine ⟨e1, ?_, ?_, ?_, ?_⟩
  · rw [e1]
    exact Int.floor_nonneg.mpr hx
  · unfold fm_tb_size
    rw [e1, e2]
    have := Int.floor_mono hxy
    omega
  · rw [e1]
    have h := Int.floor_le ((r - tb_rmin) / tb_dr)
    have h2 := (le_div_iff₀ hdr).mp h
    linarith
  · rw [e1]
    have h := Int.lt_floor_add_one ((r - tb_rmin) / tb_dr)
    have h2 := (div_lt_iff₀ hdr).mp h
    push_cast
    linarith

theorem tfm_kind_ir_ok {K : Type} [LinearOrderedField K] [FloorRing K] (sqrt : K → K)
    (T : FMTable K) (R : Residues K) (se : Int → Char) (i j : Int) (k : Nat) (st : FMState K)
    (hdr : 0 < T.tb_dr) (hsize : T.tb_size = fm_tb_size T.tb_rmin T.tb_rmax T.tb_dr) :
    tfm_kind sqrt T R se i j k st ≠ .error .fmTableIrOutOfRange ∧
    tfm_kind sqrt T R se i j k st ≠ .error .readOutsideArray := by
  unfold tfm_kind
  dsimp only
  by_cases hs : tfm_skip se (R.res_no i - 1) (R.res_no j - 1) k = true
  · rw [if_pos hs]
    constructor <;> intro h <;> cases h
  · rw [if_neg hs]
    by_cases hr : T.tb_rmin ≤ tfm_r sqrt R i j k ∧ tfm_r sqrt R i j k ≤ T.tb_rmax
    · rw [if_pos hr]
      have hb := fm_bin_bounds T.tb_rmin T.tb_rmax T.tb_dr (tfm_r sqrt R i j k) hdr hr
      rw [← hsize] at hb
      cases hc : T.fm_table (4 * T.tb_nbrs * (R.res_no i - 1)
          + 4 * (R.res_no j - 1 - (R.res_no i - 1) - T.minSep) + (k : Int)) with
      | none => constructor <;> intro h <;> cases h
      | some c =>
        dsimp only
        have h1 : ¬ (toInt ((tfm_r sqrt R i j k - T.tb_rmin) / T.tb_dr) < 0 ∨
            T.tb_size ≤ toInt ((tfm_r sqrt R i j k - T.tb_rmin) / T.tb_dr)) := by
          intro h
          rcases h with h | h
          · omega
          · omega
        have h2 : ¬ T.tb_size ≤ toInt ((tfm_r sqrt R i j k - T.tb_rmin) / T.tb_dr) + 1 := by
          omega
        rw [if_neg h1, if_neg h2]
        constructor <;> intro h <;> cases h
    · rw [if_neg hr]
      constructor <;> intro h <;> cases h

theorem tfm_iter_ir_ok {K : Type} [LinearOrderedField K] [FloorRing K] (sqrt : K → K)
    (T : FMTable K) (R : Residues K) (se : Int → Char) (i j : Int)
    (hdr : 0 < T.tb_dr) (hsize : T.tb_size = fm_tb_size T.tb_rmin T.tb_rmax T.tb_dr) :
    ∀ (fuel k : Nat) (st : FMState K),
      tfm_iter sqrt T R se i j fuel k st ≠ .error .fmTableIrOutOfRange ∧
      tfm_iter sqrt T R se i j fuel k st ≠ .error .readOutsideArray := by
  intro fuel
  induction fuel with
  | zero =>
    intro k st
    constructor <;> intro h <;> cases h
  | succ fuel ih =>
    intro k st
    have hk := tfm_kind_ir_ok sqrt T R se i j k st hdr hsize
    unfold tfm_iter
    cases hc : tfm_kind sqrt T R se i j k st with
    | error e =>
      rw [hc] at hk
      exact hk
    | ok c =>
      cases c with
      | next s => exact ih (k + 1) s
      | ret s => constructor <;> intro h <;> cases h

theorem table_fragment_memory_ir_ok {K : Type} [LinearOrderedField K] [FloorRing K]
    (sqrt : K → K) (T : FMTable K) (R : Residues K) (se : Int → Char) (i j : Int)
    (st : FMState K)
    (hdr : 0 < T.tb_dr) (hsize : T.tb_size = fm_tb_size T.tb_rmin T.tb_rmax T.tb_dr) :
    table_fragment_memory sqrt T R se i j st ≠ .error .fmTableIrOutOfRange ∧
    table_fragment_memory sqrt T R se i j st ≠ .error .readOutsideArray := by
  have hk := tfm_iter_ir_ok sqrt T R se i j hdr hsize 4 0 st
  unfold table_fragment_memory
  dsimp only
  by_cases h1 : R.res_no j - 1 - (R.res_no i - 1) < T.minSep
  · rw [if_pos h1]
    constructor <;> intro h <;> cases h
  · rw [if_neg h1]
    by_cases h2 : T.maxSep ≠ -1 ∧ R.res_no j - 1 - (R.res_no i - 1) > T.maxSep
    · rw [if_pos h2]
      constructor <;> intro h <;> cases h
    · rw [if_neg h2]
      cases T.fm_table (4 * T.tb_nbrs * (R.res_no i - 1)
          + 4 * (R.res_no j - 1 - (R.res_no i - 1) - T.minSep)) with
      | none => constructor <;> intro h <;> cases h
      | some c =>
        dsimp only
        split_ifs
        · constructor <;> intro h <;> cases h
        · cases hc : tfm_iter sqrt T R se i j 4 0 st with
          | error e =>
            rw [hc] at hk
            constructor
            · intro h
              apply hk.1
              cases h
              rfl
            · intro h
              apply hk.2
              cases h
              rfl
          | ok c =>
            cases c with
            | next s => constructor <;> intro h <;> cases h
            | ret s => constructor <;> intro h <;> cases h

/-- Claim C27: with `tb_dr > 0` and `tb_size = (int)((tb_rmax-tb_rmin)/tb_dr)+2`,
for every `r` in `[tb_rmin, tb_rmax]` the bin index `ir = (int)((r-tb_rmin)/tb_dr)`
is the floor of the quotient, `0 ≤ ir`, `ir+1 ≤ tb_size-1`, and
`tb_rmin + ir*tb_dr ≤ r < tb_rmin + (ir+1)*tb_dr`; `table_fragment_memory`
never raises the error "ir is out of range" and never reads an entry outside
an allocated cell. -/
theorem fm_table_bin_index_in_range {K : Type} [LinearOrderedField K] [FloorRing K]
    (T : FMTable K) (hdr : 0 < T.tb_dr)
    (hsize : T.tb_size = fm_tb_size T.tb_rmin T.tb_rmax T.tb_dr) :
    (∀ r : K, T.tb_rmin ≤ r ∧ r ≤ T.tb_rmax →
      toInt ((r - T.tb_rmin) / T.tb_dr) = Int.floor ((r - T.tb_rmin) / T.tb_dr) ∧
      0 ≤ toInt ((r - T.tb_rmin) / T.tb_dr) ∧
      toInt ((r - T.tb_rmin) / T.tb_dr) + 1 ≤ T.tb_size - 1 ∧
      T.tb_rmin + ((toInt ((r - T.tb_rmin) / T.tb_dr) : Int) : K) * T.tb_dr ≤ r ∧
      r < T.tb_rmin + ((toInt ((r - T.tb_rmin) / T.tb_dr) + 1 : Int) : K) * T.tb_dr) ∧
    (∀ (sqrt : K → K) (R : Residues K) (se : Int → Char) (i j : Int) (k : Nat)
        (st : FMState K),
      tfm_kind sqrt T R se i j k st ≠ .error .fmTableIrOutOfRange ∧
      tfm_kind sqrt T R se i j k st ≠ .error .readOutsideArray ∧
      table_fragment_memory sqrt T R se i j st ≠ .error .fmTableIrOutOfRange ∧
      table_fragment_memory sqrt T R se i j st ≠ .error .readOutsideArray) := by
  constructor
  · intro r hr
    have hb := fm_bin_bounds T.tb_rmin T.tb_rmax T.tb_dr r hdr hr
    rw [← hsize] at hb
    exact hb
  · intro sqrt R se i j k st
    exact ⟨(tfm_kind_ir_ok sqrt T R se i j k st hdr hsize).1,
      (tfm_kind_ir_ok sqrt T R se i j k st hdr hsize).2,
      (table_fragment_memory_ir_ok sqrt T R se i j st hdr hsize).1,
      (table_fragment_memory_ir_ok sqrt T R se i j st hdr hsize).2⟩

theorem fm_table_bin_index_in_range_witness :
    exTable.tb_size = 12 ∧
    (toInt (((7 / 2 : ℚ) - exTable.tb_rmin) / exTable.tb_dr) + 1 ≤ exTable.tb_size - 1) ∧
    table_fragment_memory sqrtQ exTable (exResidues ℚ) exSe 0 1 ⟨0, fun _ _ => 0⟩
      ≠ .error .fmTableIrOutOfRange := by
  have hsz : exTable.tb_size = fm_tb_size exTable.tb_rmin exTable.tb_rmax exTable.tb_dr := by
    simp [exTable, fm_tb_size, toInt]
  have h := fm_table_bin_index_in_range exTable (by simp [exTable]) hsz
  refine ⟨rfl, (h.1 (7 / 2) (by constructor <;> norm_num [exTable])).2.2.1,
    (h.2 sqrtQ (exResidues ℚ) exSe 0 1 0 ⟨0, fun _ _ => 0⟩).2.2.1⟩

theorem fm_well_hasDerivAt (A s2 rf r : ℝ) (hs : s2 ≠ 0) (hr : r ≠ 0) :
    HasDerivAt (fun ρ : ℝ => fm_well Real.exp A s2 rf ρ)
      (-(r * fm_force_factor Real.exp A s2 rf r)) r := by
  have h1 : HasDerivAt (fun ρ : ℝ => ρ - rf) 1 r := (hasDerivAt_id r).sub_const rf
  have h2 := ((h1.mul h1).neg).div_const (2 * s2)
  have h3 := (h2.exp).const_mul (-A)
  unfold fm_well fm_force_factor fm_well
  dsimp only
  convert h3 using 1
  field_simp
  ring

theorem fm_dist_sq_hasFDerivAt (p q : Fin 3 → ℝ) :
    HasFDerivAt (fun x : Fin 3 → ℝ => (x 0 - q 0) * (x 0 - q 0) + (x 1 - q 1) * (x 1 - q 1)
        + (x 2 - q 2) * (x 2 - q 2))
      ((p 0 - q 0) • (ContinuousLinearMap.proj 0 : (Fin 3 → ℝ) →L[ℝ] ℝ)
          + (p 0 - q 0) • (ContinuousLinearMap.proj 0 : (Fin 3 → ℝ) →L[ℝ] ℝ)
        + ((p 1 - q 1) • (ContinuousLinearMap.proj 1 : (Fin 3 → ℝ) →L[ℝ] ℝ)
          + (p 1 - q 1) • (ContinuousLinearMap.proj 1 : (Fin 3 → ℝ) →L[ℝ] ℝ))
        + ((p 2 - q 2) • (ContinuousLinearMap.proj 2 : (Fin 3 → ℝ) →L[ℝ] ℝ)
          + (p 2 - q 2) • (ContinuousLinearMap.proj 2 : (Fin 3 → ℝ) →L[ℝ] ℝ))) p := by
  have hd : ∀ d : Fin 3, HasFDerivAt (fun x : Fin 3 → ℝ => x d - q d)
      (ContinuousLinearMap.proj d : (Fin 3 → ℝ) →L[ℝ] ℝ) p :=
    fun d => (hasFDerivAt_apply d p).sub_const (q d)
  exact (((hd 0).mul (hd 0)).add ((hd 1).mul (hd 1))).add ((hd 2).mul (hd 2))

theorem fm_well_gradient (A s2 rf : ℝ) (hs : s2 ≠ 0) (p q : Fin 3 → ℝ)
    (hr : 0 < fm_dist Real.sqrt p q) :
    ∃ E : (Fin 3 → ℝ) →L[ℝ] ℝ,
      HasFDerivAt (fun x : Fin 3 → ℝ => fm_well Real.exp A s2 rf (fm_dist Real.sqrt x q)) E p ∧
      ∀ v : Fin 3 → ℝ, E v =
        -((fm_force_factor Real.exp A s2 rf (fm_dist Real.sqrt p q) * (p 0 - q 0)) * v 0
          + (fm_force_factor Real.exp A s2 rf (fm_dist Real.sqrt p q) * (p 1 - q 1)) * v 1
          + (fm_force_factor Real.exp A s2 rf (fm_dist Real.sqrt p q) * (p 2 - q 2)) * v 2) := by
  have hg := fm_dist_sq_hasFDerivAt p q
  have hne : (p 0 - q 0) * (p 0 - q 0) + (p 1 - q 1) * (p 1 - q 1)
      + (p 2 - q 2) * (p 2 - q 2) ≠ 0 := by
    intro h0
    unfold fm_dist at hr
    dsimp only at hr
    rw [h0, Real.sqrt_zero] at hr
    exact lt_irrefl _ hr
  have hsq := (Real.hasDerivAt_sqrt hne).comp_hasFDerivAt p hg
  have hV := fm_well_hasDerivAt A s2 rf (fm_dist Real.sqrt p q) hs hr.ne.symm
  have hE := hV.comp_hasFDerivAt p hsq
  refine ⟨_, hE, ?_⟩
  intro v
  have hr0 : Real.sqrt ((p 0 - q 0) * (p 0 - q 0) + (p 1 - q 1) * (p 1 - q 1)
      + (p 2 - q 2) * (p 2 - q 2)) ≠ 0 := hr.ne.symm
  simp only [ContinuousLinearMap.smul_apply, ContinuousLinearMap.add_apply,
    ContinuousLinearMap.proj_apply, smul_eq_mul]
  unfold fm_dist
  dsimp only
  field_simp
  ring

/-- Claim C21: over the reals, for the well `V(r) = -A*exp(-(r-Rf)^2/(2*s2))`
with `s2 > 0`, the factor `V*(r-Rf)/(s2*r)` equals `-V'(r)/r` for every
`r > 0`; the energy `V(|x - q|)` as a function of the position `x` of atom i
has at `p` (with `|p - q| > 0`) the derivative `v ↦ -(factor*(p - q))·v`, so
`factor*(p - q)` is minus its gradient; this factor is the one
`compute_fragment_memory_potential` applies to `dx = xi - xj` on atom i (and
its negative on atom j) and the one `compute_fragment_memory_table` adds to
the force entry of the bin at `r = tb_rmin + ir*tb_dr` when `r` is not zero
(at a bin with `r = 0` it adds the value of the machine division by zero). -/
theorem fm_force_factor_is_minus_gradient (A s2 rf : ℝ) (hs : 0 < s2) :
    (∀ r : ℝ, 0 < r →
      HasDerivAt (fun ρ : ℝ => fm_well Real.exp A s2 rf ρ)
        (-(r * fm_force_factor Real.exp A s2 rf r)) r ∧
      fm_force_factor Real.exp A s2 rf r
        = -(deriv (fun ρ : ℝ => fm_well Real.exp A s2 rf ρ) r) / r) ∧
    (∀ p q : Fin 3 → ℝ, 0 < fm_dist Real.sqrt p q →
      ∃ E : (Fin 3 → ℝ) →L[ℝ] ℝ,
        HasFDerivAt (fun x : Fin 3 → ℝ => fm_well Real.exp A s2 rf (fm_dist Real.sqrt x q))
          E p ∧
        ∀ v : Fin 3 → ℝ, E v =
          -((fm_force_factor Real.exp A s2 rf (fm_dist Real.sqrt p q) * (p 0 - q 0)) * v 0
            + (fm_force_factor Real.exp A s2 rf (fm_dist Real.sqrt p q) * (p 1 - q 1)) * v 1
            + (fm_force_factor Real.exp A s2 rf (fm_dist Real.sqrt p q) * (p 2 - q 2)) * v 2)) ∧
    (∀ (P : FMParams ℝ) (R : Residues ℝ) (frag : Fragment ℝ) (i j : Int) (st : FMState ℝ)
        (k : Nat),
      fmp_skip P.se frag (R.res_no i - 1) (R.res_no j - 1) k = false →
      frag.Rf (R.res_no i - 1) (iatom_type k) (R.res_no j - 1) (jatom_type k) = some rf →
      fmp_kind Real.sqrt Real.exp P R frag i j s2 A st k = .ok
        { energy := st.energy
            + fm_well Real.exp A s2 rf (fm_dist Real.sqrt (xi_of R i k) (xj_of R j k))
          f := addForce
            (addForce st.f (iatom_of R i k)
              (fm_force_factor Real.exp A s2 rf (fm_dist Real.sqrt (xi_of R i k) (xj_of R j k)))
              (fun d => xi_of R i k d - xj_of R j k d))
            (jatom_of R j k)
            (-(fm_force_factor Real.exp A s2 rf (fm_dist Real.sqrt (xi_of R i k) (xj_of R j k))))
            (fun d => xi_of R i k d - xj_of R j k d) }) ∧
    (∀ (div0 : ℝ → ℝ) (tb_rmin tb_dr : ℝ) (c : Int → TBV ℝ) (ir : Nat),
      (fmt_bin Real.exp div0 tb_rmin tb_dr A s2 rf c ir ir).energy
        = (c ir).energy + fm_well Real.exp A s2 rf (tb_rmin + (ir : ℝ) * tb_dr) ∧
      (fmt_bin Real.exp div0 tb_rmin tb_dr A s2 rf c ir ir).force
        = (c ir).force +
          (if tb_rmin + (ir : ℝ) * tb_dr = 0 then
            div0 (fm_well Real.exp A s2 rf (tb_rmin + (ir : ℝ) * tb_dr) *
              (tb_rmin + (ir : ℝ) * tb_dr - rf))
          else fm_force_factor Real.exp A s2 rf (tb_rmin + (ir : ℝ) * tb_dr))) := by
  refine ⟨?_, ?_, ?_, ?_⟩
  · intro r hr
    have h := fm_well_hasDerivAt A s2 rf r hs.ne.symm hr.ne.symm
    refine ⟨h, ?_⟩
    rw [h.deriv]
    field_simp
  · intro p q hr
    exact fm_well_gradient A s2 rf hs.ne.symm p q hr
  · intro P R frag i j st k hskip hrf
    unfold fmp_kind
    dsimp only
    rw [hskip, hrf]
    rfl
  · intro div0 tb_rmin tb_dr c ir
    rw [fmt_bin_apply, if_pos rfl]
    refine ⟨rfl, ?_⟩
    show (c ir).force + fm_div div0 (fm_well Real.exp A s2 rf (tb_rmin + (ir : ℝ) * tb_dr) *
      (tb_rmin + (ir : ℝ) * tb_dr - rf)) (s2 * (tb_rmin + (ir : ℝ) * tb_dr)) = _
    unfold fm_div
    by_cases hr : tb_rmin + (ir : ℝ) * tb_dr = 0
    · rw [if_pos hr, if_pos (by rw [hr, mul_zero])]
    · rw [if_neg hr, if_neg (mul_ne_zero hs.ne.symm hr)]
      rfl

theorem fm_force_factor_is_minus_gradient_witness :
    HasDerivAt (fun ρ : ℝ => fm_well Real.exp 1 1 1 ρ)
      (-(2 * fm_force_factor Real.exp 1 1 1 2)) 2 ∧
    fm_force_factor Real.exp 1 1 1 2
      = -(deriv (fun ρ : ℝ => fm_well Real.exp 1 1 1 ρ) 2) / 2 :=
  (fm_force_factor_is_minus_gradient 1 1 1 (by norm_num)).1 2 (by norm_num)

/-- Claim C22, evaluated: for the neighbour pair of the beta atoms 1 and 7
(residues 0 and 3, inside the window of well 0) the two gammas differ by
1/200000, less than `delta`, so the main loop takes the direct-contact value
`0.5*(gamma_0 + gamma_1)`; the xi pass nevertheless adds
`(gamma_1 - gamma_0)*theta*water_sigma_h` to `loc_water_xi` of both residues,
and `loc_water_xi[0]` is `(1/200000)*water_sigma_h[3]*water_sigma_h_prd[0]`
when the reduction is reached. -/
theorem pair_xi_counts_pair_below_delta :
    |get_water_gamma exPairParamsNear.gammas 0 3 0 0 0 0
      - get_water_gamma exPairParamsNear.gammas 0 3 0 0 0 1| < delta ℚ ∧
    (∀ s_i s_j : ℚ, water_sigma_gamma (get_water_gamma exPairParamsNear.gammas 0 3 0 0 0 0)
      (get_water_gamma exPairParamsNear.gammas 0 3 0 0 0 1) s_i s_j
      = (1 / 2) * (1 + (1 + 1 / 200000))) ∧
    (∀ sg : SigmaSt ℚ,
      pair_xi_well sqrtQ exPairParamsNear (exPairViewGap ℚ) sg 1 7 (fun _ => 0) 0 0
        = 1 / 200000 * sg.water_sigma_h 3 ∧
      pair_xi_well sqrtQ exPairParamsNear (exPairViewGap ℚ) sg 1 7 (fun _ => 0) 0 3
        = 1 / 200000 * sg.water_sigma_h 0 ∧
      pair_xi sqrtQ exPairParamsNear (exPairViewGap ℚ) sg 0
        = 1 / 200000 * sg.water_sigma_h 3 * sg.water_sigma_h_prd 0) := by
  refine ⟨?_, ?_, ?_⟩
  · norm_num [get_water_gamma, exPairParamsNear, delta, abs_lt]
  · intro s_i s_j
    norm_num [water_sigma_gamma, get_water_gamma, exPairParamsNear, delta, abs_lt]
  · intro sg
    refine ⟨?_, ?_, ?_⟩
    · simp [pair_xi_well, get_water_gamma, exPairParamsNear, exPairParams, exPairViewGap,
        exAtomsGap, delta, pair_rsq, addAt, se_map, se_map_table]
      unfold addAt
      norm_num
    · simp [pair_xi_well, get_water_gamma, exPairParamsNear, exPairParams, exPairViewGap,
        exAtomsGap, delta, pair_rsq, addAt, se_map, se_map_table]
      unfold addAt
      norm_num
    · simp [pair_xi, pair_xi_accum, pair_xi_nb, pair_xi_scale_step, is_rep, pair_xi_well,
        get_water_gamma, exPairParamsNear, exPairParams, exPairViewGap,
        exAtomsGap, delta, pair_rsq, addAt, setAt, se_map, se_map_table,
        List.range_succ]
      unfold addAt
      norm_num

theorem exTableCoarse_reloaded :
    ∃ tbl s, read_fragment_memory_table (⟨0, 0⟩ : TBV ℚ) 2 (unallocated exTableCoarse)
        (output_fragment_memory_table (fun _ => false) 2 exTableCoarse).1
        (output_fragment_memory_table (fun _ => false) 2 exTableCoarse).2 = .ok tbl ∧
      table_fragment_memory sqrtQ { exTableCoarse with fm_table := tbl } (exResidues ℚ) exSe 0 1
        ⟨0, fun _ _ => 0⟩ = .ok s ∧ s.energy = -2 := by
  have f1 : ⌊(3 / 10 : ℚ)⌋ = 0 := by
    rw [Int.floor_eq_iff]
    norm_num
  have f2 : ⌊(2 / 5 : ℚ)⌋ = 0 := by
    rw [Int.floor_eq_iff]
    norm_num
  have f3 : ⌊(1 / 5 : ℚ)⌋ = 0 := by
    rw [Int.floor_eq_iff]
    norm_num
  simp [read_fragment_memory_table, read_values, read_energy_step, read_force_step,
    output_fragment_memory_table, out_energy, out_force, unallocated, Int.tmod,
    List.range_succ, List.flatMap,
    table_fragment_memory, tfm_iter, tfm_kind, tfm_skip, tfm_r, tfm_interp, exTable,
    exTableCoarse, exResidues, exSe, xi_of, xj_of, iatom_of, jatom_of, iatom_type, jatom_type,
    toInt, sqrtQ_mul_self]
  norm_num [f1, f2, f3]

theorem exTableUncovered_reload :
    ∃ tbl c, read_fragment_memory_table (⟨0, 0⟩ : TBV ℚ) 2
      (unallocated exTableUncovered)
      (output_fragment_memory_table (fun _ => false) 2 exTableUncovered).1
      (output_fragment_memory_table (fun _ => false) 2 exTableUncovered).2 = .ok tbl ∧
      tbl 0 = some c := by
  simp [read_fragment_memory_table, read_values, read_energy_step, read_force_step,
    output_fragment_memory_table, out_energy, out_force, unallocated, Int.tmod,
    List.range_succ, List.flatMap, exTable, exTableUncovered]

theorem exTableUncovered_reloaded :
    ∃ tbl, read_fragment_memory_table (⟨0, 0⟩ : TBV ℚ) 2 (unallocated exTableUncovered)
        (output_fragment_memory_table (fun _ => false) 2 exTableUncovered).1
        (output_fragment_memory_table (fun _ => false) 2 exTableUncovered).2 = .ok tbl ∧
      table_fragment_memory sqrtQ { exTableUncovered with fm_table := tbl } (exResidues ℚ) exSe
        0 1 ⟨0, fun _ _ => 0⟩ = .error .fmTableROutOfRange := by
  obtain ⟨tbl, c, h1, h2⟩ := exTableUncovered_reload
  refine ⟨tbl, h1, ?_⟩
  simp [table_fragment_memory, tfm_iter, tfm_kind, tfm_skip, tfm_r, exTable,
    exTableUncovered, exResidues, exSe, xi_of, xj_of, iatom_type,
    jatom_type, sqrtQ_mul_self, h2]
  norm_num

/-- Claim C23, evaluated: on the table `exTableCoarse` (cells 1 and 3 never
allocated) `table_fragment_memory(0, 1)` adds the energy -1 of kind 0 and
returns at kind 1; on the table read back from the files written for it,
where every cell is allocated and the unallocated ones hold zeros, the same
call adds -2 (kinds 0 and 2).  On the table `exTableUncovered` (every cell
NULL) the call returns at once, while on the table read back from its files
it raises the error "r is out of range" for the CA-CA distance 3. -/
theorem reloaded_table_differs_from_built :
    (∃ s, table_fragment_memory sqrtQ exTableCoarse (exResidues ℚ) exSe 0 1
        ⟨0, fun _ _ => 0⟩ = .ok s ∧ s.energy = -1) ∧
    (∃ tbl s, read_fragment_memory_table (⟨0, 0⟩ : TBV ℚ) 2 (unallocated exTableCoarse)
        (output_fragment_memory_table (fun _ => false) 2 exTableCoarse).1
        (output_fragment_memory_table (fun _ => false) 2 exTableCoarse).2 = .ok tbl ∧
      table_fragment_memory sqrtQ { exTableCoarse with fm_table := tbl } (exResidues ℚ) exSe 0 1
        ⟨0, fun _ _ => 0⟩ = .ok s ∧ s.energy = -2) ∧
    (∃ s, table_fragment_memory sqrtQ exTableUncovered (exResidues ℚ) exSe 0 1
        ⟨0, fun _ _ => 0⟩ = .ok s ∧ s.energy = 0) ∧
    (∃ tbl, read_fragment_memory_table (⟨0, 0⟩ : TBV ℚ) 2 (unallocated exTableUncovered)
        (output_fragment_memory_table (fun _ => false) 2 exTableUncovered).1
        (output_fragment_memory_table (fun _ => false) 2 exTableUncovered).2 = .ok tbl ∧
      table_fragment_memory sqrtQ { exTableUncovered with fm_table := tbl } (exResidues ℚ) exSe
        0 1 ⟨0, fun _ _ => 0⟩ = .error .fmTableROutOfRange) := by
  refine ⟨?_, exTableCoarse_reloaded, ?_, exTableUncovered_reloaded⟩
  · simp [table_fragment_memory, tfm_iter, tfm_kind, tfm_skip, tfm_r, tfm_interp, exTable,
      exTableCoarse, exResidues, exSe, xi_of, xj_of, iatom_of, jatom_of, iatom_type, jatom_type,
      toInt, sqrtQ_mul_self]
    norm_num
  · simp [table_fragment_memory, exTableUncovered, exTable, exResidues]

theorem set4_apply {K : Type} (g : Int → Int → Int → Int → K) (w i j f : Int) (v : K)
    (w1 i1 j1 f1 : Int) :
    set4 g w i j f v w1 i1 j1 f1 = if w1 = w ∧ i1 = i ∧ j1 = j ∧ f1 = f then v
      else g w1 i1 j1 f1 := rfl

theorem mem_gamma_index (n_wells : Nat) (w i j : Int) :
    (w, i, j) ∈ gamma_index n_wells ↔
      (0 ≤ w ∧ w < (n_wells : Int)) ∧ (0 ≤ i ∧ i ≤ j ∧ j < 20) := by
  unfold gamma_index
  simp only [List.mem_flatMap, List.mem_map, mem_intRange, Prod.mk.injEq]
  constructor
  · rintro ⟨w1, hw, i1, hi, j1, hj, rfl, rfl, rfl⟩
    omega
  · intro h
    exact ⟨w, by omega, i, by omega, j, by omega, rfl, rfl, rfl⟩

theorem foldl_establish {σ α : Type} (f : σ → α → σ) (Q : α → σ → Prop) :
    ∀ (l : List α) (s : σ),
      (∀ (t : σ) (y : α), y ∈ l → Q y (f t y) ∧ ∀ x, Q x t → Q x (f t y)) →
      (∀ x ∈ l, Q x (l.foldl f s)) ∧ (∀ x, Q x s → Q x (l.foldl f s)) := by
  intro l
  induction l with
  | nil =>
    intro s _
    exact ⟨fun x hx => (by cases hx), fun x hx => hx⟩
  | cons a l ih =>
    intro s hstep
    have h := ih (f s a) (fun t y hy => hstep t y (List.mem_cons_of_mem a hy))
    have ha := hstep s a (List.mem_cons_self a l)
    rw [List.foldl_cons]
    constructor
    · intro x hx
      rcases List.mem_cons.mp hx with hxa | hxl
      · subst hxa
        exact h.2 x ha.1
      · exact h.1 x hxl
    · intro x hx
      exact h.2 x (ha.2 x hx)

theorem foldlM_establish {σ α : Type} (f : σ → α → Except Err σ) (I : σ → Prop)
    (Q : α → σ → Prop) :
    ∀ (l : List α) (s s1 : σ),
      (∀ (t t1 : σ) (y : α), y ∈ l → I t → f t y = .ok t1 →
        I t1 ∧ Q y t1 ∧ ∀ x, Q x t → Q x t1) →
      I s → l.foldlM f s = .ok s1 →
      I s1 ∧ (∀ x ∈ l, Q x s1) ∧ (∀ x, Q x s → Q x s1) := by
  intro l
  induction l with
  | nil =>
    intro s s1 _ hI h
    have e : s1 = s := (Except.ok.inj h).symm
    subst e
    exact ⟨hI, fun x hx => (by cases hx), fun x hx => hx⟩
  | cons a l ih =>
    intro s s1 hstep hI h
    rw [List.foldlM_cons] at h
    cases hfa : f s a with
    | error e =>
      rw [hfa] at h
      cases h
    | ok t =>
      rw [hfa] at h
      have ha := hstep s t a (List.mem_cons_self a l) hI hfa
      have h2 := ih t s1 (fun u u1 y hy => hstep u u1 y (List.mem_cons_of_mem a hy)) ha.1 h
      refine ⟨h2.1, ?_, ?_⟩
      · intro x hx
        rcases List.mem_cons.mp hx with hxa | hxl
        · subst hxa
          exact h2.2.2 x ha.2.1
        · exact h2.2.1 x hxl
      · intro x hx
        exact h2.2.2 x (ha.2.2 x hx)

theorem load_water_step_apply {K : Type} [LinearOrderedField K] (k_water : K)
    (g : Int → Int → Int → Int → K) (a b : K) (rest : List K) (w i j : Int) :
    load_water_step k_water (g, a :: b :: rest) (w, i, j) = .ok
      (fun w1 i1 j1 f1 =>
        if w1 = w ∧ ((i1 = i ∧ j1 = j) ∨ (i1 = j ∧ j1 = i)) ∧ (f1 = 0 ∨ f1 = 1) then
          (if f1 = 0 then a * k_water else b * k_water)
        else g w1 i1 j1 f1, rest) := by
  unfold load_water_step
  dsimp only
  congr 2
  funext w1 i1 j1 f1
  simp only [set4_apply]
  split_ifs <;> first | rfl | (exfalso; omega) | (exfalso; simp_all)

theorem load_water_step_symmetric {K : Type} [LinearOrderedField K] (k_water : K)
    (t t1 : (Int → Int → Int → Int → K) × List K) (y : Int × Int × Int)
    (hstep : load_water_step k_water t y = .ok t1) :
    (∀ f1 : Int, f1 = 0 ∨ f1 = 1 → t1.1 y.1 y.2.1 y.2.2 f1 = t1.1 y.1 y.2.2 y.2.1 f1) ∧
    ∀ x : Int × Int × Int,
      (∀ f1 : Int, f1 = 0 ∨ f1 = 1 → t.1 x.1 x.2.1 x.2.2 f1 = t.1 x.1 x.2.2 x.2.1 f1) →
      (∀ f1 : Int, f1 = 0 ∨ f1 = 1 → t1.1 x.1 x.2.1 x.2.2 f1 = t1.1 x.1 x.2.2 x.2.1 f1) := by
  obtain ⟨tg, tl⟩ := t
  obtain ⟨yw, yi, yj⟩ := y
  cases tl with
  | nil => simp [load_water_step] at hstep
  | cons a tl2 =>
    cases tl2 with
    | nil => simp [load_water_step] at hstep
    | cons b rest =>
      rw [load_water_step_apply] at hstep
      have e := (Except.ok.inj hstep).symm
      subst e
      constructor
      · intro f1 hf1
        have c1 : yw = yw ∧ ((yi = yi ∧ yj = yj) ∨ (yi = yj ∧ yj = yi)) ∧ (f1 = 0 ∨ f1 = 1) :=
          ⟨rfl, Or.inl ⟨rfl, rfl⟩, hf1⟩
        have c2 : yw = yw ∧ ((yj = yi ∧ yi = yj) ∨ (yj = yj ∧ yi = yi)) ∧ (f1 = 0 ∨ f1 = 1) :=
          ⟨rfl, Or.inr ⟨rfl, rfl⟩, hf1⟩
        show (if yw = yw ∧ ((yi = yi ∧ yj = yj) ∨ (yi = yj ∧ yj = yi)) ∧ (f1 = 0 ∨ f1 = 1) then
            (if f1 = 0 then a * k_water else b * k_water) else tg yw yi yj f1) =
          (if yw = yw ∧ ((yj = yi ∧ yi = yj) ∨ (yj = yj ∧ yi = yi)) ∧ (f1 = 0 ∨ f1 = 1) then
            (if f1 = 0 then a * k_water else b * k_water) else tg yw yj yi f1)
        rw [if_pos c1, if_pos c2]
      · intro x hx f1 hf1
        have hx1 := hx f1 hf1
        show (if x.1 = yw ∧ ((x.2.1 = yi ∧ x.2.2 = yj) ∨ (x.2.1 = yj ∧ x.2.2 = yi)) ∧
              (f1 = 0 ∨ f1 = 1) then
            (if f1 = 0 then a * k_water else b * k_water) else tg x.1 x.2.1 x.2.2 f1) =
          (if x.1 = yw ∧ ((x.2.2 = yi ∧ x.2.1 = yj) ∨ (x.2.2 = yj ∧ x.2.1 = yi)) ∧
              (f1 = 0 ∨ f1 = 1) then
            (if f1 = 0 then a * k_water else b * k_water) else tg x.1 x.2.2 x.2.1 f1)
        by_cases hc : x.1 = yw ∧ ((x.2.1 = yi ∧ x.2.2 = yj) ∨ (x.2.1 = yj ∧ x.2.2 = yi)) ∧
            (f1 = 0 ∨ f1 = 1)
        · have hc2 : x.1 = yw ∧ ((x.2.2 = yi ∧ x.2.1 = yj) ∨ (x.2.2 = yj ∧ x.2.1 = yi)) ∧
              (f1 = 0 ∨ f1 = 1) :=
            ⟨hc.1, hc.2.1.elim (fun h => Or.inr ⟨h.2, h.1⟩) (fun h => Or.inl ⟨h.2, h.1⟩),
              hc.2.2⟩
          rw [if_pos hc, if_pos hc2]
        · have hc2 : ¬ (x.1 = yw ∧ ((x.2.2 = yi ∧ x.2.1 = yj) ∨ (x.2.2 = yj ∧ x.2.1 = yi)) ∧
              (f1 = 0 ∨ f1 = 1)) :=
            fun h => hc ⟨h.1, h.2.1.elim (fun h => Or.inr ⟨h.2, h.1⟩)
              (fun h => Or.inl ⟨h.2, h.1⟩), h.2.2⟩
          rw [if_neg hc, if_neg hc2]
          exact hx1

theorem load_water_gamma_symmetric {K : Type} [LinearOrderedField K] (k_water : K)
    (n_wells : Nat) (file : List K) (g0 g : Int → Int → Int → Int → K)
    (h : load_water_gamma k_water n_wells file g0 = .ok g) (w i j f : Int)
    (hw : 0 ≤ w ∧ w < (n_wells : Int)) (hi : 0 ≤ i ∧ i < 20) (hj : 0 ≤ j ∧ j < 20)
    (hf : f = 0 ∨ f = 1) : g w i j f = g w j i f := by
  unfold load_water_gamma at h
  cases hfold : (gamma_index n_wells).foldlM (load_water_step k_water) (g0, file) with
  | error e =>
    rw [hfold] at h
    cases h
  | ok s =>
    rw [hfold] at h
    have hg : s.1 = g := Except.ok.inj h
    have hQ := (foldlM_establish (load_water_step k_water) (fun _ => True)
      (fun (x : Int × Int × Int) (t : (Int → Int → Int → Int → K) × List K) =>
        ∀ f1 : Int, f1 = 0 ∨ f1 = 1 → t.1 x.1 x.2.1 x.2.2 f1 = t.1 x.1 x.2.2 x.2.1 f1)
      (gamma_index n_wells) (g0, file) s
      (fun t t1 y _ _ hstep => ⟨trivial, load_water_step_symmetric k_water t t1 y hstep⟩)
      trivial hfold).2.1
    rw [← hg]
    by_cases hij : i ≤ j
    · exact hQ (w, i, j) ((mem_gamma_index n_wells w i j).mpr ⟨hw, hi.1, hij, hj.2⟩) f hf
    · exact (hQ (w, j, i) ((mem_gamma_index n_wells w j i).mpr
        ⟨hw, hj.1, by omega, hi.2⟩) f hf).symm

theorem load_water_step_constant {K : Type} [LinearOrderedField K] (k_water c : K)
    (t t1 : (Int → Int → Int → Int → K) × List K) (y : Int × Int × Int)
    (hI : ∀ v ∈ t.2, v = c) (hstep : load_water_step k_water t y = .ok t1) :
    (∀ v ∈ t1.2, v = c) ∧
    (∀ f1 : Int, f1 = 0 ∨ f1 = 1 →
      t1.1 y.1 y.2.1 y.2.2 f1 = c * k_water ∧ t1.1 y.1 y.2.2 y.2.1 f1 = c * k_water) ∧
    ∀ x : Int × Int × Int,
      (∀ f1 : Int, f1 = 0 ∨ f1 = 1 →
        t.1 x.1 x.2.1 x.2.2 f1 = c * k_water ∧ t.1 x.1 x.2.2 x.2.1 f1 = c * k_water) →
      (∀ f1 : Int, f1 = 0 ∨ f1 = 1 →
        t1.1 x.1 x.2.1 x.2.2 f1 = c * k_water ∧ t1.1 x.1 x.2.2 x.2.1 f1 = c * k_water) := by
  obtain ⟨tg, tl⟩ := t
  obtain ⟨yw, yi, yj⟩ := y
  cases tl with
  | nil => simp [load_water_step] at hstep
  | cons a tl2 =>
    cases tl2 with
    | nil => simp [load_water_step] at hstep
    | cons b rest =>
      rw [load_water_step_apply] at hstep
      have e := (Except.ok.inj hstep).symm
      subst e
      have ha : a = c := hI a (List.mem_cons_self _ _)
      have hb : b = c := hI b (List.mem_cons_of_mem _ (List.mem_cons_self _ _))
      have hcell : ∀ w1 i1 j1 f1 : Int, tg w1 i1 j1 f1 = c * k_water →
          (if w1 = yw ∧ ((i1 = yi ∧ j1 = yj) ∨ (i1 = yj ∧ j1 = yi)) ∧ (f1 = 0 ∨ f1 = 1) then
            (if f1 = 0 then a * k_water else b * k_water) else tg w1 i1 j1 f1) = c * k_water := by
        intro w1 i1 j1 f1 h
        rw [ha, hb]
        split_ifs <;> first | rfl | exact h
      refine ⟨?_, ?_, ?_⟩
      · intro v hv
        exact hI v (List.mem_cons_of_mem _ (List.mem_cons_of_mem _ hv))
      · intro f1 hf1
        have c1 : yw = yw ∧ ((yi = yi ∧ yj = yj) ∨ (yi = yj ∧ yj = yi)) ∧ (f1 = 0 ∨ f1 = 1) :=
          ⟨rfl, Or.inl ⟨rfl, rfl⟩, hf1⟩
        have c2 : yw = yw ∧ ((yj = yi ∧ yi = yj) ∨ (yj = yj ∧ yi = yi)) ∧ (f1 = 0 ∨ f1 = 1) :=
          ⟨rfl, Or.inr ⟨rfl, rfl⟩, hf1⟩
        show (if yw = yw ∧ ((yi = yi ∧ yj = yj) ∨ (yi = yj ∧ yj = yi)) ∧ (f1 = 0 ∨ f1 = 1) then
            (if f1 = 0 then a * k_water else b * k_water) else tg yw yi yj f1) = c * k_water ∧
          (if yw = yw ∧ ((yj = yi ∧ yi = yj) ∨ (yj = yj ∧ yi = yi)) ∧ (f1 = 0 ∨ f1 = 1) then
            (if f1 = 0 then a * k_water else b * k_water) else tg yw yj yi f1) = c * k_water
        rw [if_pos c1, if_pos c2, ha, hb]
        constructor <;> split_ifs <;> rfl
      · intro x hx f1 hf1
        exact ⟨hcell _ _ _ _ (hx f1 hf1).1, hcell _ _ _ _ (hx f1 hf1).2⟩

theorem load_water_gamma_constant {K : Type} [LinearOrderedField K] (k_water c : K)
    (n_wells : Nat) (file : List K) (g0 g : Int → Int → Int → Int → K)
    (hfile : ∀ v ∈ file, v = c)
    (h : load_water_gamma k_water n_wells file g0 = .ok g) (w i j f : Int)
    (hw : 0 ≤ w ∧ w < (n_wells : Int)) (hi : 0 ≤ i ∧ i < 20) (hj : 0 ≤ j ∧ j < 20)
    (hf : f = 0 ∨ f = 1) : g w i j f = c * k_water := by
  unfold load_water_gamma at h
  cases hfold : (gamma_index n_wells).foldlM (load_water_step k_water) (g0, file) with
  | error e =>
    rw [hfold] at h
    cases h
  | ok s =>
    rw [hfold] at h
    have hg : s.1 = g := Except.ok.inj h
    have hQ := (foldlM_establish (load_water_step k_water)
      (fun (t : (Int → Int → Int → Int → K) × List K) => ∀ v ∈ t.2, v = c)
      (fun (x : Int × Int × Int) (t : (Int → Int → Int → Int → K) × List K) =>
        ∀ f1 : Int, f1 = 0 ∨ f1 = 1 →
          t.1 x.1 x.2.1 x.2.2 f1 = c * k_water ∧ t.1 x.1 x.2.2 x.2.1 f1 = c * k_water)
      (gamma_index n_wells) (g0, file) s
      (fun t t1 y _ hI hstep => load_water_step_constant k_water c t t1 y hI hstep)
      hfile hfold).2.1
    rw [← hg]
    by_cases hij : i ≤ j
    · exact (hQ (w, i, j) ((mem_gamma_index n_wells w i j).mpr ⟨hw, hi.1, hij, hj.2⟩) f hf).1
    · exact (hQ (w, j, i) ((mem_gamma_index n_wells w j i).mpr
        ⟨hw, hj.1, by omega, hi.2⟩) f hf).2

theorem load_water_fold_ok {K : Type} [LinearOrderedField K] (k_water : K) :
    ∀ (l : List (Int × Int × Int)) (s : (Int → Int → Int → Int → K) × List K),
      2 * l.length ≤ s.2.length → ∃ s1, l.foldlM (load_water_step k_water) s = .ok s1 := by
  intro l
  induction l with
  | nil =>
    intro s _
    exact ⟨s, rfl⟩
  | cons y l ih =>
    intro s hlen
    obtain ⟨tg, tl⟩ := s
    obtain ⟨yw, yi, yj⟩ := y
    cases tl with
    | nil => simp at hlen
    | cons a tl2 =>
      cases tl2 with
      | nil =>
        simp at hlen
        omega
      | cons b rest =>
        rw [List.foldlM_cons, load_water_step_apply]
        apply ih
        simp only [List.length_cons] at hlen ⊢
        omega

theorem load_water_gamma_ok {K : Type} [LinearOrderedField K] (k_water : K) (n_wells : Nat)
    (file : List K) (g0 : Int → Int → Int → Int → K)
    (hlen : 2 * (gamma_index n_wells).length ≤ file.length) :
    ∃ g, load_water_gamma k_water n_wells file g0 = .ok g := by
  obtain ⟨s1, h1⟩ := load_water_fold_ok k_water (gamma_index n_wells) (g0, file) hlen
  unfold load_water_gamma
  rw [h1]
  exact ⟨s1.1, rfl⟩

theorem gamma_index_one_length : (gamma_index 1).length = 210 := by
  rfl

theorem phosph_copy_step_apply {K : Type} (wg p : Int → Int → Int → Int → K) (w i j : Int)
    (w1 i1 j1 f1 : Int) :
    phosph_copy_step wg p (w, i, j) w1 i1 j1 f1 =
      if w1 = w ∧ ((i1 = i ∧ j1 = j) ∨ (i1 = j ∧ j1 = i)) ∧ (f1 = 0 ∨ f1 = 1) then
        (if f1 = 0 then wg w i j 0 else wg w i j 1)
      else p w1 i1 j1 f1 := by
  unfold phosph_copy_step
  simp only [set4_apply]
  split_ifs <;> first | rfl | (exfalso; omega) | (exfalso; simp_all)

theorem phosph_replace_step_cases {K : Type} [LinearOrderedField K] (pow : K → K → K) (k : K)
    (w : Int) (p : Int → Int → Int → Int → K) (i : Nat) (w1 i1 j1 f1 : Int) :
    phosph_replace_step pow k w p i w1 i1 j1 f1 =
      if w1 = w ∧ ((i1 = (i : Int) ∧ j1 = 15) ∨ (i1 = 15 ∧ j1 = (i : Int))) ∧
          (f1 = 0 ∨ f1 = 1) then
        (if f1 = 0 then hypercharge pow k i (p w i 6 0) else hypercharge pow k i (p w i 6 1))
      else p w1 i1 j1 f1 := by
  unfold phosph_replace_step
  simp only [set4_apply]
  split_ifs <;> first | rfl | (exfalso; omega) | (exfalso; simp_all)

theorem phosph_replace_step_apply {K : Type} [LinearOrderedField K] (pow : K → K → K) (k : K)
    (w : Int) (p : Int → Int → Int → Int → K) (i : Nat) (w1 i1 j1 f1 : Int) :
    phosph_replace_step pow k w p i w1 i1 j1 f1 =
      if w1 = w ∧ ((i1 = (i : Int) ∧ j1 = 15) ∨ (i1 = 15 ∧ j1 = (i : Int))) ∧
          (f1 = 0 ∨ f1 = 1) then
        hypercharge pow k i (p w i 6 f1)
      else p w1 i1 j1 f1 := by
  rw [phosph_replace_step_cases]
  by_cases hc : w1 = w ∧ ((i1 = (i : Int) ∧ j1 = 15) ∨ (i1 = 15 ∧ j1 = (i : Int))) ∧
      (f1 = 0 ∨ f1 = 1)
  · rw [if_pos hc, if_pos hc]
    rcases hc.2.2 with h | h
    · rw [if_pos h, h]
    · rw [if_neg (by omega), h]
  · rw [if_neg hc, if_neg hc]

theorem phosph_replace_step_hit {K : Type} [LinearOrderedField K] (pow : K → K → K) (k : K)
    (w : Int) (p : Int → Int → Int → Int → K) (i : Nat) (f : Int) (hf : f = 0 ∨ f = 1) :
    phosph_replace_step pow k w p i w i 15 f = hypercharge pow k i (p w i 6 f) ∧
    phosph_replace_step pow k w p i w 15 i f = hypercharge pow k i (p w i 6 f) := by
  have c1 : w = w ∧ (((i : Int) = (i : Int) ∧ (15 : Int) = 15) ∨
      ((i : Int) = 15 ∧ (15 : Int) = (i : Int))) ∧ (f = 0 ∨ f = 1) :=
    ⟨rfl, Or.inl ⟨rfl, rfl⟩, hf⟩
  have c2 : w = w ∧ (((15 : Int) = (i : Int) ∧ (i : Int) = 15) ∨
      ((15 : Int) = 15 ∧ (i : Int) = (i : Int))) ∧ (f = 0 ∨ f = 1) :=
    ⟨rfl, Or.inr ⟨rfl, rfl⟩, hf⟩
  rw [phosph_replace_step_apply, phosph_replace_step_apply, if_pos c1, if_pos c2]
  exact ⟨rfl, rfl⟩

theorem phosph_replace_step_miss {K : Type} [LinearOrderedField K] (pow : K → K → K) (k : K)
    (w : Int) (p : Int → Int → Int → Int → K) (i : Nat) (w1 i1 j1 f1 : Int)
    (h : ¬ (w1 = w ∧ ((i1 = (i : Int) ∧ j1 = 15) ∨ (i1 = 15 ∧ j1 = (i : Int))) ∧
      (f1 = 0 ∨ f1 = 1))) :
    phosph_replace_step pow k w p i w1 i1 j1 f1 = p w1 i1 j1 f1 := by
  rw [phosph_replace_step_apply, if_neg h]

theorem phosph_replace_prefix {K : Type} [LinearOrderedField K] (pow : K → K → K) (k : K)
    (w : Int) (p : Int → Int → Int → Int → K) :
    ∀ m : Nat,
      (∀ w1 i1 j1 f1 : Int, (w1 ≠ w ∨ (i1 ≠ 15 ∧ j1 ≠ 15) ∨ (f1 ≠ 0 ∧ f1 ≠ 1)) →
        (List.range m).foldl (phosph_replace_step pow k w) p w1 i1 j1 f1 = p w1 i1 j1 f1) ∧
      (∀ i f : Int, 0 ≤ i → i < (m : Int) → i ≠ 15 → (f = 0 ∨ f = 1) →
        (List.range m).foldl (phosph_replace_step pow k w) p w i 15 f
            = hypercharge pow k i (p w i 6 f) ∧
        (List.range m).foldl (phosph_replace_step pow k w) p w 15 i f
            = hypercharge pow k i (p w i 6 f)) ∧
      (15 < m → ∀ f : Int, (f = 0 ∨ f = 1) →
        (List.range m).foldl (phosph_replace_step pow k w) p w 15 15 f
            = hypercharge pow k 15 (hypercharge pow k 6 (p w 6 6 f))) := by
  intro m
  induction m with
  | zero =>
    refine ⟨fun _ _ _ _ _ => rfl, ?_, ?_⟩
    · intro i f h0 hm
      exfalso
      simp at hm
      omega
    · intro h
      exfalso
      omega
  | succ m ih =>
    obtain ⟨ih1, ih2, ih3⟩ := ih
    rw [List.range_succ, List.foldl_append, List.foldl_cons, List.foldl_nil]
    refine ⟨?_, ?_, ?_⟩
    · intro w1 i1 j1 f1 hc
      rw [phosph_replace_step_miss _ _ _ _ _ _ _ _ _ (by omega)]
      exact ih1 w1 i1 j1 f1 hc
    · intro i f h0 hm h15 hf
      by_cases him : i = (m : Int)
      · subst him
        have hh := phosph_replace_step_hit pow k w
          ((List.range m).foldl (phosph_replace_step pow k w) p) m f hf
        rw [ih1 w (m : Int) 6 f (Or.inr (Or.inl ⟨h15, by omega⟩))] at hh
        exact hh
      · have hlt : i < (m : Int) := by
          push_cast at hm
          omega
        rw [phosph_replace_step_miss _ _ _ _ _ _ _ _ _ (by omega),
          phosph_replace_step_miss _ _ _ _ _ _ _ _ _ (by omega)]
        exact ih2 i f h0 hlt h15 hf
    · intro hm f hf
      by_cases h15 : m = 15
      · subst h15
        have hh := (phosph_replace_step_hit pow k w
          ((List.range 15).foldl (phosph_replace_step pow k w) p) 15 f hf).1
        have e6 := (ih2 6 f (by omega) (by norm_num) (by omega) hf).2
        simp only [Nat.cast_ofNat] at hh
        rw [e6] at hh
        exact hh
      · rw [phosph_replace_step_miss _ _ _ _ _ _ _ _ _ (by omega)]
        exact ih3 (by omega) f hf

theorem phosph_replace_well_eq {K : Type} [LinearOrderedField K] (pow : K → K → K) (k : K)
    (p : Int → Int → Int → Int → K) (w : Nat) :
    phosph_replace_well pow k p w = (List.range 20).foldl (phosph_replace_step pow k w) p :=
  rfl

theorem phosph_replace_wells {K : Type} [LinearOrderedField K] (pow : K → K → K) (k : K)
    (p : Int → Int → Int → Int → K) :
    ∀ n : Nat,
      (∀ w1 i1 j1 f1 : Int,
        (w1 < 0 ∨ (n : Int) ≤ w1 ∨ (i1 ≠ 15 ∧ j1 ≠ 15) ∨ (f1 ≠ 0 ∧ f1 ≠ 1)) →
        (List.range n).foldl (phosph_replace_well pow k) p w1 i1 j1 f1 = p w1 i1 j1 f1) ∧
      (∀ w i f : Int, 0 ≤ w → w < (n : Int) → 0 ≤ i → i < 20 → i ≠ 15 → (f = 0 ∨ f = 1) →
        (List.range n).foldl (phosph_replace_well pow k) p w i 15 f
            = hypercharge pow k i (p w i 6 f) ∧
        (List.range n).foldl (phosph_replace_well pow k) p w 15 i f
            = hypercharge pow k i (p w i 6 f)) ∧
      (∀ w f : Int, 0 ≤ w → w < (n : Int) → (f = 0 ∨ f = 1) →
        (List.range n).foldl (phosph_replace_well pow k) p w 15 15 f
            = hypercharge pow k 15 (hypercharge pow k 6 (p w 6 6 f))) := by
  intro n
  induction n with
  | zero =>
    refine ⟨fun _ _ _ _ _ => rfl, ?_, ?_⟩
    · intro w i f h0 hn
      exfalso
      simp at hn
      omega
    · intro w f h0 hn
      exfalso
      simp at hn
      omega
  | succ n ih =>
    obtain ⟨ih1, ih2, ih3⟩ := ih
    rw [List.range_succ, List.foldl_append, List.foldl_cons, List.foldl_nil]
    obtain ⟨q1, q2, q3⟩ := phosph_replace_prefix pow k (n : Int)
      ((List.range n).foldl (phosph_replace_well pow k) p) 20
    refine ⟨?_, ?_, ?_⟩
    · intro w1 i1 j1 f1 hc
      rw [phosph_replace_well_eq]
      rw [q1 w1 i1 j1 f1 (by push_cast at hc; omega)]
      exact ih1 w1 i1 j1 f1 (by push_cast at hc; omega)
    · intro w i f h0 hn hi0 hi20 h15 hf
      rw [phosph_replace_well_eq]
      by_cases hwn : w = (n : Int)
      · subst hwn
        have hh := q2 i f hi0 (by norm_num; exact hi20) h15 hf
        rw [ih1 (n : Int) i 6 f (Or.inr (Or.inl (le_refl _)))] at hh
        exact hh
      · rw [q1 w i 15 f (Or.inl hwn), q1 w 15 i f (Or.inl hwn)]
        exact ih2 w i f h0 (by push_cast at hn; omega) hi0 hi20 h15 hf
    · intro w f h0 hn hf
      rw [phosph_replace_well_eq]
      by_cases hwn : w = (n : Int)
      · subst hwn
        have hh := q3 (by norm_num) f hf
        rw [ih1 (n : Int) 6 6 f (Or.inr (Or.inl (le_refl _)))] at hh
        exact hh
      · rw [q1 w 15 15 f (Or.inl hwn)]
        exact ih3 w f h0 (by push_cast at hn; omega) hf

theorem phosph_copy_spec {K : Type} (wg p0 : Int → Int → Int → Int → K) (n_wells : Nat)
    (w i j f : Int) (hw : 0 ≤ w ∧ w < (n_wells : Int)) (hi : 0 ≤ i ∧ i ≤ j ∧ j < 20)
    (hf : f = 0 ∨ f = 1) :
    (gamma_index n_wells).foldl (phosph_copy_step wg) p0 w i j f = wg w i j f ∧
    (gamma_index n_wells).foldl (phosph_copy_step wg) p0 w j i f = wg w i j f := by
  have hQ := (foldl_establish (phosph_copy_step wg)
    (fun (x : Int × Int × Int) (s : Int → Int → Int → Int → K) =>
      x.2.1 ≤ x.2.2 → ∀ f1 : Int, f1 = 0 ∨ f1 = 1 →
        s x.1 x.2.1 x.2.2 f1 = wg x.1 x.2.1 x.2.2 f1 ∧
        s x.1 x.2.2 x.2.1 f1 = wg x.1 x.2.1 x.2.2 f1)
    (gamma_index n_wells) p0 (by
      intro t y hy
      obtain ⟨yw, yi, yj⟩ := y
      have hyij := ((mem_gamma_index n_wells yw yi yj).mp hy).2.2.1
      have hval : ∀ f1 : Int, f1 = 0 ∨ f1 = 1 →
          (if f1 = 0 then wg yw yi yj 0 else wg yw yi yj 1) = wg yw yi yj f1 := by
        intro f1 hf1
        rcases hf1 with h | h
        · rw [if_pos h, h]
        · rw [if_neg (by omega), h]
      constructor
      · intro _ f1 hf1
        have c1 : yw = yw ∧ ((yi = yi ∧ yj = yj) ∨ (yi = yj ∧ yj = yi)) ∧ (f1 = 0 ∨ f1 = 1) :=
          ⟨rfl, Or.inl ⟨rfl, rfl⟩, hf1⟩
        have c2 : yw = yw ∧ ((yj = yi ∧ yi = yj) ∨ (yj = yj ∧ yi = yi)) ∧ (f1 = 0 ∨ f1 = 1) :=
          ⟨rfl, Or.inr ⟨rfl, rfl⟩, hf1⟩
        show phosph_copy_step wg t (yw, yi, yj) yw yi yj f1 = wg yw yi yj f1 ∧
          phosph_copy_step wg t (yw, yi, yj) yw yj yi f1 = wg yw yi yj f1
        rw [phosph_copy_step_apply, phosph_copy_step_apply, if_pos c1, if_pos c2, hval f1 hf1]
        exact ⟨rfl, rfl⟩
      · intro x hx hxij f1 hf1
        obtain ⟨xw, xi, xj⟩ := x
        have hx1 := hx hxij f1 hf1
        show phosph_copy_step wg t (yw, yi, yj) xw xi xj f1 = wg xw xi xj f1 ∧
          phosph_copy_step wg t (yw, yi, yj) xw xj xi f1 = wg xw xi xj f1
        have hxij2 : xi ≤ xj := hxij
        rw [phosph_copy_step_apply, phosph_copy_step_apply]
        by_cases hc : xw = yw ∧ ((xi = yi ∧ xj = yj) ∨ (xi = yj ∧ xj = yi)) ∧
            (f1 = 0 ∨ f1 = 1)
        · have hc2 : xw = yw ∧ ((xj = yi ∧ xi = yj) ∨ (xj = yj ∧ xi = yi)) ∧
              (f1 = 0 ∨ f1 = 1) :=
            ⟨hc.1, hc.2.1.elim (fun h => Or.inr ⟨h.2, h.1⟩) (fun h => Or.inl ⟨h.2, h.1⟩),
              hc.2.2⟩
          have e1 : xw = yw := hc.1
          have e2 : xi = yi := by omega
          have e3 : xj = yj := by omega
          rw [if_pos hc, if_pos hc2, hval f1 hf1, e1, e2, e3]
          exact ⟨rfl, rfl⟩
        · have hc2 : ¬ (xw = yw ∧ ((xj = yi ∧ xi = yj) ∨ (xj = yj ∧ xi = yi)) ∧
              (f1 = 0 ∨ f1 = 1)) :=
            fun h => hc ⟨h.1, h.2.1.elim (fun h => Or.inr ⟨h.2, h.1⟩)
              (fun h => Or.inl ⟨h.2, h.1⟩), h.2.2⟩
          rw [if_neg hc, if_neg hc2]
          exact hx1)).1
  exact hQ (w, i, j) ((mem_gamma_index n_wells w i j).mpr ⟨hw, hi⟩) hi.2.1 f hf

theorem hypercharge_serine {K : Type} [LinearOrderedField K] (pow : K → K → K) (k v : K) :
    hypercharge pow k 15 v = v * k := by
  unfold hypercharge
  rw [if_pos (by decide)]

theorem hypercharge_glutamate {K : Type} [LinearOrderedField K] (pow : K → K → K) (k v : K) :
    hypercharge pow k 6 v = v * pow k 2 := by
  unfold hypercharge
  rw [if_neg (by decide), if_pos (by decide)]

theorem hypercharge_exponent_serine : hypercharge_exponent 15 = 1 := by
  decide

theorem hypercharge_exponent_spec {K : Type} [LinearOrderedField K] (pow : K → K → K) (k : K)
    (hpow : pow k 2 = k ^ 2) (i : Int) (v : K) :
    hypercharge pow k i v = v * k ^ hypercharge_exponent i := by
  unfold hypercharge hypercharge_exponent
  split_ifs
  · rw [pow_one]
  · rw [hpow]
  · rw [pow_zero, mul_one]

theorem build_phosph_water_gamma_spec {K : Type} [LinearOrderedField K] (pow : K → K → K)
    (k : K) (n_wells : Nat) (wg p0 : Int → Int → Int → Int → K)
    (hsym : ∀ w i j f : Int, 0 ≤ w ∧ w < (n_wells : Int) → 0 ≤ i ∧ i < 20 → 0 ≤ j ∧ j < 20 →
      f = 0 ∨ f = 1 → wg w i j f = wg w j i f)
    (w f : Int) (hw : 0 ≤ w ∧ w < (n_wells : Int)) (hf : f = 0 ∨ f = 1) :
    (∀ i j : Int, 0 ≤ i ∧ i < 20 → 0 ≤ j ∧ j < 20 → i ≠ 15 → j ≠ 15 →
      build_phosph_water_gamma pow k n_wells wg p0 w i j f = wg w i j f) ∧
    (∀ i : Int, 0 ≤ i ∧ i < 20 → i ≠ 15 →
      build_phosph_water_gamma pow k n_wells wg p0 w i 15 f = hypercharge pow k i (wg w i 6 f) ∧
      build_phosph_water_gamma pow k n_wells wg p0 w 15 i f
        = hypercharge pow k i (wg w i 6 f)) ∧
    build_phosph_water_gamma pow k n_wells wg p0 w 15 15 f
      = hypercharge pow k 15 (hypercharge pow k 6 (wg w 6 6 f)) := by
  have hcopy : ∀ i j : Int, 0 ≤ i ∧ i < 20 → 0 ≤ j ∧ j < 20 →
      (gamma_index n_wells).foldl (phosph_copy_step wg) p0 w i j f = wg w i j f := by
    intro i j hi hj
    by_cases hij : i ≤ j
    · exact (phosph_copy_spec wg p0 n_wells w i j f hw ⟨hi.1, hij, hj.2⟩ hf).1
    · rw [(phosph_copy_spec wg p0 n_wells w j i f hw ⟨hj.1, by omega, hi.2⟩ hf).2]
      exact hsym w j i f hw hj hi hf
  obtain ⟨q1, q2, q3⟩ := phosph_replace_wells pow k
    ((gamma_index n_wells).foldl (phosph_copy_step wg) p0) n_wells
  unfold build_phosph_water_gamma
  refine ⟨?_, ?_, ?_⟩
  · intro i j hi hj hi15 hj15
    rw [q1 w i j f (Or.inr (Or.inr (Or.inl ⟨hi15, hj15⟩)))]
    exact hcopy i j hi hj
  · intro i hi hi15
    rw [(q2 w i f hw.1 hw.2 hi.1 hi.2 hi15 hf).1, (q2 w i f hw.1 hw.2 hi.1 hi.2 hi15 hf).2,
      hcopy i 6 hi (by omega)]
    exact ⟨rfl, rfl⟩
  · rw [q3 w f hw.1 hw.2 hf, hcopy 6 6 (by omega) (by omega)]

theorem build_phosph_water_gamma_symmetric {K : Type} [LinearOrderedField K]
    (pow : K → K → K) (k : K) (n_wells : Nat) (wg p0 : Int → Int → Int → Int → K)
    (hsym : ∀ w i j f : Int, 0 ≤ w ∧ w < (n_wells : Int) → 0 ≤ i ∧ i < 20 → 0 ≤ j ∧ j < 20 →
      f = 0 ∨ f = 1 → wg w i j f = wg w j i f)
    (w i j f : Int) (hw : 0 ≤ w ∧ w < (n_wells : Int)) (hi : 0 ≤ i ∧ i < 20)
    (hj : 0 ≤ j ∧ j < 20) (hf : f = 0 ∨ f = 1) :
    build_phosph_water_gamma pow k n_wells wg p0 w i j f
      = build_phosph_water_gamma pow k n_wells wg p0 w j i f := by
  obtain ⟨s1, s2, _⟩ := build_phosph_water_gamma_spec pow k n_wells wg p0 hsym w f hw hf
  by_cases hi15 : i = 15
  · by_cases hj15 : j = 15
    · rw [hi15, hj15]
    · rw [hi15, (s2 j hj hj15).1, (s2 j hj hj15).2]
  · by_cases hj15 : j = 15
    · rw [hj15, (s2 i hi hi15).1, (s2 i hi hi15).2]
    · rw [s1 i j hi hj hi15 hj15, s1 j i hj hi hj15 hi15]
      exact hsym w i j f hw hi hj hf

/-- Claim C24, counterexample: with `gamma.dat` holding the value 1 throughout
(one well, `k_water = 1`) and `k_hypercharge = 2`, the entry
`phosph_water_gamma[0][15][15][0]` is 8, not
`water_gamma[0][15][6][0] * k_hypercharge^e(15) = 2`. -/
theorem phosph_gamma_serine_pair_differs :
    ∃ wg, load_water_gamma (1 : ℚ) 1 (List.replicate 420 1) (fun _ _ _ _ => 0) = .ok wg ∧
      build_phosph_water_gamma (fun x _ => x * x) 2 1 wg (fun _ _ _ _ => 0) 0 15 15 0 = 8 ∧
      wg 0 15 6 0 * 2 ^ hypercharge_exponent 15 = 2 ∧
      build_phosph_water_gamma (fun x _ => x * x) 2 1 wg (fun _ _ _ _ => 0) 0 15 15 0
        ≠ wg 0 15 6 0 * 2 ^ hypercharge_exponent 15 := by
  obtain ⟨wg, hwg⟩ := load_water_gamma_ok (1 : ℚ) 1 (List.replicate 420 1)
    (fun _ _ _ _ => 0) (by rw [gamma_index_one_length, List.length_replicate])
  have hval : ∀ i j : Int, 0 ≤ i ∧ i < 20 → 0 ≤ j ∧ j < 20 → wg 0 i j 0 = 1 := by
    intro i j hi hj
    rw [load_water_gamma_constant 1 1 1 (List.replicate 420 1) (fun _ _ _ _ => 0) wg
      (fun v hv => (List.mem_replicate.mp hv).2) hwg 0 i j 0 (by norm_num) hi hj (Or.inl rfl)]
    norm_num
  have hspec := (build_phosph_water_gamma_spec (fun (x : ℚ) (_ : ℚ) => x * x) 2 1 wg
    (fun _ _ _ _ => 0)
    (fun w i j f hw hi hj hf => load_water_gamma_symmetric 1 1 (List.replicate 420 1)
      (fun _ _ _ _ => 0) wg hwg w i j f hw hi hj hf)
    0 0 (by norm_num) (Or.inl rfl)).2.2
  have e8 : build_phosph_water_gamma (fun (x : ℚ) (_ : ℚ) => x * x) 2 1 wg
      (fun _ _ _ _ => 0) 0 15 15 0 = 8 := by
    rw [hspec, hval 6 6 (by norm_num) (by norm_num), hypercharge_serine, hypercharge_glutamate]
    norm_num
  have e2 : wg 0 15 6 0 * 2 ^ hypercharge_exponent 15 = 2 := by
    rw [hval 15 6 (by norm_num) (by norm_num), hypercharge_exponent_serine]
    norm_num
  refine ⟨wg, hwg, e8, e2, ?_⟩
  rw [e8, e2]
  norm_num

/-- Claim C24 (amended): for the table `water_gamma` loaded from `gamma.dat`,
every well `w < n_wells`, flag `f` in {0, 1} and type `i` in 0..19 other than
15, `phosph_water_gamma[w][i][15][f] = phosph_water_gamma[w][15][i][f] =
water_gamma[w][i][6][f] * k_hypercharge^e(i)`; the entry of type 15 with
itself is `water_gamma[w][6][6][f] * k_hypercharge^2 * k_hypercharge`; every
entry not involving type 15 equals the `water_gamma` entry.  Here
`pow(k_hypercharge, 2)` is taken to be the square. -/
theorem phosph_water_gamma_entries {K : Type} [LinearOrderedField K] (pow : K → K → K)
    (k_hypercharge k_water : K) (n_wells : Nat) (file : List K)
    (g0 wg p0 : Int → Int → Int → Int → K)
    (hload : load_water_gamma k_water n_wells file g0 = .ok wg)
    (hpow : pow k_hypercharge 2 = k_hypercharge ^ 2)
    (w f : Int) (hw : 0 ≤ w ∧ w < (n_wells : Int)) (hf : f = 0 ∨ f = 1) :
    (∀ i : Int, 0 ≤ i ∧ i < 20 → i ≠ 15 →
      build_phosph_water_gamma pow k_hypercharge n_wells wg p0 w i 15 f
        = wg w i 6 f * k_hypercharge ^ hypercharge_exponent i ∧
      build_phosph_water_gamma pow k_hypercharge n_wells wg p0 w 15 i f
        = wg w i 6 f * k_hypercharge ^ hypercharge_exponent i) ∧
    build_phosph_water_gamma pow k_hypercharge n_wells wg p0 w 15 15 f
      = wg w 6 6 f * k_hypercharge ^ 2 * k_hypercharge ∧
    (∀ i j : Int, 0 ≤ i ∧ i < 20 → 0 ≤ j ∧ j < 20 → i ≠ 15 → j ≠ 15 →
      build_phosph_water_gamma pow k_hypercharge n_wells wg p0 w i j f = wg w i j f) := by
  obtain ⟨s1, s2, s3⟩ := build_phosph_water_gamma_spec pow k_hypercharge n_wells wg p0
    (fun w i j f hw hi hj hf => load_water_gamma_symmetric k_water n_wells file g0 wg hload
      w i j f hw hi hj hf) w f hw hf
  refine ⟨?_, ?_, s1⟩
  · intro i hi hi15
    rw [(s2 i hi hi15).1, (s2 i hi hi15).2, hypercharge_exponent_spec pow k_hypercharge hpow]
    exact ⟨rfl, rfl⟩
  · rw [s3, hypercharge_serine, hypercharge_glutamate, hpow]

theorem phosph_water_gamma_entries_witness :
    ∃ wg, load_water_gamma (1 : ℚ) 1 (List.replicate 420 1) (fun _ _ _ _ => 0) = .ok wg ∧
      build_phosph_water_gamma (fun x _ => x * x) 2 1 wg (fun _ _ _ _ => 0) 0 15 15 0
        = wg 0 6 6 0 * 2 ^ 2 * 2 ∧
      build_phosph_water_gamma (fun x _ => x * x) 2 1 wg (fun _ _ _ _ => 0) 0 3 15 0
        = wg 0 3 6 0 * 2 ^ hypercharge_exponent 3 := by
  obtain ⟨wg, hwg⟩ := load_water_gamma_ok (1 : ℚ) 1 (List.replicate 420 1)
    (fun _ _ _ _ => 0) (by rw [gamma_index_one_length, List.length_replicate])
  have h := phosph_water_gamma_entries (fun (x : ℚ) (_ : ℚ) => x * x) 2 1 1
    (List.replicate 420 1) (fun _ _ _ _ => 0) wg (fun _ _ _ _ => 0) hwg (by norm_num) 0 0
    (by norm_num) (Or.inl rfl)
  exact ⟨wg, hwg, h.2.1, (h.1 3 (by norm_num) (by norm_num)).1⟩

/-- Claim C30: with `water_gamma` loaded from `gamma.dat` and, when
`phosph_flag` is on, `phosph_water_gamma` built from it by the constructor,
`get_water_gamma(i_resno, j_resno, w, ti, tj, f)` equals
`get_water_gamma(j_resno, i_resno, w, tj, ti, f)` for every well
`w < n_wells`, types `ti`, `tj` in 0..19, flag `f` in {0, 1} and residue
numbers `i_resno`, `j_resno`, whether `phosph_flag` is on or off. -/
theorem get_water_gamma_symmetric {K : Type} [LinearOrderedField K] (pow : K → K → K)
    (k_hypercharge k_water : K) (n_wells : Nat) (file : List K)
    (g0 wg p0 : Int → Int → Int → Int → K) (G : GammaTables K)
    (hload : load_water_gamma k_water n_wells file g0 = .ok wg)
    (hwg : G.water_gamma = wg)
    (hph : G.phosph_flag = true →
      G.phosph_water_gamma = build_phosph_water_gamma pow k_hypercharge n_wells wg p0)
    (i_resno j_resno w ti tj f : Int) (hw : 0 ≤ w ∧ w < (n_wells : Int))
    (hti : 0 ≤ ti ∧ ti < 20) (htj : 0 ≤ tj ∧ tj < 20) (hf : f = 0 ∨ f = 1) :
    get_water_gamma G i_resno j_resno w ti tj f = get_water_gamma G j_resno i_resno w tj ti f := by
  have hsym := load_water_gamma_symmetric k_water n_wells file g0 wg hload
  unfold get_water_gamma
  rw [hwg, Bool.or_comm (G.phosph_map j_resno) (G.phosph_map i_resno)]
  cases hflag : G.phosph_flag with
  | false =>
    simp only [Bool.not_false, if_true]
    exact hsym w ti tj f hw hti htj hf
  | true =>
    simp only [Bool.not_true, Bool.false_eq_true, if_false]
    rw [hph hflag]
    split_ifs
    · exact build_phosph_water_gamma_symmetric pow k_hypercharge n_wells wg p0
        (fun w i j f hw hi hj hf => hsym w i j f hw hi hj hf) w ti tj f hw hti htj hf
    · exact hsym w ti tj f hw hti htj hf

theorem get_water_gamma_symmetric_witness :
    ∃ wg, load_water_gamma (1 : ℚ) 1 (List.replicate 420 1) (fun _ _ _ _ => 0) = .ok wg ∧
      get_water_gamma (⟨true, fun r => decide (r = 3), wg,
          build_phosph_water_gamma (fun x _ => x * x) 2 1 wg (fun _ _ _ _ => 0),
          fun _ _ => 0⟩ : GammaTables ℚ) 3 5 0 15 6 0 =
        get_water_gamma (⟨true, fun r => decide (r = 3), wg,
          build_phosph_water_gamma (fun x _ => x * x) 2 1 wg (fun _ _ _ _ => 0),
          fun _ _ => 0⟩ : GammaTables ℚ) 5 3 0 6 15 0 := by
  obtain ⟨wg, hwg⟩ := load_water_gamma_ok (1 : ℚ) 1 (List.replicate 420 1)
    (fun _ _ _ _ => 0) (by rw [gamma_index_one_length, List.length_replicate])
  exact ⟨wg, hwg, get_water_gamma_symmetric (fun (x : ℚ) (_ : ℚ) => x * x) 2 1 1
    (List.replicate 420 1) (fun _ _ _ _ => 0) wg (fun _ _ _ _ => 0) _ hwg rfl (fun _ => rfl)
    3 5 0 15 6 0 (by norm_num) (by norm_num) (by norm_num) (Or.inl rfl)⟩

theorem foldl_invariant_mem {σ α : Type} (f : σ → α → σ) (I : σ → Prop) :
    ∀ (l : List α) (s : σ), (∀ t y, y ∈ l → I t → I (f t y)) → I s → I (l.foldl f s) := by
  intro l
  induction l with
  | nil =>
    intro s _ hI
    exact hI
  | cons a l ih =>
    intro s hstep hI
    rw [List.foldl_cons]
    exact ih (f s a) (fun t y hy => hstep t y (List.mem_cons_of_mem a hy))
      (hstep s a (List.mem_cons_self a l) hI)

theorem frag_map_insert_good (good : Int → Int → Prop) (k : Nat) (M : FragMap) (i : Int)
    (hk : good i k)
    (hM : (∀ x, 0 ≤ M.ilen_fm_map x) ∧
      ∀ x t, 0 ≤ t → t < M.ilen_fm_map x → good x (M.frag_mem_map x t)) :
    (∀ x, 0 ≤ (frag_map_insert k M i).ilen_fm_map x) ∧
      ∀ x t, 0 ≤ t → t < (frag_map_insert k M i).ilen_fm_map x →
        good x ((frag_map_insert k M i).frag_mem_map x t) := by
  unfold frag_map_insert
  dsimp only
  constructor
  · intro x
    have := hM.1 x
    have := hM.1 i
    split_ifs <;> omega
  · intro x t ht0 ht
    by_cases hx : x = i
    · subst hx
      rw [if_pos rfl] at ht
      by_cases ht2 : t = M.ilen_fm_map x + 1 - 1
      · rw [if_pos ⟨rfl, ht2⟩]
        exact hk
      · rw [if_neg (fun h => ht2 h.2)]
        exact hM.2 x t ht0 (by omega)
    · rw [if_neg hx] at ht
      rw [if_neg (fun h => hx h.1)]
      exact hM.2 x t ht0 ht

theorem build_frag_map_spec {K : Type} (n min_sep : Int) (n_frag_mems : Nat)
    (frag_mems : Int → Fragment K) (M : FragMap)
    (h : build_frag_map n min_sep n_frag_mems frag_mems = .ok M) :
    (∀ x, 0 ≤ M.ilen_fm_map x) ∧
    ∀ x t, 0 ≤ t → t < M.ilen_fm_map x →
      (0 ≤ M.frag_mem_map x t ∧ M.frag_mem_map x t < (n_frag_mems : Int)) ∧
      (frag_mems (M.frag_mem_map x t)).pos + (frag_mems (M.frag_mem_map x t)).len ≤ n ∧
      (frag_mems (M.frag_mem_map x t)).pos ≤ x ∧
      x < (frag_mems (M.frag_mem_map x t)).pos + (frag_mems (M.frag_mem_map x t)).len
        - min_sep := by
  unfold build_frag_map at h
  refine foldlM_invariant_mem (frag_map_step n min_sep frag_mems)
    (fun M => (∀ x, 0 ≤ M.ilen_fm_map x) ∧
      ∀ x t, 0 ≤ t → t < M.ilen_fm_map x →
        (0 ≤ M.frag_mem_map x t ∧ M.frag_mem_map x t < (n_frag_mems : Int)) ∧
        (frag_mems (M.frag_mem_map x t)).pos + (frag_mems (M.frag_mem_map x t)).len ≤ n ∧
        (frag_mems (M.frag_mem_map x t)).pos ≤ x ∧
        x < (frag_mems (M.frag_mem_map x t)).pos + (frag_mems (M.frag_mem_map x t)).len
          - min_sep)
    (List.range n_frag_mems) ⟨fun _ => 0, fun _ _ => 0⟩ M ?_ ?_ h
  · intro s k s2 hk hI hstep
    unfold frag_map_step at hstep
    dsimp only at hstep
    by_cases hbad : (frag_mems (k : Int)).pos + (frag_mems (k : Int)).len > n
    · rw [if_pos hbad] at hstep
      cases hstep
    · rw [if_neg hbad] at hstep
      have e := (Except.ok.inj hstep).symm
      subst e
      have hkn : k < n_frag_mems := List.mem_range.mp hk
      refine foldl_invariant_mem (frag_map_insert k)
        (fun M => (∀ x, 0 ≤ M.ilen_fm_map x) ∧
          ∀ x t, 0 ≤ t → t < M.ilen_fm_map x →
            (0 ≤ M.frag_mem_map x t ∧ M.frag_mem_map x t < (n_frag_mems : Int)) ∧
            (frag_mems (M.frag_mem_map x t)).pos + (frag_mems (M.frag_mem_map x t)).len ≤ n ∧
            (frag_mems (M.frag_mem_map x t)).pos ≤ x ∧
            x < (frag_mems (M.frag_mem_map x t)).pos + (frag_mems (M.frag_mem_map x t)).len
              - min_sep) _ s ?_ hI
      intro t y hy hIt
      have hy2 := (mem_intRange _ _ y).mp hy
      exact frag_map_insert_good
        (fun x kk => (0 ≤ kk ∧ kk < (n_frag_mems : Int)) ∧
          (frag_mems kk).pos + (frag_mems kk).len ≤ n ∧ (frag_mems kk).pos ≤ x ∧
          x < (frag_mems kk).pos + (frag_mems kk).len - min_sep)
        k t y ⟨⟨by omega, by exact_mod_cast hkn⟩, by omega, hy2.1, by omega⟩ hIt
  · constructor
    · intro x
      exact le_refl _
    · intro x t ht0 ht
      exfalso
      dsimp only at ht
      omega

theorem fmt_itb_bounds (N n minSep i j k : Int) (hi : 0 ≤ i ∧ i < n)
    (ho : 0 ≤ j - (i + minSep) ∧ j - (i + minSep) < N) (hk : 0 ≤ k ∧ k < 4) :
    0 ≤ fmt_itb N minSep i j k ∧ fmt_itb N minSep i j k < 4 * n * N := by
  unfold fmt_itb
  dsimp only
  have h1 : 0 ≤ N * i := mul_nonneg (by omega) hi.1
  have h2 : N * (i + 1) ≤ N * n := mul_le_mul_of_nonneg_left (by omega) (by omega)
  have h3 : N * (i + 1) = N * i + N := by ring
  have h4 : 4 * N * i = 4 * (N * i) := by ring
  have h5 : 4 * n * N = 4 * (N * n) := by ring
  rw [h4, h5]
  constructor <;> omega

theorem fmt_itb_eq_tfm_itb (N minSep i j k : Int) :
    fmt_itb N minSep i j k = tfm_itb N minSep i j k := by
  unfold fmt_itb tfm_itb
  ring

theorem fmt_kind_writes {K : Type} [LinearOrderedField K] (exp div0 : K → K) (P : FMParams K)
    (G : FMTable K) (fresh : TBV K) (frag : Fragment K) (i j : Int) (s2 A : K)
    (tbl tbl1 : Int → Cell K) (k : Nat)
    (h : fmt_kind exp div0 P G fresh frag i j s2 A tbl k = .ok tbl1) :
    (∀ x, x ≠ fmt_itb G.tb_nbrs P.fm_gamma.minSep i j k → tbl1 x = tbl x) ∧
    (fmp_skip P.se frag i j k = false →
      (tbl1 (fmt_itb G.tb_nbrs P.fm_gamma.minSep i j k)).isSome = true) := by
  unfold fmt_kind at h
  unfold fmt_itb
  dsimp only at h ⊢
  cases hs : fmp_skip P.se frag i j k
  · rw [hs] at h
    simp only [Bool.false_eq_true, if_false] at h
    cases hrf : frag.Rf i (iatom_type k) j (jatom_type k) with
    | none =>
      rw [hrf] at h
      cases h
    | some rf =>
      rw [hrf] at h
      have h1 := (Except.ok.inj h).symm
      subst h1
      constructor
      · intro x hx
        unfold setAt
        rw [if_neg hx]
      · intro _
        unfold setAt
        rw [if_pos rfl]
        rfl
  · rw [hs] at h
    simp only [if_true] at h
    have h1 := (Except.ok.inj h).symm
    subst h1
    exact ⟨fun _ _ => rfl, fun hc => by cases hc⟩

theorem tfm_kind_reads {K : Type} [LinearOrderedField K] [FloorRing K] (sqrt : K → K)
    (T : FMTable K) (R : Residues K) (se : Int → Char) (i j : Int) (k : Nat) (st : FMState K)
    (tbl : Int → Cell K)
    (h : tbl (tfm_itb T.tb_nbrs T.minSep (R.res_no i - 1) (R.res_no j - 1) k)
      = T.fm_table (tfm_itb T.tb_nbrs T.minSep (R.res_no i - 1) (R.res_no j - 1) k)) :
    tfm_kind sqrt { T with fm_table := tbl } R se i j k st = tfm_kind sqrt T R se i j k st := by
  unfold tfm_itb at h
  dsimp only at h
  unfold tfm_kind
  dsimp only
  rw [h]

theorem table_fragment_memory_first_cell {K : Type} [LinearOrderedField K] [FloorRing K]
    (sqrt : K → K) (T : FMTable K) (R : Residues K) (se : Int → Char) (i j : Int)
    (st : FMState K)
    (h : T.fm_table (tfm_itb T.tb_nbrs T.minSep (R.res_no i - 1) (R.res_no j - 1) 0) = none) :
    table_fragment_memory sqrt T R se i j st = .ok st := by
  unfold tfm_itb at h
  dsimp only at h
  rw [add_zero] at h
  unfold table_fragment_memory
  dsimp only
  rw [h]
  split_ifs <;> rfl

/-- Claim C26: with the fragment map built by the constructor and
`tb_nbrs` set as at the allocation of the table, for every residue
`0 ≤ i < n` and every entry `i_fm` of its fragment list the fragment has
`pos + len ≤ n` and `pos ≤ i < pos + len - minSep`, its window end `je` is
below `n` (the check "Missing residues in memory potential" is not taken),
and for every `j` of the window and kind `k < 4` the offset `j - i - minSep`
lies in `[0, tb_nbrs)` and `0 ≤ itb < 4*n*tb_nbrs`; `itb` is injective in
`(i, offset, k)` on these ranges; the build writes, and the lookup reads, the
cell with this index. -/
theorem fm_table_index_in_bounds {K : Type} [LinearOrderedField K] [FloorRing K]
    (P : FMParams K) (G : FMTable K) (n_frag_mems : Nat)
    (hmap : build_frag_map P.n P.fm_gamma.minSep n_frag_mems P.frag_mems
      = .ok ⟨P.ilen_fm_map, P.frag_mem_map⟩)
    (hnbrs : G.tb_nbrs = fm_tb_nbrs P.n P.fm_gamma.minSep P.fm_gamma.maxSep)
    (i i_fm : Int) (hi : 0 ≤ i ∧ i < P.n) (hfm : 0 ≤ i_fm ∧ i_fm < P.ilen_fm_map i) :
    ((P.frag_mems (P.frag_mem_map i i_fm)).pos + (P.frag_mems (P.frag_mem_map i i_fm)).len ≤ P.n ∧
      (P.frag_mems (P.frag_mem_map i i_fm)).pos ≤ i ∧
      i < (P.frag_mems (P.frag_mem_map i i_fm)).pos + (P.frag_mems (P.frag_mem_map i i_fm)).len
        - P.fm_gamma.minSep) ∧
    fmp_je P (P.frag_mems (P.frag_mem_map i i_fm)) i < P.n ∧
    (∀ (exp div0 : K → K) (pow : K → K → K) (w : K) (fresh : TBV K) (tbl : Int → Cell K),
      fmt_frag exp div0 pow w P G fresh i tbl i_fm =
        (intRange (i + P.fm_gamma.minSep) (fmp_je P (P.frag_mems (P.frag_mem_map i i_fm)) i)).foldlM
          (fmt_pair exp div0 pow w P G fresh (P.frag_mems (P.frag_mem_map i i_fm))
            (P.epsilon * P.k_frag_mem * (P.frag_mems (P.frag_mem_map i i_fm)).weight) i) tbl) ∧
    (∀ (j : Int) (k : Nat),
      i + P.fm_gamma.minSep ≤ j ∧ j ≤ fmp_je P (P.frag_mems (P.frag_mem_map i i_fm)) i → k < 4 →
      (0 ≤ j - i - P.fm_gamma.minSep ∧ j - i - P.fm_gamma.minSep < G.tb_nbrs) ∧
      (0 ≤ fmt_itb G.tb_nbrs P.fm_gamma.minSep i j k ∧
        fmt_itb G.tb_nbrs P.fm_gamma.minSep i j k < 4 * P.n * G.tb_nbrs) ∧
      fmt_itb G.tb_nbrs P.fm_gamma.minSep i j k = tfm_itb G.tb_nbrs P.fm_gamma.minSep i j k) ∧
    (∀ (i1 j1 i2 j2 : Int) (k1 k2 : Nat),
      (0 ≤ j1 - i1 - P.fm_gamma.minSep ∧ j1 - i1 - P.fm_gamma.minSep < G.tb_nbrs) →
      (0 ≤ j2 - i2 - P.fm_gamma.minSep ∧ j2 - i2 - P.fm_gamma.minSep < G.tb_nbrs) →
      k1 < 4 → k2 < 4 →
      fmt_itb G.tb_nbrs P.fm_gamma.minSep i1 j1 k1 = fmt_itb G.tb_nbrs P.fm_gamma.minSep i2 j2 k2 →
      i1 = i2 ∧ j1 = j2 ∧ k1 = k2) ∧
    (∀ (exp div0 : K → K) (fresh : TBV K) (frag : Fragment K) (j : Int) (s2 A : K)
        (tbl tbl1 : Int → Cell K) (k : Nat),
      fmt_kind exp div0 P G fresh frag i j s2 A tbl k = .ok tbl1 →
      (∀ x, x ≠ fmt_itb G.tb_nbrs P.fm_gamma.minSep i j k → tbl1 x = tbl x) ∧
      (fmp_skip P.se frag i j k = false →
        (tbl1 (fmt_itb G.tb_nbrs P.fm_gamma.minSep i j k)).isSome = true)) ∧
    (∀ (sqrt : K → K) (T : FMTable K) (R : Residues K) (se : Int → Char) (a b : Int) (k : Nat)
        (st : FMState K) (tbl : Int → Cell K),
      tbl (tfm_itb T.tb_nbrs T.minSep (R.res_no a - 1) (R.res_no b - 1) k)
        = T.fm_table (tfm_itb T.tb_nbrs T.minSep (R.res_no a - 1) (R.res_no b - 1) k) →
      tfm_kind sqrt { T with fm_table := tbl } R se a b k st = tfm_kind sqrt T R se a b k st) := by
  obtain ⟨_, hgood⟩ := build_frag_map_spec P.n P.fm_gamma.minSep n_frag_mems P.frag_mems
    ⟨P.ilen_fm_map, P.frag_mem_map⟩ hmap
  have hg := hgood i i_fm hfm.1 hfm.2
  dsimp only at hg
  have hje : fmp_je P (P.frag_mems (P.frag_mem_map i i_fm)) i < P.n := by
    unfold fmp_je
    dsimp only
    split_ifs
    · have := min_le_left ((P.frag_mems (P.frag_mem_map i i_fm)).pos
        + (P.frag_mems (P.frag_mem_map i i_fm)).len - 1) (i + P.fm_gamma.maxSep)
      omega
    · omega
  refine ⟨hg.2, hje, ?_, ?_, ?_, ?_, ?_⟩
  · intro exp div0 pow w fresh tbl
    unfold fmt_frag
    dsimp only
    rw [if_neg (by omega)]
  · intro j k hj hk
    have ho := fmt_offset_bounds P (P.frag_mems (P.frag_mem_map i i_fm)) i j hi.1 hj hje
    rw [← hnbrs] at ho
    have hk2 : (0 : Int) ≤ (k : Int) ∧ (k : Int) < 4 := by omega
    exact ⟨by omega, fmt_itb_bounds G.tb_nbrs P.n P.fm_gamma.minSep i j k hi ho hk2,
      fmt_itb_eq_tfm_itb _ _ _ _ _⟩
  · intro i1 j1 i2 j2 k1 k2 h1 h2 hk1 hk2 he
    unfold fmt_itb at he
    dsimp only at he
    have hinj := (itb_injective G.tb_nbrs i1 (j1 - (i1 + P.fm_gamma.minSep)) k1 i2
      (j2 - (i2 + P.fm_gamma.minSep)) k2 (by omega) (by omega) (by omega) (by omega)).mp he
    omega
  · intro exp div0 fresh frag j s2 A tbl tbl1 k h
    exact fmt_kind_writes exp div0 P G fresh frag i j s2 A tbl tbl1 k h
  · intro sqrt T R se a b k st tbl h
    exact tfm_kind_reads sqrt T R se a b k st tbl h

theorem fm_table_index_in_bounds_witness :
    fmp_je (exParams ℚ) ((exParams ℚ).frag_mems ((exParams ℚ).frag_mem_map 0 0)) 0 < 2 ∧
    (0 ≤ fmt_itb exTable.tb_nbrs 1 0 1 3 ∧ fmt_itb exTable.tb_nbrs 1 0 1 3 < 4 * 2 * 1) := by
  have hmap : build_frag_map (exParams ℚ).n (exParams ℚ).fm_gamma.minSep 1
      (exParams ℚ).frag_mems = .ok ⟨(exParams ℚ).ilen_fm_map, (exParams ℚ).frag_mem_map⟩ := by
    simp [build_frag_map, List.range_succ, frag_map_step, frag_map_insert, exParams, exFragment,
      intRange]
  have h := fm_table_index_in_bounds (exParams ℚ) exTable 1 hmap
    (by simp [exTable, exParams, fm_tb_nbrs]) 0 0 (by simp [exParams]) (by simp [exParams])
  exact ⟨h.2.1, (h.2.2.2.1 1 3 (by simp [exParams, fmp_je, exFragment]) (by norm_num)).2.1⟩

theorem exAtomsNoOxygen_run :
    ∃ S, Construct_Computational_Arrays exChains3 exAtomsNoOxygen exTopo0 = .ok S ∧ S.nn = 3 ∧
      S.res_info 0 = ResInfo.LOCAL ∧ S.res_info 1 = ResInfo.GHOST ∧
      S.res_info 2 = ResInfo.LOCAL ∧ backbone_im1 S 2 = 1 ∧ isFirst exChains3 S 2 = false ∧
      backbone_has_prev exChains3 S 2 = true ∧ S.alpha_carbons 1 = 6 ∧ S.oxygens 1 = -1 := by
  refine ⟨_, rfl, ?_⟩
  decide

/-- Claim C29, evaluated: a process owns residues 1 and 3 of a three-residue
chain and holds of residue 2 only the alpha carbon, as a ghost atom.
`Construct_Computational_Arrays` completes without error: residue 2 (list
index 1) is classified GHOST because its predecessor is LOCAL, with
`oxygens[1] = -1`; residue 3 (index 2) is LOCAL, is not first in its chain
and has `im1 = 1`, so `compute_backbone` computes `xn[2]`, `xh[2]` and
`xcp[1]` from `xo[1]`, which the coordinate part of the loop leaves as it
was. -/
theorem backbone_reads_absent_oxygen :
    ∃ S, Construct_Computational_Arrays exChains3 exAtomsNoOxygen exTopo0 = .ok S ∧ S.nn = 3 ∧
      S.res_info 1 = ResInfo.GHOST ∧ S.res_info 2 = ResInfo.LOCAL ∧
      backbone_im1 S 2 = 1 ∧ isFirst exChains3 S 2 = false ∧
      backbone_has_prev exChains3 S 2 = true ∧ S.oxygens (backbone_im1 S 2) = -1 ∧
      (∀ (H : Host ℚ) (st : Coords ℚ), (backbone_coords S H st 1).xo = st.xo) ∧
      (∀ (co : BackboneCoef ℚ) (st : Coords ℚ) (d : Fin 3),
        (backbone_virtual co exChains3 S st 2).xn 2 d
          = co.an * st.xca 1 d + co.bn * st.xca 2 d + co.cn * st.xo 1 d) := by
  obtain ⟨S, h, hnn, _, h1, h2, him, hfirst, hprev, _, ho⟩ := exAtomsNoOxygen_run
  refine ⟨S, h, hnn, h1, h2, him, hfirst, hprev, by rw [him]; exact ho, ?_, ?_⟩
  · intro H st
    unfold backbone_coords
    simp [isActive, h1, ho]
    split_ifs <;> rfl
  · intro co st d
    unfold backbone_virtual
    simp [hprev, him, setPos, backbone_combo]

theorem burial_energy_described {K : Type} [LinearOrderedField K] (tanh : K → K)
    (P : PairParams K) (ires : Int) (ro : K) :
    burial_energy tanh P ires ro = described_burial_well tanh P ires ro := by
  unfold burial_energy described_burial_well
  simp only [List.map_cons, List.map_nil, List.sum_cons, List.sum_nil]
  ring

theorem pair_sigma_step_energy {K : Type} [LinearOrderedField K] (tanh : K → K)
    (P : PairParams K) (V : PairView K) (water_ro helix_ro : Int → K) (s : SigmaSt K)
    (i : Nat) :
    (pair_sigma_step tanh P V water_ro helix_ro s i).burial =
      (if (is_rep P V.atoms i = true ∧ P.burial_flag = true) ∧
          s.b_burial_force (V.atoms.residue i - 1) = false ∧ i < V.atoms.nlocal then
        s.burial + burial_energy tanh P (V.atoms.residue i - 1)
          (water_ro (V.atoms.residue i - 1))
      else s.burial) := by
  unfold pair_sigma_step
  simp only []
  by_cases hr : is_rep P V.atoms i = true <;> by_cases hw : P.burial_flag = true <;>
    cases hb : s.b_burial_force (V.atoms.residue i - 1) <;>
    by_cases hl : i < V.atoms.nlocal <;>
    simp only [hr, hw, hb, hl, true_and, and_true, and_self, if_true, if_false, Bool.not_false,
      Bool.not_true, Bool.false_eq_true, false_and, and_false] <;>
    split_ifs <;> first | rfl | (exfalso; assumption) | (exfalso; simp_all)

theorem pair_sigma_loop_energy {K : Type} [LinearOrderedField K] (tanh : K → K)
    (P : PairParams K) (V : PairView K) (water_ro helix_ro : Int → K) (s0 : SigmaSt K)
    (h0 : ∀ r, s0.b_burial_force r = false) :
    ∀ m : Nat,
      (∀ r, ((List.range m).foldl (pair_sigma_step tanh P V water_ro helix_ro)
          s0).b_burial_force r = true ↔
        (P.burial_flag = true ∧ ∃ j : Nat, j < m ∧ is_rep P V.atoms j = true ∧
          V.atoms.residue j - 1 = r)) ∧
      ((List.range m).foldl (pair_sigma_step tanh P V water_ro helix_ro) s0).burial =
        s0.burial + (((List.range m).filter
          (fun i => P.burial_flag && burial_owned_rep P V.atoms i)).map (fun (i : Nat) =>
            described_burial_well tanh P (V.atoms.residue i - 1)
              (water_ro (V.atoms.residue i - 1)))).sum := by
  intro m
  induction m with
  | zero =>
    refine ⟨fun r => ?_, by simp⟩
    simp only [List.range_zero, List.foldl_nil, h0 r]
    constructor
    · intro h
      exact absurd h (by decide)
    · rintro ⟨_, j, hj, _⟩
      exact absurd hj (Nat.not_lt_zero _)
  | succ m ih =>
    obtain ⟨ih1, ih2⟩ := ih
    rw [List.range_succ, List.foldl_append, List.foldl_cons, List.foldl_nil]
    have e1 := (pair_sigma_step_burial tanh P V water_ro helix_ro
      ((List.range m).foldl (pair_sigma_step tanh P V water_ro helix_ro) s0) m).2
    have e2 := pair_sigma_step_energy tanh P V water_ro helix_ro
      ((List.range m).foldl (pair_sigma_step tanh P V water_ro helix_ro) s0) m
    rw [e1, e2]
    generalize (List.range m).foldl (pair_sigma_step tanh P V water_ro helix_ro) s0 = s
      at ih1 ih2
    have hfirst : s.b_burial_force (V.atoms.residue m - 1) = false ↔
        ¬ (P.burial_flag = true ∧ ∃ j : Nat, j < m ∧ is_rep P V.atoms j = true ∧
          V.atoms.residue j - 1 = V.atoms.residue m - 1) := by
      rw [← ih1]
      cases s.b_burial_force (V.atoms.residue m - 1) <;> simp
    refine ⟨?_, ?_⟩
    · intro r
      by_cases hc : (is_rep P V.atoms m = true ∧ P.burial_flag = true) ∧
          s.b_burial_force (V.atoms.residue m - 1) = false
      · rw [if_pos hc]
        constructor
        · intro h
          by_cases hr : r = V.atoms.residue m - 1
          · exact ⟨hc.1.2, m, Nat.lt_succ_self m, hc.1.1, hr.symm⟩
          · simp only [setAt, hr, if_false] at h
            obtain ⟨hf, j, hj, h1, h2⟩ := (ih1 r).mp h
            exact ⟨hf, j, Nat.lt_succ_of_lt hj, h1, h2⟩
        · rintro ⟨hf, j, hj, h1, h2⟩
          by_cases hr : r = V.atoms.residue m - 1
          · simp [setAt, hr]
          · simp only [setAt, hr, if_false]
            have hjm : j ≠ m := fun h => hr (by rw [← h2, h])
            exact (ih1 r).mpr ⟨hf, j, by omega, h1, h2⟩
      · rw [if_neg hc]
        constructor
        · intro h
          obtain ⟨hf, j, hj, h1, h2⟩ := (ih1 r).mp h
          exact ⟨hf, j, Nat.lt_succ_of_lt hj, h1, h2⟩
        · rintro ⟨hf, j, hj, h1, h2⟩
          by_cases hjm : j = m
          · rw [hjm] at h1 h2
            cases hb : s.b_burial_force (V.atoms.residue m - 1)
            · exact absurd ⟨⟨h1, hf⟩, hb⟩ hc
            · rw [← h2]
              exact hb
          · exact (ih1 r).mpr ⟨hf, j, by omega, h1, h2⟩
    · have hq : ((is_rep P V.atoms m = true ∧ P.burial_flag = true) ∧
          s.b_burial_force (V.atoms.residue m - 1) = false ∧ m < V.atoms.nlocal) ↔
          (P.burial_flag && burial_owned_rep P V.atoms m) = true := by
        rw [hfirst]
        unfold burial_owned_rep
        simp only [Bool.and_eq_true, decide_eq_true_eq, List.all_eq_true, List.mem_range,
          Bool.not_eq_true', Bool.and_eq_false_imp, decide_eq_false_iff_not]
        constructor
        · rintro ⟨⟨h1, h2⟩, h3, h4⟩
          refine ⟨h2, ⟨h4, h1⟩, ?_⟩
          intro j hj hrj hres
          exact h3 ⟨h2, j, hj, hrj, by rw [hres]⟩
        · rintro ⟨h2, ⟨h4, h1⟩, h3⟩
          refine ⟨⟨h1, h2⟩, ?_, h4⟩
          rintro ⟨_, j, hj, hrj, hres⟩
          exact h3 j hj hrj (by omega)
      rw [List.filter_append, List.map_append, List.sum_append, ← add_assoc, ← ih2]
      by_cases hc : (is_rep P V.atoms m = true ∧ P.burial_flag = true) ∧
          s.b_burial_force (V.atoms.residue m - 1) = false ∧ m < V.atoms.nlocal
      · rw [if_pos hc, burial_energy_described]
        simp only [List.filter_cons, List.filter_nil]
        rw [if_pos (hq.mp hc)]
        simp
      · rw [if_neg hc]
        simp only [List.filter_cons, List.filter_nil]
        rw [if_neg (fun h => hc (hq.mpr h))]
        simp

theorem pair_sigma_burial {K : Type} [LinearOrderedField K] (tanh : K → K)
    (P : PairParams K) (V : PairView K) (water_ro helix_ro : Int → K) (burial : K) :
    (pair_sigma tanh P V water_ro helix_ro burial).burial =
      burial + (if P.burial_flag = true then described_burial tanh P V.atoms water_ro
        else 0) := by
  have hloop := (pair_sigma_loop_energy tanh P V water_ro helix_ro
    ⟨fun _ => 0, fun _ => 0, fun _ => 0, fun _ => 0, fun _ => 0,
      fun _ => false, fun _ => false, fun _ => false, burial⟩ (fun _ => rfl)
    (V.atoms.nlocal + V.atoms.nghost)).2
  unfold pair_sigma
  simp only []
  by_cases hb : P.burial_flag = true
  · rw [if_pos (Or.inr (Or.inr hb)), hloop, if_pos hb]
    unfold described_burial
    simp only [hb, Bool.true_and]
  · rw [if_neg hb]
    split_ifs
    · rw [hloop]
      have hf : P.burial_flag = false := by
        cases h : P.burial_flag
        · rfl
        · exact absurd h hb
      simp only [hf, Bool.false_and, List.filter_false, List.map_nil, List.sum_nil]
    · simp

theorem exPair_described_burial :
    described_burial Real.tanh (exPairParams ℝ 4) (exPairView ℝ).atoms (fun _ => 0)
      = -Real.tanh 1 := by
  simp [described_burial, described_burial_well, burial_owned_rep, is_rep, get_burial_gamma,
    exPairParams, exPairView, exAtoms6, List.range_succ, List.filter]
  ring

/-- C4 (amended). For a system consisting of one chain of exactly two
residues (every atom of every process has residue tag 1 or 2 and the same
molecule tag, `n = 2`), with `helix_i_diff ≥ 2` and no error raised by the
other terms of the main loop, `compute_pair` returns normally, adds zero to
`energy[ET_WATER]` and to `energy[ET_HELIX]`, and, if the burial term is on,
adds to `energy[ET_BURIAL]` for every residue with an owned representative
atom the burial well at density zero,
`-0.5*k_burial*sum over the wells of burial_gamma*(tanh(burial_kappa*(0 -
burial_ro_min)) + tanh(burial_kappa*(burial_ro_max - 0)))`; the local
densities of every process are zero. -/
theorem compute_pair_two_residue_chain {K : Type} [LinearOrderedField K]
    (sqrt exp tanh : K → K) (P : PairParams K) (me : PairView K) (others : List (PairView K))
    (e : PairEnergy K) (hn : P.n = 2) (hd : 2 ≤ P.helix_i_diff)
    (hres : ∀ V ∈ me :: others, ∀ a, V.atoms.residue a = 1 ∨ V.atoms.residue a = 2)
    (hmol : ∀ V ∈ me :: others, ∀ a b, V.atoms.molecule a = V.atoms.molecule b)
    (hother : ∀ i j, P.other_terms i j = none) :
    compute_pair sqrt exp tanh P me others e =
      .ok ⟨e.water,
        e.burial + (if P.burial_flag = true then
          (((List.range (me.atoms.nlocal + me.atoms.nghost)).filter
            (burial_owned_rep P me.atoms)).map (fun (i : Nat) =>
              described_burial_well tanh P (me.atoms.residue i - 1) 0)).sum
          else 0),
        e.helix⟩ ∧
    (∀ V ∈ me :: others, pair_density sqrt P V = ⟨fun _ => 0, fun _ => 0⟩) := by
  have hme_res := hres me (List.mem_cons_self _ _)
  have hme_mol := hmol me (List.mem_cons_self _ _)
  refine ⟨?_, fun V hV => pair_density_two_residues sqrt P V (hres V hV) (hmol V hV)⟩
  rw [compute_pair_zero_density sqrt exp tanh P me others e hres hmol]
  unfold pair_after_sigma
  rw [pair_helix_two_residues exp P me _ e.helix hn hd hme_res,
    pair_main_two_residues sqrt P me _ e.water hme_res hme_mol hother,
    pair_sigma_burial]
  rfl

/-- Witness for C4: the two-residue example with `helix_i_diff = 4`; both
residues have an owned representative atom and the two burial wells at
density zero add up to `-tanh 1`. -/
theorem compute_pair_two_residue_chain_witness :
    compute_pair Real.sqrt Real.exp Real.tanh (exPairParams ℝ 4) (exPairView ℝ) [] ⟨0, 0, 0⟩ =
      .ok ⟨0, -Real.tanh 1, 0⟩ := by
  have h := (compute_pair_two_residue_chain Real.sqrt Real.exp Real.tanh (exPairParams ℝ 4)
    (exPairView ℝ) [] ⟨0, 0, 0⟩ rfl (by decide) exPair_two_residue_view.1
    exPair_two_residue_view.2 (fun _ _ => rfl)).1
  rw [h]
  have hv := exPair_described_burial
  unfold described_burial at hv
  have hb : (exPairParams ℝ 4).burial_flag = true := rfl
  rw [if_pos hb, hv]
  simp

theorem cca_entry_links (C : Chains) (A : Atoms) (S S1 : Topo) (sc : Scan)
    (h : cca_entry C A S sc = .ok (some S1)) :
    S1.res_no_l = (fun x => if x = min sc.min0 (min sc.min1 sc.min2) - 1 then (S.nn : Int)
      else S.res_no_l x) ∧
    ∃ chain : Int, 0 < chain ∧ chain ≤ C.nch ∧
      C.ch_pos (chain - 1) ≤ min sc.min0 (min sc.min1 sc.min2) ∧
      min sc.min0 (min sc.min1 sc.min2) ≤ C.ch_pos (chain - 1) + C.ch_len (chain - 1) - 1 := by
  unfold cca_entry at h
  simp only at h
  obtain ⟨-, h⟩ := ite_eq_right_of_ne _ _ _ _ h (by intro hc; cases hc)
  obtain ⟨h2, h⟩ := ite_eq_right_of_ne _ _ _ _ h (by intro hc; cases hc)
  obtain ⟨-, h⟩ := ite_eq_right_of_ne _ _ _ _ h (by intro hc; cases hc)
  obtain ⟨h4, h⟩ := ite_eq_right_of_ne _ _ _ _ h (by intro hc; cases hc)
  have h5 := (Option.some.inj (Except.ok.inj h)).symm
  subst h5
  push_neg at h2 h4
  exact ⟨rfl, _, h2.1, h2.2, h4.1, h4.2⟩

theorem cca_build_links (C : Chains) (A : Atoms)
    (hC : ∀ c : Int, 0 ≤ c → c < C.nch →
      1 ≤ C.ch_pos c ∧ C.ch_pos c + C.ch_len c - 1 ≤ (C.n : Int)) :
    ∀ (fuel : Nat) (i last : Int) (S S1 : Topo), cca_build C A fuel i last S = .ok S1 →
      0 ≤ last →
      (∀ k : Int, 0 ≤ k → k < (S.nn : Int) →
        S.res_no k ≤ last ∧ 1 ≤ S.res_no k ∧ S.res_no k ≤ (C.n : Int) ∧
        S.res_no_l (S.res_no k - 1) = k) →
      (∀ r : Int, 0 ≤ r → r < (C.n : Int) →
        S.res_no_l r = -1 ∨
        (0 ≤ S.res_no_l r ∧ S.res_no_l r < (S.nn : Int) ∧ S.res_no (S.res_no_l r) = r + 1)) →
      (∀ k : Int, 0 ≤ k → k < (S1.nn : Int) →
        1 ≤ S1.res_no k ∧ S1.res_no k ≤ (C.n : Int) ∧ S1.res_no_l (S1.res_no k - 1) = k) ∧
      (∀ r : Int, 0 ≤ r → r < (C.n : Int) →
        S1.res_no_l r = -1 ∨
        (0 ≤ S1.res_no_l r ∧ S1.res_no_l r < (S1.nn : Int) ∧
          S1.res_no (S1.res_no_l r) = r + 1)) := by
  intro fuel
  induction fuel with
  | zero =>
    intro i last S S1 h _ h1 h2
    have hS : S1 = S := (Except.ok.inj h).symm
    subst hS
    exact ⟨fun k hk0 hk1 => (h1 k hk0 hk1).2, h2⟩
  | succ fuel ih =>
    intro i last S S1 h hl h1 h2
    unfold cca_build at h
    cases hsc : cca_scan A i last with
    | error e => simp [hsc] at h
    | ok sc =>
      simp only [hsc] at h
      cases hen : cca_entry C A S sc with
      | error e => simp [hen] at h
      | ok o =>
        cases o with
        | none =>
          simp only [hen] at h
          have hS : S1 = S := (Except.ok.inj h).symm
          subst hS
          exact ⟨fun k hk0 hk1 => (h1 k hk0 hk1).2, h2⟩
        | some S2 =>
          simp only [hen] at h
          obtain ⟨hne, hnn, hres⟩ := cca_entry_spec C A S S2 sc hen
          obtain ⟨hl2, chain, hc0, hc1, hc2, hc3⟩ := cca_entry_links C A S S2 sc hen
          obtain ⟨hgt, -⟩ := cca_scan_spec A i last hl sc hsc hne
          obtain ⟨hp1, hp2⟩ := hC (chain - 1) (by omega) (by omega)
          refine ih (i + 1) (min sc.min0 (min sc.min1 sc.min2)) S2 S1 h (by omega) ?_ ?_
          · intro k hk0 hk1
            rw [hnn] at hk1
            push_cast at hk1
            rw [hres, hl2]
            by_cases hk : k = (S.nn : Int)
            · simp only [hk, if_true]
              refine ⟨le_refl _, by omega, by omega, trivial⟩
            · obtain ⟨a1, a2, a3, a4⟩ := h1 k hk0 (by omega)
              have hne2 : S.res_no k - 1 ≠ min sc.min0 (min sc.min1 sc.min2) - 1 := by omega
              simp only [hk, if_false, hne2]
              exact ⟨by omega, a2, a3, a4⟩
          · intro r hr0 hr1
            rw [hres, hl2, hnn]
            push_cast
            by_cases hr : r = min sc.min0 (min sc.min1 sc.min2) - 1
            · right
              simp only [hr, if_true]
              refine ⟨by omega, by omega, by omega⟩
            · simp only [hr, if_false]
              rcases h2 r hr0 hr1 with hm | ⟨b1, b2, b3⟩
              · exact Or.inl hm
              · right
                have hne3 : S.res_no_l r ≠ (S.nn : Int) := by omega
                simp only [hne3, if_false]
                exact ⟨b1, by omega, b3⟩

theorem cca_links (C : Chains) (A : Atoms) (S0 S : Topo)
    (hC : ∀ c : Int, 0 ≤ c → c < C.nch →
      1 ≤ C.ch_pos c ∧ C.ch_pos c + C.ch_len c - 1 ≤ (C.n : Int))
    (h : Construct_Computational_Arrays C A S0 = .ok S) :
    (∀ a b : Int, 0 ≤ a → a < b → b < (S.nn : Int) → S.res_no a < S.res_no b) ∧
    (∀ k : Int, 0 ≤ k → k < (S.nn : Int) →
      1 ≤ S.res_no k ∧ S.res_no k ≤ (C.n : Int) ∧ S.res_no_l (S.res_no k - 1) = k) ∧
    (∀ r : Int, 0 ≤ r → r < (C.n : Int) →
      S.res_no_l r = -1 ∨
      (0 ≤ S.res_no_l r ∧ S.res_no_l r < (S.nn : Int) ∧ S.res_no (S.res_no_l r) = r + 1)) := by
  unfold Construct_Computational_Arrays at h
  simp only at h
  split at h
  · exact absurd h (by simp)
  · rename_i S2 hb
    obtain ⟨a1, -, -, -, a5, a6, -⟩ := cca_mark_loop_spec C A S2 S2.nn S h
    have hstep := cca_build_spec C A C.n 0 0 _ S2 hb (le_refl 0) (Or.inl rfl)
      (fun k hk0 hk1 => by
        simp only [Nat.cast_zero] at hk1
        omega)
    have hlinks := cca_build_links C A hC C.n 0 0 _ S2 hb (le_refl 0)
      (fun k hk0 hk1 => by
        simp only [Nat.cast_zero] at hk1
        omega)
      (fun r hr0 hr1 => by
        left
        simp [hr0, hr1])
    rw [a1, a5, a6]
    have hmono : ∀ (d : Nat) (a : Int), 0 ≤ a → a + 1 + (d : Int) < (S2.nn : Int) →
        S2.res_no a < S2.res_no (a + 1 + (d : Int)) := by
      intro d
      induction d with
      | zero =>
        intro a ha hb2
        simp only [Nat.cast_zero, add_zero] at hb2 ⊢
        exact (hstep a ha hb2).1
      | succ d ih =>
        intro a ha hb2
        push_cast at hb2 ⊢
        have h1 := ih a ha (by omega)
        have h2 := (hstep (a + 1 + (d : Int)) (by omega) (by omega)).1
        have e : a + 1 + ((d : Int) + 1) = a + 1 + (d : Int) + 1 := by ring
        rw [e]
        omega
    refine ⟨?_, hlinks.1, hlinks.2⟩
    intro a b ha hab hb2
    have e : b = a + 1 + ((b - a - 1).toNat : Int) := by
      rw [Int.toNat_of_nonneg (by omega)]
      ring
    rw [e]
    exact hmono _ a ha (by rw [← e]; exact hb2)

theorem cca_im1_spec (C : Chains) (A : Atoms) (S0 S : Topo)
    (hC : ∀ c : Int, 0 ≤ c → c < C.nch →
      1 ≤ C.ch_pos c ∧ C.ch_pos c + C.ch_len c - 1 ≤ (C.n : Int))
    (h : Construct_Computational_Arrays C A S0 = .ok S) :
    (∀ i : Int, 0 ≤ i → i < (S.nn : Int) → backbone_im1 S i ≠ -1 →
      0 ≤ backbone_im1 S i ∧ backbone_im1 S i < i ∧
      S.res_no (backbone_im1 S i) = S.res_no i - 1) ∧
    (∀ i j : Int, 0 ≤ i → i < (S.nn : Int) → 0 ≤ j → j < (S.nn : Int) →
      backbone_im1 S i ≠ -1 → backbone_im1 S j = backbone_im1 S i → j = i) := by
  obtain ⟨hmono, hk, hr⟩ := cca_links C A S0 S hC h
  have key : ∀ i : Int, 0 ≤ i → i < (S.nn : Int) → backbone_im1 S i ≠ -1 →
      0 ≤ backbone_im1 S i ∧ backbone_im1 S i < i ∧
      S.res_no (backbone_im1 S i) = S.res_no i - 1 := by
    intro i hi0 hi1 hne
    unfold backbone_im1 at hne ⊢
    simp only at hne ⊢
    by_cases hpos : S.res_no i - 1 > 0
    · rw [if_pos hpos] at hne ⊢
      obtain ⟨c1, c2, c3⟩ := hk i hi0 hi1
      rcases hr (S.res_no i - 1 - 1) (by omega) (by omega) with hm | ⟨b1, b2, b3⟩
      · exact absurd hm hne
      · refine ⟨b1, ?_, by omega⟩
        by_contra hge
        push_neg at hge
        rcases eq_or_lt_of_le hge with he | hlt
        · rw [← he] at b3
          omega
        · have := hmono i _ hi0 hlt b2
          omega
    · rw [if_neg hpos] at hne
      exact absurd rfl hne
  refine ⟨key, ?_⟩
  intro i j hi0 hi1 hj0 hj1 hne heq
  obtain ⟨-, -, e1⟩ := key i hi0 hi1 hne
  obtain ⟨-, -, e2⟩ := key j hj0 hj1 (by rw [heq]; exact hne)
  rw [heq, e1] at e2
  by_contra hji
  rcases lt_or_gt_of_ne hji with hlt | hgt
  · have := hmono j i hj0 hlt hi1
    omega
  · have := hmono i j hi0 hgt hj1
    omega

theorem backbone_coords_frame {K : Type} [LinearOrderedField K] (S : Topo) (H : Host K)
    (st : Coords K) (i : Int) :
    (backbone_coords S H st i).xn = st.xn ∧ (backbone_coords S H st i).xh = st.xh ∧
    (backbone_coords S H st i).xcp = st.xcp := by
  unfold backbone_coords
  split_ifs <;> exact ⟨rfl, rfl, rfl⟩

theorem backbone_step_fields {K : Type} [LinearOrderedField K] (co : BackboneCoef K)
    (C : Chains) (S : Topo) (H : Host K) (st : Coords K) (i : Nat) :
    (backbone_step co C S H st i).xca = (backbone_coords S H st i).xca ∧
    (backbone_step co C S H st i).xo = (backbone_coords S H st i).xo ∧
    (∀ x : Int, x ≠ (i : Int) →
      (backbone_step co C S H st i).xn x = st.xn x ∧
      (backbone_step co C S H st i).xh x = st.xh x) ∧
    (∀ x : Int, x ≠ backbone_im1 S i → (backbone_step co C S H st i).xcp x = st.xcp x) ∧
    (backbone_has_prev C S i = true →
      (backbone_step co C S H st i).xn i =
        backbone_combo co.an co.bn co.cn (backbone_coords S H st i) (backbone_im1 S i) i ∧
      (backbone_step co C S H st i).xh i =
        backbone_combo co.ah co.bh co.ch (backbone_coords S H st i) (backbone_im1 S i) i ∧
      (backbone_step co C S H st i).xcp (backbone_im1 S i) =
        backbone_combo co.ap co.bp co.cp (backbone_coords S H st i) (backbone_im1 S i) i) := by
  obtain ⟨c1, c2, c3⟩ := backbone_coords_frame S H st i
  refine ⟨?_, ?_, ?_, ?_, ?_⟩
  · unfold backbone_step backbone_virtual
    dsimp only
    split_ifs <;> rfl
  · unfold backbone_step backbone_virtual
    dsimp only
    split_ifs <;> rfl
  · intro x hx
    unfold backbone_step backbone_virtual
    dsimp only
    split_ifs <;> simp [setPos, hx, c1, c2]
  · intro x hx
    unfold backbone_step backbone_virtual
    dsimp only
    split_ifs <;> simp only [setPos, hx, if_false, c3]
  · intro hp
    unfold backbone_step backbone_virtual
    dsimp only
    rw [if_pos hp, if_pos hp]
    simp only [setPos, if_true]
    exact ⟨trivial, trivial, rfl⟩

theorem backbone_coords_fields {K : Type} [LinearOrderedField K] (S : Topo) (H : Host K)
    (st : Coords K) (i x : Int) :
    (backbone_coords S H st i).xca x =
      (if x = i ∧ isActive S i = true then unwrapped H (S.alpha_carbons i) else st.xca x) ∧
    (backbone_coords S H st i).xo x =
      (if x = i ∧ isActive S i = true ∧ S.oxygens i ≠ -1 then unwrapped H (S.oxygens i)
        else st.xo x) := by
  by_cases hact : isActive S i = true
  · rw [backbone_coords_xca S H st i x hact, backbone_coords_xo S H st i x hact]
    simp [hact]
  · unfold backbone_coords
    simp [hact]

theorem backbone_loop_coords {K : Type} [LinearOrderedField K] (co : BackboneCoef K)
    (C : Chains) (S : Topo) (H : Host K) (st : Coords K) :
    ∀ (m : Nat) (x : Int),
      ((List.range m).foldl (backbone_step co C S H) st).xca x =
        (if (0 ≤ x ∧ x < (m : Int)) ∧ isActive S x = true then
          unwrapped H (S.alpha_carbons x) else st.xca x) ∧
      ((List.range m).foldl (backbone_step co C S H) st).xo x =
        (if (0 ≤ x ∧ x < (m : Int)) ∧ isActive S x = true ∧ S.oxygens x ≠ -1 then
          unwrapped H (S.oxygens x) else st.xo x) := by
  intro m
  induction m with
  | zero =>
    intro x
    have h : ¬ (0 ≤ x ∧ x < ((0 : Nat) : Int)) := by
      simp only [Nat.cast_zero]
      omega
    simp only [List.range_zero, List.foldl_nil, h, false_and, if_false]
    exact ⟨trivial, trivial⟩
  | succ m ih =>
    intro x
    rw [List.range_succ, List.foldl_append, List.foldl_cons, List.foldl_nil]
    obtain ⟨f1, f2, -⟩ := backbone_step_fields co C S H
      ((List.range m).foldl (backbone_step co C S H) st) m
    obtain ⟨g1, g2⟩ := backbone_coords_fields S H
      ((List.range m).foldl (backbone_step co C S H) st) m x
    rw [f1, f2, g1, g2, (ih x).1, (ih x).2]
    push_cast
    by_cases hx : x = (m : Int)
    · subst hx
      have h1 : ¬ (0 ≤ (m : Int) ∧ (m : Int) < (m : Int)) := by omega
      have h2 : (0 ≤ (m : Int) ∧ (m : Int) < (m : Int) + 1) := by omega
      simp only [h1, h2, true_and, false_and, if_false]
      constructor <;> split_ifs <;> first | rfl | (exfalso; simp_all)
    · have h1 : (0 ≤ x ∧ x < (m : Int) + 1) ↔ (0 ≤ x ∧ x < (m : Int)) := by omega
      simp only [hx, false_and, if_false, h1]
      exact ⟨trivial, trivial⟩

theorem backbone_loop_virtual {K : Type} [LinearOrderedField K] (co : BackboneCoef K)
    (C : Chains) (S : Topo) (H : Host K) (st : Coords K) (i : Nat)
    (hprev : backbone_has_prev C S i = true)
    (h0 : 0 ≤ backbone_im1 S i) (h1 : backbone_im1 S i < (i : Int)) :
    ∀ m : Nat, i < m →
      (∀ d, ((List.range m).foldl (backbone_step co C S H) st).xn i d =
        co.an * unwrapped H (S.alpha_carbons (backbone_im1 S i)) d +
        co.bn * unwrapped H (S.alpha_carbons i) d +
        co.cn * (if S.oxygens (backbone_im1 S i) ≠ -1 then
          unwrapped H (S.oxygens (backbone_im1 S i)) d else st.xo (backbone_im1 S i) d)) ∧
      (∀ d, ((List.range m).foldl (backbone_step co C S H) st).xh i d =
        co.ah * unwrapped H (S.alpha_carbons (backbone_im1 S i)) d +
        co.bh * unwrapped H (S.alpha_carbons i) d +
        co.ch * (if S.oxygens (backbone_im1 S i) ≠ -1 then
          unwrapped H (S.oxygens (backbone_im1 S i)) d else st.xo (backbone_im1 S i) d)) ∧
      ((∀ j : Nat, i < j → j < m → backbone_im1 S j ≠ backbone_im1 S i) →
        ∀ d, ((List.range m).foldl (backbone_step co C S H) st).xcp (backbone_im1 S i) d =
          co.ap * unwrapped H (S.alpha_carbons (backbone_im1 S i)) d +
          co.bp * unwrapped H (S.alpha_carbons i) d +
          co.cp * (if S.oxygens (backbone_im1 S i) ≠ -1 then
            unwrapped H (S.oxygens (backbone_im1 S i)) d
            else st.xo (backbone_im1 S i) d)) := by
  have hact : isActive S i = true ∧ isActive S (backbone_im1 S i) = true := by
    simp only [backbone_has_prev, Bool.and_eq_true] at hprev
    exact ⟨hprev.1.2, hprev.2⟩
  have hne : backbone_im1 S i ≠ (i : Int) := by omega
  have hcombo : ∀ (a b c : K) (d : Fin 3),
      backbone_combo a b c
        (backbone_coords S H ((List.range i).foldl (backbone_step co C S H) st) i)
        (backbone_im1 S i) i d =
      a * unwrapped H (S.alpha_carbons (backbone_im1 S i)) d +
        b * unwrapped H (S.alpha_carbons i) d +
        c * (if S.oxygens (backbone_im1 S i) ≠ -1 then
          unwrapped H (S.oxygens (backbone_im1 S i)) d else st.xo (backbone_im1 S i) d) := by
    intro a b c d
    unfold backbone_combo
    rw [(backbone_coords_fields S H _ i (backbone_im1 S i)).1,
      (backbone_coords_fields S H _ i i).1,
      (backbone_coords_fields S H _ i (backbone_im1 S i)).2,
      (backbone_loop_coords co C S H st i (backbone_im1 S i)).1,
      (backbone_loop_coords co C S H st i (backbone_im1 S i)).2]
    have c1 : ¬ (backbone_im1 S i = (i : Int) ∧ isActive S i = true) := fun h => hne h.1
    have c2 : ((i : Int) = (i : Int) ∧ isActive S i = true) := ⟨rfl, hact.1⟩
    have c3 : ¬ (backbone_im1 S i = (i : Int) ∧ isActive S i = true ∧ S.oxygens i ≠ -1) :=
      fun h => hne h.1
    have c4 : ((0 ≤ backbone_im1 S i ∧ backbone_im1 S i < (i : Int)) ∧
        isActive S (backbone_im1 S i) = true) := ⟨⟨h0, h1⟩, hact.2⟩
    rw [if_neg c1, if_pos c2, if_neg c3, if_pos c4]
    by_cases ho : S.oxygens (backbone_im1 S i) ≠ -1
    · have c5 : ((0 ≤ backbone_im1 S i ∧ backbone_im1 S i < (i : Int)) ∧
          isActive S (backbone_im1 S i) = true ∧ S.oxygens (backbone_im1 S i) ≠ -1) :=
        ⟨⟨h0, h1⟩, hact.2, ho⟩
      rw [if_pos c5, if_pos ho]
    · have c5 : ¬ ((0 ≤ backbone_im1 S i ∧ backbone_im1 S i < (i : Int)) ∧
          isActive S (backbone_im1 S i) = true ∧ S.oxygens (backbone_im1 S i) ≠ -1) :=
        fun h => ho h.2.2
      rw [if_neg c5, if_neg ho]
  intro m
  induction m with
  | zero =>
    intro hm
    exact absurd hm (Nat.not_lt_zero _)
  | succ m ih =>
    intro hm
    rw [List.range_succ, List.foldl_append, List.foldl_cons, List.foldl_nil]
    obtain ⟨-, -, f3, f4, f5⟩ := backbone_step_fields co C S H
      ((List.range m).foldl (backbone_step co C S H) st) m
    by_cases him : i = m
    · subst him
      obtain ⟨e1, e2, e3⟩ := f5 hprev
      rw [e1, e2, e3]
      exact ⟨hcombo _ _ _, hcombo _ _ _, fun _ => hcombo _ _ _⟩
    · have hlt : i < m := by omega
      obtain ⟨i1, i2, i3⟩ := ih hlt
      have hx : (i : Int) ≠ (m : Int) := by omega
      rw [(f3 i hx).1, (f3 i hx).2]
      refine ⟨i1, i2, ?_⟩
      intro hj
      rw [f4 _ (fun h => hj m hlt (Nat.lt_succ_self m) h.symm)]
      exact i3 (fun j hij hjm => hj j hij (Nat.lt_succ_of_lt hjm))

theorem backbone_reconstruct_closed {K : Type} [LinearOrderedField K] (co : BackboneCoef K)
    (C : Chains) (A : Atoms) (S0 S : Topo) (H : Host K) (st : Coords K) (i : Nat)
    (hC : ∀ c : Int, 0 ≤ c → c < C.nch →
      1 ≤ C.ch_pos c ∧ C.ch_pos c + C.ch_len c - 1 ≤ (C.n : Int))
    (hS : Construct_Computational_Arrays C A S0 = .ok S)
    (hi : i < S.nn) (hprev : backbone_has_prev C S i = true) :
    (0 ≤ backbone_im1 S i ∧ backbone_im1 S i < (i : Int)) ∧
    ∀ d : Fin 3,
      (backbone_reconstruct co C S H st).xn i d =
        co.an * unwrapped H (S.alpha_carbons (backbone_im1 S i)) d +
        co.bn * unwrapped H (S.alpha_carbons i) d +
        co.cn * (if S.oxygens (backbone_im1 S i) ≠ -1 then
          unwrapped H (S.oxygens (backbone_im1 S i)) d else st.xo (backbone_im1 S i) d) ∧
      (backbone_reconstruct co C S H st).xcp (backbone_im1 S i) d =
        co.ap * unwrapped H (S.alpha_carbons (backbone_im1 S i)) d +
        co.bp * unwrapped H (S.alpha_carbons i) d +
        co.cp * (if S.oxygens (backbone_im1 S i) ≠ -1 then
          unwrapped H (S.oxygens (backbone_im1 S i)) d else st.xo (backbone_im1 S i) d) ∧
      (backbone_reconstruct co C S H st).xh i d =
        co.ah * unwrapped H (S.alpha_carbons (backbone_im1 S i)) d +
        co.bh * unwrapped H (S.alpha_carbons i) d +
        co.ch * (if S.oxygens (backbone_im1 S i) ≠ -1 then
          unwrapped H (S.oxygens (backbone_im1 S i)) d else st.xo (backbone_im1 S i) d) := by
  obtain ⟨hkey, hinj⟩ := cca_im1_spec C A S0 S hC hS
  have hne : backbone_im1 S i ≠ -1 := by
    simp only [backbone_has_prev, Bool.and_eq_true, decide_eq_true_eq] at hprev
    exact hprev.1.1.1
  have hi2 : ((i : Nat) : Int) < (S.nn : Int) := by exact_mod_cast hi
  obtain ⟨k0, k1, -⟩ := hkey i (by omega) hi2 hne
  refine ⟨⟨k0, k1⟩, ?_⟩
  obtain ⟨l1, l2, l3⟩ := backbone_loop_virtual co C S H st i hprev k0 k1 S.nn hi
  have l3b := l3 (fun j hij hj heq => by
    have hj2 : ((j : Nat) : Int) < (S.nn : Int) := by exact_mod_cast hj
    have := hinj i j (by omega) hi2 (by omega) hj2 hne heq
    omega)
  have hpos : S.nn > 0 := by omega
  have hlast : backbone_im1 S i ≠ (S.nn : Int) - 1 := by omega
  intro d
  unfold backbone_reconstruct
  simp only [hpos, if_true, setPos, hlast, if_false]
  exact ⟨l1 d, l3b d, l2 d⟩

/-- C5 (amended). The default coefficient triples sum to 1.0000364 (virtual
N), 0.9999999 (virtual C') and 1.0000362 (virtual H).  For a residue list
built by `Construct_Computational_Arrays` on a chain layout inside `1..n`,
and a list index `i` for which `compute_backbone` computes the combinations
(`im1 != -1`, `i` not first in its chain, `i` and `im1` LOCAL or GHOST):
`im1` is an earlier index, and after the reconstruction loop `xn[i]`,
`xcp[im1]` and `xh[i]` are `a*x(CA[im1]) + b*x(CA[i]) + c*xo` of the
unwrapped positions, where `xo` is the unwrapped oxygen of `im1` if
`oxygens[im1] != -1` and the content of `xo[im1]` before the call if not.
Hence, when the oxygen of `im1` is present, moving every atom by `t` moves
the three positions by 1.0000364, 0.9999999 and 1.0000362 times `t`,
whatever the arrays held before; when it is absent, only the two alpha-carbon
terms move, by 1.1864626, 0.6788544 and 1.7339256 times `t`. -/
theorem backbone_virtual_atoms_translation (C : Chains) (A : Atoms) (S0 S : Topo)
    (H : Host ℚ) (t : Fin 3 → ℚ) (st st' : Coords ℚ) (i : Nat)
    (hC : ∀ c : Int, 0 ≤ c → c < C.nch →
      1 ≤ C.ch_pos c ∧ C.ch_pos c + C.ch_len c - 1 ≤ (C.n : Int))
    (hS : Construct_Computational_Arrays C A S0 = .ok S)
    (hi : i < S.nn) (hprev : backbone_has_prev C S i = true) :
    (default_coef.an + default_coef.bn + default_coef.cn = 1.0000364 ∧
      default_coef.ap + default_coef.bp + default_coef.cp = 0.9999999 ∧
      default_coef.ah + default_coef.bh + default_coef.ch = 1.0000362) ∧
    (0 ≤ backbone_im1 S i ∧ backbone_im1 S i < (i : Int)) ∧
    (∀ d : Fin 3,
      (backbone_reconstruct default_coef C S H st).xn i d =
        default_coef.an * unwrapped H (S.alpha_carbons (backbone_im1 S i)) d +
        default_coef.bn * unwrapped H (S.alpha_carbons i) d +
        default_coef.cn * (if S.oxygens (backbone_im1 S i) ≠ -1 then
          unwrapped H (S.oxygens (backbone_im1 S i)) d else st.xo (backbone_im1 S i) d) ∧
      (backbone_reconstruct default_coef C S H st).xcp (backbone_im1 S i) d =
        default_coef.ap * unwrapped H (S.alpha_carbons (backbone_im1 S i)) d +
        default_coef.bp * unwrapped H (S.alpha_carbons i) d +
        default_coef.cp * (if S.oxygens (backbone_im1 S i) ≠ -1 then
          unwrapped H (S.oxygens (backbone_im1 S i)) d else st.xo (backbone_im1 S i) d) ∧
      (backbone_reconstruct default_coef C S H st).xh i d =
        default_coef.ah * unwrapped H (S.alpha_carbons (backbone_im1 S i)) d +
        default_coef.bh * unwrapped H (S.alpha_carbons i) d +
        default_coef.ch * (if S.oxygens (backbone_im1 S i) ≠ -1 then
          unwrapped H (S.oxygens (backbone_im1 S i)) d else st.xo (backbone_im1 S i) d)) ∧
    (S.oxygens (backbone_im1 S i) ≠ -1 → ∀ d : Fin 3,
      (backbone_reconstruct default_coef C S (translated H t) st').xn i d =
          (backbone_reconstruct default_coef C S H st).xn i d + 1.0000364 * t d ∧
      (backbone_reconstruct default_coef C S (translated H t) st').xcp (backbone_im1 S i) d =
          (backbone_reconstruct default_coef C S H st).xcp (backbone_im1 S i) d
            + 0.9999999 * t d ∧
      (backbone_reconstruct default_coef C S (translated H t) st').xh i d =
          (backbone_reconstruct default_coef C S H st).xh i d + 1.0000362 * t d) ∧
    (S.oxygens (backbone_im1 S i) = -1 → ∀ d : Fin 3,
      (backbone_reconstruct default_coef C S (translated H t) st).xn i d =
          (backbone_reconstruct default_coef C S H st).xn i d + 1.1864626 * t d ∧
      (backbone_reconstruct default_coef C S (translated H t) st).xcp (backbone_im1 S i) d =
          (backbone_reconstruct default_coef C S H st).xcp (backbone_im1 S i) d
            + 0.6788544 * t d ∧
      (backbone_reconstruct default_coef C S (translated H t) st).xh i d =
          (backbone_reconstruct default_coef C S H st).xh i d + 1.7339256 * t d) := by
  obtain ⟨hr, hH⟩ := backbone_reconstruct_closed default_coef C A S0 S H st i hC hS hi hprev
  obtain ⟨-, hT⟩ := backbone_reconstruct_closed default_coef C A S0 S (translated H t) st' i
    hC hS hi hprev
  obtain ⟨-, hT0⟩ := backbone_reconstruct_closed default_coef C A S0 S (translated H t) st i
    hC hS hi hprev
  refine ⟨default_coef_sums, hr, hH, ?_, ?_⟩
  · intro ho d
    obtain ⟨a1, a2, a3⟩ := hH d
    obtain ⟨b1, b2, b3⟩ := hT d
    rw [a1, a2, a3, b1, b2, b3]
    simp only [if_pos ho, unwrapped_translated, default_coef]
    refine ⟨by ring, by ring, by ring⟩
  · intro ho d
    obtain ⟨a1, a2, a3⟩ := hH d
    obtain ⟨b1, b2, b3⟩ := hT0 d
    rw [a1, a2, a3, b1, b2, b3]
    have ho2 : ¬ S.oxygens (backbone_im1 S i) ≠ -1 := fun h => h ho
    simp only [if_neg ho2, unwrapped_translated, default_coef]
    refine ⟨by ring, by ring, by ring⟩

/-- Witness for C5: the process that owns residue 1 and holds residues 2 and
4 as ghost atoms; the list index 1 (residue 2) has the predecessor index 0,
whose oxygen is present. -/
theorem backbone_virtual_atoms_translation_witness :
    ∃ S, Construct_Computational_Arrays exChains4 exAtomsGap exTopo0 = .ok S ∧
      1 < S.nn ∧ backbone_has_prev exChains4 S (1 : Nat) = true ∧
      backbone_im1 S (1 : Nat) = 0 ∧ S.oxygens (backbone_im1 S (1 : Nat)) ≠ -1 ∧
      ∀ d : Fin 3,
        (backbone_reconstruct default_coef exChains4 S (translated exHost exShift)
            exCoords0).xn (1 : Nat) d =
          (backbone_reconstruct default_coef exChains4 S exHost exCoords0).xn (1 : Nat) d
            + 1.0000364 * exShift d ∧
        (backbone_reconstruct default_coef exChains4 S (translated exHost exShift)
            exCoords0).xcp (backbone_im1 S (1 : Nat)) d =
          (backbone_reconstruct default_coef exChains4 S exHost exCoords0).xcp
            (backbone_im1 S (1 : Nat)) d + 0.9999999 * exShift d ∧
        (backbone_reconstruct default_coef exChains4 S (translated exHost exShift)
            exCoords0).xh (1 : Nat) d =
          (backbone_reconstruct default_coef exChains4 S exHost exCoords0).xh (1 : Nat) d
            + 1.0000362 * exShift d := by
  refine ⟨_, rfl, by decide, by decide, by decide, by decide, ?_⟩
  exact (backbone_virtual_atoms_translation exChains4 exAtomsGap exTopo0 _ exHost exShift
    exCoords0 exCoords0 1 (fun c _ _ => by simp [exChains4]) rfl (by decide)
    (by decide)).2.2.2.1 (by decide)

end FixBackbone
